import Mathlib

/-!
ccd2cue: CCD sheet to CUE sheet / CDT conversion

A shallow embedding of the conversion core of the repository (`crc.c`, `ccd.c`,
`convert.c`, `cue.c`, `cdt.c`, `array.c`, `config.c`) and proofs about it.

Conventions of the embedding:

* C strings are `List Char`; a `NULL` string pointer is `none`.
* C arrays reached through a pointer are lists of slots; a `NULL` array is `[]`.
  The length of the list is the number of slots that were allocated.
* `int` and `unsigned` values are `Int` and `Nat`; conversions that can leave
  the machine range reduce explicitly.
* Bytes are `Nat`; every read of a byte reduces modulo `2 ^ 8`.
* Memory obtained from `malloc` and never written is indeterminate in C.  Its
  contents are an explicit parameter, `Uninit`, of every function that allocates.
* Allocation of a size other than 0 is taken to succeed (allocation failure is
  outside the specified core).  What `realloc` returns for size 0 is left to the
  implementation by ISO C; it is a field of `Uninit`, and `xrealloc` ends the
  program when `realloc` returns a null pointer.
* The C library is the GNU one where the code relies on it: `%a[` in a `scanf`
  template allocates the string.
-/

namespace Ccd2cue

/-! ## crc.c -/

/-- CRC-16-CCITT normal polynomial, `P16CCITT_N` of `crc.h`. -/
def P16CCITT_N : Nat := 0x1021

/-- One pass of the inner loop of `crc16`:
`crc = crc & (1 << 15) ? (crc << 1) ^ polynomial : crc << 1;`
The right-hand side is computed in `int` and stored into a `uint16_t`. -/
def crc16_bit (crc : Nat) : Nat :=
  if crc &&& (1 <<< 15) ≠ 0 then ((crc <<< 1) ^^^ P16CCITT_N) % 2 ^ 16
  else (crc <<< 1) % 2 ^ 16

/-- One pass of the outer loop of `crc16` for the message byte `byte`:
`crc ^= (uint16_t) byte << 8;` followed by eight passes of the inner loop. -/
def crc16_byte (crc : Nat) (byte : Nat) : Nat :=
  crc16_bit^[8] ((crc ^^^ ((byte % 2 ^ 8) <<< 8)) % 2 ^ 16)

/-- The accumulator of `crc16` after the outer loop, starting from `crc = 0`. -/
def crc16_acc (message : List Nat) : Nat :=
  message.foldl crc16_byte 0

/-- The function `crc16 (message, length)`: `message` lists the `length` bytes
that the loop reads.  The result is `~crc` converted to `uint16_t`. -/
def crc16 (message : List Nat) : Nat :=
  2 ^ 16 - 1 - crc16_acc message

/-! ## convert.c: frames to MSF -/

/-- The three ways in which the C code stops without returning a value. -/
inductive Failure where
  /-- A call of `exit (status)`. -/
  | exit (status : Nat)
  /-- A failed `assert`. -/
  | assertion
  /-- A read outside the slots of an array (undefined behaviour in C). -/
  | memory
  deriving DecidableEq, Repr

/-- `EX_UNAVAILABLE` of `sysexits.h`. -/
def EX_UNAVAILABLE : Nat := 69

/-- `EX_OSERR` of `sysexits.h`. -/
def EX_OSERR : Nat := 71

/-- The structure `struct cue_time` of `cue.h`. -/
structure cue_time where
  initialized : Int
  minutes : Nat
  seconds : Nat
  frames : Nat
  deriving DecidableEq, Repr

def FRAMES_PER_SECOND : Nat := 75
def SECONDS_PER_MINUTE : Nat := 60
def FRAMES_PER_MINUTE : Nat := FRAMES_PER_SECOND * SECONDS_PER_MINUTE

/-- The function `frames2msf (frames, msf)`; the result is the value stored in `*msf`.
`assert (frames >= 0)` comes first, so the divisions only see a non-negative count. -/
def frames2msf (frames : Int) : Except Failure cue_time :=
  if frames < 0 then .error .assertion
  else
    let n := frames.toNat
    .ok { initialized := 1
          minutes := n / FRAMES_PER_MINUTE
          seconds := (n % FRAMES_PER_MINUTE) / FRAMES_PER_SECOND
          frames := (n % FRAMES_PER_MINUTE) % FRAMES_PER_SECOND }

/-! ## The C library: strings and `sscanf` -/

/-- `isspace` in the C locale. -/
def isspace (c : Char) : Bool :=
  c = ' ' || c = '\t' || c = '\n' || c = '\x0b' || c = '\x0c' || c = '\r'

/-- `isdigit`. -/
def isdigit (c : Char) : Bool := '0'.toNat ≤ c.toNat && c.toNat ≤ '9'.toNat

/-- `isxdigit`. -/
def isxdigit (c : Char) : Bool :=
  isdigit c || ('a'.toNat ≤ c.toNat && c.toNat ≤ 'f'.toNat)
    || ('A'.toNat ≤ c.toNat && c.toNat ≤ 'F'.toNat)

/-- Value of a hexadecimal (in particular of a decimal) digit. -/
def digitVal (c : Char) : Nat :=
  if isdigit c then c.toNat - '0'.toNat
  else if 'a'.toNat ≤ c.toNat then c.toNat - 'a'.toNat + 10
  else c.toNat - 'A'.toNat + 10

/-- The C string held in a character buffer: the characters before the first null. -/
def cstring (buf : List Char) : List Char := buf.takeWhile (fun c => c ≠ '\x00')

/-- Conversion of a value to `int` (32 bits, two's complement). -/
def toInt32 (v : Int) : Int := (v + 2 ^ 31) % 2 ^ 32 - 2 ^ 31

/-- The value `strtol` returns for a sign and a magnitude (`long` has 64 bits):
out-of-range values saturate. -/
def strtol (neg : Bool) (mag : Nat) : Int :=
  if neg then (if mag > 2 ^ 63 then -(2 ^ 63) else -(mag : Int))
  else (if mag > 2 ^ 63 - 1 then 2 ^ 63 - 1 else (mag : Int))

/-- The value `strtoul` returns for a sign and a magnitude (`unsigned long` has 64 bits):
an out-of-range magnitude saturates, a minus sign negates modulo `2 ^ 64`. -/
def strtoul (neg : Bool) (mag : Nat) : Nat :=
  if mag > 2 ^ 64 - 1 then 2 ^ 64 - 1
  else if neg then (2 ^ 64 - mag) % 2 ^ 64 else mag

/-- The kinds of conversion that the templates of `ccd.c` use. -/
inductive ConvKind where
  /-- `%d`: a decimal integer stored into an `int`. -/
  | d
  /-- `%x` with a size modifier: a hexadecimal integer stored into an unsigned
  object of `bits` bits (`%x`: 32, `%hhx`: 8). -/
  | x (bits : Nat)
  /-- `%[...]`: a non-empty run of characters of the set. -/
  | set (chars : List Char)
  deriving DecidableEq, Repr

/-- One directive of a `scanf` template. -/
inductive Directive where
  /-- White space: skips any amount of white space of the input. -/
  | space
  /-- An ordinary character: the next input character must be this one. -/
  | char (c : Char)
  /-- A conversion `%`, with `*` (no assignment) and a maximum field width. -/
  | conv (suppress : Bool) (width : Option Nat) (kind : ConvKind)
  deriving DecidableEq, Repr

/-- Reading position inside a template. -/
inductive TemplatePos where
  /-- Outside of a conversion specification. -/
  | text
  /-- After `%`: flags, width and modifiers read so far. -/
  | spec (suppress : Bool) (width : Option Nat) (bits : Nat)
  /-- Inside the brackets of `%[`. -/
  | set (suppress : Bool) (width : Option Nat) (chars : List Char)

/-- Reads a `scanf` template into its directives.  Covers what `ccd.c` uses: white
space, ordinary characters, `%d`, `%x`, `%[...]`, the flag `*`, a decimal width,
the size modifier `hh` and the GNU modifier `a` (the library allocates the string). -/
def parseTemplate : TemplatePos → List Char → List Directive
  | _, [] => []
  | .text, c :: cs =>
    if c = '%' then parseTemplate (.spec false none 32) cs
    else if isspace c then .space :: parseTemplate .text cs
    else .char c :: parseTemplate .text cs
  | .spec sup w bits, c :: cs =>
    if c = '*' then parseTemplate (.spec true w bits) cs
    else if isdigit c then parseTemplate (.spec sup (some (w.getD 0 * 10 + digitVal c)) bits) cs
    else if c = 'h' then parseTemplate (.spec sup w (bits / 2)) cs
    else if c = 'a' then parseTemplate (.spec sup w bits) cs
    else if c = 'd' then .conv sup w .d :: parseTemplate .text cs
    else if c = 'x' then .conv sup w (.x bits) :: parseTemplate .text cs
    else if c = '[' then parseTemplate (.set sup w []) cs
    else []
  | .set sup w chars, c :: cs =>
    if c = ']' then .conv sup w (.set chars) :: parseTemplate .text cs
    else parseTemplate (.set sup w (chars ++ [c])) cs

/-- Membership in the set of a `%[...]` conversion; `a-z` is a range. -/
def inScanset : List Char → Char → Bool
  | a :: '-' :: b :: rest, c => (a.toNat ≤ c.toNat && c.toNat ≤ b.toNat) || inScanset rest c
  | a :: rest, c => a = c || inScanset rest c
  | [], _ => false

/-- Reads the longest run of digits of the base, accumulating the magnitude. -/
def scanDigits (base : Nat) (isDigit : Char → Bool) : Nat → List Char → Nat × List Char
  | acc, [] => (acc, [])
  | acc, c :: cs =>
    if isDigit c then scanDigits base isDigit (acc * base + digitVal c) cs else (acc, c :: cs)

/-- Splits an optional sign off. -/
def scanSign : List Char → Bool × List Char
  | '-' :: cs => (true, cs)
  | '+' :: cs => (false, cs)
  | cs => (false, cs)

/-- A value stored through a pointer argument of `sscanf`. -/
inductive Arg where
  | int (v : Int)
  | uint (v : Nat)
  | str (s : List Char)
  deriving DecidableEq, Repr

/-- Runs one conversion on the input: the value to store and the rest of the input, or
`none` on a matching or input failure.  `%d` and `%x` skip leading white space and
read an optional sign and at least one digit; for `%x` a prefix `0x` may precede the
digits, and a prefix without a digit after it is a matching failure (ISO C: the input
item `0x` is no matching sequence).  `%[` reads at least one character of the set and at
most `width` of them. -/
def scanConv (width : Option Nat) : ConvKind → List Char → Option (Arg × List Char)
  | .d, s =>
    let (neg, s1) := scanSign (s.dropWhile isspace)
    match s1 with
    | [] => none
    | c :: _ =>
      if isdigit c then
        let (mag, rest) := scanDigits 10 isdigit 0 s1
        some (.int (toInt32 (strtol neg mag)), rest)
      else none
  | .x bits, s =>
    let (neg, s1) := scanSign (s.dropWhile isspace)
    let s2 :=
      match s1 with
      | '0' :: x :: cs => if x = 'x' || x = 'X' then cs else s1
      | _ => s1
    match s2 with
    | [] => none
    | c :: _ =>
      if isxdigit c then
        let (mag, rest) := scanDigits 16 isxdigit 0 s2
        some (.uint (strtoul neg mag % 2 ^ bits), rest)
      else none
  | .set chars, s =>
    let run := s.takeWhile (inScanset chars)
    let run := match width with
      | some w => run.take w
      | none => run
    if run = [] then none else some (.str run, s.drop run.length)

/-- Runs the directives on the input; the result lists the values assigned, in the
order of the pointer arguments.  The first failure ends the scan. -/
def scanDirectives : List Directive → List Char → List Arg
  | [], _ => []
  | .space :: ds, s => scanDirectives ds (s.dropWhile isspace)
  | .char c :: ds, s =>
    match s with
    | [] => []
    | c' :: s' => if c' = c then scanDirectives ds s' else []
  | .conv suppress width kind :: ds, s =>
    match scanConv width kind s with
    | none => []
    | some (a, s') => if suppress then scanDirectives ds s' else a :: scanDirectives ds s'

/-- The call `sscanf (s, template, ...)`: the values it assigns to its pointer
arguments, in order.  Its return value is the length of this list (or `EOF` when the
list is empty and the input ran out; `ccd.c` only ever compares it with `1`). -/
def sscanf (s : List Char) (template : String) : List Arg :=
  scanDirectives (parseTemplate .text template.toList) s

/-- The `int` assigned by a `sscanf` call with a single `%d` argument, if any. -/
def sscanf_d (s : List Char) (template : String) : Option Int :=
  match sscanf s template with
  | [.int v] => some v
  | _ => none

/-- The `unsigned` assigned by a `sscanf` call with a single `%x` argument, if any. -/
def sscanf_x (s : List Char) (template : String) : Option Nat :=
  match sscanf s template with
  | [.uint v] => some v
  | _ => none

/-- The string assigned by a `sscanf` call with a single `%[` argument, if any. -/
def sscanf_s (s : List Char) (template : String) : Option (List Char) :=
  match sscanf s template with
  | [.str v] => some v
  | _ => none

/-- The function `isalnum` in the C locale: an ASCII letter or digit. -/
def isalnum (c : Char) : Bool :=
  ('a'.toNat ≤ c.toNat && c.toNat ≤ 'z'.toNat) || ('A'.toNat ≤ c.toNat && c.toNat ≤ 'Z'.toNat)
    || isdigit c

/-! ## cdt.h, ccd.h, cue.h: the data model -/

/-- Modelled from the spec: `cdt.h` is not among the sources.  A CD-Text record is
the bytes `type`, `track`, `sequence`, `block` and a 12-byte `text` payload; the field
names are those that `ccd.c` writes through. -/
structure cdt_data where
  type : Nat
  track : Nat
  sequence : Nat
  block : Nat
  text : Fin 12 → Nat

/-- Modelled from the spec: `cdt.h` is not among the sources.  A CDT record is the
16-byte CD-Text payload `data` and the two checksum bytes `crc`, as `convert.c` fills
them. -/
structure cdt_entry where
  data : cdt_data
  crc0 : Nat
  crc1 : Nat

/-- Modelled from the spec: `cdt.h` is not among the sources.  The CDT structure is
the array `entry` and its announced size `entries`, as `convert.c` and `cdt.c` use
them. -/
structure cdt where
  entry : List cdt_entry
  entries : Int

/-- The bytes of a `struct cdt_data` in memory order: 16 bytes. -/
def cdt_data.bytes (d : cdt_data) : List Nat :=
  [d.type, d.track, d.sequence, d.block] ++ List.ofFn d.text

/-- The bytes of a `struct cdt_entry` in memory order: the payload, then `crc[0]`
and `crc[1]`; 18 bytes. -/
def cdt_entry.bytes (e : cdt_entry) : List Nat :=
  e.data.bytes ++ [e.crc0, e.crc1]

structure ccd_CloneCD where
  Version : Int
  deriving DecidableEq, Repr

structure ccd_Disc where
  TocEntries : Int
  Sessions : Int
  DataTracksScrambled : Int
  CDTextLength : Int
  CATALOG : List Char
  deriving DecidableEq, Repr

structure ccd_CDText where
  Entries : Int
  Entry : List cdt_data

structure ccd_Session where
  PreGapMode : Int
  PreGapSubC : Int
  deriving DecidableEq, Repr

structure ccd_Entry where
  Session : Int
  Point : Nat
  ADR : Nat
  Control : Nat
  TrackNo : Int
  AMin : Int
  ASec : Int
  AFrame : Int
  ALBA : Int
  Zero : Int
  PMin : Int
  PSec : Int
  PFrame : Int
  PLBA : Int
  deriving DecidableEq, Repr

structure ccd_TRACK where
  MODE : Int
  ISRC : List Char
  INDEX : List Int
  IndexEntries : Int
  FLAGS : Option (List Char)
  deriving DecidableEq, Repr

/-- The structure `struct ccd` of `ccd.h`. -/
structure ccd where
  CloneCD : ccd_CloneCD
  Disc : ccd_Disc
  CDText : ccd_CDText
  Session : List ccd_Session
  Entry : List ccd_Entry
  TRACK : List ccd_TRACK
  TrackEntries : Int

inductive cue_filetype where
  | BINARY | MOTOROLA | AIFF | WAVE | MP3
  deriving DecidableEq, Repr

inductive cue_datatype where
  | AUDIO_2352 | CDG_2448 | MODE1_2048 | MODE1_2352 | MODE2_2336 | MODE2_2352
  | CDI_2336 | CDI_2352
  deriving DecidableEq, Repr

structure cue_TRACK where
  datatype : cue_datatype
  FLAGS : Option (List Char)
  ISRC : List Char
  PERFORMER : Option (List Char)
  SONGWRITER : Option (List Char)
  TITLE : Option (List Char)
  PREGAP : cue_time
  INDEX : List cue_time
  IndexEntries : Int
  POSTGAP : cue_time
  deriving DecidableEq, Repr

structure cue_FILE where
  filename : Option (List Char)
  filetype : cue_filetype
  TRACK : List cue_TRACK
  TrackEntries : Int
  FirstTrack : Int
  deriving DecidableEq, Repr

/-- The structure `struct cue` of `cue.h`. -/
structure cue where
  CATALOG : List Char
  CDTEXTFILE : Option (List Char)
  PERFORMER : Option (List Char)
  SONGWRITER : Option (List Char)
  TITLE : Option (List Char)
  FILE : List cue_FILE
  FileEntries : Int
  deriving DecidableEq, Repr

/-! ## Memory -/

/-- What C leaves open about the memory that the program obtains from `malloc` or
`realloc`: the contents of memory that it reads or keeps without having written it,
which are indeterminate, and the result of `realloc` for size 0, which is up to the
implementation.  Every function that allocates takes them as a parameter. -/
structure Uninit where
  /-- The C string in the fresh 1024-byte line buffer of `my_getline`. -/
  line : List Char
  /-- Slot `i` of the fresh `Session` array. -/
  Session : Nat → ccd_Session
  /-- Slot `i` of the fresh `Entry` (Toc) array. -/
  Entry : Nat → ccd_Entry
  /-- Slot `i` of the fresh CD-Text `Entry` array. -/
  CDText : Nat → cdt_data
  /-- Slot `i` of the `TRACK` array as `realloc` hands it out. -/
  TRACK : Nat → ccd_TRACK
  /-- Slot `j` that `realloc` adds to the `INDEX` array of track `i`. -/
  INDEX : Nat → Nat → Int
  /-- The `PREGAP` member of slot `i` of a fresh CUE `TRACK` array. -/
  PREGAP : Nat → cue_time
  /-- The `POSTGAP` member of slot `i` of a fresh CUE `TRACK` array. -/
  POSTGAP : Nat → cue_time
  /-- Slot `j` of the fresh CUE `INDEX` array of track `i`. -/
  time : Nat → Nat → cue_time
  /-- Whether `realloc (p, 0)` frees the block and returns a null pointer, as the GNU C
  library does, and not a block of no bytes. -/
  null_on_zero : Bool

/-- The array `xmalloc (sizeof (*p) * n)` returns: `n` slots of indeterminate content.
The request is taken to succeed, also for `n = 0`, for which `malloc` of the GNU C
library returns a block of no bytes. -/
def xmalloc {α : Type} (fresh : Nat → α) (n : Int) : List α :=
  (List.range n.toNat).map fresh

/-- The block that a call `realloc (p, sizeof (*p) * n)` leaves when it returns one:
the first `n` slots of `p`, and slots of indeterminate content after them when `p` had
fewer. -/
def realloc_block {α : Type} (fresh : Nat → α) (p : List α) (n : Int) : List α :=
  p.take n.toNat ++ (List.range' p.length (n.toNat - p.length)).map fresh

/-- The function `xrealloc (p, sizeof (*p) * n)` of `memory.c`: the block that `realloc`
returns, and the end of the program with `exit (EX_OSERR)` when `realloc` returns a
null pointer.  For size 0 `realloc` returns a null pointer when `null_on_zero` holds
and a block of no bytes otherwise; a request of another size is taken to succeed. -/
def xrealloc {α : Type} (null_on_zero : Bool) (fresh : Nat → α) (p : List α) (n : Int) :
    Except Failure (List α) :=
  if null_on_zero = true ∧ n = 0 then .error (.exit EX_OSERR) else .ok (realloc_block fresh p n)

/-- The element `p[i]`, when slot `i` exists. -/
def peek {α : Type} (p : List α) (i : Int) : Option α :=
  if 0 ≤ i then p.get? i.toNat else none

/-- The array after `p[i]` has been replaced by `f p[i]`, when slot `i` exists. -/
def poke {α : Type} (p : List α) (i : Int) (f : α → α) : Option (List α) :=
  if 0 ≤ i ∧ i.toNat < p.length then some (p.modify f i.toNat) else none

/-- The read of `p[i]`: a `Failure.memory` when slot `i` does not exist. -/
def fetch {α : Type} (p : List α) (i : Nat) : Except Failure α :=
  match p.get? i with
  | none => .error .memory
  | some x => .ok x

/-- The read of `p[i]` for an `int` index. -/
def fetch_int {α : Type} (p : List α) (i : Int) : Except Failure α :=
  if 0 ≤ i then fetch p i.toNat else .error .memory

/-- The function `strncpy (dst, src, n)` for a C string `src`: the characters that
end up in the `n`-byte array `dst` before its first null. -/
def strncpy (src : List Char) (n : Nat) : List Char := src.take n

/-! ## array.c -/

/-- The function `array_remove_trailing_whitespace (str)`: the string up to its last
character that is not white space.  For a non-empty string of white space only, the
backward scan leaves the buffer (`none`). -/
def array_remove_trailing_whitespace (str : List Char) : Option (List Char) :=
  if str = [] then some str
  else if str.all isspace then none
  else some (str.reverse.dropWhile isspace).reverse

/-! ## file.c -/

/-- The function `basename` that `<string.h>` declares under `_GNU_SOURCE`: the part of
the name after its last slash, the whole name when it has none. -/
def basename (filename : List Char) : List Char :=
  (filename.reverse.takeWhile (fun c => c ≠ '/')).reverse

/-- The function `strrchr (str, c)` for a character `c` other than the null, as the
offset of the pointer it returns: the index of the last `c` of the string, `none` for
the null pointer. -/
def strrchr (str : List Char) (c : Char) : Option Nat :=
  if c ∈ str then some (str.length - 1 - str.reverse.indexOf c) else none

/-- The function `make_reference_name (filename, dirname_flag)`: the string it returns.
The copy `str` ends where `strrchr (str, '.')` points.  (The null is stored through the
pointer into the block as it was before `realloc` shrank it; the block is taken to stay
in place.) -/
def make_reference_name (filename : List Char) (dirname_flag : Int) : List Char :=
  let str := if dirname_flag ≠ 0 then filename else basename filename
  match strrchr str '.' with
  | some str_end => str.take str_end
  | none => str

/-! ## config.c and ccd.c: reading a CCD sheet -/

/-- The lines that the loop `while (!feof (stream))` of `stream2ccd` sees, each read by
`my_getline`, that is `fgets (*lineptr, 1024, stream)`: at most 1023 characters, ending
after a newline.  `cur` holds the characters of the line being read.  When the stream
ends with a complete line (or is empty), `feof` is still false, the loop runs once
more, `fgets` stores nothing and the body scans the fresh buffer `eof`. -/
def my_getlines (eof : List Char) (cur : List Char) : List Char → List (List Char)
  | [] => if cur = [] then [eof] else [cur]
  | c :: rest =>
    if c = '\n' ∨ cur.length + 1 = 1023 then (cur ++ [c]) :: my_getlines eof [] rest
    else my_getlines eof (cur ++ [c]) rest

/-- The bytes that the call of `sscanf` with the sixteen `%hhx` arguments assigns: as
many of them as it converts, in order. -/
def sscanf_hhx16 (s : List Char) (template : String) : List Nat :=
  (sscanf s template).filterMap fun a =>
    match a with
    | .uint v => some v
    | _ => none

/-- What the `sscanf` calls of the loop body of `stream2ccd` assign for one line, one
field for each template: `none` when the call assigns nothing.  The fields are named
after the variable or member that the call writes. -/
structure LineScan where
  Version : Option Int
  DataTracksScrambled : Option Int
  CDTextLength : Option Int
  CATALOG : Option (List Char)
  Sessions : Option Int
  Session_tmp : Option Int
  PreGapMode : Option Int
  PreGapSubC : Option Int
  TocEntries : Option Int
  TocEntry_tmp : Option Int
  Session : Option Int
  Point : Option Nat
  ADR : Option Nat
  Control : Option Nat
  TrackNo : Option Int
  AMin : Option Int
  ASec : Option Int
  AFrame : Option Int
  ALBA : Option Int
  Zero : Option Int
  PMin : Option Int
  PSec : Option Int
  PFrame : Option Int
  PLBA : Option Int
  CDTextEntries : Option Int
  CDTextEntry_tmp : Option Int
  /-- The bytes assigned through the sixteen `%hhx` arguments. -/
  CDTextEntry : List Nat
  TRACK_tmp : Option Int
  MODE : Option Int
  FLAGS : Option (List Char)
  ISRC : Option (List Char)
  INDEX_tmp : Option Int
  /-- The value assigned by `" INDEX %*d = %d "`. -/
  INDEX : Option Int
  deriving DecidableEq, Repr

/-- The `sscanf` calls of the loop body of `stream2ccd` on the C string `line`, with
the templates of `ccd.c`. -/
def scan_fields (line : List Char) : LineScan :=
  { Version := sscanf_d line " Version = %d "
    DataTracksScrambled := sscanf_d line " DataTracksScrambled = %d "
    CDTextLength := sscanf_d line " CDTextLength = %d "
    CATALOG := sscanf_s line " CATALOG = %13[a-zA-Z0-9] "
    Sessions := sscanf_d line " Sessions = %d "
    Session_tmp := sscanf_d line " [ Session %d ] "
    PreGapMode := sscanf_d line " PreGapMode = %d "
    PreGapSubC := sscanf_d line " PreGapSubC = %d "
    TocEntries := sscanf_d line " TocEntries = %d "
    TocEntry_tmp := sscanf_d line " [ Entry %d ] "
    Session := sscanf_d line " Session = %d "
    Point := sscanf_x line " Point = %x "
    ADR := sscanf_x line " ADR = %x "
    Control := sscanf_x line " Control = %x "
    TrackNo := sscanf_d line " TrackNo = %d "
    AMin := sscanf_d line " AMin = %d "
    ASec := sscanf_d line " ASec = %d "
    AFrame := sscanf_d line " AFrame = %d "
    ALBA := sscanf_d line " ALBA = %d "
    Zero := sscanf_d line " Zero = %d "
    PMin := sscanf_d line " PMin = %d "
    PSec := sscanf_d line " PSec = %d "
    PFrame := sscanf_d line " PFrame = %d "
    PLBA := sscanf_d line " PLBA = %d "
    CDTextEntries := sscanf_d line " Entries = %d "
    CDTextEntry_tmp := sscanf_d line " Entry %d = "
    CDTextEntry := sscanf_hhx16 line
      " Entry %*d = %hhx %hhx %hhx %hhx %hhx %hhx %hhx %hhx %hhx %hhx %hhx %hhx %hhx %hhx %hhx %hhx "
    TRACK_tmp := sscanf_d line " [ TRACK %d ] "
    MODE := sscanf_d line " MODE = %d "
    FLAGS := sscanf_s line " FLAGS = %a[a-zA-Z0-9 ] "
    ISRC := sscanf_s line " ISRC = %12[a-zA-Z0-9] "
    INDEX_tmp := sscanf_d line " INDEX %d = "
    INDEX := sscanf_d line " INDEX %*d = %d " }

/-- The arrays of a `struct ccd` that field lines are written to. -/
inductive Region where
  | Session | Entry | CDText | TRACK | INDEX | FLAGS
  deriving DecidableEq, Repr

/-- The variables of `stream2ccd` that live across the lines: the structure being
filled and the four entry counters.  `oob` records the writes that fell outside the
slots of their array (the region and the index), which C leaves undefined; such a
write changes no slot of the model. -/
structure Scan where
  ccd : ccd
  Session : Int
  TocEntry : Int
  CDTextEntry : Int
  TRACK : Int
  oob : List (Region × Int)

/-- The function `ccd_init`. -/
def ccd_init : ccd :=
  { CloneCD := { Version := 3 }
    Disc := { TocEntries := 0, Sessions := 0, DataTracksScrambled := 0, CDTextLength := 0,
              CATALOG := [] }
    CDText := { Entries := 0, Entry := [] }
    Session := []
    Entry := []
    TRACK := []
    TrackEntries := 0 }

/-- The function `ccd_TRACK_init`: the value it leaves in `*TRACK`. -/
def ccd_TRACK_init : ccd_TRACK :=
  { MODE := 0, FLAGS := none, ISRC := [], INDEX := [-1, -1], IndexEntries := 2 }

/-- The state of `stream2ccd` before the first line. -/
def Scan.init : Scan :=
  { ccd := ccd_init, Session := 0, TocEntry := -1, CDTextEntry := -1, TRACK := 0, oob := [] }

/-- The "simple data" statements of the loop body: `Version`, `DataTracksScrambled`,
`CDTextLength` and `CATALOG`. -/
def scan_simple (m : LineScan) (st : Scan) : Scan :=
  { st with
    ccd :=
      { st.ccd with
        CloneCD := { Version := m.Version.getD st.ccd.CloneCD.Version }
        Disc :=
          { st.ccd.Disc with
            DataTracksScrambled := m.DataTracksScrambled.getD st.ccd.Disc.DataTracksScrambled
            CDTextLength := m.CDTextLength.getD st.ccd.Disc.CDTextLength
            CATALOG := m.CATALOG.getD st.ccd.Disc.CATALOG } } }

/-- The statement `sscanf (line, template, &ccd->Session[Session].field)`; `val` is the
value the call assigns, if any, and `set` stores it into the field. -/
def store_Session (st : Scan) (val : Option Int) (set : Int → ccd_Session → ccd_Session) :
    Scan :=
  match val with
  | none => st
  | some v =>
    match poke st.ccd.Session st.Session (set v) with
    | some p => { st with ccd := { st.ccd with Session := p } }
    | none => { st with oob := st.oob ++ [(Region.Session, st.Session)] }

/-- The statement `if (sscanf (line, " Sessions = %d ", &Sessions) == 1 && ...)`. -/
def scan_Sessions (u : Uninit) (m : LineScan) (st : Scan) : Scan :=
  match m.Sessions with
  | some Sessions =>
    if Sessions > 0 ∧ st.ccd.Disc.Sessions = 0 then
      { st with
        ccd := { st.ccd with
                 Disc := { st.ccd.Disc with Sessions := Sessions }
                 Session := xmalloc u.Session (Sessions + 1) } }
    else st
  | none => st

/-- The statement `if (sscanf (line, " [ Session %d ] ", &Session_tmp) == 1 && Session
<= ccd->Disc.Sessions) Session++;`. -/
def count_Session (m : LineScan) (st : Scan) : Scan :=
  if m.Session_tmp.isSome ∧ st.Session ≤ st.ccd.Disc.Sessions then
    { st with Session := st.Session + 1 }
  else st

/-- The statement `if (Session >= 1) { ... }` with the two field lines of a session. -/
def fill_Session (m : LineScan) (st : Scan) : Scan :=
  if st.Session ≥ 1 then
    store_Session (store_Session st m.PreGapMode (fun v e => { e with PreGapMode := v }))
      m.PreGapSubC (fun v e => { e with PreGapSubC := v })
  else st

/-- The `Sessions` and `[Session n]` part of the loop body. -/
def scan_Session (u : Uninit) (m : LineScan) (st : Scan) : Scan :=
  let st := scan_Sessions u m st
  if st.ccd.Disc.Sessions > 0 then fill_Session m (count_Session m st) else st

/-- The statement `sscanf (line, template, &ccd->Entry[TocEntry].field)`. -/
def store_Entry {α : Type} (st : Scan) (val : Option α) (set : α → ccd_Entry → ccd_Entry) :
    Scan :=
  match val with
  | none => st
  | some v =>
    match poke st.ccd.Entry st.TocEntry (set v) with
    | some p => { st with ccd := { st.ccd with Entry := p } }
    | none => { st with oob := st.oob ++ [(Region.Entry, st.TocEntry)] }

/-- The statement `if (sscanf (line, " TocEntries = %d ", &TocEntries) == 1 && ...)`. -/
def scan_TocEntries (u : Uninit) (m : LineScan) (st : Scan) : Scan :=
  match m.TocEntries with
  | some TocEntries =>
    if TocEntries > 0 ∧ st.ccd.Disc.TocEntries = 0 then
      { st with
        ccd := { st.ccd with
                 Disc := { st.ccd.Disc with TocEntries := TocEntries }
                 Entry := xmalloc u.Entry (TocEntries + 1) } }
    else st
  | none => st

/-- The statement `if (sscanf (line, " [ Entry %d ] ", &TocEntry_tmp) == 1 && (TocEntry +
1) <= ccd->Disc.TocEntries) TocEntry++;`. -/
def count_Entry (m : LineScan) (st : Scan) : Scan :=
  if m.TocEntry_tmp.isSome ∧ st.TocEntry + 1 ≤ st.ccd.Disc.TocEntries then
    { st with TocEntry := st.TocEntry + 1 }
  else st

/-- The statement `if (TocEntry >= 0) { ... }` with the fourteen field lines of a Toc
entry. -/
def fill_Entry (m : LineScan) (st : Scan) : Scan :=
  if st.TocEntry ≥ 0 then
    let st := store_Entry st m.Session (fun v e => { e with Session := v })
    let st := store_Entry st m.Point (fun v e => { e with Point := v })
    let st := store_Entry st m.ADR (fun v e => { e with ADR := v })
    let st := store_Entry st m.Control (fun v e => { e with Control := v })
    let st := store_Entry st m.TrackNo (fun v e => { e with TrackNo := v })
    let st := store_Entry st m.AMin (fun v e => { e with AMin := v })
    let st := store_Entry st m.ASec (fun v e => { e with ASec := v })
    let st := store_Entry st m.AFrame (fun v e => { e with AFrame := v })
    let st := store_Entry st m.ALBA (fun v e => { e with ALBA := v })
    let st := store_Entry st m.Zero (fun v e => { e with Zero := v })
    let st := store_Entry st m.PMin (fun v e => { e with PMin := v })
    let st := store_Entry st m.PSec (fun v e => { e with PSec := v })
    let st := store_Entry st m.PFrame (fun v e => { e with PFrame := v })
    store_Entry st m.PLBA (fun v e => { e with PLBA := v })
  else st

/-- The `TocEntries` and `[Entry n]` part of the loop body. -/
def scan_Entry (u : Uninit) (m : LineScan) (st : Scan) : Scan :=
  let st := scan_TocEntries u m st
  if st.ccd.Disc.TocEntries > 0 then fill_Entry m (count_Entry m st) else st

/-- The record after the bytes `vals` have been stored through the pointers to `type`,
`track`, `sequence`, `block`, `text[0]`, ..., `text[11]`, in this order. -/
def cdt_data.assign (vals : List Nat) (e : cdt_data) : cdt_data :=
  { type := vals.getD 0 e.type
    track := vals.getD 1 e.track
    sequence := vals.getD 2 e.sequence
    block := vals.getD 3 e.block
    text := fun j => vals.getD (4 + j.val) (e.text j) }

/-- The statement `if (sscanf (line, " Entries = %d ", &CDTextEntries) == 1 && ...)`. -/
def scan_CDTextEntries (u : Uninit) (m : LineScan) (st : Scan) : Scan :=
  match m.CDTextEntries with
  | some CDTextEntries =>
    if CDTextEntries > 0 ∧ st.ccd.CDText.Entries = 0 then
      { st with
        ccd := { st.ccd with
                 CDText := { Entries := CDTextEntries
                             Entry := xmalloc u.CDText CDTextEntries } } }
    else st
  | none => st

/-- The statement `if ((sscanf (line, " Entry %d = ", &CDTextEntry_tmp) == 1) &&
(CDTextEntry + 1) <= ccd->CDText.Entries) CDTextEntry++;`. -/
def count_CDText (m : LineScan) (st : Scan) : Scan :=
  if m.CDTextEntry_tmp.isSome ∧ st.CDTextEntry + 1 ≤ st.ccd.CDText.Entries then
    { st with CDTextEntry := st.CDTextEntry + 1 }
  else st

/-- The statement `if (CDTextEntry >= 0) { sscanf (...) }` with the sixteen bytes of a
CD-Text entry. -/
def fill_CDText (m : LineScan) (st : Scan) : Scan :=
  if st.CDTextEntry ≥ 0 then
    match m.CDTextEntry with
    | [] => st
    | vals =>
      match poke st.ccd.CDText.Entry st.CDTextEntry (cdt_data.assign vals) with
      | some p => { st with ccd := { st.ccd with CDText := { st.ccd.CDText with Entry := p } } }
      | none => { st with oob := st.oob ++ [(Region.CDText, st.CDTextEntry)] }
  else st

/-- The CD-Text `Entries` and `Entry n = ...` part of the loop body. -/
def scan_CDText (u : Uninit) (m : LineScan) (st : Scan) : Scan :=
  let st := scan_CDTextEntries u m st
  if st.ccd.CDText.Entries > 0 then fill_CDText m (count_CDText m st) else st

/-- A statement that changes `ccd->TRACK[TRACK]`; `f` returns `none` when it writes
outside the `INDEX` array of the track or scans outside the `FLAGS` string. -/
def store_TRACK (st : Scan) (inner : Region) (f : ccd_TRACK → Option ccd_TRACK) : Scan :=
  match peek st.ccd.TRACK st.TRACK with
  | none => { st with oob := st.oob ++ [(Region.TRACK, st.TRACK)] }
  | some t =>
    match f t with
    | none => { st with oob := st.oob ++ [(inner, st.TRACK)] }
    | some t' =>
      { st with ccd := { st.ccd with TRACK := st.ccd.TRACK.modify (fun _ => t') st.TRACK.toNat } }

/-- The `INDEX n = v` statements of the loop body for the track `t` of number `i`:
index 0 or 1 goes to its fixed slot, any other index to a new last slot.  The size that
`xrealloc` is called with is not 0 (`IndexEntries` starts at 2 and only grows), so it
returns the block of `realloc`. -/
def scan_INDEX (u : Uninit) (m : LineScan) (i : Int) (t : ccd_TRACK) : Option ccd_TRACK :=
  match m.INDEX_tmp with
  | none => some t
  | some INDEX_tmp =>
    if INDEX_tmp = 0 ∨ INDEX_tmp = 1 then
      match m.INDEX with
      | none => some t
      | some v => (poke t.INDEX INDEX_tmp (fun _ => v)).map fun p => { t with INDEX := p }
    else
      let IndexEntries := t.IndexEntries + 1
      let INDEX := realloc_block (u.INDEX i.toNat) t.INDEX IndexEntries
      match m.INDEX with
      | none => some { t with IndexEntries := IndexEntries, INDEX := INDEX }
      | some v =>
        (poke INDEX (IndexEntries - 1) (fun _ => v)).map fun p =>
          { t with IndexEntries := IndexEntries, INDEX := p }

/-- The statement `if (sscanf (line, " [ TRACK %d ] ", &TRACK_tmp) == 1) { ... }`: a
new slot at the end of the `TRACK` array, initialised by `ccd_TRACK_init`.  The size
that `xrealloc` is called with is not 0 (`TRACK` starts at 0 and only grows), so it
returns the block of `realloc`. -/
def count_TRACK (u : Uninit) (m : LineScan) (st : Scan) : Scan :=
  if m.TRACK_tmp.isSome then
    store_TRACK
      { st with
        TRACK := st.TRACK + 1
        ccd := { st.ccd with
                 TrackEntries := st.TRACK + 1
                 TRACK := realloc_block u.TRACK st.ccd.TRACK (st.TRACK + 1 + 1) } }
      Region.TRACK (fun _ => some ccd_TRACK_init)
  else st

/-- The statement `if (ccd->TrackEntries > 0) { ... }` with the `MODE`, `FLAGS`, `ISRC`
and `INDEX` lines of a track. -/
def fill_TRACK (u : Uninit) (m : LineScan) (st : Scan) : Scan :=
  if st.ccd.TrackEntries > 0 then
    let st := store_TRACK st Region.TRACK fun t => some { t with MODE := m.MODE.getD t.MODE }
    let st := store_TRACK st Region.FLAGS fun t =>
      match m.FLAGS with
      | none => some t
      | some FLAGS =>
        (array_remove_trailing_whitespace FLAGS).map fun r => { t with FLAGS := some r }
    let st := store_TRACK st Region.TRACK fun t => some { t with ISRC := m.ISRC.getD t.ISRC }
    store_TRACK st Region.INDEX (scan_INDEX u m st.TRACK)
  else st

/-- The `[TRACK n]` part of the loop body. -/
def scan_TRACK (u : Uninit) (m : LineScan) (st : Scan) : Scan :=
  fill_TRACK u m (count_TRACK u m st)

/-- The body of the loop of `stream2ccd` for the values `m` that the `sscanf` calls
assign. -/
def scan_body (u : Uninit) (m : LineScan) (st : Scan) : Scan :=
  scan_TRACK u m (scan_CDText u m (scan_Entry u m (scan_Session u m (scan_simple m st))))

/-- The body of the loop of `stream2ccd` for the buffer `buf` that `my_getline` filled;
`sscanf` scans the C string in it. -/
def scan_line (u : Uninit) (st : Scan) (buf : List Char) : Scan :=
  scan_body u (scan_fields (cstring buf)) st

/-- The statements after the loop of `stream2ccd`: arrays with fewer observed entries
than announced are cut with `xrealloc` to `Session`, `TocEntry + 1` and
`CDTextEntry + 1` slots, and the announced number is replaced.  The program ends when
`xrealloc` does not return. -/
def reconcile (u : Uninit) (st : Scan) : Except Failure ccd := do
  let c := st.ccd
  let c ←
    if st.Session < c.Disc.Sessions then do
      let p ← xrealloc u.null_on_zero u.Session c.Session st.Session
      pure { c with Session := p, Disc := { c.Disc with Sessions := st.Session } }
    else pure c
  let c ←
    if st.TocEntry + 1 < c.Disc.TocEntries then do
      let p ← xrealloc u.null_on_zero u.Entry c.Entry (st.TocEntry + 1)
      pure { c with Entry := p, Disc := { c.Disc with TocEntries := st.TocEntry + 1 } }
    else pure c
  if st.CDTextEntry + 1 < c.CDText.Entries then do
    let p ← xrealloc u.null_on_zero u.CDText c.CDText.Entry (st.CDTextEntry + 1)
    pure { c with CDText := { Entry := p, Entries := st.CDTextEntry + 1 } }
  else pure c

/-- The state of `stream2ccd` after the loop over the lines of the stream. -/
def scan_stream (u : Uninit) (stream : List Char) : Scan :=
  (my_getlines u.line [] stream).foldl (scan_line u) Scan.init

/-- What `stream2ccd` leaves behind: the structure `*ccd`, the record of the writes it
made outside the slots of an array, and, when the program ended inside `stream2ccd`,
the way it ended (`ccd` is then the structure as the loop left it; nothing reads it any
more).  When `stream2ccd` returns, `exit` is `none` and the return value is 0 (reading
a stream held in memory cannot fail). -/
structure Parsed where
  ccd : ccd
  oob : List (Region × Int)
  exit : Option Failure := none

/-- The function `stream2ccd (stream, ccd)` for a stream with the given contents. -/
def stream2ccd (u : Uninit) (stream : List Char) : Parsed :=
  match reconcile u (scan_stream u stream) with
  | .ok c => { ccd := c, oob := (scan_stream u stream).oob, exit := none }
  | .error e =>
    { ccd := (scan_stream u stream).ccd, oob := (scan_stream u stream).oob, exit := some e }

/-! ## cue.c: initialisation -/

/-- The function `cue_init (1)`: the structure it returns. -/
def cue_init : cue :=
  { CATALOG := [], CDTEXTFILE := none, PERFORMER := none, SONGWRITER := none, TITLE := none,
    FILE := [], FileEntries := 0 }

/-- The function `cue_FILE_init`: the value of each slot of the array it returns. -/
def cue_FILE_init : cue_FILE :=
  { filename := none, filetype := .MOTOROLA, TRACK := [], TrackEntries := 0, FirstTrack := 1 }

/-- The function `cue_TRACK_init (entries)`: slot `i` of the array it returns.  Of the
two gaps only the member `initialized` is written. -/
def cue_TRACK_init (u : Uninit) (i : Nat) : cue_TRACK :=
  { datatype := .AUDIO_2352, FLAGS := none, ISRC := [], PERFORMER := none, SONGWRITER := none,
    TITLE := none, PREGAP := { u.PREGAP i with initialized := 0 }, INDEX := [],
    IndexEntries := 0, POSTGAP := { u.POSTGAP i with initialized := 0 } }

/-! ## convert.c: the conversion -/

/-- The body of the loop `for (j = 0; j < IndexEntries; j++)` of `ccd2cue` for track
`i`: the value of the CUE slot `INDEX[j]` after it. -/
def ccd2cue_INDEX (u : Uninit) (t : ccd_TRACK) (i j : Nat) : Except Failure cue_time := do
  let frames ← fetch t.INDEX j
  if frames ≠ -1 then frames2msf frames
  else pure { u.time i j with initialized := 0 }

/-- The body of the loop `for (i = FirstTrack; i <= TrackEntries; i++)` of `ccd2cue`: the
value of the CUE slot `TRACK[i]` after it.  A `MODE` other than 0, 1, 2 ends the
program with `exit (EX_UNAVAILABLE)`; a negative `IndexEntries` makes the allocation
of the `INDEX` array fail. -/
def ccd2cue_TRACK (u : Uninit) (c : ccd) (i : Nat) : Except Failure cue_TRACK := do
  let t ← fetch c.TRACK i
  let datatype ←
    if t.MODE = 0 then pure cue_datatype.AUDIO_2352
    else if t.MODE = 1 then pure cue_datatype.MODE1_2352
    else if t.MODE = 2 then pure cue_datatype.MODE2_2352
    else throw (Failure.exit EX_UNAVAILABLE)
  if t.IndexEntries < 0 then throw (Failure.exit EX_OSERR)
  let INDEX ← (List.range t.IndexEntries.toNat).mapM (ccd2cue_INDEX u t i)
  pure { cue_TRACK_init u i with
         datatype := datatype
         FLAGS := t.FLAGS
         ISRC := if t.ISRC ≠ [] then strncpy t.ISRC (12 + 1) else []
         INDEX := INDEX
         IndexEntries := t.IndexEntries }

/-- The function `ccd2cue (ccd, img_name, cdt_name)`. -/
def ccd2cue (u : Uninit) (c : ccd) (img_name cdt_name : List Char) : Except Failure cue := do
  let q := cue_init
  let q := if c.Disc.CATALOG ≠ [] then { q with CATALOG := strncpy c.Disc.CATALOG (13 + 1) } else q
  let q := if c.CDText.Entries ≠ 0 then { q with CDTEXTFILE := some cdt_name } else q
  let file := { cue_FILE_init with filename := some img_name, filetype := cue_filetype.BINARY }
  if c.TrackEntries > 0 then
    let tracks ← (List.range' 1 c.TrackEntries.toNat).mapM (ccd2cue_TRACK u c)
    pure { q with
           FileEntries := 1
           FILE := [{ file with TrackEntries := c.TrackEntries
                                FirstTrack := 1
                                TRACK := cue_TRACK_init u 0 :: tracks }] }
  else
    pure { q with FileEntries := 1, FILE := [file] }

/-- The function `ccd2cdt (ccd, cdt)`: its return value and the structure it leaves in
`*cdt`.  A negative `Entries` makes the allocation fail; an `Entries` beyond the slots
of the CD-Text array makes the loop read outside of it. -/
def ccd2cdt (c : ccd) : Except Failure (Int × cdt) := do
  if c.CDText.Entries < 0 then throw (Failure.exit EX_OSERR)
  let entry ← (List.range c.CDText.Entries.toNat).mapM fun i => do
    let data ← fetch c.CDText.Entry i
    let crc := crc16 data.bytes
    pure ({ data := data, crc0 := (crc >>> 8) &&& 0xff, crc1 := crc &&& 0xff } : cdt_entry)
  pure (c.CDText.Entries, { entries := c.CDText.Entries, entry := entry })

/-! ## cdt.c and cue.c: the output streams -/

/-- The function `cdt2stream (cdt, stream)`: the bytes it writes.  `xfwrite` writes
`entries` records of 18 bytes from the array, `xputc` the final null byte. -/
def cdt2stream (t : cdt) : Except Failure (List Nat) := do
  if t.entries < 0 then throw Failure.memory
  let records ← (List.range t.entries.toNat).mapM fun i => do
    let e ← fetch t.entry i
    pure (e.bytes.map (· % 2 ^ 8))
  pure (records.flatten ++ [0])

/-- The strings of the array `filetype` of `cue.c`. -/
def filetype : cue_filetype → String
  | .BINARY => "BINARY"
  | .MOTOROLA => "MOTOROLA"
  | .AIFF => "AIFF"
  | .WAVE => "WAVE"
  | .MP3 => "MP3"

/-- The strings of the array `datatype` of `cue.c`. -/
def datatype : cue_datatype → String
  | .AUDIO_2352 => "AUDIO"
  | .CDG_2448 => "CDG"
  | .MODE1_2048 => "MODE1/2048"
  | .MODE1_2352 => "MODE1/2352"
  | .MODE2_2336 => "MODE2/2336"
  | .MODE2_2352 => "MODE2/2352"
  | .CDI_2336 => "CDI/2336"
  | .CDI_2352 => "CDI/2352"

/-- The conversion `%i` of `printf`. -/
def printf_i (v : Int) : List Char :=
  if v < 0 then '-' :: Nat.toDigits 10 v.natAbs else Nat.toDigits 10 v.toNat

/-- The conversion `%02u` of `printf`. -/
def printf_02u (v : Nat) : List Char :=
  let digits := Nat.toDigits 10 v
  List.replicate (2 - digits.length) '0' ++ digits

/-- The conversion `%.Ns` of `printf`: at most `n` characters of the string. -/
def printf_s (n : Nat) (v : List Char) : List Char := v.take n

/-- The text `%02u:%02u:%02u` for a time. -/
def printf_msf (t : cue_time) : List Char :=
  printf_02u t.minutes ++ ":".toList ++ printf_02u t.seconds ++ ":".toList ++ printf_02u t.frames

/-- The output of the statement `if (p != NULL) xfprintf (stream, ...)` for a string
pointer: one line or nothing. -/
def print_opt (v : Option (List Char)) (f : List Char → List Char) : List (List Char) :=
  match v with
  | none => []
  | some x => [f x]

/-- The body of the loop over the tracks of `cue2stream`: the lines printed for track
number `track` of a file, one element for each call of `xfprintf`. -/
def cue2stream_TRACK (f : cue_FILE) (track : Int) : Except Failure (List (List Char)) := do
    let t ← fetch_int f.TRACK track
    let indexes ← (List.range t.IndexEntries.toNat).mapM fun index => do
      let x ← fetch t.INDEX index
      pure (if x.initialized ≠ 0 then
        ["    INDEX ".toList ++ printf_02u index ++ " ".toList ++ printf_msf x ++ "\n".toList]
      else [])
    pure (
      ["  TRACK ".toList ++ printf_i track ++ " ".toList ++ (datatype t.datatype).toList
        ++ "\n".toList]
      ++ print_opt t.FLAGS (fun x => "    FLAGS ".toList ++ x ++ "\n".toList)
      ++ (if t.ISRC ≠ [] then ["    ISRC ".toList ++ t.ISRC ++ "\n".toList] else [])
      ++ print_opt t.PERFORMER
          (fun x => "    PERFORMER \"".toList ++ printf_s 80 x ++ "\"\n".toList)
      ++ print_opt t.SONGWRITER
          (fun x => "    SONGWRITER \"".toList ++ printf_s 80 x ++ "\"\n".toList)
      ++ print_opt t.TITLE (fun x => "    TITLE \"".toList ++ printf_s 80 x ++ "\"\n".toList)
      ++ (if t.PREGAP.initialized ≠ 0 then
            ["    PREGAP ".toList ++ printf_msf t.PREGAP ++ "\n".toList] else [])
      ++ indexes.flatten
      ++ (if t.POSTGAP.initialized ≠ 0 then
            ["    POSTGAP ".toList ++ printf_msf t.POSTGAP ++ "\n".toList] else []))

/-- The body of the loop over the files of `cue2stream`: the lines printed for the
file in slot `file`. -/
def cue2stream_FILE (q : cue) (file : Nat) : Except Failure (List (List Char)) := do
    let f ← fetch q.FILE file
    let tracks ← ((List.range (f.TrackEntries + 1 - f.FirstTrack).toNat).map
      (fun (k : Nat) => f.FirstTrack + (k : Int))).mapM (cue2stream_TRACK f)
    pure (print_opt f.filename
            (fun x => "FILE \"".toList ++ x ++ "\" ".toList ++ (filetype f.filetype).toList
              ++ "\n".toList)
          ++ tracks.flatten)

/-- The output of `cue2stream (cue, stream)`, one element for each call of `xfprintf`,
in the order of the calls. -/
def cue2lines (q : cue) : Except Failure (List (List Char)) := do
  let files ← (List.range q.FileEntries.toNat).mapM (cue2stream_FILE q)
  pure (
    (if q.CATALOG ≠ [] then ["CATALOG ".toList ++ printf_s 13 q.CATALOG ++ "\n".toList] else [])
    ++ print_opt q.CDTEXTFILE (fun x => "CDTEXTFILE \"".toList ++ x ++ "\"\n".toList)
    ++ print_opt q.PERFORMER (fun x => "PERFORMER \"".toList ++ printf_s 80 x ++ "\"\n".toList)
    ++ print_opt q.SONGWRITER (fun x => "SONGWRITER \"".toList ++ printf_s 80 x ++ "\"\n".toList)
    ++ print_opt q.TITLE (fun x => "TITLE \"".toList ++ printf_s 80 x ++ "\"\n".toList)
    ++ files.flatten)

/-- The function `cue2stream (cue, stream)`: the text it writes to the stream. -/
def cue2stream (q : cue) : Except Failure (List Char) :=
  (cue2lines q).map List.flatten

/-- The main conversion path of the program for a CCD sheet held in `stream`: the
CUE sheet text that `stream2ccd`, `ccd2cue` and `cue2stream` produce in sequence, when
the program does not end in one of them. -/
def convert (u : Uninit) (stream img_name cdt_name : List Char) : Except Failure (List Char) :=
  match (stream2ccd u stream).exit with
  | some e => .error e
  | none => ccd2cue u (stream2ccd u stream).ccd img_name cdt_name >>= cue2stream

/-! ## CCD structures that `ccd2cue` converts -/

/-- The CCD structures whose arrays are as large as announced and whose frame counts
are frame counts: the `TRACK` array has the slots 1 to `TrackEntries`, and the `INDEX`
array of each of these tracks has `IndexEntries` slots, each holding the mark -1 or a
number that is not negative. -/
def ccd.convertible (c : ccd) : Prop :=
  ∀ i ∈ List.range' 1 c.TrackEntries.toNat,
    ∃ t ∈ c.TRACK.get? i, t.IndexEntries = (t.INDEX.length : Int) ∧ ∀ v ∈ t.INDEX, -1 ≤ v

instance (c : ccd) : Decidable c.convertible := by
  unfold ccd.convertible
  infer_instance

/-- The CCD structures whose tracks 1 to `TrackEntries` all have `MODE` 0, 1 or 2. -/
def ccd.modes_known (c : ccd) : Prop :=
  ∀ i ∈ List.range' 1 c.TrackEntries.toNat,
    ∀ t ∈ c.TRACK.get? i, t.MODE = 0 ∨ t.MODE = 1 ∨ t.MODE = 2

instance (c : ccd) : Decidable c.modes_known := by
  unfold ccd.modes_known
  infer_instance

/-! ## The layout of a CUE sheet -/

/-- The lines that a CUE sheet is made of, each with the values printed in it. -/
inductive cue_line where
  | CATALOG (number : List Char)
  | CDTEXTFILE (name : List Char)
  | PERFORMER (name : List Char)
  | SONGWRITER (name : List Char)
  | TITLE (name : List Char)
  | FILE (name : List Char) (type : cue_filetype)
  | TRACK (number : Int) (type : cue_datatype)
  | FLAGS (flags : List Char)
  | ISRC (code : List Char)
  | TRACK_PERFORMER (name : List Char)
  | TRACK_SONGWRITER (name : List Char)
  | TRACK_TITLE (name : List Char)
  | PREGAP (length : cue_time)
  | INDEX (slot : Nat) (start : cue_time)
  | POSTGAP (length : cue_time)
  deriving DecidableEq, Repr

/-- The text that the `xfprintf` call of `cue2stream` for a line prints. -/
def cue_line.text : cue_line → List Char
  | .CATALOG x => "CATALOG ".toList ++ printf_s 13 x ++ "\n".toList
  | .CDTEXTFILE x => "CDTEXTFILE \"".toList ++ x ++ "\"\n".toList
  | .PERFORMER x => "PERFORMER \"".toList ++ printf_s 80 x ++ "\"\n".toList
  | .SONGWRITER x => "SONGWRITER \"".toList ++ printf_s 80 x ++ "\"\n".toList
  | .TITLE x => "TITLE \"".toList ++ printf_s 80 x ++ "\"\n".toList
  | .FILE x type => "FILE \"".toList ++ x ++ "\" ".toList ++ (filetype type).toList ++ "\n".toList
  | .TRACK number type =>
    "  TRACK ".toList ++ printf_i number ++ " ".toList ++ (datatype type).toList ++ "\n".toList
  | .FLAGS x => "    FLAGS ".toList ++ x ++ "\n".toList
  | .ISRC x => "    ISRC ".toList ++ x ++ "\n".toList
  | .TRACK_PERFORMER x => "    PERFORMER \"".toList ++ printf_s 80 x ++ "\"\n".toList
  | .TRACK_SONGWRITER x => "    SONGWRITER \"".toList ++ printf_s 80 x ++ "\"\n".toList
  | .TRACK_TITLE x => "    TITLE \"".toList ++ printf_s 80 x ++ "\"\n".toList
  | .PREGAP x => "    PREGAP ".toList ++ printf_msf x ++ "\n".toList
  | .INDEX slot x =>
    "    INDEX ".toList ++ printf_02u slot ++ " ".toList ++ printf_msf x ++ "\n".toList
  | .POSTGAP x => "    POSTGAP ".toList ++ printf_msf x ++ "\n".toList

/-- The word that a line of a CUE sheet starts with, after its indentation. -/
def cue_line.keyword : cue_line → String
  | .CATALOG _ => "CATALOG"
  | .CDTEXTFILE _ => "CDTEXTFILE"
  | .PERFORMER _ => "PERFORMER"
  | .SONGWRITER _ => "SONGWRITER"
  | .TITLE _ => "TITLE"
  | .FILE _ _ => "FILE"
  | .TRACK _ _ => "TRACK"
  | .FLAGS _ => "FLAGS"
  | .ISRC _ => "ISRC"
  | .TRACK_PERFORMER _ => "PERFORMER"
  | .TRACK_SONGWRITER _ => "SONGWRITER"
  | .TRACK_TITLE _ => "TITLE"
  | .PREGAP _ => "PREGAP"
  | .INDEX _ _ => "INDEX"
  | .POSTGAP _ => "POSTGAP"

/-- The indentation of a line of a CUE sheet: none for the lines of the disc and the
`FILE` line, two spaces for the `TRACK` line, four for the lines of a track. -/
def cue_line.indent : cue_line → Nat
  | .CATALOG _ | .CDTEXTFILE _ | .PERFORMER _ | .SONGWRITER _ | .TITLE _ | .FILE _ _ => 0
  | .TRACK _ _ => 2
  | _ => 4

/-- The lines of the CUE sheet for track `number`, in the order of the specification:
`TRACK`, `FLAGS`, `ISRC`, `PERFORMER`, `SONGWRITER`, `TITLE`, `PREGAP`, the `INDEX`
slots that are set in ascending slot order, `POSTGAP`; each line but the first only
when its field is present. -/
def cue_TRACK.lines (number : Int) (t : cue_TRACK) : List cue_line :=
  [cue_line.TRACK number t.datatype]
  ++ (t.FLAGS.map cue_line.FLAGS).toList
  ++ (if t.ISRC ≠ [] then [cue_line.ISRC t.ISRC] else [])
  ++ (t.PERFORMER.map cue_line.TRACK_PERFORMER).toList
  ++ (t.SONGWRITER.map cue_line.TRACK_SONGWRITER).toList
  ++ (t.TITLE.map cue_line.TRACK_TITLE).toList
  ++ (if t.PREGAP.initialized ≠ 0 then [cue_line.PREGAP t.PREGAP] else [])
  ++ (((t.INDEX.take t.IndexEntries.toNat).enum.filter fun p => p.2.initialized ≠ 0).map
        fun p => cue_line.INDEX p.1 p.2)
  ++ (if t.POSTGAP.initialized ≠ 0 then [cue_line.POSTGAP t.POSTGAP] else [])

/-- The lines of the CUE sheet for a file, in the order of the specification: the
`FILE` line, then the lines of each track from `FirstTrack` to `TrackEntries` in
ascending number. -/
def cue_FILE.lines (f : cue_FILE) : List cue_line :=
  (f.filename.map fun x => cue_line.FILE x f.filetype).toList
  ++ ((((f.TRACK.drop f.FirstTrack.toNat).take (f.TrackEntries + 1 - f.FirstTrack).toNat).enumFrom
        f.FirstTrack.toNat).map fun p => cue_TRACK.lines p.1 p.2).flatten

/-- The lines of the CUE sheet, in the order of the specification: `CATALOG`,
`CDTEXTFILE`, `PERFORMER`, `SONGWRITER`, `TITLE`, each only when its field is present,
then the lines of each file. -/
def cue.lines (q : cue) : List cue_line :=
  (if q.CATALOG ≠ [] then [cue_line.CATALOG q.CATALOG] else [])
  ++ (q.CDTEXTFILE.map cue_line.CDTEXTFILE).toList
  ++ (q.PERFORMER.map cue_line.PERFORMER).toList
  ++ (q.SONGWRITER.map cue_line.SONGWRITER).toList
  ++ (q.TITLE.map cue_line.TITLE).toList
  ++ ((q.FILE.take q.FileEntries.toNat).map cue_FILE.lines).flatten

/-- The CUE files whose arrays are as large as announced: the `TRACK` array has the
slots `FirstTrack` to `TrackEntries`, and the `INDEX` array of each of these tracks has
`IndexEntries` slots. -/
def cue_FILE.sized (f : cue_FILE) : Prop :=
  ∀ k ∈ List.range (f.TrackEntries + 1 - f.FirstTrack).toNat,
    ∃ t ∈ peek f.TRACK (f.FirstTrack + (k : Int)), t.IndexEntries.toNat ≤ t.INDEX.length

instance (f : cue_FILE) : Decidable f.sized := by
  unfold cue_FILE.sized
  infer_instance

/-- The CUE structures whose arrays are as large as announced. -/
def cue.sized (q : cue) : Prop :=
  ∀ k ∈ List.range q.FileEntries.toNat, ∃ f ∈ q.FILE.get? k, f.sized

instance (q : cue) : Decidable q.sized := by
  unfold cue.sized
  infer_instance

/-- Whether a line of text has `word` as its first word after its indentation: the
line without its leading spaces starts with the word and a space. -/
def starts_with_word (word : String) (l : List Char) : Bool :=
  (word.toList ++ [' ']).isPrefixOf (l.dropWhile (· = ' '))

/-- The character of the decimal digit `d`. -/
def decimal_digit (d : Nat) : Char := Char.ofNat ('0'.toNat + d)

/-- A number as two decimal digits, the tens and the units, with a zero for the tens
of a number below 10. -/
def two_digits (v : Nat) : List Char := [decimal_digit (v / 10), decimal_digit (v % 10)]

/-! ## Polynomials over GF(2): the vocabulary of the checksum's specification -/

/-- The product of two polynomials over GF(2).  A polynomial is a natural number whose
bit `i` is the coefficient of `x ^ i`; the sum of two polynomials is their XOR and the
product with `x` is the product with 2. -/
def gf2_mul (q g : Nat) : Nat :=
  if h : q = 0 then 0
  else (if q % 2 = 1 then g else 0) ^^^ (2 * gf2_mul (q / 2) g)
termination_by q
decreasing_by omega

/-- The CCITT polynomial `x ^ 16 + x ^ 12 + x ^ 5 + 1`. -/
def ccitt_poly : Nat := 2 ^ 16 + 2 ^ 12 + 2 ^ 5 + 1

/-- States that `r` is the remainder of the polynomial `a` divided by the CCITT
polynomial: `r` has degree below 16, and `a = q * g + r` for a quotient `q`. -/
def ccitt_remainder (a r : Nat) : Prop :=
  r < 2 ^ 16 ∧ ∃ q, a = gf2_mul q ccitt_poly ^^^ r

/-- The polynomial of a message: its bytes in order, each most significant bit first,
are the coefficients from the highest degree down. -/
def message_poly (message : List Nat) : Nat :=
  message.foldl (fun acc byte => acc * 2 ^ 8 + byte % 2 ^ 8) 0

/-- The buffer `b` with bit `k` flipped: bit `k % 8` of the byte at offset `k / 8`. -/
def flip_bit (b : List Nat) (k : Nat) : List Nat :=
  b.modify (fun byte => byte ^^^ 2 ^ (k % 8)) (k / 8)

/-! ## Sample data -/

/-- Fresh memory that happens to hold zero bytes everywhere (an empty string, zero
numbers, null pointers), with the `realloc` of the GNU C library, which returns a null
pointer for size 0. -/
def Uninit.zeroed : Uninit :=
  { line := []
    Session := fun _ => { PreGapMode := 0, PreGapSubC := 0 }
    Entry := fun _ => { Session := 0, Point := 0, ADR := 0, Control := 0, TrackNo := 0, AMin := 0,
                        ASec := 0, AFrame := 0, ALBA := 0, Zero := 0, PMin := 0, PSec := 0,
                        PFrame := 0, PLBA := 0 }
    CDText := fun _ => { type := 0, track := 0, sequence := 0, block := 0, text := fun _ => 0 }
    TRACK := fun _ => { MODE := 0, ISRC := [], INDEX := [], IndexEntries := 0, FLAGS := none }
    INDEX := fun _ _ => 0
    PREGAP := fun _ => { initialized := 0, minutes := 0, seconds := 0, frames := 0 }
    POSTGAP := fun _ => { initialized := 0, minutes := 0, seconds := 0, frames := 0 }
    time := fun _ _ => { initialized := 0, minutes := 0, seconds := 0, frames := 0 }
    null_on_zero := true }

/-- The values assigned for a line that no template matches. -/
def LineScan.empty : LineScan :=
  { Version := none, DataTracksScrambled := none, CDTextLength := none, CATALOG := none,
    Sessions := none, Session_tmp := none, PreGapMode := none, PreGapSubC := none,
    TocEntries := none, TocEntry_tmp := none, Session := none, Point := none, ADR := none,
    Control := none, TrackNo := none, AMin := none, ASec := none, AFrame := none, ALBA := none,
    Zero := none, PMin := none, PSec := none, PFrame := none, PLBA := none,
    CDTextEntries := none, CDTextEntry_tmp := none, CDTextEntry := [], TRACK_tmp := none,
    MODE := none, FLAGS := none, ISRC := none, INDEX_tmp := none, INDEX := none }

/-- A CD-Text record: a title pack for track 1 with the text `ABCDEFGHIJKL`. -/
def sample_cdt_data : cdt_data :=
  { type := 0x80, track := 1, sequence := 0, block := 0, text := fun j => 0x41 + j.val }

/-- A CCD structure with one CD-Text entry and nothing else. -/
def sample_ccd : ccd :=
  { ccd_init with CDText := { Entries := 1, Entry := [sample_cdt_data] } }

/-- A CDT structure with one record. -/
def sample_cdt : cdt :=
  { entries := 1, entry := [{ data := sample_cdt_data, crc0 := 0x12, crc1 := 0x34 }] }

/-- A sheet that announces five sessions and holds two. -/
def sample_sessions_sheet : List Char :=
  "[Disc]\nSessions = 5\n[Session 1]\n[Session 2]\n".toList

/-- A sheet that announces one Toc entry and holds one. -/
def sample_toc_sheet : List Char :=
  "[Disc]\nTocEntries=1\n[Entry 0]\n".toList

/-- A sheet that announces one session and holds one. -/
def sample_session_sheet : List Char :=
  "[Disc]\nSessions=1\n[Session 1]\n".toList

/-- A sheet that announces one CD-Text entry and holds two. -/
def sample_cdtext_overflow_sheet : List Char :=
  "[CDText]\nEntries=1\nEntry 0= 80 00 00 00 41 42 43 44 45 46 47 48 49 4a 4b 4c\nEntry 1= 80 00 01 00 4d 4e 4f 50 51 52 53 54 55 56 57 58\n".toList

/-- A sheet that announces one session and holds two. -/
def sample_session_overflow_sheet : List Char :=
  "[Disc]\nSessions=1\n[Session 1]\nPreGapMode=1\n[Session 2]\nPreGapMode=2\n".toList

/-- The CCD sheet of the end-to-end scenario. -/
def sample_sheet : List Char :=
  "[Disc]\nTocEntries=1\n[Entry 0]\nPoint=1\n[TRACK 1]\nMODE=0\nINDEX 1=0\n".toList

/-- A CCD structure with a catalog number, one CD-Text entry and two tracks: an audio
track with flags, an ISRC and only `INDEX[1]` set, and a data track with three frame
counts. -/
def sample_tracks_ccd : ccd :=
  { ccd_init with
    Disc := { ccd_init.Disc with CATALOG := "0123456789012".toList }
    CDText := { Entries := 1, Entry := [sample_cdt_data] }
    TrackEntries := 2
    TRACK := [Uninit.zeroed.TRACK 0,
              { MODE := 0, ISRC := "ABCDE1234567".toList, INDEX := [-1, 0], IndexEntries := 2,
                FLAGS := some "DCP".toList },
              { MODE := 1, ISRC := [], INDEX := [150, 300, 4649], IndexEntries := 3,
                FLAGS := none }] }

/-- The CUE structure that `ccd2cue` builds from `sample_tracks_ccd` in zeroed fresh
memory, for the file names `image.img` and `image.cdt`. -/
def sample_tracks_cue : cue :=
  { CATALOG := "0123456789012".toList
    CDTEXTFILE := some "image.cdt".toList
    PERFORMER := none
    SONGWRITER := none
    TITLE := none
    FileEntries := 1
    FILE := [{ filename := some "image.img".toList
               filetype := cue_filetype.BINARY
               TrackEntries := 2
               FirstTrack := 1
               TRACK := [cue_TRACK_init Uninit.zeroed 0,
                         { cue_TRACK_init Uninit.zeroed 1 with
                           datatype := cue_datatype.AUDIO_2352
                           FLAGS := some "DCP".toList
                           ISRC := "ABCDE1234567".toList
                           IndexEntries := 2
                           INDEX := [{ initialized := 0, minutes := 0, seconds := 0, frames := 0 },
                                     { initialized := 1, minutes := 0, seconds := 0, frames := 0 }] },
                         { cue_TRACK_init Uninit.zeroed 2 with
                           datatype := cue_datatype.MODE1_2352
                           IndexEntries := 3
                           INDEX := [{ initialized := 1, minutes := 0, seconds := 2, frames := 0 },
                                     { initialized := 1, minutes := 0, seconds := 4, frames := 0 },
                                     { initialized := 1, minutes := 1, seconds := 1, frames := 74 }] }] }] }

/-- A CCD structure with one audio track whose `INDEX[1]` holds the frame count -5. -/
def sample_negative_index_ccd : ccd :=
  { ccd_init with
    TrackEntries := 1
    TRACK := [Uninit.zeroed.TRACK 0,
              { MODE := 0, ISRC := [], INDEX := [-1, -5], IndexEntries := 2, FLAGS := none }] }

/-- A CCD structure with one track of `MODE` 5. -/
def sample_unknown_mode_ccd : ccd :=
  { ccd_init with
    TrackEntries := 1
    TRACK := [Uninit.zeroed.TRACK 0,
              { MODE := 5, ISRC := [], INDEX := [-1, -1], IndexEntries := 2, FLAGS := none }] }

/-- A CCD structure with two tracks: the first with the frame count -5 in `INDEX[1]`,
the second of `MODE` 5. -/
def sample_unknown_mode_negative_ccd : ccd :=
  { ccd_init with
    TrackEntries := 2
    TRACK := [Uninit.zeroed.TRACK 0,
              { MODE := 0, ISRC := [], INDEX := [-1, -5], IndexEntries := 2, FLAGS := none },
              { MODE := 5, ISRC := [], INDEX := [-1, -1], IndexEntries := 2, FLAGS := none }] }

/-- A sheet with one track section whose `MODE` line holds the number 5. -/
def sample_unknown_mode_sheet : List Char :=
  "[TRACK 1]\nMODE=5\n".toList

/-- A sheet with one track section whose `INDEX 1` line holds the number -5. -/
def sample_negative_index_sheet : List Char :=
  "[TRACK 1]\nMODE=0\nINDEX 1=-5\n".toList

/-- A CUE structure with a performer name of 81 characters and nothing else. -/
def sample_long_performer_cue : cue :=
  { cue_init with PERFORMER := some (List.replicate 81 'a') }

/-- A sheet with two track sections, the first without an `INDEX 1` line. -/
def sample_no_index_1_sheet : List Char :=
  "[TRACK 1]\nMODE=0\nINDEX 0=10\n[TRACK 2]\nMODE=1\nINDEX 1=0\n".toList

/-- A CCD structure with the catalog number, the CD-Text entry and the tracks of
`sample_tracks_ccd`, and with other contents everywhere else. -/
def sample_tracks_other_ccd : ccd :=
  { sample_tracks_ccd with
    CloneCD := { Version := 2 }
    Disc := { TocEntries := 1, Sessions := 1, DataTracksScrambled := 1, CDTextLength := 18,
              CATALOG := "0123456789012".toList }
    CDText := { Entries := 4, Entry := [] }
    Session := [{ PreGapMode := 1, PreGapSubC := 1 }, { PreGapMode := 2, PreGapSubC := 0 }]
    Entry := [Uninit.zeroed.Entry 0]
    TRACK := { MODE := 7, ISRC := "X".toList, INDEX := [5], IndexEntries := 9,
               FLAGS := some "junk".toList } :: sample_tracks_ccd.TRACK.tail }

/-- A sheet that announces one Toc entry and holds two. -/
def sample_toc_overflow_sheet : List Char :=
  "[Disc]\nTocEntries=1\n[Entry 0]\n[Entry 1]\n".toList

/-- A line of 1023 letters `x` followed by `Version=7`: longer than the line buffer. -/
def sample_long_line : List Char :=
  List.replicate 1023 'x' ++ "Version=7".toList

/-- A sheet with a catalog number of 17 digits and a track with an ISRC of 16
characters. -/
def sample_long_codes_sheet : List Char :=
  "CATALOG=01234567890123456\n[TRACK 1]\nISRC=ABCDE12345678XYZ\n".toList

/-- Fresh memory that holds what earlier blocks left in it: 7 in every field of a Toc
entry and 9 in every field of a session; elsewhere as `Uninit.zeroed`. -/
def Uninit.stale : Uninit :=
  { Uninit.zeroed with
    Session := fun _ => { PreGapMode := 9, PreGapSubC := 9 }
    Entry := fun _ => { Session := 7, Point := 7, ADR := 7, Control := 7, TrackNo := 7, AMin := 7,
                        ASec := 7, AFrame := 7, ALBA := 7, Zero := 7, PMin := 7, PSec := 7,
                        PFrame := 7, PLBA := 7 } }

/-- A sheet with one session that has a `PreGapMode` line only and one Toc entry that
has a `Session` line only. -/
def sample_unset_fields_sheet : List Char :=
  "[Disc]\nTocEntries=1\nSessions=1\n[Session 1]\nPreGapMode=1\n[Entry 0]\nSession=1\n".toList

/-- A sheet with one track whose `ISRC` line holds three characters. -/
def sample_short_ISRC_sheet : List Char :=
  "[TRACK 1]\nISRC=ABC\n".toList

/-- The CDT structure that `ccd2cdt` builds from `sample_ccd`. -/
def sample_ccd_cdt : cdt :=
  { entries := 1
    entry := [{ data := sample_cdt_data, crc0 := (crc16 sample_cdt_data.bytes >>> 8) &&& 0xff,
                crc1 := crc16 sample_cdt_data.bytes &&& 0xff }] }

/-- A sheet whose track has a negative number in its `INDEX 0` line. -/
def sample_negative_pregap_sheet : List Char :=
  "[TRACK 1]\nMODE=0\nINDEX 0=-150\nINDEX 1=0\n".toList

/-- A sheet that announces five sessions and holds two, each with its two values. -/
def sample_two_sessions_sheet : List Char :=
  "[Disc]\nSessions=5\n[Session 1]\nPreGapMode=1\nPreGapSubC=0\n[Session 2]\nPreGapMode=2\nPreGapSubC=1\n".toList

/-- A sheet that announces two sessions and holds three. -/
def sample_three_sessions_sheet : List Char :=
  "[Disc]\nSessions=2\n[Session 1]\nPreGapMode=1\n[Session 2]\nPreGapMode=2\n[Session 3]\nPreGapMode=3\n".toList

/-- A sheet that announces two CD-Text entries and holds three. -/
def sample_three_cdtext_sheet : List Char :=
  "[CDText]\nEntries=2\nEntry 0= 80 00 00 00 41 42 43 44 45 46 47 48 49 4a 4b 4c\nEntry 1= 80 00 01 00 4d 4e 4f 50 51 52 53 54 55 56 57 58\nEntry 2= 80 00 02 00 59 5a 00 00 00 00 00 00 00 00 00 00\n".toList

/-- A sheet that announces two Toc entries and holds three. -/
def sample_three_toc_sheet : List Char :=
  "[Disc]\nTocEntries=2\n[Entry 0]\nPoint=1\n[Entry 1]\nPoint=2\n[Entry 2]\nPoint=3\n".toList

/-- A sheet with a session header before the line that announces one session. -/
def sample_header_first_sheet : List Char :=
  "[Session 1]\nSessions=1\n".toList

/-- A sheet with a `MODE` line before the first track header and two track sections
whose headers carry the numbers 7 and 7. -/
def sample_numbered_tracks_sheet : List Char :=
  "MODE=2\n[TRACK 7]\nMODE=1\nINDEX 1=0\n[TRACK 7]\nMODE=2\nINDEX 1=300\n".toList

/-- A sheet with one track section that has the lines `INDEX 0`, `INDEX 1`, `INDEX 2`
and `INDEX 7`. -/
def sample_four_indexes_sheet : List Char :=
  "[TRACK 1]\nMODE=0\nINDEX 0=0\nINDEX 1=150\nINDEX 2=300\nINDEX 7=450\n".toList

/-- A CCD structure with one audio track whose `INDEX` array has 101 slots, of which
only the last, slot 100, holds a frame count. -/
def sample_long_index_ccd : ccd :=
  { ccd_init with
    TrackEntries := 1
    TRACK := [Uninit.zeroed.TRACK 0,
              { MODE := 0, ISRC := [], INDEX := List.replicate 100 (-1) ++ [150],
                IndexEntries := 101, FLAGS := none }] }

/-- The CUE structure that `ccd2cue` builds from `sample_long_index_ccd` in zeroed
fresh memory: one track whose `INDEX` array has 101 slots, of which only slot 100 is
set. -/
def sample_long_index_cue : cue :=
  { cue_init with
    FileEntries := 1
    FILE := [{ filename := some "image.img".toList
               filetype := cue_filetype.BINARY
               TrackEntries := 1
               FirstTrack := 1
               TRACK := [cue_TRACK_init Uninit.zeroed 0,
                         { cue_TRACK_init Uninit.zeroed 1 with
                           datatype := cue_datatype.AUDIO_2352
                           IndexEntries := 101
                           INDEX := List.replicate 100
                               { initialized := 0, minutes := 0, seconds := 0, frames := 0 }
                             ++ [{ initialized := 1, minutes := 0, seconds := 2, frames := 0 }] }] }] }

/-! ## Views of the parser state (proof devices) -/

/-- The part of the parser state that belongs to one array with an announced size: the
announced number `count`, the number `seen` of section headers counted so far, and the
number `slots` of slots of the array. -/
structure Tally where
  count : Int
  seen : Int
  slots : Nat
  deriving DecidableEq, Repr

/-- The view of the `Session` array: `Disc.Sessions`, the counter `Session`, and the
slots of `ccd->Session`. -/
def Scan.tally_Session (st : Scan) : Tally :=
  { count := st.ccd.Disc.Sessions, seen := st.Session, slots := st.ccd.Session.length }

/-- The view of the `Entry` (Toc) array: `Disc.TocEntries`, the counter `TocEntry + 1`,
and the slots of `ccd->Entry`. -/
def Scan.tally_Entry (st : Scan) : Tally :=
  { count := st.ccd.Disc.TocEntries, seen := st.TocEntry + 1, slots := st.ccd.Entry.length }

/-- The view of the CD-Text array: `CDText.Entries`, the counter `CDTextEntry + 1`, and
the slots of `ccd->CDText.Entry`. -/
def Scan.tally_CDText (st : Scan) : Tally :=
  { count := st.ccd.CDText.Entries, seen := st.CDTextEntry + 1,
    slots := st.ccd.CDText.Entry.length }

/-- What a count line does to the view of an array: the first positive announcement
`val` is taken, and the array gets `val + extra` slots. -/
def Tally.announce (extra : Int) (val : Option Int) (t : Tally) : Tally :=
  match val with
  | some v => if v > 0 ∧ t.count = 0 then { t with count := v, slots := (v + extra).toNat } else t
  | none => t

/-- What a section header does to the view of an array: it is counted when a positive
number has been announced and the number seen does not exceed it. -/
def Tally.observe (hdr : Bool) (t : Tally) : Tally :=
  if t.count > 0 then
    if hdr = true ∧ t.seen ≤ t.count then { t with seen := t.seen + 1 } else t
  else t

/-- What one line does to the view of an array, given the value `val` that it assigns
as announced number and whether it is a section header. -/
def Tally.step (extra : Int) (val : Option Int) (hdr : Bool) (t : Tally) : Tally :=
  (t.announce extra val).observe hdr

/-- What the statements after the loop do to the view of an array: with fewer headers
seen than announced, the array is cut to `seen` slots and the announcement replaced. -/
def Tally.reconcile (t : Tally) : Tally :=
  if t.seen < t.count then { t with count := t.seen, slots := t.seen.toNat } else t

/-- What a list of lines does to the view of an array; each line is given by the value
it announces, if any, and by whether it is a section header. -/
def Tally.run (extra : Int) (lines : List (Option Int × Bool)) (t : Tally) : Tally :=
  lines.foldl (fun t l => t.step extra l.1 l.2) t

/-- The number of section headers among the lines. -/
def headers (lines : List (Option Int × Bool)) : Nat :=
  lines.countP (fun l => l.2)

/-- A line as the `Session` array sees it: the value of a `Sessions` line and whether it
is a `[Session n]` header. -/
def as_Session (buf : List Char) : Option Int × Bool :=
  ((scan_fields (cstring buf)).Sessions, (scan_fields (cstring buf)).Session_tmp.isSome)

/-- A line as the `Entry` (Toc) array sees it: the value of a `TocEntries` line and
whether it is an `[Entry n]` header. -/
def as_Entry (buf : List Char) : Option Int × Bool :=
  ((scan_fields (cstring buf)).TocEntries, (scan_fields (cstring buf)).TocEntry_tmp.isSome)

/-- A line as the CD-Text array sees it: the value of an `Entries` line and whether it
is an `Entry n = ...` line. -/
def as_CDText (buf : List Char) : Option Int × Bool :=
  ((scan_fields (cstring buf)).CDTextEntries, (scan_fields (cstring buf)).CDTextEntry_tmp.isSome)

/-- The part of the parser state that belongs to the tracks: the counter `TRACK`, the
number `TrackEntries` and the `TRACK` array. -/
def Scan.tracks (st : Scan) : Int × Int × List ccd_TRACK :=
  (st.TRACK, st.ccd.TrackEntries, st.ccd.TRACK)

/-- The relation between the parser state before and after statements that only write
to the current slot of the `TRACK` array: the counter, the number of tracks and the
size of the array stay, the other slots stay, and a current slot with the property `P`
still has it. -/
def Scan.keeps (P : ccd_TRACK → Prop) (st st' : Scan) : Prop :=
  st'.TRACK = st.TRACK ∧ st'.ccd.TrackEntries = st.ccd.TrackEntries
  ∧ st'.ccd.TRACK.length = st.ccd.TRACK.length
  ∧ (∀ i : Nat, (i : Int) ≠ st.TRACK → st'.ccd.TRACK.get? i = st.ccd.TRACK.get? i)
  ∧ (∀ t, peek st.ccd.TRACK st.TRACK = some t → P t →
      ∃ t', peek st'.ccd.TRACK st.TRACK = some t' ∧ P t')

/-- The parser states after `k` track headers: the counter and the number of tracks are
`k`, and the `TRACK` array has the slots 0 to `k` (it is still a null pointer for
`k = 0`). -/
def Scan.counted (k : Nat) (st : Scan) : Prop :=
  st.TRACK = k ∧ st.ccd.TrackEntries = k ∧ st.ccd.TRACK.length = if k = 0 then 0 else k + 1

instance (k : Nat) (st : Scan) : Decidable (st.counted k) := by
  unfold Scan.counted
  infer_instance

/-- The tracks whose `INDEX[1]` holds the mark -1, with at least the two fixed slots
counted. -/
def ccd_TRACK.INDEX_1_unset (t : ccd_TRACK) : Prop :=
  t.INDEX.get? 1 = some (-1) ∧ 2 ≤ t.IndexEntries

instance (t : ccd_TRACK) : Decidable t.INDEX_1_unset := by
  unfold ccd_TRACK.INDEX_1_unset
  infer_instance

/-- The part of the parser state that the "simple data" lines write: `CloneCD.Version`,
`Disc.DataTracksScrambled`, `Disc.CDTextLength` and `Disc.CATALOG`. -/
def Scan.simple (st : Scan) : Int × Int × Int × List Char :=
  (st.ccd.CloneCD.Version, st.ccd.Disc.DataTracksScrambled, st.ccd.Disc.CDTextLength,
    st.ccd.Disc.CATALOG)

/-- The structure that the statements after the loop of `stream2ccd` leave when every
`xrealloc` call returns. -/
def Scan.reconciled (u : Uninit) (st : Scan) : Ccd2cue.ccd :=
  let c := st.ccd
  let c :=
    if st.Session < c.Disc.Sessions then
      { c with Session := realloc_block u.Session c.Session st.Session
               Disc := { c.Disc with Sessions := st.Session } }
    else c
  let c :=
    if st.TocEntry + 1 < c.Disc.TocEntries then
      { c with Entry := realloc_block u.Entry c.Entry (st.TocEntry + 1)
               Disc := { c.Disc with TocEntries := st.TocEntry + 1 } }
    else c
  if st.CDTextEntry + 1 < c.CDText.Entries then
    { c with CDText := { Entry := realloc_block u.CDText c.CDText.Entry (st.CDTextEntry + 1)
                         Entries := st.CDTextEntry + 1 } }
  else c

/-- The parser states after the loop in which an array has been announced and no
header of its kind has been counted: the states in which the statements after the loop
call `xrealloc` with size 0. -/
def Scan.starved (st : Scan) : Prop :=
  (st.Session = 0 ∧ 0 < st.ccd.Disc.Sessions)
  ∨ (st.TocEntry + 1 = 0 ∧ 0 < st.ccd.Disc.TocEntries)
  ∨ (st.CDTextEntry + 1 = 0 ∧ 0 < st.ccd.CDText.Entries)

instance (st : Scan) : Decidable st.starved := by
  unfold Scan.starved
  infer_instance

/-- The lines on which the template `INDEX n =` assigns a number other than 0 and 1:
the lines that add a slot to the `INDEX` array of the track. -/
def appends_INDEX (l : List Char) : Bool :=
  match (scan_fields (cstring l)).INDEX_tmp with
  | some n => decide (¬ (n = 0 ∨ n = 1))
  | none => false

/-- The relation between a track before (`t`) and after (`t'`) the `INDEX` statements
of the loop body for a line with the values `m`, as far as the `INDEX` array and
`IndexEntries` go. -/
def INDEX_step (m : LineScan) (t t' : ccd_TRACK) : Prop :=
  (m.INDEX_tmp = none → t'.IndexEntries = t.IndexEntries ∧ t'.INDEX = t.INDEX)
  ∧ (∀ n, m.INDEX_tmp = some n → (n = 0 ∨ n = 1) →
      t'.IndexEntries = t.IndexEntries
      ∧ (m.INDEX = none → t'.INDEX = t.INDEX)
      ∧ ∀ v, m.INDEX = some v → t'.INDEX = t.INDEX.set n.toNat v)
  ∧ (∀ n, m.INDEX_tmp = some n → ¬ (n = 0 ∨ n = 1) →
      t'.IndexEntries = t.IndexEntries + 1
      ∧ ∃ x, t'.INDEX = t.INDEX ++ [x] ∧ ∀ v, m.INDEX = some v → x = v)

/-! ## Theorems: frames to MSF -/

/-- C4: for every frame count `n >= 0`, `frames2msf n` returns the time with
minutes `n div 4500`, seconds `(n mod 4500) div 75`, frames `n mod 75`, marked
as initialized. -/
theorem frames2msf_spec (n : Nat) :
    frames2msf (n : Int) =
      .ok { initialized := 1, minutes := n / 4500, seconds := (n % 4500) / 75,
            frames := n % 75 } := by
  have h : ¬ ((n : Int) < 0) := by omega
  have h75 : n % 4500 % 75 = n % 75 := Nat.mod_mod_of_dvd n (by decide)
  simp [frames2msf, h, FRAMES_PER_MINUTE, FRAMES_PER_SECOND, SECONDS_PER_MINUTE, h75]

/-- C5, as stated, fails: `frames2msf 4649` does not give seconds 2; the result is
not minutes 1, seconds 2, frames 74. -/
theorem frames2msf_4649_not_1_2_74 :
    frames2msf 4649 ≠ .ok { initialized := 1, minutes := 1, seconds := 2, frames := 74 } := by
  simp [frames2msf, FRAMES_PER_MINUTE, FRAMES_PER_SECOND, SECONDS_PER_MINUTE]

/-- C5, amended: `frames2msf 4649` gives minutes 1, seconds 1, frames 74
(4649 = 1 * 4500 + 1 * 75 + 74). -/
theorem frames2msf_4649 :
    frames2msf 4649 = .ok { initialized := 1, minutes := 1, seconds := 1, frames := 74 } := by
  simp [frames2msf, FRAMES_PER_MINUTE, FRAMES_PER_SECOND, SECONDS_PER_MINUTE]

/-! ## Theorems: the checksum -/

set_option maxRecDepth 100000 in
/-- C7: `crc16` over the 16-byte buffer of zero bytes is `0xFFFF`. -/
theorem crc16_zero_buffer : crc16 (List.replicate 16 0) = 0xFFFF := by
  decide

theorem and_two_pow_15 (a : Nat) : a &&& (1 <<< 15) ≠ 0 ↔ a.testBit 15 = true := by
  constructor
  · intro h
    by_contra hb
    apply h
    apply Nat.eq_of_testBit_eq
    intro i
    have : (1 <<< 15 : Nat) = 2 ^ 15 := by decide
    rw [Nat.testBit_and, this, Nat.testBit_two_pow]
    by_cases hi : 15 = i
    · subst hi
      simp at hb
      simp [hb]
    · simp [hi]
  · intro hb h
    have h2 : (a &&& (1 <<< 15)).testBit 15 = true := by
      rw [Nat.testBit_and, hb]
      decide
    rw [h] at h2
    simp at h2

/-- Closed form of the inner loop pass of `crc16`. -/
theorem crc16_bit_eq (a : Nat) :
    crc16_bit a = ((a <<< 1) % 2 ^ 16) ^^^ (if a.testBit 15 then P16CCITT_N else 0) := by
  unfold crc16_bit
  by_cases hb : a.testBit 15 = true
  · rw [if_pos ((and_two_pow_15 a).2 hb), if_pos hb]
    apply Nat.eq_of_testBit_eq
    intro i
    simp only [Nat.testBit_mod_two_pow, Nat.testBit_xor]
    by_cases hi : i < 16
    · simp [hi]
    · have : P16CCITT_N.testBit i = false := by
        apply Nat.testBit_lt_two_pow
        calc P16CCITT_N < 2 ^ 16 := by decide
          _ ≤ 2 ^ i := Nat.pow_le_pow_right (by decide) (by omega)
      simp [hi, this]
  · have hn : ¬ (a &&& (1 <<< 15) ≠ 0) := fun h => hb ((and_two_pow_15 a).1 h)
    rw [if_neg hn, if_neg hb, Nat.xor_zero]

theorem crc16_bit_xor (a b : Nat) : crc16_bit (a ^^^ b) = crc16_bit a ^^^ crc16_bit b := by
  rw [crc16_bit_eq, crc16_bit_eq, crc16_bit_eq]
  apply Nat.eq_of_testBit_eq
  intro i
  simp only [Nat.testBit_xor, Nat.testBit_mod_two_pow, Nat.testBit_shiftLeft]
  cases a.testBit 15 <;> cases b.testBit 15 <;>
    simp only [Bool.false_bne, Bool.true_bne, Bool.not_true, Bool.not_false, if_true, if_false,
      Nat.zero_testBit, Bool.xor_false, Bool.bne_false, Bool.false_eq_true, Bool.bne_true] <;>
    generalize decide (i < 16) = p <;> generalize decide (i ≥ 1) = q <;>
    generalize a.testBit (i - 1) = x <;> generalize b.testBit (i - 1) = y <;>
    generalize P16CCITT_N.testBit i = z <;>
    cases p <;> cases q <;> cases x <;> cases y <;> cases z <;> rfl

theorem crc16_bit_lt (a : Nat) : crc16_bit a < 2 ^ 16 := by
  unfold crc16_bit
  split <;> exact Nat.mod_lt _ (by decide)


theorem gf2_mul_zero (g : Nat) : gf2_mul 0 g = 0 := by
  rw [gf2_mul]
  simp

theorem gf2_mul_bit (q g e : Nat) (he : e < 2) :
    gf2_mul (2 * q + e) g = (if e = 1 then g else 0) ^^^ (2 * gf2_mul q g) := by
  by_cases h0 : 2 * q + e = 0
  · have hq : q = 0 := by omega
    have he0 : e = 0 := by omega
    subst hq
    subst he0
    simp [gf2_mul_zero]
  · rw [gf2_mul, dif_neg h0]
    have h1 : (2 * q + e) / 2 = q := by omega
    have h2 : ((2 * q + e) % 2 = 1) ↔ (e = 1) := by omega
    rw [h1]
    simp only [h2]

theorem two_mul_xor (a b : Nat) : 2 * (a ^^^ b) = 2 * a ^^^ 2 * b := by
  apply Nat.eq_of_testBit_eq
  intro i
  have h : ∀ x : Nat, 2 * x = x <<< 1 := by
    intro x
    rw [Nat.shiftLeft_eq]
    omega
  simp only [h, Nat.testBit_shiftLeft, Nat.testBit_xor]
  cases decide (i ≥ 1) <;> simp

theorem shiftLeft_add_eq_xor (a b n : Nat) (hb : b < 2 ^ n) : a * 2 ^ n + b = (a * 2 ^ n) ^^^ b := by
  apply Nat.eq_of_testBit_eq
  intro i
  have h1 := Nat.testBit_mul_pow_two_add a hb i
  have h2 := Nat.testBit_mul_pow_two_add a (Nat.two_pow_pos n) i
  rw [Nat.mul_comm] at h1 h2
  rw [Nat.add_zero] at h2
  rw [Nat.testBit_xor, h1, h2]
  by_cases hi : i < n
  · simp [hi]
  · have : b.testBit i = false := by
      apply Nat.testBit_lt_two_pow
      exact Nat.lt_of_lt_of_le hb (Nat.pow_le_pow_right (by decide) (by omega))
    simp [hi, this]

/-- One pass of the inner loop multiplies the accumulator by `x` and reduces it: it
subtracts the CCITT polynomial once or not at all. -/
theorem testBit_false_of_lt {x n i : Nat} (hx : x < 2 ^ n) (hi : n ≤ i) : x.testBit i = false := by
  apply Nat.testBit_lt_two_pow
  exact Nat.lt_of_lt_of_le hx (Nat.pow_le_pow_right (by decide) hi)

theorem crc16_bit_reduce (c : Nat) (hc : c < 2 ^ 16) :
    ∃ e, e < 2 ∧ 2 * c = (if e = 1 then ccitt_poly else 0) ^^^ crc16_bit c := by
  rw [crc16_bit_eq]
  have h2 : 2 * c = c <<< 1 := by
    rw [Nat.shiftLeft_eq]
    omega
  have hP : P16CCITT_N < 2 ^ 16 := by decide
  have hG : ccitt_poly < 2 ^ 17 := by decide
  by_cases hb : c.testBit 15 = true
  · refine ⟨1, by decide, ?_⟩
    rw [if_pos rfl, if_pos hb, h2]
    apply Nat.eq_of_testBit_eq
    intro i
    simp only [Nat.testBit_xor, Nat.testBit_mod_two_pow, Nat.testBit_shiftLeft]
    by_cases hi : i < 16
    · have : ccitt_poly.testBit i = P16CCITT_N.testBit i := by
        have := Nat.testBit_two_pow_add_gt hi P16CCITT_N
        simpa [ccitt_poly, P16CCITT_N] using this
      rw [this]
      simp only [hi, decide_True, Bool.true_and]
      generalize (decide (i ≥ 1) && c.testBit (i - 1)) = x
      generalize P16CCITT_N.testBit i = z
      cases x <;> cases z <;> rfl
    · by_cases h16 : i = 16
      · subst h16
        have e1 : ccitt_poly.testBit 16 = true := by decide
        have e2 : P16CCITT_N.testBit 16 = false := by decide
        simp [hb, e1, e2]
      · have hc1 : c.testBit (i - 1) = false := testBit_false_of_lt hc (by omega)
        have hg : ccitt_poly.testBit i = false := testBit_false_of_lt hG (by omega)
        have hp : P16CCITT_N.testBit i = false := testBit_false_of_lt hP (by omega)
        simp [hi, hc1, hg, hp]
  · refine ⟨0, by decide, ?_⟩
    have hb' : c.testBit 15 = false := by simpa using hb
    rw [if_neg (by decide), if_neg hb, Nat.xor_zero, Nat.zero_xor, h2]
    apply Nat.eq_of_testBit_eq
    intro i
    simp only [Nat.testBit_mod_two_pow, Nat.testBit_shiftLeft]
    by_cases hi : i < 16
    · simp [hi]
    · by_cases h16 : i = 16
      · subst h16
        simp [hb']
      · have hc1 : c.testBit (i - 1) = false := testBit_false_of_lt hc (by omega)
        simp [hi, hc1]

theorem crc16_bit_iterate_lt (k c : Nat) (hc : c < 2 ^ 16) : crc16_bit^[k] c < 2 ^ 16 := by
  cases k with
  | zero => exact hc
  | succ k =>
    rw [Function.iterate_succ_apply']
    exact crc16_bit_lt _

/-- After `k` passes of the inner loop the accumulator is `x ^ k` times the start value,
up to a multiple of the CCITT polynomial. -/
theorem crc16_bit_iterate_reduce (k y q c : Nat) (hc : c < 2 ^ 16)
    (h : y = gf2_mul q ccitt_poly ^^^ c) :
    ∃ q', 2 ^ k * y = gf2_mul q' ccitt_poly ^^^ crc16_bit^[k] c := by
  induction k with
  | zero => exact ⟨q, by simpa using h⟩
  | succ k ih =>
    obtain ⟨q', hq'⟩ := ih
    obtain ⟨e, he, hstep⟩ := crc16_bit_reduce _ (crc16_bit_iterate_lt k c hc)
    refine ⟨2 * q' + e, ?_⟩
    rw [Function.iterate_succ_apply', gf2_mul_bit _ _ _ he, Nat.pow_succ, Nat.mul_comm (2 ^ k) 2,
      Nat.mul_assoc, hq', two_mul_xor, hstep]
    rw [← Nat.xor_assoc, Nat.xor_comm (2 * gf2_mul q' ccitt_poly)]


/-- One pass of the outer loop keeps the accumulator equal to the remainder of the
polynomial of the bytes read so far, times `x ^ 16`. -/
theorem crc16_byte_remainder (M c byte : Nat) (h : ccitt_remainder (M * 2 ^ 16) c) :
    ccitt_remainder ((M * 2 ^ 8 + byte % 2 ^ 8) * 2 ^ 16) (crc16_byte c byte) := by
  obtain ⟨hc, q, hq⟩ := h
  have hB : byte % 2 ^ 8 < 2 ^ 8 := Nat.mod_lt _ (by decide)
  have hB8 : (byte % 2 ^ 8) <<< 8 < 2 ^ 16 := by
    rw [Nat.shiftLeft_eq]
    omega
  have hx : c ^^^ (byte % 2 ^ 8) <<< 8 < 2 ^ 16 := Nat.xor_lt_two_pow hc hB8
  unfold crc16_byte
  rw [Nat.mod_eq_of_lt hx]
  refine ⟨crc16_bit_iterate_lt 8 _ hx, ?_⟩
  have hy : M * 2 ^ 16 + (byte % 2 ^ 8) <<< 8
      = gf2_mul q ccitt_poly ^^^ (c ^^^ (byte % 2 ^ 8) <<< 8) := by
    rw [shiftLeft_add_eq_xor M _ 16 hB8, hq, Nat.xor_assoc]
  obtain ⟨q', hq'⟩ := crc16_bit_iterate_reduce 8 _ q _ hx hy
  refine ⟨q', ?_⟩
  rw [← hq', Nat.shiftLeft_eq]
  ring

theorem crc16_foldl_remainder (message : List Nat) (M c : Nat)
    (h : ccitt_remainder (M * 2 ^ 16) c) :
    ccitt_remainder
      (message.foldl (fun acc byte => acc * 2 ^ 8 + byte % 2 ^ 8) M * 2 ^ 16)
      (message.foldl crc16_byte c) := by
  induction message generalizing M c with
  | nil => exact h
  | cons b t ih => exact ih _ _ (crc16_byte_remainder M c b h)

theorem crc16_acc_remainder (message : List Nat) :
    ccitt_remainder (message_poly message * 2 ^ 16) (crc16_acc message) := by
  apply crc16_foldl_remainder
  exact ⟨by decide, 0, by simp [gf2_mul_zero]⟩

theorem gf2_mul_xor (g : Nat) : ∀ a b : Nat, gf2_mul (a ^^^ b) g = gf2_mul a g ^^^ gf2_mul b g := by
  intro a
  induction a using Nat.strong_induction_on with
  | _ a ih =>
    intro b
    by_cases ha : a = 0
    · subst ha
      simp [gf2_mul_zero]
    · have ea : a = 2 * (a / 2) + a % 2 := by omega
      have eb : b = 2 * (b / 2) + b % 2 := by omega
      have exor : a ^^^ b = 2 * (a / 2 ^^^ b / 2) + (a ^^^ b) % 2 := by
        have := Nat.xor_div_two (a := a) (b := b)
        omega
      have hm : (a ^^^ b) % 2 = (a % 2 + b % 2) % 2 := by
        have h1 := Nat.testBit_xor a b 0
        simp only [Nat.testBit_zero] at h1
        rcases Nat.mod_two_eq_zero_or_one a with h | h <;>
          rcases Nat.mod_two_eq_zero_or_one b with h' | h' <;>
          rcases Nat.mod_two_eq_zero_or_one (a ^^^ b) with h'' | h'' <;>
          simp [h, h', h''] at h1 ⊢
      rw [exor, gf2_mul_bit _ _ _ (Nat.mod_lt _ (by decide)), ih (a / 2) (by omega) (b / 2)]
      conv_rhs => rw [ea, eb, gf2_mul_bit _ _ _ (Nat.mod_lt _ (by decide)),
        gf2_mul_bit _ _ _ (Nat.mod_lt _ (by decide))]
      rw [two_mul_xor, hm]
      generalize 2 * gf2_mul (a / 2) g = X
      generalize 2 * gf2_mul (b / 2) g = Y
      apply Nat.eq_of_testBit_eq
      intro i
      rcases Nat.mod_two_eq_zero_or_one a with h | h <;>
        rcases Nat.mod_two_eq_zero_or_one b with h' | h' <;>
        simp only [h, h', Nat.testBit_xor, Nat.zero_testBit, Nat.reduceAdd, Nat.reduceMod,
          if_true, if_false, Nat.zero_ne_one, Nat.one_ne_zero] <;>
        cases g.testBit i <;> cases X.testBit i <;> cases Y.testBit i <;> rfl


theorem gf2_mul_ccitt_ge (q : Nat) (hq : q ≠ 0) : 2 ^ 16 ≤ gf2_mul q ccitt_poly := by
  induction q using Nat.strong_induction_on with
  | _ q ih =>
    have eq : q = 2 * (q / 2) + q % 2 := by omega
    rw [eq, gf2_mul_bit _ _ _ (Nat.mod_lt _ (by decide))]
    by_cases h2 : q / 2 = 0
    · have h1 : q % 2 = 1 := by omega
      rw [h2, h1, gf2_mul_zero]
      decide
    · have hge := ih (q / 2) (by omega) h2
      obtain ⟨i, hi, hbit⟩ := Nat.ge_two_pow_implies_high_bit_true
        (show 2 * gf2_mul (q / 2) ccitt_poly ≥ 2 ^ 17 by omega)
      have hG : ccitt_poly < 2 ^ 17 := by decide
      have hlow : (if q % 2 = 1 then ccitt_poly else 0).testBit i = false := by
        split
        · exact testBit_false_of_lt hG hi
        · exact Nat.zero_testBit i
      have : ((if q % 2 = 1 then ccitt_poly else 0) ^^^ 2 * gf2_mul (q / 2) ccitt_poly).testBit i
          = true := by
        rw [Nat.testBit_xor, hlow, hbit]
        rfl
      have h3 := Nat.testBit_implies_ge this
      have h4 : 2 ^ 17 ≤ 2 ^ i := Nat.pow_le_pow_right (by decide) hi
      omega

/-- The remainder of a division by the CCITT polynomial is unique. -/
theorem ccitt_remainder_unique (a r r' : Nat) (h : ccitt_remainder a r)
    (h' : ccitt_remainder a r') : r = r' := by
  obtain ⟨hr, q, hq⟩ := h
  obtain ⟨hr', q', hq'⟩ := h'
  have hx : gf2_mul (q ^^^ q') ccitt_poly = r ^^^ r' := by
    rw [gf2_mul_xor]
    apply Nat.eq_of_testBit_eq
    intro i
    have := congrArg (fun x => x.testBit i) (hq.symm.trans hq')
    simp only [Nat.testBit_xor] at this ⊢
    revert this
    cases (gf2_mul q ccitt_poly).testBit i <;> cases (gf2_mul q' ccitt_poly).testBit i <;>
      cases r.testBit i <;> cases r'.testBit i <;> simp
  have hlt : r ^^^ r' < 2 ^ 16 := Nat.xor_lt_two_pow hr hr'
  have hz : q ^^^ q' = 0 := by
    by_contra hne
    have := gf2_mul_ccitt_ge _ hne
    omega
  rw [hz, gf2_mul_zero] at hx
  apply Nat.eq_of_testBit_eq
  intro i
  have := congrArg (fun x => x.testBit i) hx
  simp only [Nat.testBit_xor, Nat.zero_testBit] at this
  revert this
  cases r.testBit i <;> cases r'.testBit i <;> simp


theorem complement16 (r : Nat) (hr : r < 2 ^ 16) : 2 ^ 16 - 1 - r = r ^^^ 0xFFFF := by
  have e : 2 ^ 16 - 1 - r = 2 ^ 16 - (r + 1) := by omega
  have e2 : (0xFFFF : Nat) = 2 ^ 16 - 1 := by decide
  rw [e, e2]
  apply Nat.eq_of_testBit_eq
  intro i
  rw [Nat.testBit_two_pow_sub_succ hr, Nat.testBit_xor, Nat.testBit_two_pow_sub_one]
  by_cases hi : i < 16
  · simp [hi]
  · simp [hi, testBit_false_of_lt hr (by omega : 16 ≤ i)]

set_option maxRecDepth 100000 in
/-- C6: for every byte sequence, `crc16` is the 16-bit complement of the remainder of
the message polynomial times `x ^ 16` divided by `x ^ 16 + x ^ 12 + x ^ 5 + 1` over GF(2)
(bytes most significant bit first, start value 0); the remainder is unique; and
`crc16` of the ASCII bytes of `123456789` is `0xCE3C`. -/
theorem crc16_is_complement_of_ccitt_remainder :
    (∀ message : List Nat, ∃ r,
      ccitt_remainder (message_poly message * 2 ^ 16) r
      ∧ (∀ r', ccitt_remainder (message_poly message * 2 ^ 16) r' → r' = r)
      ∧ crc16 message = 2 ^ 16 - 1 - r
      ∧ crc16 message = r ^^^ 0xFFFF)
    ∧ crc16 ("123456789".toList.map Char.toNat) = 0xCE3C := by
  refine ⟨fun message => ⟨crc16_acc message, crc16_acc_remainder message, ?_, rfl, ?_⟩, by decide⟩
  · intro r' h'
    exact ccitt_remainder_unique _ _ _ h' (crc16_acc_remainder message)
  · exact complement16 _ (crc16_acc_remainder message).1

theorem crc16_bit_ne_zero (c : Nat) (hc : c < 2 ^ 16) (h0 : c ≠ 0) : crc16_bit c ≠ 0 := by
  rw [crc16_bit_eq]
  by_cases hb : c.testBit 15 = true
  · rw [if_pos hb]
    intro h
    have h1 := congrArg (fun x => x.testBit 0) h
    simp only [Nat.testBit_xor, Nat.testBit_mod_two_pow, Nat.testBit_shiftLeft,
      Nat.zero_testBit] at h1
    have h2 : P16CCITT_N.testBit 0 = true := by decide
    rw [h2] at h1
    simp at h1
  · rw [if_neg hb, Nat.xor_zero, Nat.shiftLeft_eq]
    have hb' : c.testBit 15 = false := by simpa using hb
    rw [Nat.testBit_to_div_mod] at hb'
    have : ¬ (c / 2 ^ 15 % 2 = 1) := by simpa using hb'
    omega

theorem crc16_bit_iterate_ne_zero (k c : Nat) (hc : c < 2 ^ 16) (h0 : c ≠ 0) :
    crc16_bit^[k] c ≠ 0 := by
  induction k with
  | zero => exact h0
  | succ k ih =>
    rw [Function.iterate_succ_apply']
    exact crc16_bit_ne_zero _ (crc16_bit_iterate_lt k c hc) ih

theorem crc16_bit_iterate_xor (k a b : Nat) :
    crc16_bit^[k] (a ^^^ b) = crc16_bit^[k] a ^^^ crc16_bit^[k] b := by
  induction k with
  | zero => rfl
  | succ k ih => rw [Function.iterate_succ_apply', Function.iterate_succ_apply',
      Function.iterate_succ_apply', ih, crc16_bit_xor]

theorem crc16_byte_xor (c d x y : Nat) :
    crc16_byte (c ^^^ d) (x ^^^ y) = crc16_byte c x ^^^ crc16_byte d y := by
  unfold crc16_byte
  rw [← crc16_bit_iterate_xor]
  congr 1
  apply Nat.eq_of_testBit_eq
  intro i
  simp only [Nat.testBit_xor, Nat.testBit_mod_two_pow, Nat.testBit_shiftLeft]
  generalize decide (i < 16) = p
  generalize decide (i ≥ 8) = q
  generalize decide (i - 8 < 8) = w
  cases p <;> cases q <;> cases w <;> cases c.testBit i <;> cases d.testBit i <;>
    cases x.testBit (i - 8) <;> cases y.testBit (i - 8) <;> rfl

theorem crc16_byte_lt (c x : Nat) : crc16_byte c x < 2 ^ 16 :=
  crc16_bit_iterate_lt 8 _ (Nat.mod_lt _ (by decide))

theorem crc16_foldl_lt (l : List Nat) (c : Nat) (hc : c < 2 ^ 16) :
    l.foldl crc16_byte c < 2 ^ 16 := by
  induction l generalizing c with
  | nil => exact hc
  | cons x t ih => exact ih _ (crc16_byte_lt c x)

/-- A difference `d` between two accumulators survives the rest of the message: the
results differ by what the loop makes of `d` on zero bytes, which is not zero. -/
theorem crc16_foldl_xor (l : List Nat) (c d : Nat) (hd : d < 2 ^ 16) (h0 : d ≠ 0) :
    ∃ z, z ≠ 0 ∧ l.foldl crc16_byte (c ^^^ d) = l.foldl crc16_byte c ^^^ z := by
  induction l generalizing c d with
  | nil => exact ⟨d, h0, rfl⟩
  | cons x t ih =>
    have hstep : crc16_byte (c ^^^ d) x = crc16_byte c x ^^^ crc16_byte d 0 := by
      have := crc16_byte_xor c d x 0
      rwa [Nat.xor_zero] at this
    have hne : crc16_byte d 0 ≠ 0 := by
      unfold crc16_byte
      simp only [Nat.zero_mod, Nat.zero_shiftLeft, Nat.xor_zero]
      rw [Nat.mod_eq_of_lt hd]
      exact crc16_bit_iterate_ne_zero 8 d hd h0
    simp only [List.foldl_cons, hstep]
    exact ih _ _ (crc16_byte_lt d 0) hne

theorem modify_append_cons {α : Type} (f : α → α) (pre : List α) (x : α) (post : List α) :
    (pre ++ x :: post).modify f pre.length = pre ++ f x :: post := by
  induction pre with
  | nil => rfl
  | cons a t ih => simp [ih]

theorem crc16_acc_flip (pre post : List Nat) (x j : Nat) (hj : j < 8) :
    ∃ z, z ≠ 0 ∧
      crc16_acc (pre ++ (x ^^^ 2 ^ j) :: post) = crc16_acc (pre ++ x :: post) ^^^ z := by
  unfold crc16_acc
  simp only [List.foldl_append, List.foldl_cons]
  have hstep : crc16_byte (pre.foldl crc16_byte 0) (x ^^^ 2 ^ j)
      = crc16_byte (pre.foldl crc16_byte 0) x ^^^ crc16_byte 0 (2 ^ j) := by
    have := crc16_byte_xor (pre.foldl crc16_byte 0) 0 x (2 ^ j)
    rwa [Nat.xor_zero] at this
  have hne : crc16_byte 0 (2 ^ j) ≠ 0 := by
    unfold crc16_byte
    have h1 : 2 ^ j < 2 ^ 8 := Nat.pow_lt_pow_right (by decide) hj
    have h2 : (2 ^ j) <<< 8 = 2 ^ (j + 8) := by
      rw [Nat.shiftLeft_eq, Nat.pow_add]
    have h3 : 2 ^ (j + 8) < 2 ^ 16 := Nat.pow_lt_pow_right (by decide) (by omega)
    rw [Nat.zero_xor, Nat.mod_eq_of_lt h1, h2, Nat.mod_eq_of_lt h3]
    exact crc16_bit_iterate_ne_zero 8 _ h3 (Nat.pos_iff_ne_zero.mp (Nat.two_pow_pos _))
  rw [hstep]
  exact crc16_foldl_xor post _ _ (crc16_byte_lt 0 _) hne

/-- C8: for every 16-byte buffer and every bit position below 128, `crc16` of the
buffer with that bit flipped differs from `crc16` of the buffer. -/
theorem crc16_detects_single_bit_flip (b : List Nat) (hb : b.length = 16) (k : Nat)
    (hk : k < 128) : crc16 (flip_bit b k) ≠ crc16 b := by
  have hlen : k / 8 < b.length := by omega
  have hsplit : b = b.take (k / 8) ++ b[k / 8] :: b.drop (k / 8 + 1) := by
    rw [← List.drop_eq_getElem_cons hlen, List.take_append_drop]
  have hpre : (b.take (k / 8)).length = k / 8 := by
    rw [List.length_take]
    omega
  have hflip : flip_bit b k
      = b.take (k / 8) ++ (b[k / 8] ^^^ 2 ^ (k % 8)) :: b.drop (k / 8 + 1) := by
    unfold flip_bit
    conv_lhs => rw [hsplit]
    have := modify_append_cons (fun byte => byte ^^^ 2 ^ (k % 8)) (b.take (k / 8)) b[k / 8]
      (b.drop (k / 8 + 1))
    rwa [hpre] at this
  obtain ⟨z, hz, hacc⟩ := crc16_acc_flip (b.take (k / 8)) (b.drop (k / 8 + 1)) b[k / 8] (k % 8)
    (Nat.mod_lt _ (by decide))
  rw [← hflip, ← hsplit] at hacc
  have h1 : crc16_acc b < 2 ^ 16 := crc16_foldl_lt b 0 (by decide)
  have h2 : crc16_acc (flip_bit b k) < 2 ^ 16 := crc16_foldl_lt _ 0 (by decide)
  intro h
  unfold crc16 at h
  have heq : crc16_acc (flip_bit b k) = crc16_acc b := by omega
  rw [hacc] at heq
  apply hz
  have : z = crc16_acc b ^^^ (crc16_acc b ^^^ z) := by
    rw [← Nat.xor_assoc, Nat.xor_self, Nat.zero_xor]
  rw [this, heq, Nat.xor_self]

/-- Witness of C8 for the 16 bytes of the sample CD-Text record and bit 77. -/
theorem crc16_detects_single_bit_flip_witness :
    sample_cdt_data.bytes.length = 16 ∧ 77 < 128
    ∧ crc16 (flip_bit sample_cdt_data.bytes 77) ≠ crc16 sample_cdt_data.bytes :=
  ⟨by decide, by decide, crc16_detects_single_bit_flip sample_cdt_data.bytes (by decide) 77
    (by decide)⟩

/-! ## Theorems: the CDT records -/

/-- Reading the slots of an array one after the other by index is a pass over the
array. -/
theorem mapM_range'_fetch {α β : Type} (g : α → Except Failure β) (pre l : List α) :
    (List.range' pre.length l.length).mapM (fun i => fetch (pre ++ l) i >>= g) = l.mapM g := by
  induction l generalizing pre with
  | nil => rfl
  | cons x t ih =>
    have h := ih (pre ++ [x])
    simp only [List.length_append, List.length_singleton, List.append_assoc,
      List.singleton_append] at h
    have hx : fetch (pre ++ x :: t) pre.length = .ok x := by
      unfold fetch
      rw [List.get?_eq_getElem?, List.getElem?_append_right (Nat.le_refl _)]
      simp
    rw [List.length_cons, List.range'_succ, List.mapM_cons, List.mapM_cons, h, hx]
    rfl

theorem mapM_range_fetch {α β : Type} (g : α → Except Failure β) (l : List α) :
    (List.range l.length).mapM (fun i => fetch l i >>= g) = l.mapM g := by
  have h := mapM_range'_fetch g [] l
  simpa [List.range_eq_range'] using h

theorem mapM_pure {α β : Type} (f : α → β) (l : List α) :
    l.mapM (fun x => (pure (f x) : Except Failure β)) = .ok (l.map f) := by
  induction l with
  | nil => rfl
  | cons x t ih =>
    rw [List.mapM_cons, ih]
    rfl

theorem crc16_lt (m : List Nat) : crc16 m < 2 ^ 16 := by
  unfold crc16
  omega

theorem crc16_high_byte (m : List Nat) : (crc16 m >>> 8) &&& 0xff = crc16 m >>> 8 := by
  have := crc16_lt m
  have h1 : crc16 m >>> 8 < 2 ^ 8 := by
    rw [Nat.shiftRight_eq_div_pow]
    omega
  exact Nat.and_pow_two_sub_one_of_lt_two_pow h1

/-- C9: for every CCD structure with `n >= 0` CD-Text entries (the CD-Text array has
exactly `Entries` slots), `ccd2cdt` returns `n` and leaves `n` records in the original
order; record `i` holds the payload of entry `i` as it is, and the checksum bytes
`crc16 (payload) >> 8` and `crc16 (payload) & 0xFF`.  With no entry the result is the
empty structure and the return value 0. -/
theorem ccd2cdt_spec (c : ccd) (h : c.CDText.Entries = (c.CDText.Entry.length : Int)) :
    ccd2cdt c = .ok ((c.CDText.Entry.length : Int),
      { entries := (c.CDText.Entry.length : Int)
        entry := c.CDText.Entry.map fun d =>
          { data := d, crc0 := crc16 d.bytes >>> 8, crc1 := crc16 d.bytes &&& 0xFF } })
    ∧ (c.CDText.Entry = [] → ccd2cdt c = .ok (0, { entries := 0, entry := [] })) := by
  have hn : ¬ ((c.CDText.Entry.length : Int) < 0) := by omega
  have key : ccd2cdt c = .ok ((c.CDText.Entry.length : Int),
      { entries := (c.CDText.Entry.length : Int)
        entry := c.CDText.Entry.map fun d =>
          { data := d, crc0 := crc16 d.bytes >>> 8, crc1 := crc16 d.bytes &&& 0xFF } }) := by
    simp only [ccd2cdt, h, hn, Int.toNat_ofNat, if_false, crc16_high_byte]
    erw [mapM_range_fetch, mapM_pure]
    rfl
  refine ⟨key, fun h0 => ?_⟩
  rw [key, h0]
  rfl

/-- Witness of C9 for the CCD structure with one CD-Text entry. -/
theorem ccd2cdt_spec_witness :
    sample_ccd.CDText.Entries = (sample_ccd.CDText.Entry.length : Int)
    ∧ (ccd2cdt sample_ccd = .ok ((sample_ccd.CDText.Entry.length : Int),
        { entries := (sample_ccd.CDText.Entry.length : Int)
          entry := sample_ccd.CDText.Entry.map fun d =>
            { data := d, crc0 := crc16 d.bytes >>> 8, crc1 := crc16 d.bytes &&& 0xFF } })
      ∧ (sample_ccd.CDText.Entry = [] → ccd2cdt sample_ccd = .ok (0, { entries := 0, entry := [] }))) :=
  ⟨rfl, ccd2cdt_spec sample_ccd rfl⟩

theorem mapM_fetch_mem {α β : Type} (f : α → β) (l : List α) (xs : List Nat) (ys : List β)
    (h : xs.mapM (fun i => fetch l i >>= fun d => (pure (f d) : Except Failure β)) = .ok ys) :
    ∀ y ∈ ys, ∃ d, y = f d := by
  induction xs generalizing ys with
  | nil =>
    cases h
    intro y hy
    cases hy
  | cons i xs ih =>
    rw [List.mapM_cons] at h
    cases hd : fetch l i with
    | error e =>
      rw [hd] at h
      cases h
    | ok d =>
      rw [hd] at h
      cases hr : xs.mapM (fun i => fetch l i >>= fun d => (pure (f d) : Except Failure β)) with
      | error e =>
        rw [hr] at h
        cases h
      | ok ys' =>
        rw [hr] at h
        cases h
        intro y hy
        rcases List.mem_cons.mp hy with rfl | hy'
        · exact ⟨d, rfl⟩
        · exact ih ys' hr y hy'

theorem cdt_data_bytes_length (d : cdt_data) : d.bytes.length = 16 := by
  simp [cdt_data.bytes]

theorem cdt_entry_bytes_length (e : cdt_entry) : e.bytes.length = 18 := by
  simp [cdt_entry.bytes, cdt_data_bytes_length]

theorem cdt2stream_eq (t : cdt) (h : t.entries = (t.entry.length : Int)) :
    cdt2stream t = .ok ((t.entry.map fun e => e.bytes.map (· % 2 ^ 8)).flatten ++ [0]) := by
  have hn : ¬ ((t.entry.length : Int) < 0) := by omega
  simp only [cdt2stream, h, hn, Int.toNat_ofNat, if_false]
  erw [mapM_range_fetch, mapM_pure]
  rfl

theorem cdt_records_length (l : List cdt_entry) :
    ((l.map fun e => e.bytes.map (· % 2 ^ 8)).map List.length).sum = 18 * l.length := by
  induction l with
  | nil => rfl
  | cons e l ih =>
    simp only [List.map_cons, List.sum_cons, ih, List.length_map, cdt_entry_bytes_length,
      List.length_cons]
    omega

/-- C10: for every CDT structure with `n >= 0` records (the array has exactly `entries`
slots), `cdt2stream` writes `18 * n + 1` bytes: for each record in order the 16 bytes
of its payload, then `crc[0]` and `crc[1]`, and at the end one zero byte.  For the
structure that `ccd2cdt` builds, `crc[0]` is the high and `crc[1]` the low byte of the
checksum of the payload. -/
theorem cdt2stream_spec (t : cdt) (h : t.entries = (t.entry.length : Int)) :
    (∃ out, cdt2stream t = .ok out
      ∧ out = (t.entry.map fun e =>
          e.data.bytes.map (· % 2 ^ 8) ++ [e.crc0 % 2 ^ 8, e.crc1 % 2 ^ 8]).flatten ++ [0]
      ∧ out.length = 18 * t.entry.length + 1)
    ∧ ∀ c : ccd, ccd2cdt c = .ok (t.entries, t) →
        ∀ e ∈ t.entry, e.crc0 = crc16 e.data.bytes / 2 ^ 8 ∧ e.crc1 = crc16 e.data.bytes % 2 ^ 8 := by
  refine ⟨⟨_, cdt2stream_eq t h, ?_, ?_⟩, ?_⟩
  · simp [cdt_entry.bytes]
  · simp only [List.length_append, List.length_flatten, List.length_singleton,
      cdt_records_length]
  · intro c hc e he
    unfold ccd2cdt at hc
    by_cases hneg : c.CDText.Entries < 0
    · rw [if_pos hneg] at hc
      cases hc
    · rw [if_neg hneg] at hc
      cases hr : (List.range c.CDText.Entries.toNat).mapM (fun i =>
          fetch c.CDText.Entry i >>= fun data =>
            (pure ({ data := data, crc0 := (crc16 data.bytes >>> 8) &&& 0xff,
                     crc1 := crc16 data.bytes &&& 0xff } : cdt_entry) : Except Failure cdt_entry)) with
      | error err =>
        erw [hr] at hc
        cases hc
      | ok entry =>
        erw [hr] at hc
        have ht : t.entry = entry := by
          rw [← (Prod.mk.inj (Except.ok.inj hc)).2]
        rw [ht] at he
        obtain ⟨d, rfl⟩ := mapM_fetch_mem _ _ _ _ hr e he
        refine ⟨?_, ?_⟩
        · show (crc16 d.bytes >>> 8) &&& 0xff = _
          rw [crc16_high_byte, Nat.shiftRight_eq_div_pow]
        · exact Nat.and_pow_two_sub_one_eq_mod _ 8

/-- Witness of C10 for the CDT structure with one record. -/
theorem cdt2stream_spec_witness :
    sample_cdt.entries = (sample_cdt.entry.length : Int)
    ∧ ((∃ out, cdt2stream sample_cdt = .ok out
        ∧ out = (sample_cdt.entry.map fun e =>
            e.data.bytes.map (· % 2 ^ 8) ++ [e.crc0 % 2 ^ 8, e.crc1 % 2 ^ 8]).flatten ++ [0]
        ∧ out.length = 18 * sample_cdt.entry.length + 1)
      ∧ ∀ c : ccd, ccd2cdt c = .ok (sample_cdt.entries, sample_cdt) →
          ∀ e ∈ sample_cdt.entry,
            e.crc0 = crc16 e.data.bytes / 2 ^ 8 ∧ e.crc1 = crc16 e.data.bytes % 2 ^ 8) :=
  ⟨rfl, cdt2stream_spec sample_cdt rfl⟩

/-! ## Theorems: the parser, one line -/

section frames

variable (u : Uninit) (m : LineScan) (st : Scan)

@[simp] theorem poke_length {α : Type} (p q : List α) (i : Int) (f : α → α)
    (h : poke p i f = some q) : q.length = p.length := by
  unfold poke at h
  split at h
  · cases h
    simp
  · cases h

theorem scan_simple_tally :
    (scan_simple m st).tally_Session = st.tally_Session
    ∧ (scan_simple m st).tally_Entry = st.tally_Entry
    ∧ (scan_simple m st).tally_CDText = st.tally_CDText := by
  simp [scan_simple, Scan.tally_Session, Scan.tally_Entry, Scan.tally_CDText]

theorem store_Session_tally (val : Option Int) (set : Int → ccd_Session → ccd_Session) :
    (store_Session st val set).tally_Session = st.tally_Session
    ∧ (store_Session st val set).tally_Entry = st.tally_Entry
    ∧ (store_Session st val set).tally_CDText = st.tally_CDText := by
  unfold store_Session
  split
  · simp
  · split
    · rename_i p hp
      simp [Scan.tally_Session, Scan.tally_Entry, Scan.tally_CDText, poke_length _ _ _ _ hp]
    · simp [Scan.tally_Session, Scan.tally_Entry, Scan.tally_CDText]

theorem store_Entry_tally {α : Type} (val : Option α) (set : α → ccd_Entry → ccd_Entry) :
    (store_Entry st val set).tally_Session = st.tally_Session
    ∧ (store_Entry st val set).tally_Entry = st.tally_Entry
    ∧ (store_Entry st val set).tally_CDText = st.tally_CDText := by
  unfold store_Entry
  split
  · simp
  · split
    · rename_i p hp
      simp [Scan.tally_Session, Scan.tally_Entry, Scan.tally_CDText, poke_length _ _ _ _ hp]
    · simp [Scan.tally_Session, Scan.tally_Entry, Scan.tally_CDText]

theorem fill_Session_tally :
    (fill_Session m st).tally_Session = st.tally_Session
    ∧ (fill_Session m st).tally_Entry = st.tally_Entry
    ∧ (fill_Session m st).tally_CDText = st.tally_CDText := by
  unfold fill_Session
  split <;> simp [store_Session_tally]

theorem fill_Entry_tally :
    (fill_Entry m st).tally_Session = st.tally_Session
    ∧ (fill_Entry m st).tally_Entry = st.tally_Entry
    ∧ (fill_Entry m st).tally_CDText = st.tally_CDText := by
  unfold fill_Entry
  split <;> simp [store_Entry_tally]

theorem fill_CDText_tally :
    (fill_CDText m st).tally_Session = st.tally_Session
    ∧ (fill_CDText m st).tally_Entry = st.tally_Entry
    ∧ (fill_CDText m st).tally_CDText = st.tally_CDText := by
  unfold fill_CDText
  split
  · split
    · simp
    · split
      · rename_i p hp
        simp [Scan.tally_Session, Scan.tally_Entry, Scan.tally_CDText, poke_length _ _ _ _ hp]
      · simp [Scan.tally_Session, Scan.tally_Entry, Scan.tally_CDText]
  · simp

theorem store_TRACK_tally (inner : Region) (f : ccd_TRACK → Option ccd_TRACK) :
    (store_TRACK st inner f).tally_Session = st.tally_Session
    ∧ (store_TRACK st inner f).tally_Entry = st.tally_Entry
    ∧ (store_TRACK st inner f).tally_CDText = st.tally_CDText := by
  unfold store_TRACK
  split
  · simp [Scan.tally_Session, Scan.tally_Entry, Scan.tally_CDText]
  · split <;> simp [Scan.tally_Session, Scan.tally_Entry, Scan.tally_CDText]

theorem scan_TRACK_tally :
    (scan_TRACK u m st).tally_Session = st.tally_Session
    ∧ (scan_TRACK u m st).tally_Entry = st.tally_Entry
    ∧ (scan_TRACK u m st).tally_CDText = st.tally_CDText := by
  have h1 : (count_TRACK u m st).tally_Session = st.tally_Session
      ∧ (count_TRACK u m st).tally_Entry = st.tally_Entry
      ∧ (count_TRACK u m st).tally_CDText = st.tally_CDText := by
    unfold count_TRACK
    split
    · simp only [store_TRACK_tally]
      simp [Scan.tally_Session, Scan.tally_Entry, Scan.tally_CDText]
    · simp
  unfold scan_TRACK fill_TRACK
  split
  · simp only [store_TRACK_tally, h1]
    simp
  · exact h1

theorem scan_Sessions_tally :
    (scan_Sessions u m st).tally_Session = st.tally_Session.announce 1 m.Sessions
    ∧ (scan_Sessions u m st).tally_Entry = st.tally_Entry
    ∧ (scan_Sessions u m st).tally_CDText = st.tally_CDText := by
  unfold scan_Sessions Tally.announce
  cases m.Sessions with
  | none => simp
  | some v =>
    simp only
    split <;> rename_i h <;>
      simp [Scan.tally_Session, Scan.tally_Entry, Scan.tally_CDText, xmalloc, h]

theorem count_Session_tally :
    (count_Session m st).tally_Session
      = (if m.Session_tmp.isSome = true ∧ st.tally_Session.seen ≤ st.tally_Session.count then
          { st.tally_Session with seen := st.tally_Session.seen + 1 }
        else st.tally_Session)
    ∧ (count_Session m st).tally_Entry = st.tally_Entry
    ∧ (count_Session m st).tally_CDText = st.tally_CDText := by
  unfold count_Session
  split <;> rename_i h <;>
    simp [Scan.tally_Session, Scan.tally_Entry, Scan.tally_CDText, h]

/-- The `Session` part of the loop body acts on the view of the `Session` array as
`Tally.step` with one extra slot, and leaves the other two views alone. -/
theorem scan_Session_tally :
    (scan_Session u m st).tally_Session
      = Tally.step 1 m.Sessions m.Session_tmp.isSome st.tally_Session
    ∧ (scan_Session u m st).tally_Entry = st.tally_Entry
    ∧ (scan_Session u m st).tally_CDText = st.tally_CDText := by
  unfold scan_Session Tally.step Tally.observe
  have h := scan_Sessions_tally u m st
  have hc : (scan_Sessions u m st).ccd.Disc.Sessions = (scan_Sessions u m st).tally_Session.count :=
    rfl
  simp only [hc]
  split <;> rename_i hpos
  · simp only [fill_Session_tally, count_Session_tally, h] at hpos ⊢
    simp only [hpos, if_true, and_self]
  · simp only [h] at hpos ⊢
    simp only [hpos, if_false, and_self]

theorem scan_TocEntries_tally :
    (scan_TocEntries u m st).tally_Session = st.tally_Session
    ∧ (scan_TocEntries u m st).tally_Entry = st.tally_Entry.announce 1 m.TocEntries
    ∧ (scan_TocEntries u m st).tally_CDText = st.tally_CDText := by
  unfold scan_TocEntries Tally.announce
  cases m.TocEntries with
  | none => simp
  | some v =>
    simp only
    split <;> rename_i h <;>
      simp [Scan.tally_Session, Scan.tally_Entry, Scan.tally_CDText, xmalloc, h]

theorem count_Entry_tally :
    (count_Entry m st).tally_Session = st.tally_Session
    ∧ (count_Entry m st).tally_Entry
      = (if m.TocEntry_tmp.isSome = true ∧ st.tally_Entry.seen ≤ st.tally_Entry.count then
          { st.tally_Entry with seen := st.tally_Entry.seen + 1 }
        else st.tally_Entry)
    ∧ (count_Entry m st).tally_CDText = st.tally_CDText := by
  unfold count_Entry
  split <;> rename_i h <;>
    simp [Scan.tally_Session, Scan.tally_Entry, Scan.tally_CDText, h]

/-- The `Entry` part of the loop body acts on the view of the `Entry` array as
`Tally.step` with one extra slot, and leaves the other two views alone. -/
theorem scan_Entry_tally :
    (scan_Entry u m st).tally_Session = st.tally_Session
    ∧ (scan_Entry u m st).tally_Entry
      = Tally.step 1 m.TocEntries m.TocEntry_tmp.isSome st.tally_Entry
    ∧ (scan_Entry u m st).tally_CDText = st.tally_CDText := by
  unfold scan_Entry Tally.step Tally.observe
  have h := scan_TocEntries_tally u m st
  have hc : (scan_TocEntries u m st).ccd.Disc.TocEntries
      = (scan_TocEntries u m st).tally_Entry.count := rfl
  simp only [hc]
  split <;> rename_i hpos
  · simp only [fill_Entry_tally, count_Entry_tally, h] at hpos ⊢
    simp only [hpos, if_true, and_self]
  · simp only [h] at hpos ⊢
    simp only [hpos, if_false, and_self]

theorem scan_CDTextEntries_tally :
    (scan_CDTextEntries u m st).tally_Session = st.tally_Session
    ∧ (scan_CDTextEntries u m st).tally_Entry = st.tally_Entry
    ∧ (scan_CDTextEntries u m st).tally_CDText = st.tally_CDText.announce 0 m.CDTextEntries := by
  unfold scan_CDTextEntries Tally.announce
  cases m.CDTextEntries with
  | none => simp
  | some v =>
    simp only
    split <;> rename_i h <;>
      simp [Scan.tally_Session, Scan.tally_Entry, Scan.tally_CDText, xmalloc, h]

theorem count_CDText_tally :
    (count_CDText m st).tally_Session = st.tally_Session
    ∧ (count_CDText m st).tally_Entry = st.tally_Entry
    ∧ (count_CDText m st).tally_CDText
      = (if m.CDTextEntry_tmp.isSome = true ∧ st.tally_CDText.seen ≤ st.tally_CDText.count then
          { st.tally_CDText with seen := st.tally_CDText.seen + 1 }
        else st.tally_CDText) := by
  unfold count_CDText
  split <;> rename_i h <;>
    simp [Scan.tally_Session, Scan.tally_Entry, Scan.tally_CDText, h]

/-- The CD-Text part of the loop body acts on the view of the CD-Text array as
`Tally.step` without an extra slot, and leaves the other two views alone. -/
theorem scan_CDText_tally :
    (scan_CDText u m st).tally_Session = st.tally_Session
    ∧ (scan_CDText u m st).tally_Entry = st.tally_Entry
    ∧ (scan_CDText u m st).tally_CDText
      = Tally.step 0 m.CDTextEntries m.CDTextEntry_tmp.isSome st.tally_CDText := by
  unfold scan_CDText Tally.step Tally.observe
  have h := scan_CDTextEntries_tally u m st
  have hc : (scan_CDTextEntries u m st).ccd.CDText.Entries
      = (scan_CDTextEntries u m st).tally_CDText.count := rfl
  simp only [hc]
  split <;> rename_i hpos
  · simp only [fill_CDText_tally, count_CDText_tally, h] at hpos ⊢
    simp only [hpos, if_true, and_self]
  · simp only [h] at hpos ⊢
    simp only [hpos, if_false, and_self]

/-- The loop body acts on each of the three views as `Tally.step`. -/
theorem scan_body_tally :
    (scan_body u m st).tally_Session
      = Tally.step 1 m.Sessions m.Session_tmp.isSome st.tally_Session
    ∧ (scan_body u m st).tally_Entry
      = Tally.step 1 m.TocEntries m.TocEntry_tmp.isSome st.tally_Entry
    ∧ (scan_body u m st).tally_CDText
      = Tally.step 0 m.CDTextEntries m.CDTextEntry_tmp.isSome st.tally_CDText := by
  unfold scan_body
  simp only [scan_TRACK_tally, scan_CDText_tally, scan_Entry_tally, scan_Session_tally,
    scan_simple_tally, and_self]

end frames

/-! ## Theorems: the parser, the whole stream -/

theorem realloc_block_length {α : Type} (fresh : Nat → α) (p : List α) (n : Int) :
    (realloc_block fresh p n).length = n.toNat := by
  unfold realloc_block
  simp only [List.length_append, List.length_take, List.length_map, List.length_range']
  omega

theorem foldl_scan_line_tally (u : Uninit) (lines : List (List Char)) (st : Scan) :
    (lines.foldl (scan_line u) st).tally_Session
      = Tally.run 1 (lines.map as_Session) st.tally_Session
    ∧ (lines.foldl (scan_line u) st).tally_Entry
      = Tally.run 1 (lines.map as_Entry) st.tally_Entry
    ∧ (lines.foldl (scan_line u) st).tally_CDText
      = Tally.run 0 (lines.map as_CDText) st.tally_CDText := by
  induction lines generalizing st with
  | nil => exact ⟨rfl, rfl, rfl⟩
  | cons l ls ih =>
    have h := scan_body_tally u (scan_fields (cstring l)) st
    simp only [List.foldl_cons, List.map_cons, Tally.run, scan_line] at ih ⊢
    rw [(ih _).1, (ih _).2.1, (ih _).2.2, h.1, h.2.1, h.2.2]
    exact ⟨rfl, rfl, rfl⟩

theorem reconciled_tally (u : Uninit) (st : Scan) :
    (st.reconciled u).Disc.Sessions = st.tally_Session.reconcile.count
    ∧ (st.reconciled u).Session.length = st.tally_Session.reconcile.slots
    ∧ (st.reconciled u).Disc.TocEntries = st.tally_Entry.reconcile.count
    ∧ (st.reconciled u).Entry.length = st.tally_Entry.reconcile.slots
    ∧ (st.reconciled u).CDText.Entries = st.tally_CDText.reconcile.count
    ∧ (st.reconciled u).CDText.Entry.length = st.tally_CDText.reconcile.slots := by
  unfold Scan.reconciled Tally.reconcile
  simp only [Scan.tally_Session, Scan.tally_Entry, Scan.tally_CDText]
  split <;> split <;> split <;> simp_all [realloc_block_length]

theorem reconciled_tracks (u : Uninit) (st : Scan) :
    (st.reconciled u).TRACK = st.ccd.TRACK
    ∧ (st.reconciled u).TrackEntries = st.ccd.TrackEntries := by
  unfold Scan.reconciled
  simp only
  split <;> split <;> split <;> exact ⟨rfl, rfl⟩

theorem reconciled_simple (u : Uninit) (st : Scan) :
    (st.reconciled u).CloneCD.Version = st.ccd.CloneCD.Version
    ∧ (st.reconciled u).Disc.DataTracksScrambled = st.ccd.Disc.DataTracksScrambled
    ∧ (st.reconciled u).Disc.CDTextLength = st.ccd.Disc.CDTextLength
    ∧ (st.reconciled u).Disc.CATALOG = st.ccd.Disc.CATALOG := by
  unfold Scan.reconciled
  simp only
  split <;> split <;> split <;> exact ⟨rfl, rfl, rfl, rfl⟩

/-- A call of `xrealloc` with a size other than 0, or with a `realloc` that returns a
block for size 0, returns the block of `realloc`. -/
theorem xrealloc_returns {α : Type} (null_on_zero : Bool) (fresh : Nat → α) (p : List α) (n : Int)
    (h : ¬ (null_on_zero = true ∧ n = 0)) :
    xrealloc null_on_zero fresh p n = .ok (realloc_block fresh p n) := by
  unfold xrealloc
  rw [if_neg h]

/-- The statements after the loop return, with every array cut as announced, unless an
announced array has no counted header and `realloc` returns a null pointer for size
0. -/
theorem reconcile_returns (u : Uninit) (st : Scan)
    (h : ¬ (u.null_on_zero = true ∧ st.starved)) :
    reconcile u st = .ok (st.reconciled u) := by
  unfold Scan.starved at h
  unfold reconcile Scan.reconciled xrealloc
  simp only [bind, Except.bind, pure, Except.pure]
  by_cases hz : u.null_on_zero = true
  · simp only [hz, true_and] at h ⊢
    split_ifs <;> first | rfl | (exfalso; omega)
  · simp only [hz, false_and, if_false]
    split_ifs <;> first | rfl | simp_all

/-- The statements after the loop end the program with `exit (EX_OSERR)` when an
announced array has no counted header and `realloc` returns a null pointer for size
0. -/
theorem reconcile_exits (u : Uninit) (st : Scan) (hz : u.null_on_zero = true)
    (h : st.starved) : reconcile u st = .error (.exit EX_OSERR) := by
  unfold Scan.starved at h
  unfold reconcile xrealloc
  simp only [hz, true_and, bind, Except.bind, pure, Except.pure]
  split_ifs <;> first | rfl | (exfalso; omega)

/-- The two ways in which `stream2ccd` ends: it returns, with the arrays cut as
announced, or the program ends with `exit (EX_OSERR)` in `xrealloc`, which happens
exactly when an announced array has no counted header and `realloc` returns a null
pointer for size 0. -/
theorem stream2ccd_cases (u : Uninit) (stream : List Char) :
    ((stream2ccd u stream).exit = none
        ∧ (stream2ccd u stream).ccd = (scan_stream u stream).reconciled u
        ∧ ¬ (u.null_on_zero = true ∧ (scan_stream u stream).starved))
    ∨ ((stream2ccd u stream).exit = some (.exit EX_OSERR)
        ∧ (stream2ccd u stream).ccd = (scan_stream u stream).ccd
        ∧ u.null_on_zero = true ∧ (scan_stream u stream).starved) := by
  by_cases h : u.null_on_zero = true ∧ (scan_stream u stream).starved
  · right
    have e := reconcile_exits u _ h.1 h.2
    unfold stream2ccd
    rw [e]
    exact ⟨rfl, rfl, h.1, h.2⟩
  · left
    have e := reconcile_returns u _ h
    unfold stream2ccd
    rw [e]
    exact ⟨rfl, rfl, h⟩

theorem stream2ccd_exit_iff (u : Uninit) (stream : List Char) :
    (stream2ccd u stream).exit = none
      ↔ ¬ (u.null_on_zero = true ∧ (scan_stream u stream).starved) := by
  rcases stream2ccd_cases u stream with ⟨h1, -, h3⟩ | ⟨h1, -, h3, h4⟩
  · exact ⟨fun _ => h3, fun _ => h1⟩
  · constructor
    · intro h
      rw [h1] at h
      cases h
    · intro h
      exact absurd ⟨h3, h4⟩ h

theorem stream2ccd_oob (u : Uninit) (stream : List Char) :
    (stream2ccd u stream).oob = (scan_stream u stream).oob := by
  unfold stream2ccd
  split <;> rfl

/-- The tracks that `stream2ccd` leaves are the tracks that the loop left. -/
theorem stream2ccd_tracks (u : Uninit) (stream : List Char) :
    (stream2ccd u stream).ccd.TRACK = (scan_stream u stream).ccd.TRACK
    ∧ (stream2ccd u stream).ccd.TrackEntries = (scan_stream u stream).ccd.TrackEntries := by
  rcases stream2ccd_cases u stream with ⟨-, h, -⟩ | ⟨-, h, -⟩
  · rw [h]
    exact reconciled_tracks u _
  · rw [h]
    exact ⟨rfl, rfl⟩

/-- The simple data that `stream2ccd` leaves are those that the loop left. -/
theorem stream2ccd_simple (u : Uninit) (stream : List Char) :
    (stream2ccd u stream).ccd.CloneCD.Version = (scan_stream u stream).ccd.CloneCD.Version
    ∧ (stream2ccd u stream).ccd.Disc.DataTracksScrambled
        = (scan_stream u stream).ccd.Disc.DataTracksScrambled
    ∧ (stream2ccd u stream).ccd.Disc.CDTextLength = (scan_stream u stream).ccd.Disc.CDTextLength
    ∧ (stream2ccd u stream).ccd.Disc.CATALOG = (scan_stream u stream).ccd.Disc.CATALOG := by
  rcases stream2ccd_cases u stream with ⟨-, h, -⟩ | ⟨-, h, -⟩
  · rw [h]
    exact reconciled_simple u _
  · rw [h]
    exact ⟨rfl, rfl, rfl, rfl⟩

/-- An array that the loop left without announcement is left so by `stream2ccd`. -/
theorem stream2ccd_unannounced (u : Uninit) (stream : List Char) :
    ((scan_stream u stream).tally_Session = { count := 0, seen := 0, slots := 0 } →
      (stream2ccd u stream).ccd.Disc.Sessions = 0)
    ∧ ((scan_stream u stream).tally_Entry = { count := 0, seen := 0, slots := 0 } →
      (stream2ccd u stream).ccd.Disc.TocEntries = 0)
    ∧ ((scan_stream u stream).tally_CDText = { count := 0, seen := 0, slots := 0 } →
      (stream2ccd u stream).ccd.CDText.Entries = 0) := by
  obtain ⟨r1, -, r3, -, r5, -⟩ := reconciled_tally u (scan_stream u stream)
  rcases stream2ccd_cases u stream with ⟨-, h, -⟩ | ⟨-, h, -⟩
  · rw [h, r1, r3, r5]
    refine ⟨fun e => ?_, fun e => ?_, fun e => ?_⟩ <;>
      · rw [e]
        rfl
  · rw [h]
    exact ⟨fun e => congrArg Tally.count e, fun e => congrArg Tally.count e,
      fun e => congrArg Tally.count e⟩

/-- Lines that announce no positive number leave a view without announcement as it is. -/
theorem Tally.run_unannounced (extra : Int) (lines : List (Option Int × Bool)) (t : Tally)
    (ht : t.count = 0) (h : ∀ l ∈ lines, ∀ v, l.1 = some v → v ≤ 0) :
    Tally.run extra lines t = t := by
  induction lines with
  | nil => rfl
  | cons l ls ih =>
    have hl : t.step extra l.1 l.2 = t := by
      unfold Tally.step Tally.announce Tally.observe
      cases hv : l.1 with
      | none => simp [ht]
      | some v =>
        have := h l (List.mem_cons_self _ _) v hv
        have hn : ¬ (0 < v) := by omega
        simp [hn, ht]
    simp only [Tally.run, List.foldl_cons, hl]
    exact ih (fun l' hl' => h l' (List.mem_cons_of_mem _ hl'))

/-- After the announcement of `C`, headers are counted up to `C + 1`; the announcement
and the slots stay. -/
theorem Tally.run_announced (extra : Int) (lines : List (Option Int × Bool)) (t : Tally)
    (hpos : 0 < t.count) (hseen : 0 ≤ t.seen) :
    (Tally.run extra lines t).count = t.count
    ∧ (Tally.run extra lines t).slots = t.slots
    ∧ (Tally.run extra lines t).seen = min (t.seen + headers lines) (max t.seen (t.count + 1)) := by
  induction lines generalizing t with
  | nil => simp [Tally.run, headers]
  | cons l ls ih =>
    have hann : t.announce extra l.1 = t := by
      unfold Tally.announce
      cases l.1 with
      | none => rfl
      | some v =>
        have hn : ¬ (v > 0 ∧ t.count = 0) := by omega
        simp [hn]
    simp only [Tally.run, List.foldl_cons, Tally.step, hann] at ih ⊢
    by_cases hh : l.2 = true
    · by_cases hle : t.seen ≤ t.count
      · have hobs : t.observe l.2 = { t with seen := t.seen + 1 } := by
          simp [Tally.observe, hpos, hh, hle]
        rw [hobs]
        have := ih { t with seen := t.seen + 1 } hpos (by simp; omega)
        simp only [headers, List.countP_cons, hh, if_true] at this ⊢
        refine ⟨this.1, this.2.1, ?_⟩
        rw [this.2.2]
        omega
      · have hobs : t.observe l.2 = t := by
          simp [Tally.observe, hpos, hh, hle]
        rw [hobs]
        have := ih t hpos hseen
        simp only [headers, List.countP_cons, hh, if_true] at this ⊢
        refine ⟨this.1, this.2.1, ?_⟩
        rw [this.2.2]
        omega
    · have hobs : t.observe l.2 = t := by
        simp [Tally.observe, hh]
      rw [hobs]
      have := ih t hpos hseen
      simp only [headers, List.countP_cons, hh] at this ⊢
      refine ⟨this.1, this.2.1, ?_⟩
      rw [this.2.2]
      simp

/-! ## Theorems: templates that exclude each other -/

/-- A scan that assigns something has matched the ordinary characters at the start of
its template. -/
theorem scanDirectives_chars (w : List Char) (ds : List Directive) (s : List Char)
    (h : scanDirectives (w.map Directive.char ++ ds) s ≠ []) : ∃ tl, s = w ++ tl := by
  induction w generalizing s with
  | nil => exact ⟨s, rfl⟩
  | cons a w ih =>
    cases s with
    | nil => simp [scanDirectives] at h
    | cons c tl =>
      simp only [List.map_cons, List.cons_append, scanDirectives] at h
      by_cases hc : c = a
      · rw [if_pos hc] at h
        obtain ⟨tl', rfl⟩ := ih tl h
        exact ⟨tl', by rw [hc]; rfl⟩
      · rw [if_neg hc] at h
        exact absurd rfl h

theorem sscanf_d_some (s : List Char) (template : String) (v : Int)
    (h : sscanf_d s template = some v) : sscanf s template ≠ [] := by
  intro h0
  simp [sscanf_d, h0] at h

/-- Two templates that start with white space and then with words, one of which is no
prefix of the other, never both assign a value on the same line. -/
theorem sscanf_d_exclusive (s : List Char) (t1 t2 : String) (w1 w2 : List Char)
    (d1 d2 : List Directive)
    (h1 : parseTemplate .text t1.toList = .space :: (w1.map Directive.char ++ d1))
    (h2 : parseTemplate .text t2.toList = .space :: (w2.map Directive.char ++ d2))
    (hw : ∀ a b : List Char, w1 ++ a ≠ w2 ++ b) (v : Int)
    (h : sscanf_d s t1 = some v) : sscanf_d s t2 = none := by
  cases h' : sscanf_d s t2 with
  | none => rfl
  | some v' =>
    have e1 := sscanf_d_some _ _ _ h
    have e2 := sscanf_d_some _ _ _ h'
    simp only [sscanf, h1, h2, scanDirectives] at e1 e2
    obtain ⟨a, ha⟩ := scanDirectives_chars _ _ _ e1
    obtain ⟨b, hb⟩ := scanDirectives_chars _ _ _ e2
    exact absurd (ha.symm.trans hb) (hw a b)

/-- A line that announces a number of sections is not itself a section header of the
same kind. -/
theorem count_line_no_header (s : List Char) :
    ((scan_fields s).Sessions.isSome = true → (scan_fields s).Session_tmp = none)
    ∧ ((scan_fields s).TocEntries.isSome = true → (scan_fields s).TocEntry_tmp = none)
    ∧ ((scan_fields s).CDTextEntries.isSome = true → (scan_fields s).CDTextEntry_tmp = none) := by
  refine ⟨fun h => ?_, fun h => ?_, fun h => ?_⟩
  · obtain ⟨v, hv⟩ := Option.isSome_iff_exists.mp h
    exact sscanf_d_exclusive s " Sessions = %d " " [ Session %d ] " ['S'] ['[']
      _ _ rfl rfl (by intro a b h; cases h) v hv
  · obtain ⟨v, hv⟩ := Option.isSome_iff_exists.mp h
    exact sscanf_d_exclusive s " TocEntries = %d " " [ Entry %d ] " ['T'] ['[']
      _ _ rfl rfl (by intro a b h; cases h) v hv
  · obtain ⟨v, hv⟩ := Option.isSome_iff_exists.mp h
    exact sscanf_d_exclusive s " Entries = %d " " Entry %d = " "Entri".toList "Entry".toList
      _ _ rfl rfl (by intro a b h; cases h) v hv

/-! ## Theorems: announced and observed numbers of entries -/

/-- The view of an array after the whole stream and the reconciliation, for a stream
whose first positive announcement is `C` at the line `cl`, which is no header. -/
theorem Tally.run_reconcile (extra : Int) (pre post : List (Option Int × Bool)) (C : Int)
    (hC : 0 < C) (hpre : ∀ l ∈ pre, ∀ v, l.1 = some v → v ≤ 0) :
    (Tally.run extra (pre ++ (some C, false) :: post) { count := 0, seen := 0, slots := 0 }).reconcile
      = { count := min (headers post : Int) C
          seen := min (headers post : Int) (C + 1)
          slots := if (headers post : Int) < C then headers post else (C + extra).toNat } := by
  have h1 : Tally.run extra (pre ++ (some C, false) :: post) { count := 0, seen := 0, slots := 0 }
      = Tally.run extra post { count := C, seen := 0, slots := (C + extra).toNat } := by
    have hp := Tally.run_unannounced extra pre { count := 0, seen := 0, slots := 0 } rfl hpre
    simp only [Tally.run, List.foldl_append, List.foldl_cons] at hp ⊢
    rw [hp]
    simp [Tally.step, Tally.announce, Tally.observe, hC]
  obtain ⟨hc, hs, hn⟩ := Tally.run_announced extra post
    { count := C, seen := 0, slots := (C + extra).toNat } hC (le_refl _)
  simp only at hc hs hn
  have hn' : (Tally.run extra post { count := C, seen := 0, slots := (C + extra).toNat }).seen
      = min (headers post : Int) (C + 1) := by
    rw [hn]
    omega
  rw [h1]
  unfold Tally.reconcile
  rw [hc, hn']
  by_cases hlt : (headers post : Int) < C
  · have e1 : min (headers post : Int) (C + 1) = headers post := by omega
    have e2 : min (headers post : Int) C = headers post := by omega
    simp only [e1, e2, hlt, if_true, Int.toNat_ofNat]
  · have e1 : ¬ (min (headers post : Int) (C + 1) < C) := by omega
    have e2 : min (headers post : Int) C = C := by omega
    rw [if_neg e1, if_neg hlt, e2]
    cases hr : Tally.run extra post { count := C, seen := 0, slots := (C + extra).toNat } with
    | mk c s n =>
      rw [hr] at hc hs hn'
      simp only at hc hs hn'
      rw [hc, hs, hn']

/-- The view of an array after lines of which the first with a positive announcement
announces `C`: the announced number is `C` whatever the lines after it announce, the
array has the slots allocated for `C`, and the headers after it are counted up to
`C + 1`.  The lines before it leave the view as it was at the start. -/
theorem Tally.run_first_positive (extra : Int) (pre post : List (Option Int × Bool)) (C : Int)
    (hC : 0 < C) (hpre : ∀ l ∈ pre, ∀ v, l.1 = some v → v ≤ 0) :
    Tally.run extra pre { count := 0, seen := 0, slots := 0 } = { count := 0, seen := 0, slots := 0 }
    ∧ (Tally.run extra (pre ++ (some C, false) :: post) { count := 0, seen := 0, slots := 0 }).count
        = C
    ∧ (Tally.run extra (pre ++ (some C, false) :: post) { count := 0, seen := 0, slots := 0 }).slots
        = (C + extra).toNat
    ∧ (Tally.run extra (pre ++ (some C, false) :: post) { count := 0, seen := 0, slots := 0 }).seen
        = min (headers post : Int) (C + 1) := by
  have hp := Tally.run_unannounced extra pre { count := 0, seen := 0, slots := 0 } rfl hpre
  have h1 : Tally.run extra (pre ++ (some C, false) :: post) { count := 0, seen := 0, slots := 0 }
      = Tally.run extra post { count := C, seen := 0, slots := (C + extra).toNat } := by
    simp only [Tally.run, List.foldl_append, List.foldl_cons] at hp ⊢
    rw [hp]
    simp [Tally.step, Tally.announce, Tally.observe, hC]
  obtain ⟨hc, hs, hn⟩ := Tally.run_announced extra post
    { count := C, seen := 0, slots := (C + extra).toNat } hC (le_refl _)
  simp only at hc hs hn
  refine ⟨hp, by rw [h1, hc], by rw [h1, hs], ?_⟩
  rw [h1, hn]
  omega

theorem scan_stream_tally (u : Uninit) (stream : List Char) :
    (scan_stream u stream).tally_Session
      = Tally.run 1 ((my_getlines u.line [] stream).map as_Session) { count := 0, seen := 0, slots := 0 }
    ∧ (scan_stream u stream).tally_Entry
      = Tally.run 1 ((my_getlines u.line [] stream).map as_Entry) { count := 0, seen := 0, slots := 0 }
    ∧ (scan_stream u stream).tally_CDText
      = Tally.run 0 ((my_getlines u.line [] stream).map as_CDText) { count := 0, seen := 0, slots := 0 } :=
  foldl_scan_line_tally u _ Scan.init

theorem headers_map_as_Session (post : List (List Char)) :
    headers (post.map as_Session)
      = post.countP (fun l => (scan_fields (cstring l)).Session_tmp.isSome) := by
  simp only [headers, List.countP_map]
  rfl

theorem headers_map_as_Entry (post : List (List Char)) :
    headers (post.map as_Entry)
      = post.countP (fun l => (scan_fields (cstring l)).TocEntry_tmp.isSome) := by
  simp only [headers, List.countP_map]
  rfl

theorem headers_map_as_CDText (post : List (List Char)) :
    headers (post.map as_CDText)
      = post.countP (fun l => (scan_fields (cstring l)).CDTextEntry_tmp.isSome) := by
  simp only [headers, List.countP_map]
  rfl

/-- The three views after `stream2ccd`, for a stream whose first positive announcement
of each kind is `C` at the line `cl`. -/
theorem stream2ccd_tally (u : Uninit) (stream : List Char) (pre post : List (List Char))
    (cl : List Char) (C : Int) (hlines : my_getlines u.line [] stream = pre ++ cl :: post)
    (hC : 0 < C) :
    ((∀ l ∈ pre, ∀ v, (scan_fields (cstring l)).Sessions = some v → v ≤ 0)
      → (scan_fields (cstring cl)).Sessions = some C
      → (scan_stream u stream).tally_Session.reconcile
        = { count := min (headers (post.map as_Session) : Int) C
            seen := min (headers (post.map as_Session) : Int) (C + 1)
            slots := if (headers (post.map as_Session) : Int) < C
              then headers (post.map as_Session) else (C + 1).toNat })
    ∧ ((∀ l ∈ pre, ∀ v, (scan_fields (cstring l)).TocEntries = some v → v ≤ 0)
      → (scan_fields (cstring cl)).TocEntries = some C
      → (scan_stream u stream).tally_Entry.reconcile
        = { count := min (headers (post.map as_Entry) : Int) C
            seen := min (headers (post.map as_Entry) : Int) (C + 1)
            slots := if (headers (post.map as_Entry) : Int) < C
              then headers (post.map as_Entry) else (C + 1).toNat })
    ∧ ((∀ l ∈ pre, ∀ v, (scan_fields (cstring l)).CDTextEntries = some v → v ≤ 0)
      → (scan_fields (cstring cl)).CDTextEntries = some C
      → (scan_stream u stream).tally_CDText.reconcile
        = { count := min (headers (post.map as_CDText) : Int) C
            seen := min (headers (post.map as_CDText) : Int) (C + 1)
            slots := if (headers (post.map as_CDText) : Int) < C
              then headers (post.map as_CDText) else (C + 0).toNat }) := by
  obtain ⟨h1, h2, h3⟩ := scan_stream_tally u stream
  obtain ⟨n1, n2, n3⟩ := count_line_no_header (cstring cl)
  rw [hlines, List.map_append, List.map_cons] at h1 h2 h3
  refine ⟨fun hpre hcl => ?_, fun hpre hcl => ?_, fun hpre hcl => ?_⟩
  · have e : as_Session cl = (some C, false) := by
      simp [as_Session, hcl, n1 (by simp [hcl])]
    rw [h1, e]
    apply Tally.run_reconcile _ _ _ _ hC
    intro l hl v hv
    obtain ⟨l', hl', rfl⟩ := List.mem_map.mp hl
    exact hpre l' hl' v hv
  · have e : as_Entry cl = (some C, false) := by
      simp [as_Entry, hcl, n2 (by simp [hcl])]
    rw [h2, e]
    apply Tally.run_reconcile _ _ _ _ hC
    intro l hl v hv
    obtain ⟨l', hl', rfl⟩ := List.mem_map.mp hl
    exact hpre l' hl' v hv
  · have e : as_CDText cl = (some C, false) := by
      simp [as_CDText, hcl, n3 (by simp [hcl])]
    rw [h3, e]
    apply Tally.run_reconcile _ _ _ _ hC
    intro l hl v hv
    obtain ⟨l', hl', rfl⟩ := List.mem_map.mp hl
    exact hpre l' hl' v hv

/-- The view of each array after the loop, for a stream whose first positive
announcement of the kind is `C` at the line `cl`: the announced number is `C`, and the
headers after `cl` have been counted, up to `C + 1`. -/
theorem scan_stream_first_positive (u : Uninit) (stream : List Char)
    (pre post : List (List Char)) (cl : List Char) (C : Int)
    (hlines : my_getlines u.line [] stream = pre ++ cl :: post) (hC : 0 < C) :
    ((∀ l ∈ pre, ∀ v, (scan_fields (cstring l)).Sessions = some v → v ≤ 0)
      → (scan_fields (cstring cl)).Sessions = some C
      → (scan_stream u stream).ccd.Disc.Sessions = C
        ∧ (scan_stream u stream).Session
          = min (post.countP (fun l => (scan_fields (cstring l)).Session_tmp.isSome) : Int)
              (C + 1))
    ∧ ((∀ l ∈ pre, ∀ v, (scan_fields (cstring l)).TocEntries = some v → v ≤ 0)
      → (scan_fields (cstring cl)).TocEntries = some C
      → (scan_stream u stream).ccd.Disc.TocEntries = C
        ∧ (scan_stream u stream).TocEntry + 1
          = min (post.countP (fun l => (scan_fields (cstring l)).TocEntry_tmp.isSome) : Int)
              (C + 1))
    ∧ ((∀ l ∈ pre, ∀ v, (scan_fields (cstring l)).CDTextEntries = some v → v ≤ 0)
      → (scan_fields (cstring cl)).CDTextEntries = some C
      → (scan_stream u stream).ccd.CDText.Entries = C
        ∧ (scan_stream u stream).CDTextEntry + 1
          = min (post.countP (fun l => (scan_fields (cstring l)).CDTextEntry_tmp.isSome) : Int)
              (C + 1)) := by
  obtain ⟨h1, h2, h3⟩ := scan_stream_tally u stream
  obtain ⟨n1, n2, n3⟩ := count_line_no_header (cstring cl)
  rw [hlines, List.map_append, List.map_cons] at h1 h2 h3
  refine ⟨fun hpre hcl => ?_, fun hpre hcl => ?_, fun hpre hcl => ?_⟩
  · have e : as_Session cl = (some C, false) := by
      simp [as_Session, hcl, n1 (by simp [hcl])]
    rw [e] at h1
    obtain ⟨-, r1, -, r3⟩ := Tally.run_first_positive 1 (pre.map as_Session)
      (post.map as_Session) C hC (by
        intro l hl v hv
        obtain ⟨l', hl', rfl⟩ := List.mem_map.mp hl
        exact hpre l' hl' v hv)
    rw [headers_map_as_Session] at r3
    exact ⟨(congrArg Tally.count h1).trans r1, (congrArg Tally.seen h1).trans r3⟩
  · have e : as_Entry cl = (some C, false) := by
      simp [as_Entry, hcl, n2 (by simp [hcl])]
    rw [e] at h2
    obtain ⟨-, r1, -, r3⟩ := Tally.run_first_positive 1 (pre.map as_Entry)
      (post.map as_Entry) C hC (by
        intro l hl v hv
        obtain ⟨l', hl', rfl⟩ := List.mem_map.mp hl
        exact hpre l' hl' v hv)
    rw [headers_map_as_Entry] at r3
    exact ⟨(congrArg Tally.count h2).trans r1, (congrArg Tally.seen h2).trans r3⟩
  · have e : as_CDText cl = (some C, false) := by
      simp [as_CDText, hcl, n3 (by simp [hcl])]
    rw [e] at h3
    obtain ⟨-, r1, -, r3⟩ := Tally.run_first_positive 0 (pre.map as_CDText)
      (post.map as_CDText) C hC (by
        intro l hl v hv
        obtain ⟨l', hl', rfl⟩ := List.mem_map.mp hl
        exact hpre l' hl' v hv)
    rw [headers_map_as_CDText] at r3
    exact ⟨(congrArg Tally.count h3).trans r1, (congrArg Tally.seen h3).trans r3⟩

set_option maxRecDepth 1000000 in
theorem sample_sheet_lines :
    my_getlines [] [] sample_sheet
      = ["[Disc]\n".toList, "TocEntries=1\n".toList, "[Entry 0]\n".toList, "Point=1\n".toList,
         "[TRACK 1]\n".toList, "MODE=0\n".toList, "INDEX 1=0\n".toList, []] := by
  decide

set_option maxRecDepth 1000000 in
theorem sample_sheet_fields :
    scan_fields (cstring "[Disc]\n".toList) = LineScan.empty
    ∧ scan_fields (cstring "TocEntries=1\n".toList) = { LineScan.empty with TocEntries := some 1 }
    ∧ scan_fields (cstring "[Entry 0]\n".toList) = { LineScan.empty with TocEntry_tmp := some 0 }
    ∧ scan_fields (cstring "Point=1\n".toList) = { LineScan.empty with Point := some 1 }
    ∧ scan_fields (cstring "[TRACK 1]\n".toList) = { LineScan.empty with TRACK_tmp := some 1 }
    ∧ scan_fields (cstring "MODE=0\n".toList) = { LineScan.empty with MODE := some 0 }
    ∧ scan_fields (cstring "INDEX 1=0\n".toList)
        = { LineScan.empty with INDEX_tmp := some 1, INDEX := some 0 }
    ∧ scan_fields (cstring []) = LineScan.empty := by
  decide

/-- The parser state after the lines of the sample sheet. -/
theorem sample_sheet_scan (u : Uninit) (hu : u.line = []) :
    scan_stream u sample_sheet
      = { ccd := { ccd_init with
                   Disc := { ccd_init.Disc with TocEntries := 1 }
                   Entry := [{ u.Entry 0 with Point := 1 }, u.Entry 1]
                   TRACK := [u.TRACK 0, { ccd_TRACK_init with INDEX := [-1, 0] }]
                   TrackEntries := 1 }
          Session := 0, TocEntry := 0, CDTextEntry := -1, TRACK := 1, oob := [] } := by
  obtain ⟨f1, f2, f3, f4, f5, f6, f7, f8⟩ := sample_sheet_fields
  have x2 : realloc_block u.TRACK [] 2 = [u.TRACK 0, u.TRACK 1] := by
    simp [realloc_block, List.range']
  have e1 : scan_body u LineScan.empty Scan.init = Scan.init := by
    simp [scan_body, scan_simple, scan_Session, scan_Sessions, scan_Entry, scan_TocEntries,
      scan_CDText, scan_CDTextEntries, scan_TRACK, count_TRACK, fill_TRACK,
      LineScan.empty, Scan.init, ccd_init]
  have e2 : scan_body u { LineScan.empty with TocEntries := some 1 } Scan.init
      = { Scan.init with
          ccd := { ccd_init with Disc := { ccd_init.Disc with TocEntries := 1 }
                                 Entry := [u.Entry 0, u.Entry 1] } } := by
    simp [scan_body, scan_simple, scan_Session, scan_Sessions, scan_Entry, scan_TocEntries,
      count_Entry, fill_Entry, store_Entry, scan_CDText, scan_CDTextEntries, scan_TRACK,
      count_TRACK, fill_TRACK, LineScan.empty, Scan.init, ccd_init, xmalloc, List.range,
      List.range.loop]
  have e3 : scan_body u { LineScan.empty with TocEntry_tmp := some 0 }
        { Scan.init with
          ccd := { ccd_init with Disc := { ccd_init.Disc with TocEntries := 1 }
                                 Entry := [u.Entry 0, u.Entry 1] } }
      = { Scan.init with
          TocEntry := 0
          ccd := { ccd_init with Disc := { ccd_init.Disc with TocEntries := 1 }
                                 Entry := [u.Entry 0, u.Entry 1] } } := by
    simp [scan_body, scan_simple, scan_Session, scan_Sessions, scan_Entry, scan_TocEntries,
      count_Entry, fill_Entry, store_Entry, scan_CDText, scan_CDTextEntries, scan_TRACK,
      count_TRACK, fill_TRACK, LineScan.empty, Scan.init, ccd_init]
  have e4 : scan_body u { LineScan.empty with Point := some 1 }
        { Scan.init with
          TocEntry := 0
          ccd := { ccd_init with Disc := { ccd_init.Disc with TocEntries := 1 }
                                 Entry := [u.Entry 0, u.Entry 1] } }
      = { Scan.init with
          TocEntry := 0
          ccd := { ccd_init with Disc := { ccd_init.Disc with TocEntries := 1 }
                                 Entry := [{ u.Entry 0 with Point := 1 }, u.Entry 1] } } := by
    simp [scan_body, scan_simple, scan_Session, scan_Sessions, scan_Entry, scan_TocEntries,
      count_Entry, fill_Entry, store_Entry, scan_CDText, scan_CDTextEntries, scan_TRACK,
      count_TRACK, fill_TRACK, poke, List.modify, LineScan.empty, Scan.init, ccd_init]
  have e5 : scan_body u { LineScan.empty with TRACK_tmp := some 1 }
        { Scan.init with
          TocEntry := 0
          ccd := { ccd_init with Disc := { ccd_init.Disc with TocEntries := 1 }
                                 Entry := [{ u.Entry 0 with Point := 1 }, u.Entry 1] } }
      = { Scan.init with
          TocEntry := 0
          TRACK := 1
          ccd := { ccd_init with Disc := { ccd_init.Disc with TocEntries := 1 }
                                 Entry := [{ u.Entry 0 with Point := 1 }, u.Entry 1]
                                 TRACK := [u.TRACK 0, ccd_TRACK_init]
                                 TrackEntries := 1 } } := by
    simp only [scan_body, scan_simple, scan_Session, scan_Sessions, scan_Entry, scan_TocEntries,
      count_Entry, fill_Entry, store_Entry, scan_CDText, scan_CDTextEntries, scan_TRACK,
      count_TRACK, LineScan.empty, Scan.init, ccd_init]
    simp
    rw [x2]
    simp only [store_TRACK, peek]
    simp
    simp only [fill_TRACK]
    simp
    simp only [store_TRACK, peek]
    simp
    simp [scan_INDEX]
  have e6 : scan_body u { LineScan.empty with MODE := some 0 }
        { Scan.init with
          TocEntry := 0
          TRACK := 1
          ccd := { ccd_init with Disc := { ccd_init.Disc with TocEntries := 1 }
                                 Entry := [{ u.Entry 0 with Point := 1 }, u.Entry 1]
                                 TRACK := [u.TRACK 0, ccd_TRACK_init]
                                 TrackEntries := 1 } }
      = { Scan.init with
          TocEntry := 0
          TRACK := 1
          ccd := { ccd_init with Disc := { ccd_init.Disc with TocEntries := 1 }
                                 Entry := [{ u.Entry 0 with Point := 1 }, u.Entry 1]
                                 TRACK := [u.TRACK 0, ccd_TRACK_init]
                                 TrackEntries := 1 } } := by
    simp only [scan_body, scan_simple, scan_Session, scan_Sessions, scan_Entry, scan_TocEntries,
      count_Entry, fill_Entry, store_Entry, scan_CDText, scan_CDTextEntries, scan_TRACK,
      count_TRACK, LineScan.empty, Scan.init, ccd_init]
    simp
    simp only [fill_TRACK]
    simp
    simp only [store_TRACK, peek]
    simp
    simp [scan_INDEX, ccd_TRACK_init]
  have e7 : scan_body u { LineScan.empty with INDEX_tmp := some 1, INDEX := some 0 }
        { Scan.init with
          TocEntry := 0
          TRACK := 1
          ccd := { ccd_init with Disc := { ccd_init.Disc with TocEntries := 1 }
                                 Entry := [{ u.Entry 0 with Point := 1 }, u.Entry 1]
                                 TRACK := [u.TRACK 0, ccd_TRACK_init]
                                 TrackEntries := 1 } }
      = { Scan.init with
          TocEntry := 0
          TRACK := 1
          ccd := { ccd_init with Disc := { ccd_init.Disc with TocEntries := 1 }
                                 Entry := [{ u.Entry 0 with Point := 1 }, u.Entry 1]
                                 TRACK := [u.TRACK 0, { ccd_TRACK_init with INDEX := [-1, 0] }]
                                 TrackEntries := 1 } } := by
    simp only [scan_body, scan_simple, scan_Session, scan_Sessions, scan_Entry, scan_TocEntries,
      count_Entry, fill_Entry, store_Entry, scan_CDText, scan_CDTextEntries, scan_TRACK,
      count_TRACK, LineScan.empty, Scan.init, ccd_init]
    simp
    simp only [fill_TRACK]
    simp
    simp only [store_TRACK, peek]
    simp
    simp [scan_INDEX, ccd_TRACK_init, poke]
  have e8 : scan_body u LineScan.empty
        { Scan.init with
          TocEntry := 0
          TRACK := 1
          ccd := { ccd_init with Disc := { ccd_init.Disc with TocEntries := 1 }
                                 Entry := [{ u.Entry 0 with Point := 1 }, u.Entry 1]
                                 TRACK := [u.TRACK 0, { ccd_TRACK_init with INDEX := [-1, 0] }]
                                 TrackEntries := 1 } }
      = { Scan.init with
          TocEntry := 0
          TRACK := 1
          ccd := { ccd_init with Disc := { ccd_init.Disc with TocEntries := 1 }
                                 Entry := [{ u.Entry 0 with Point := 1 }, u.Entry 1]
                                 TRACK := [u.TRACK 0, { ccd_TRACK_init with INDEX := [-1, 0] }]
                                 TrackEntries := 1 } } := by
    simp only [scan_body, scan_simple, scan_Session, scan_Sessions, scan_Entry, scan_TocEntries,
      count_Entry, fill_Entry, store_Entry, scan_CDText, scan_CDTextEntries, scan_TRACK,
      count_TRACK, LineScan.empty, Scan.init, ccd_init]
    simp
    simp only [fill_TRACK]
    simp
    simp only [store_TRACK, peek]
    simp
    simp [scan_INDEX, ccd_TRACK_init]
  unfold scan_stream
  rw [hu, sample_sheet_lines]
  simp only [List.foldl_cons, List.foldl_nil, scan_line]
  rw [f1, e1, f2, e2, f3, e3, f4, e4, f5, e5, f6, e6, f7, e7, f8, e8]
  rfl

theorem sample_sheet_not_starved (u : Uninit) (hu : u.line = []) :
    ¬ (scan_stream u sample_sheet).starved := by
  rw [sample_sheet_scan u hu]
  unfold Scan.starved
  simp [ccd_init]

theorem sample_sheet_ccd (u : Uninit) (hu : u.line = []) :
    (stream2ccd u sample_sheet).ccd
      = { ccd_init with
          Disc := { ccd_init.Disc with TocEntries := 1 }
          Entry := [{ u.Entry 0 with Point := 1 }, u.Entry 1]
          TRACK := [u.TRACK 0, { ccd_TRACK_init with INDEX := [-1, 0] }]
          TrackEntries := 1 }
    ∧ (stream2ccd u sample_sheet).oob = [] := by
  have hr := reconcile_returns u (scan_stream u sample_sheet)
    (fun hs => sample_sheet_not_starved u hu hs.2)
  unfold stream2ccd
  rw [hr]
  simp [sample_sheet_scan u hu, Scan.reconciled, ccd_init]

theorem sample_sheet_cue (u : Uninit) (hu : u.line = []) (img_name cdt_name : List Char) :
    ccd2cue u (stream2ccd u sample_sheet).ccd img_name cdt_name
      = .ok { cue_init with
              FileEntries := 1
              FILE := [{ filename := some img_name
                         filetype := cue_filetype.BINARY
                         TrackEntries := 1
                         FirstTrack := 1
                         TRACK := [cue_TRACK_init u 0,
                           { cue_TRACK_init u 1 with
                             INDEX := [{ u.time 1 0 with initialized := 0 },
                                       { initialized := 1, minutes := 0, seconds := 0, frames := 0 }]
                             IndexEntries := 2 }] }] } := by
  rw [(sample_sheet_ccd u hu).1]
  simp [ccd2cue, ccd_init, cue_init, cue_FILE_init, ccd2cue_TRACK, ccd2cue_INDEX, fetch,
    ccd_TRACK_init, List.range', List.range, List.range.loop, frames2msf, strncpy]
  rfl

theorem ok_bind {ε α β : Type} (a : α) (f : α → Except ε β) : (Except.ok a >>= f) = f a := rfl

theorem sample_sheet_cue_lines (u : Uninit) (hu : u.line = []) (img_name cdt_name : List Char) :
    (ccd2cue u (stream2ccd u sample_sheet).ccd img_name cdt_name >>= cue2lines)
      = .ok ["FILE \"".toList ++ img_name ++ "\" BINARY\n".toList,
             "  TRACK 1 AUDIO\n".toList,
             "    INDEX 01 00:00:00\n".toList] := by
  rw [sample_sheet_cue u hu]
  have p1 : printf_02u 1 = ['0', '1'] := by decide
  have p0 : printf_02u 0 = ['0', '0'] := by decide
  have pi : printf_i 1 = ['1'] := by decide
  have hT : ∀ f : cue_FILE,
      f.TRACK = [cue_TRACK_init u 0,
        { cue_TRACK_init u 1 with
          INDEX := [{ u.time 1 0 with initialized := 0 },
                    { initialized := 1, minutes := 0, seconds := 0, frames := 0 }]
          IndexEntries := 2 }] →
      cue2stream_TRACK f 1
        = .ok ["  TRACK 1 AUDIO\n".toList, "    INDEX 01 00:00:00\n".toList] := by
    intro f hf
    unfold cue2stream_TRACK
    rw [hf]
    rfl
  have hF : cue2stream_FILE
      { cue_init with
        FileEntries := 1
        FILE := [{ filename := some img_name
                   filetype := cue_filetype.BINARY
                   TrackEntries := 1
                   FirstTrack := 1
                   TRACK := [cue_TRACK_init u 0,
                     { cue_TRACK_init u 1 with
                       INDEX := [{ u.time 1 0 with initialized := 0 },
                                 { initialized := 1, minutes := 0, seconds := 0, frames := 0 }]
                       IndexEntries := 2 }] }] } 0
      = .ok ["FILE \"".toList ++ img_name ++ "\" BINARY\n".toList,
             "  TRACK 1 AUDIO\n".toList, "    INDEX 01 00:00:00\n".toList] := by
    have hr : (List.range (1 + 1 - 1 : Int).toNat).map (fun (k : Nat) => (1 : Int) + (k : Int))
        = [1] := by
      decide
    simp only [cue2stream_FILE, fetch, List.get?, ok_bind, hr, List.mapM_cons, List.mapM_nil]
    rw [hT]
    · simp only [ok_bind, pure, Except.pure, print_opt, filetype]
      simp
    · rfl
  have hr1 : List.range (1 : Int).toNat = [0] := by decide
  rw [ok_bind]
  unfold cue2lines
  simp only [hr1, List.mapM_cons, List.mapM_nil]
  rw [hF]
  simp only [ok_bind, pure, Except.pure, print_opt, cue_init]
  simp

theorem convert_eq_lines (u : Uninit) (stream img_name cdt_name : List Char)
    (hx : (stream2ccd u stream).exit = none) :
    convert u stream img_name cdt_name
      = (ccd2cue u (stream2ccd u stream).ccd img_name cdt_name >>= cue2lines).map List.flatten := by
  unfold convert cue2stream
  rw [hx]
  cases ccd2cue u (stream2ccd u stream).ccd img_name cdt_name <;> rfl

theorem sample_sheet_returns (u : Uninit) (hu : u.line = []) :
    (stream2ccd u sample_sheet).exit = none := by
  rw [stream2ccd_exit_iff]
  exact fun hs => sample_sheet_not_starved u hu hs.2

/-- C1: for the sheet `[Disc]`, `TocEntries=1`, `[Entry 0]`, `Point=1`, `[TRACK 1]`,
`MODE=0`, `INDEX 1=0` (each line ended by a newline), read by `stream2ccd` with an empty
string in the line buffer of the read at end of stream, `ccd2cue` and `cue2stream` print
exactly the lines `FILE "<image>" BINARY`, `  TRACK 1 AUDIO` and
`    INDEX 01 00:00:00`: the text contains `  TRACK 1 AUDIO\n    INDEX 01 00:00:00\n`, and
no printed line is a `CDTEXTFILE` line. -/
theorem convert_sample_sheet (u : Uninit) (hu : u.line = []) (img_name cdt_name : List Char) :
    sample_sheet
      = "[Disc]\nTocEntries=1\n[Entry 0]\nPoint=1\n[TRACK 1]\nMODE=0\nINDEX 1=0\n".toList
    ∧ (stream2ccd u sample_sheet).oob = []
    ∧ ∃ lines,
        (ccd2cue u (stream2ccd u sample_sheet).ccd img_name cdt_name >>= cue2lines) = .ok lines
        ∧ convert u sample_sheet img_name cdt_name = .ok lines.flatten
        ∧ lines = ["FILE \"".toList ++ img_name ++ "\" BINARY\n".toList,
                   "  TRACK 1 AUDIO\n".toList, "    INDEX 01 00:00:00\n".toList]
        ∧ "  TRACK 1 AUDIO\n    INDEX 01 00:00:00\n".toList <:+: lines.flatten
        ∧ ∀ l ∈ lines, ¬ "CDTEXTFILE".toList <+: l := by
  refine ⟨rfl, (sample_sheet_ccd u hu).2, _, sample_sheet_cue_lines u hu img_name cdt_name, ?_,
    rfl, ?_, ?_⟩
  · rw [convert_eq_lines _ _ _ _ (sample_sheet_returns u hu), sample_sheet_cue_lines u hu]
    rfl
  · refine ⟨"FILE \"".toList ++ img_name ++ "\" BINARY\n".toList, [], ?_⟩
    simp
  · intro l hl h
    simp only [List.mem_cons, List.mem_singleton, List.not_mem_nil, or_false] at hl
    rcases hl with rfl | rfl | rfl <;> obtain ⟨t, ht⟩ := h <;> cases ht

/-- Witness of C1 for zeroed fresh memory and the file names `image.img` and
`image.cdt`. -/
theorem convert_sample_sheet_witness :
    Uninit.zeroed.line = []
    ∧ (sample_sheet
        = "[Disc]\nTocEntries=1\n[Entry 0]\nPoint=1\n[TRACK 1]\nMODE=0\nINDEX 1=0\n".toList
      ∧ (stream2ccd Uninit.zeroed sample_sheet).oob = []
      ∧ ∃ lines,
          (ccd2cue Uninit.zeroed (stream2ccd Uninit.zeroed sample_sheet).ccd "image.img".toList
              "image.cdt".toList >>= cue2lines) = .ok lines
          ∧ convert Uninit.zeroed sample_sheet "image.img".toList "image.cdt".toList
              = .ok lines.flatten
          ∧ lines = ["FILE \"".toList ++ "image.img".toList ++ "\" BINARY\n".toList,
                     "  TRACK 1 AUDIO\n".toList, "    INDEX 01 00:00:00\n".toList]
          ∧ "  TRACK 1 AUDIO\n    INDEX 01 00:00:00\n".toList <:+: lines.flatten
          ∧ ∀ l ∈ lines, ¬ "CDTEXTFILE".toList <+: l) :=
  ⟨rfl, convert_sample_sheet Uninit.zeroed rfl "image.img".toList "image.cdt".toList⟩

/-! ## Theorems: concrete sheets -/

set_option maxRecDepth 1000000 in
/-- With the `realloc` of the GNU C library, `stream2ccd` returns for each of the sample
sheets in which no array is announced without a header of its kind counted. -/
theorem sample_sheets_return :
    (stream2ccd Uninit.zeroed sample_sessions_sheet).exit = none
    ∧ (stream2ccd Uninit.zeroed sample_toc_sheet).exit = none
    ∧ (stream2ccd Uninit.zeroed sample_session_sheet).exit = none
    ∧ (stream2ccd Uninit.zeroed sample_cdtext_overflow_sheet).exit = none
    ∧ (stream2ccd Uninit.zeroed sample_session_overflow_sheet).exit = none
    ∧ (stream2ccd Uninit.zeroed sample_sheet).exit = none
    ∧ (stream2ccd Uninit.zeroed sample_unknown_mode_sheet).exit = none
    ∧ (stream2ccd Uninit.zeroed sample_negative_index_sheet).exit = none
    ∧ (stream2ccd Uninit.zeroed sample_no_index_1_sheet).exit = none
    ∧ (stream2ccd Uninit.zeroed sample_toc_overflow_sheet).exit = none
    ∧ (stream2ccd Uninit.zeroed sample_long_line).exit = none
    ∧ (stream2ccd Uninit.zeroed sample_long_codes_sheet).exit = none
    ∧ (stream2ccd Uninit.zeroed sample_unset_fields_sheet).exit = none
    ∧ (stream2ccd Uninit.zeroed sample_short_ISRC_sheet).exit = none
    ∧ (stream2ccd Uninit.zeroed sample_negative_pregap_sheet).exit = none
    ∧ (stream2ccd Uninit.zeroed sample_two_sessions_sheet).exit = none
    ∧ (stream2ccd Uninit.zeroed sample_three_sessions_sheet).exit = none
    ∧ (stream2ccd Uninit.zeroed sample_three_cdtext_sheet).exit = none
    ∧ (stream2ccd Uninit.zeroed sample_three_toc_sheet).exit = none
    ∧ (stream2ccd Uninit.zeroed sample_numbered_tracks_sheet).exit = none
    ∧ (stream2ccd Uninit.zeroed sample_four_indexes_sheet).exit = none := by
  decide

set_option maxRecDepth 1000000 in
/-- C3, evaluated where the code departs from it.  With one CD-Text entry announced and
two `Entry n = ...` lines, the bytes of the second line are written to slot 1 of an
array of one slot; with one session announced and two `[Session n]` sections, the
`PreGapMode` of the second section is written to slot 2 of an array of two slots.  Both
writes are outside the array.  The announced numbers stay at 1 and the first entry is
kept. -/
theorem stream2ccd_overflow_writes_outside :
    (stream2ccd Uninit.zeroed sample_cdtext_overflow_sheet).oob = [(Region.CDText, 1)]
    ∧ (stream2ccd Uninit.zeroed sample_cdtext_overflow_sheet).ccd.CDText.Entries = 1
    ∧ (stream2ccd Uninit.zeroed sample_cdtext_overflow_sheet).ccd.CDText.Entry.length = 1
    ∧ (stream2ccd Uninit.zeroed sample_cdtext_overflow_sheet).ccd.CDText.Entry.map cdt_data.bytes
        = [[0x80, 0, 0, 0, 0x41, 0x42, 0x43, 0x44, 0x45, 0x46, 0x47, 0x48, 0x49, 0x4a, 0x4b, 0x4c]]
    ∧ (stream2ccd Uninit.zeroed sample_session_overflow_sheet).oob = [(Region.Session, 2)]
    ∧ (stream2ccd Uninit.zeroed sample_session_overflow_sheet).ccd.Disc.Sessions = 1
    ∧ (stream2ccd Uninit.zeroed sample_session_overflow_sheet).ccd.Session.length = 2
    ∧ ((stream2ccd Uninit.zeroed sample_session_overflow_sheet).ccd.Session.map
          fun e => e.PreGapMode) = [0, 1] := by
  decide

/-! ## Theorems: the conversion to a CUE structure -/

/-- A pass with `mapM` over consecutive numbers returns a list exactly when each
number returns, and then slot by slot. -/
theorem mapM_range'_ok_iff {β : Type} (f : Nat → Except Failure β) (s n : Nat) (ys : List β) :
    (List.range' s n).mapM f = .ok ys
      ↔ ys.length = n ∧ ∀ k, k < n → ∃ y, ys.get? k = some y ∧ f (s + k) = .ok y := by
  induction n generalizing s ys with
  | zero =>
    constructor
    · intro h
      cases h
      exact ⟨rfl, fun k hk => absurd hk (Nat.not_lt_zero k)⟩
    · rintro ⟨h, -⟩
      rw [List.length_eq_zero.mp h]
      rfl
  | succ n ih =>
    rw [List.range'_succ, List.mapM_cons]
    constructor
    · intro h
      cases hx : f s with
      | error e =>
        rw [hx] at h
        cases h
      | ok y =>
        rw [hx] at h
        cases ht : (List.range' (s + 1) n).mapM f with
        | error e =>
          rw [ht] at h
          cases h
        | ok ys' =>
          rw [ht] at h
          cases h
          obtain ⟨hl, hk⟩ := (ih (s + 1) ys').mp ht
          refine ⟨by simp [hl], fun k hk' => ?_⟩
          cases k with
          | zero => exact ⟨y, rfl, hx⟩
          | succ k =>
            obtain ⟨z, hz, hf⟩ := hk k (by omega)
            exact ⟨z, hz, by rw [← hf]; congr 1; omega⟩
    · rintro ⟨hl, hk⟩
      cases ys with
      | nil => cases hl
      | cons y ys' =>
        obtain ⟨y0, hy0, hf0⟩ := hk 0 (by omega)
        cases hy0
        have ht : (List.range' (s + 1) n).mapM f = .ok ys' := by
          refine (ih (s + 1) ys').mpr ⟨by simpa using hl, fun k hk' => ?_⟩
          obtain ⟨z, hz, hf⟩ := hk (k + 1) (by omega)
          exact ⟨z, hz, by rw [← hf]; congr 1; omega⟩
        rw [Nat.add_zero] at hf0
        rw [hf0, ht]
        rfl

theorem mapM_range_ok_iff {β : Type} (f : Nat → Except Failure β) (n : Nat) (ys : List β) :
    (List.range n).mapM f = .ok ys
      ↔ ys.length = n ∧ ∀ k, k < n → ∃ y, ys.get? k = some y ∧ f k = .ok y := by
  rw [List.range_eq_range', mapM_range'_ok_iff]
  simp

/-- A pass with `mapM` returns when each of its elements returns. -/
theorem mapM_ok_of_forall {α β : Type} (f : α → Except Failure β) (l : List α)
    (h : ∀ x ∈ l, ∃ y, f x = .ok y) : ∃ ys, l.mapM f = .ok ys := by
  induction l with
  | nil => exact ⟨[], rfl⟩
  | cons x t ih =>
    obtain ⟨y, hy⟩ := h x (List.mem_cons_self _ _)
    obtain ⟨ys, hys⟩ := ih fun z hz => h z (List.mem_cons_of_mem _ hz)
    exact ⟨y :: ys, by rw [List.mapM_cons, hy, hys]; rfl⟩

/-- A pass with `mapM` over consecutive numbers fails with the failure of the first
number that fails. -/
theorem mapM_range'_error {β : Type} (f : Nat → Except Failure β) (s n k : Nat) (e : Failure)
    (hk : k < n) (hbefore : ∀ j, j < k → ∃ y, f (s + j) = .ok y) (he : f (s + k) = .error e) :
    (List.range' s n).mapM f = .error e := by
  induction n generalizing s k with
  | zero => omega
  | succ n ih =>
    rw [List.range'_succ, List.mapM_cons]
    cases k with
    | zero =>
      rw [Nat.add_zero] at he
      rw [he]
      rfl
    | succ k =>
      obtain ⟨y, hy⟩ := hbefore 0 (by omega)
      rw [Nat.add_zero] at hy
      have h2 := ih (s + 1) k (by omega)
        (fun j hj => by
          obtain ⟨z, hz⟩ := hbefore (j + 1) (by omega)
          exact ⟨z, by rw [← hz]; congr 1; omega⟩)
        (by rw [← he]; congr 1; omega)
      rw [hy, h2]
      rfl

theorem fetch_ok_iff {α : Type} (p : List α) (i : Nat) (x : α) :
    fetch p i = .ok x ↔ p.get? i = some x := by
  unfold fetch
  cases p.get? i <;> simp

/-- What `ccd2cue` leaves in an `INDEX` slot when it returns. -/
theorem ccd2cue_INDEX_ok (u : Uninit) (t : ccd_TRACK) (i j : Nat) (x : cue_time)
    (h : ccd2cue_INDEX u t i j = .ok x) :
    ∃ v, t.INDEX.get? j = some v
      ∧ (v = -1 → x = { u.time i j with initialized := 0 })
      ∧ (v ≠ -1 → frames2msf v = .ok x) := by
  unfold ccd2cue_INDEX at h
  cases hv : fetch t.INDEX j with
  | error e =>
    rw [hv] at h
    cases h
  | ok v =>
    rw [hv] at h
    refine ⟨v, (fetch_ok_iff _ _ _).mp hv, fun h1 => ?_, fun h1 => ?_⟩
    · subst h1
      cases h
      rfl
    · simpa [bind, Except.bind, h1] using h

/-- What `ccd2cue` leaves in a `TRACK` slot when it returns. -/
theorem ccd2cue_TRACK_ok (u : Uninit) (c : ccd) (i : Nat) (y : cue_TRACK)
    (h : ccd2cue_TRACK u c i = .ok y) :
    ∃ t, c.TRACK.get? i = some t
      ∧ (t.MODE = 0 ∨ t.MODE = 1 ∨ t.MODE = 2)
      ∧ 0 ≤ t.IndexEntries
      ∧ (List.range t.IndexEntries.toNat).mapM (ccd2cue_INDEX u t i) = .ok y.INDEX
      ∧ y = { cue_TRACK_init u i with
              datatype := if t.MODE = 0 then cue_datatype.AUDIO_2352
                          else if t.MODE = 1 then cue_datatype.MODE1_2352
                          else cue_datatype.MODE2_2352
              FLAGS := t.FLAGS
              ISRC := if t.ISRC ≠ [] then strncpy t.ISRC (12 + 1) else []
              INDEX := y.INDEX
              IndexEntries := t.IndexEntries } := by
  unfold ccd2cue_TRACK at h
  cases ht : fetch c.TRACK i with
  | error e =>
    rw [ht] at h
    cases h
  | ok t =>
    rw [ht] at h
    refine ⟨t, (fetch_ok_iff _ _ _).mp ht, ?_⟩
    have hm : t.MODE = 0 ∨ t.MODE = 1 ∨ t.MODE = 2 := by
      by_contra hc
      simp only [not_or] at hc
      simp only [bind, Except.bind, hc.1, hc.2.1, hc.2.2, if_false, throw, throwThe,
        MonadExceptOf.throw] at h
      cases h
    have hi : 0 ≤ t.IndexEntries := by
      by_contra hc
      have hc' : t.IndexEntries < 0 := by omega
      rcases hm with h0 | h0 | h0 <;>
        · simp only [bind, Except.bind, h0, hc', pure, Except.pure, throw, throwThe,
            MonadExceptOf.throw, if_true, if_false] at h
          cases h
    have hi' : ¬ t.IndexEntries < 0 := by omega
    have hd : ∀ d : cue_datatype,
        (if t.MODE = 0 then cue_datatype.AUDIO_2352
          else if t.MODE = 1 then cue_datatype.MODE1_2352 else cue_datatype.MODE2_2352) = d →
        (do
          let INDEX ← (List.range t.IndexEntries.toNat).mapM (ccd2cue_INDEX u t i)
          pure ({ cue_TRACK_init u i with
                  datatype := d
                  FLAGS := t.FLAGS
                  ISRC := if t.ISRC ≠ [] then strncpy t.ISRC (12 + 1) else []
                  INDEX := INDEX
                  IndexEntries := t.IndexEntries } : cue_TRACK)) = Except.ok y := by
      intro d hd
      subst hd
      rcases hm with h0 | h0 | h0 <;>
        · simp only [bind, Except.bind, h0, hi', pure, Except.pure, if_true, if_false] at h
          simp only [bind, Except.bind, h0, pure, Except.pure, if_true, if_false]
          exact h
    have h2 := hd _ rfl
    cases hx : (List.range t.IndexEntries.toNat).mapM (ccd2cue_INDEX u t i) with
    | error e =>
      rw [hx] at h2
      cases h2
    | ok INDEX =>
      rw [hx] at h2
      cases h2
      exact ⟨hm, hi, rfl, rfl⟩

/-- A frame count that is not negative is converted. -/
theorem frames2msf_returns (v : Int) (hv : 0 ≤ v) :
    ∃ x, frames2msf v = .ok x ∧ x.initialized = 1 := by
  have h : ¬ v < 0 := by omega
  rw [frames2msf, if_neg h]
  exact ⟨_, rfl, rfl⟩

theorem frames2msf_initialized (v : Int) (x : cue_time) (h : frames2msf v = .ok x) :
    0 ≤ v ∧ x.initialized = 1 := by
  unfold frames2msf at h
  split at h
  · cases h
  · cases h
    exact ⟨by omega, rfl⟩

/-- The loop over the `INDEX` slots returns when the slots exist and hold the mark -1
or a frame count that is not negative. -/
theorem ccd2cue_INDEX_returns (u : Uninit) (t : ccd_TRACK) (i : Nat)
    (hlen : t.IndexEntries.toNat ≤ t.INDEX.length)
    (hv : ∀ v ∈ t.INDEX.take t.IndexEntries.toNat, -1 ≤ v) :
    ∃ INDEX, (List.range t.IndexEntries.toNat).mapM (ccd2cue_INDEX u t i) = .ok INDEX := by
  apply mapM_ok_of_forall
  intro j hj
  rw [List.mem_range] at hj
  have hj' : j < t.INDEX.length := by omega
  have hg : t.INDEX.get? j = some (t.INDEX.get ⟨j, hj'⟩) := List.get?_eq_get hj'
  have hf : fetch t.INDEX j = .ok (t.INDEX.get ⟨j, hj'⟩) := (fetch_ok_iff _ _ _).mpr hg
  have hm : t.INDEX.get ⟨j, hj'⟩ ∈ t.INDEX.take t.IndexEntries.toNat := by
    rw [List.mem_take_iff_getElem]
    exact ⟨j, by omega, rfl⟩
  have h1 := hv _ hm
  unfold ccd2cue_INDEX
  rw [hf]
  by_cases hs : t.INDEX.get ⟨j, hj'⟩ = -1
  · simp only [bind, Except.bind, hs, ne_eq, not_true_eq_false, if_false]
    exact ⟨_, rfl⟩
  · obtain ⟨x, hx, -⟩ := frames2msf_returns (t.INDEX.get ⟨j, hj'⟩) (by omega)
    exact ⟨x, by simp only [bind, Except.bind, ne_eq, hs, not_false_eq_true, if_true, hx]⟩

/-- The body of the loop over the tracks returns for a track with a known `MODE`
whose `INDEX` slots exist and hold the mark -1 or a frame count that is not
negative. -/
theorem ccd2cue_TRACK_returns (u : Uninit) (c : ccd) (i : Nat) (t : ccd_TRACK)
    (ht : c.TRACK.get? i = some t) (hm : t.MODE = 0 ∨ t.MODE = 1 ∨ t.MODE = 2)
    (h0 : 0 ≤ t.IndexEntries) (hlen : t.IndexEntries.toNat ≤ t.INDEX.length)
    (hv : ∀ v ∈ t.INDEX.take t.IndexEntries.toNat, -1 ≤ v) :
    ∃ y, ccd2cue_TRACK u c i = .ok y := by
  obtain ⟨INDEX, hx⟩ := ccd2cue_INDEX_returns u t i hlen hv
  have hf := (fetch_ok_iff _ _ _).mpr ht
  have hi' : ¬ t.IndexEntries < 0 := by omega
  have a10 : ¬ ((1 : Int) = 0) := by decide
  have a20 : ¬ ((2 : Int) = 0) := by decide
  have a21 : ¬ ((2 : Int) = 1) := by decide
  cases hr : ccd2cue_TRACK u c i with
  | ok y => exact ⟨y, rfl⟩
  | error e =>
    exfalso
    unfold ccd2cue_TRACK at hr
    rw [hf] at hr
    rcases hm with hm | hm | hm <;>
      · simp only [bind, Except.bind, hm, hi', pure, Except.pure, if_true, if_false, hx, a10,
          a20, a21] at hr
        cases hr

/-- The body of the loop over the tracks ends the program with `EX_UNAVAILABLE` for a
track whose `MODE` is not 0, 1 or 2. -/
theorem ccd2cue_TRACK_unknown_MODE (u : Uninit) (c : ccd) (i : Nat) (t : ccd_TRACK)
    (ht : c.TRACK.get? i = some t) (h0 : t.MODE ≠ 0) (h1 : t.MODE ≠ 1) (h2 : t.MODE ≠ 2) :
    ccd2cue_TRACK u c i = .error (.exit EX_UNAVAILABLE) := by
  have hf := (fetch_ok_iff _ _ _).mpr ht
  unfold ccd2cue_TRACK
  rw [hf]
  simp only [bind, Except.bind, h0, h1, h2, if_false, throw, throwThe, MonadExceptOf.throw]

/-- What `ccd2cue` returns, when it returns: the CUE structure with the `TRACK` array
that the loop over the tracks filled. -/
theorem ccd2cue_ok (u : Uninit) (c : ccd) (img_name cdt_name : List Char) (q : cue)
    (h : ccd2cue u c img_name cdt_name = .ok q) :
    ∃ TRACK : List cue_TRACK,
      ((0 < c.TrackEntries
          ∧ ∃ tracks, (List.range' 1 c.TrackEntries.toNat).mapM (ccd2cue_TRACK u c) = .ok tracks
            ∧ TRACK = cue_TRACK_init u 0 :: tracks)
        ∨ (c.TrackEntries ≤ 0 ∧ TRACK = []))
      ∧ q = { CATALOG := if c.Disc.CATALOG ≠ [] then strncpy c.Disc.CATALOG (13 + 1) else []
              CDTEXTFILE := if c.CDText.Entries ≠ 0 then some cdt_name else none
              PERFORMER := none
              SONGWRITER := none
              TITLE := none
              FileEntries := 1
              FILE := [{ filename := some img_name
                         filetype := cue_filetype.BINARY
                         TRACK := TRACK
                         TrackEntries := if 0 < c.TrackEntries then c.TrackEntries else 0
                         FirstTrack := 1 }] } := by
  unfold ccd2cue at h
  by_cases hT : c.TrackEntries > 0
  · have hT' : 0 < c.TrackEntries := hT
    simp only [hT, if_true] at h
    cases hx : (List.range' 1 c.TrackEntries.toNat).mapM (ccd2cue_TRACK u c) with
    | error e =>
      rw [hx] at h
      cases h
    | ok tracks =>
      rw [hx] at h
      refine ⟨cue_TRACK_init u 0 :: tracks, Or.inl ⟨hT', tracks, rfl, rfl⟩, ?_⟩
      have h2 := Except.ok.inj h
      rw [← h2, if_pos hT']
      by_cases h1 : c.Disc.CATALOG = [] <;> by_cases h3 : c.CDText.Entries = 0 <;>
        simp [h1, h3, cue_init, cue_FILE_init]
  · simp only [hT, if_false] at h
    have hT' : ¬ 0 < c.TrackEntries := hT
    refine ⟨[], Or.inr ⟨by omega, rfl⟩, ?_⟩
    have h2 := Except.ok.inj h
    rw [← h2, if_neg hT']
    by_cases h1 : c.Disc.CATALOG = [] <;> by_cases h3 : c.CDText.Entries = 0 <;>
      simp [h1, h3, cue_init, cue_FILE_init]

theorem ccd.convertible_iff (c : ccd) :
    c.convertible ↔ ∀ i : Nat, 1 ≤ i → (i : Int) ≤ c.TrackEntries →
      ∃ t, c.TRACK.get? i = some t ∧ t.IndexEntries = (t.INDEX.length : Int)
        ∧ ∀ v ∈ t.INDEX, -1 ≤ v := by
  unfold ccd.convertible
  constructor
  · intro h i h1 h2
    obtain ⟨t, ht, hr⟩ := h i (List.mem_range'_1.mpr ⟨h1, by omega⟩)
    exact ⟨t, ht, hr⟩
  · intro h i hi
    rw [List.mem_range'_1] at hi
    obtain ⟨t, ht, hr⟩ := h i hi.1 (by omega)
    exact ⟨t, ht, hr⟩

theorem ccd.modes_known_iff (c : ccd) :
    c.modes_known ↔ ∀ (i : Nat) (t : ccd_TRACK), 1 ≤ i → (i : Int) ≤ c.TrackEntries →
      c.TRACK.get? i = some t → t.MODE = 0 ∨ t.MODE = 1 ∨ t.MODE = 2 := by
  unfold ccd.modes_known
  constructor
  · intro h i t h1 h2 ht
    exact h i (List.mem_range'_1.mpr ⟨h1, by omega⟩) t ht
  · intro h i hi t ht
    rw [List.mem_range'_1] at hi
    exact h i t hi.1 (by omega) ht

/-- The function `ccd2cue` returns a CUE structure for a CCD structure with arrays as
announced, frame counts that are -1 or not negative, and tracks of known `MODE`. -/
theorem ccd2cue_returns (u : Uninit) (c : ccd) (img_name cdt_name : List Char)
    (hc : c.convertible) (hm : c.modes_known) :
    ∃ q, ccd2cue u c img_name cdt_name = .ok q := by
  have hc := (ccd.convertible_iff c).mp hc
  have hm := (ccd.modes_known_iff c).mp hm
  unfold ccd2cue
  by_cases hT : c.TrackEntries > 0
  · have hx : ∃ tracks,
        (List.range' 1 c.TrackEntries.toNat).mapM (ccd2cue_TRACK u c) = .ok tracks := by
      apply mapM_ok_of_forall
      intro i hi
      rw [List.mem_range'_1] at hi
      obtain ⟨t, ht, hlen, hv⟩ := hc i hi.1 (by omega)
      exact ccd2cue_TRACK_returns u c i t ht (hm i t hi.1 (by omega) ht) (by omega)
        (by omega) fun v hv' => hv v (List.mem_of_mem_take hv')
    obtain ⟨tracks, hx⟩ := hx
    simp only [hT, if_true, hx]
    exact ⟨_, rfl⟩
  · simp only [hT, if_false]
    exact ⟨_, rfl⟩

/-- The slot `TRACK[i]` of the CUE structure that `ccd2cue` returns is the one that the
body of the loop over the tracks built for `i`. -/
theorem ccd2cue_ok_TRACK (u : Uninit) (c : ccd) (img_name cdt_name : List Char) (q : cue)
    (h : ccd2cue u c img_name cdt_name = .ok q) (i : Nat) (h1 : 1 ≤ i)
    (h2 : (i : Int) ≤ c.TrackEntries) :
    ∃ f y, q.FILE = [f] ∧ f.TrackEntries = c.TrackEntries
      ∧ f.TRACK.length = c.TrackEntries.toNat + 1
      ∧ f.TRACK.get? i = some y ∧ ccd2cue_TRACK u c i = .ok y := by
  obtain ⟨TRACK, hT, hq⟩ := ccd2cue_ok u c img_name cdt_name q h
  rcases hT with ⟨hpos, tracks, hx, hTR⟩ | ⟨hneg, -⟩
  · obtain ⟨hl, hk⟩ := (mapM_range'_ok_iff _ _ _ _).mp hx
    obtain ⟨y, hy, hf⟩ := hk (i - 1) (by omega)
    have e : 1 + (i - 1) = i := by omega
    rw [e] at hf
    refine ⟨_, y, by rw [hq], by rw [if_pos hpos], ?_, ?_, hf⟩
    · simp only [hTR, List.length_cons, hl]
    · simp only [hTR]
      obtain ⟨k, rfl⟩ : ∃ k, i = k + 1 := ⟨i - 1, by omega⟩
      simpa using hy
  · omega

theorem sample_tracks_convert :
    ccd2cue Uninit.zeroed sample_tracks_ccd "image.img".toList "image.cdt".toList
      = .ok sample_tracks_cue := by
  rfl

theorem sample_tracks_convertible : sample_tracks_ccd.convertible := by
  decide

theorem sample_tracks_modes_known : sample_tracks_ccd.modes_known := by
  decide

/-- C11: whenever `ccd2cue` returns a CUE structure, its `CDTEXTFILE` is a copy of
`cdt_name` if the CCD structure has at least one CD-Text entry, and is absent (a null
pointer) if `CDText.Entries` is 0; and `ccd2cue` does return one for every CCD structure
with arrays as announced and tracks of known `MODE`. -/
theorem ccd2cue_CDTEXTFILE (u : Uninit) (c : ccd) (img_name cdt_name : List Char) :
    (∀ q, ccd2cue u c img_name cdt_name = .ok q →
      (1 ≤ c.CDText.Entries → q.CDTEXTFILE = some cdt_name)
      ∧ (c.CDText.Entries = 0 → q.CDTEXTFILE = none))
    ∧ (c.convertible → c.modes_known → ∃ q, ccd2cue u c img_name cdt_name = .ok q) := by
  refine ⟨fun q h => ?_, ccd2cue_returns u c img_name cdt_name⟩
  obtain ⟨TRACK, -, hq⟩ := ccd2cue_ok u c img_name cdt_name q h
  rw [hq]
  refine ⟨fun h1 => ?_, fun h0 => ?_⟩
  · have hne : c.CDText.Entries ≠ 0 := by omega
    simp only [hne, ne_eq, not_false_eq_true, if_true]
  · simp only [h0, ne_eq, not_true_eq_false, if_false]

/-- Witness of C11 for the sample CCD structure with one CD-Text entry. -/
theorem ccd2cue_CDTEXTFILE_witness :
    ccd2cue Uninit.zeroed sample_tracks_ccd "image.img".toList "image.cdt".toList
      = .ok sample_tracks_cue
    ∧ ((1 ≤ sample_tracks_ccd.CDText.Entries
        → sample_tracks_cue.CDTEXTFILE = some "image.cdt".toList)
      ∧ (sample_tracks_ccd.CDText.Entries = 0 → sample_tracks_cue.CDTEXTFILE = none)) :=
  ⟨sample_tracks_convert,
    (ccd2cue_CDTEXTFILE Uninit.zeroed sample_tracks_ccd "image.img".toList
      "image.cdt".toList).1 sample_tracks_cue sample_tracks_convert⟩

/-- C12: whenever `ccd2cue` returns a CUE structure for a CCD structure whose `CATALOG`
is a string of its array of 13 + 1 characters, the `CATALOG` of the CUE structure is
equal to it when it is not empty and is empty when it is empty. -/
theorem ccd2cue_CATALOG (u : Uninit) (c : ccd) (img_name cdt_name : List Char)
    (hlen : c.Disc.CATALOG.length ≤ 13) (q : cue)
    (h : ccd2cue u c img_name cdt_name = .ok q) :
    (c.Disc.CATALOG ≠ [] → q.CATALOG = c.Disc.CATALOG)
    ∧ (c.Disc.CATALOG = [] → q.CATALOG = []) := by
  obtain ⟨TRACK, -, hq⟩ := ccd2cue_ok u c img_name cdt_name q h
  rw [hq]
  refine ⟨fun h1 => ?_, fun h0 => ?_⟩
  · simp only [h1, ne_eq, not_false_eq_true, if_true, strncpy]
    exact List.take_of_length_le (by omega)
  · simp only [h0, ne_eq, not_true_eq_false, if_false]

/-- Witness of C12 for the sample CCD structure with a catalog number of 13 digits. -/
theorem ccd2cue_CATALOG_witness :
    sample_tracks_ccd.Disc.CATALOG.length ≤ 13
    ∧ ccd2cue Uninit.zeroed sample_tracks_ccd "image.img".toList "image.cdt".toList
      = .ok sample_tracks_cue
    ∧ ((sample_tracks_ccd.Disc.CATALOG ≠ []
        → sample_tracks_cue.CATALOG = sample_tracks_ccd.Disc.CATALOG)
      ∧ (sample_tracks_ccd.Disc.CATALOG = [] → sample_tracks_cue.CATALOG = [])) :=
  ⟨by decide, sample_tracks_convert,
    ccd2cue_CATALOG Uninit.zeroed sample_tracks_ccd "image.img".toList "image.cdt".toList
      (by decide) sample_tracks_cue sample_tracks_convert⟩

/-- C13: whenever `ccd2cue` returns a CUE structure, it has exactly one `FILE` entry,
of type `BINARY`, with a copy of `img_name` as its file name and `FirstTrack` 1; and for
a CCD structure with no track `ccd2cue` does return one, whose `FILE` entry has no
track. -/
theorem ccd2cue_FILE (u : Uninit) (c : ccd) (img_name cdt_name : List Char) :
    (∀ q, ccd2cue u c img_name cdt_name = .ok q →
      q.FileEntries = 1
      ∧ ∃ f, q.FILE = [f] ∧ f.filetype = cue_filetype.BINARY ∧ f.filename = some img_name
          ∧ f.FirstTrack = 1)
    ∧ (c.TrackEntries ≤ 0 →
        ∃ q, ccd2cue u c img_name cdt_name = .ok q
          ∧ q.FILE = [{ filename := some img_name, filetype := cue_filetype.BINARY, TRACK := [],
                        TrackEntries := 0, FirstTrack := 1 }]) := by
  refine ⟨fun q h => ?_, fun h0 => ?_⟩
  · obtain ⟨TRACK, -, hq⟩ := ccd2cue_ok u c img_name cdt_name q h
    rw [hq]
    exact ⟨rfl, _, rfl, rfl, rfl, rfl⟩
  · have hT : ¬ c.TrackEntries > 0 := by omega
    refine ⟨_, by simp only [ccd2cue, hT, if_false]; rfl, rfl⟩

/-- Witness of C13 for the CCD structure that `ccd_init` leaves, which has no track. -/
theorem ccd2cue_FILE_witness :
    ccd_init.TrackEntries ≤ 0
    ∧ ∃ q, ccd2cue Uninit.zeroed ccd_init "image.img".toList "image.cdt".toList = .ok q
        ∧ q.FILE = [{ filename := some "image.img".toList, filetype := cue_filetype.BINARY,
                      TRACK := [], TrackEntries := 0, FirstTrack := 1 }] :=
  ⟨by decide,
    (ccd2cue_FILE Uninit.zeroed ccd_init "image.img".toList "image.cdt".toList).2
      (by decide)⟩

/-- C14: whenever `ccd2cue` returns a CUE structure, its `FILE` entry has the same
number of tracks as the CCD structure, and for each track `i` from 1 to `TrackEntries`
the `datatype` is `AUDIO_2352`, `MODE1_2352` or `MODE2_2352` for `MODE` 0, 1 or 2, the
`FLAGS` are a copy of the CCD track's when there are any and absent otherwise, and the
`ISRC` is equal to the CCD track's (a string of its array of 12 + 1 characters), empty
when that is empty; and `ccd2cue` does return one for every CCD structure with arrays as
announced whose tracks all have `MODE` 0, 1 or 2. -/
theorem ccd2cue_TRACK_fields (u : Uninit) (c : ccd) (img_name cdt_name : List Char) :
    (∀ q, ccd2cue u c img_name cdt_name = .ok q →
      ∃ f, q.FILE = [f]
        ∧ (0 ≤ c.TrackEntries → f.TrackEntries = c.TrackEntries)
        ∧ (0 < c.TrackEntries → f.TRACK.length = c.TrackEntries.toNat + 1)
        ∧ ∀ i : Nat, 1 ≤ i → (i : Int) ≤ c.TrackEntries →
            ∃ t y, c.TRACK.get? i = some t ∧ f.TRACK.get? i = some y
              ∧ (t.MODE = 0 → y.datatype = cue_datatype.AUDIO_2352)
              ∧ (t.MODE = 1 → y.datatype = cue_datatype.MODE1_2352)
              ∧ (t.MODE = 2 → y.datatype = cue_datatype.MODE2_2352)
              ∧ y.FLAGS = t.FLAGS
              ∧ (t.ISRC.length ≤ 12 → y.ISRC = t.ISRC))
    ∧ (c.modes_known → c.convertible → ∃ q, ccd2cue u c img_name cdt_name = .ok q) := by
  refine ⟨fun q h => ?_, fun hm hc => ccd2cue_returns u c img_name cdt_name hc hm⟩
  obtain ⟨TRACK, hT, hq⟩ := ccd2cue_ok u c img_name cdt_name q h
  refine ⟨_, by rw [hq], fun h0 => ?_, fun h0 => ?_, fun i h1 h2 => ?_⟩
  · by_cases hp : 0 < c.TrackEntries
    · rw [if_pos hp]
    · rw [if_neg hp]
      show (0 : Int) = c.TrackEntries
      omega
  · rcases hT with ⟨-, tracks, hx, hTR⟩ | ⟨hneg, -⟩
    · have hl := ((mapM_range'_ok_iff _ _ _ _).mp hx).1
      simp only [hTR, List.length_cons, hl]
    · omega
  · obtain ⟨f, y, hf, -, -, hy, hr⟩ := ccd2cue_ok_TRACK u c img_name cdt_name q h i h1 h2
    obtain ⟨t, ht, -, -, -, hyt⟩ := ccd2cue_TRACK_ok u c i y hr
    rw [hq] at hf
    have hf' := List.cons.inj hf
    rw [← hf'.1] at hy
    refine ⟨t, y, ht, hy, ?_⟩
    rw [hyt]
    refine ⟨fun hm => ?_, fun hm => ?_, fun hm => ?_, rfl, fun hl => ?_⟩
    · simp only [hm, if_true]
    · have a : ¬ ((1 : Int) = 0) := by decide
      simp only [hm, a, if_true, if_false]
    · have a : ¬ ((2 : Int) = 0) := by decide
      have b : ¬ ((2 : Int) = 1) := by decide
      simp only [hm, a, b, if_false]
    · by_cases he : t.ISRC = []
      · simp only [he, ne_eq, not_true_eq_false, if_false]
      · simp only [he, ne_eq, not_false_eq_true, if_true, strncpy]
        exact List.take_of_length_le (by omega)

/-- Witness of C14 for the sample CCD structure with an audio and a data track. -/
theorem ccd2cue_TRACK_fields_witness :
    sample_tracks_ccd.modes_known ∧ sample_tracks_ccd.convertible
    ∧ (∃ q, ccd2cue Uninit.zeroed sample_tracks_ccd "image.img".toList "image.cdt".toList
        = .ok q)
    ∧ ccd2cue Uninit.zeroed sample_tracks_ccd "image.img".toList "image.cdt".toList
        = .ok sample_tracks_cue
    ∧ ∃ f, sample_tracks_cue.FILE = [f] ∧ f.TrackEntries = 2 ∧ f.TRACK.length = 3 := by
  obtain ⟨f, hf, h0, h1, -⟩ :=
    (ccd2cue_TRACK_fields Uninit.zeroed sample_tracks_ccd "image.img".toList
      "image.cdt".toList).1 sample_tracks_cue sample_tracks_convert
  have hr := (ccd2cue_TRACK_fields Uninit.zeroed sample_tracks_ccd "image.img".toList
      "image.cdt".toList).2 sample_tracks_modes_known sample_tracks_convertible
  exact ⟨sample_tracks_modes_known, sample_tracks_convertible, hr, sample_tracks_convert,
    f, hf, h0 (by decide), h1 (by decide)⟩

/-- C15: whenever `ccd2cue` returns a CUE structure, each of its tracks `i` from 1 to
`TrackEntries` has the same number of `INDEX` slots as the CCD track, and slot `j` is
not initialized if the frame count in slot `j` of the CCD track is -1 and otherwise is
initialized and holds the value of `frames2msf` for that frame count; and `ccd2cue`
does return one for every CCD structure with arrays as announced, tracks of known
`MODE` and frame counts that are -1 or not negative. -/
theorem ccd2cue_INDEX_slots (u : Uninit) (c : ccd) (img_name cdt_name : List Char) :
    (∀ q, ccd2cue u c img_name cdt_name = .ok q →
      ∃ f, q.FILE = [f]
        ∧ ∀ i : Nat, 1 ≤ i → (i : Int) ≤ c.TrackEntries →
            ∃ t y, c.TRACK.get? i = some t ∧ f.TRACK.get? i = some y
              ∧ y.IndexEntries = t.IndexEntries
              ∧ (y.INDEX.length : Int) = t.IndexEntries
              ∧ ∀ j : Nat, (j : Int) < t.IndexEntries →
                  ∃ v x, t.INDEX.get? j = some v ∧ y.INDEX.get? j = some x
                    ∧ (v = -1 → x.initialized = 0)
                    ∧ (v ≠ -1 → x.initialized = 1 ∧ frames2msf v = .ok x))
    ∧ (c.modes_known → c.convertible → ∃ q, ccd2cue u c img_name cdt_name = .ok q) := by
  refine ⟨fun q h => ?_, fun hm hc => ccd2cue_returns u c img_name cdt_name hc hm⟩
  obtain ⟨TRACK, hT, hq⟩ := ccd2cue_ok u c img_name cdt_name q h
  refine ⟨_, by rw [hq], fun i h1 h2 => ?_⟩
  obtain ⟨f, y, hf, -, -, hy, hr⟩ := ccd2cue_ok_TRACK u c img_name cdt_name q h i h1 h2
  obtain ⟨t, ht, -, hi, hx, hyt⟩ := ccd2cue_TRACK_ok u c i y hr
  rw [hq] at hf
  have hf' := List.cons.inj hf
  rw [← hf'.1] at hy
  obtain ⟨hl, hk⟩ := (mapM_range_ok_iff _ _ _).mp hx
  refine ⟨t, y, ht, hy, by rw [hyt], by rw [hl]; omega, fun j hj => ?_⟩
  obtain ⟨x, hx1, hx2⟩ := hk j (by omega)
  obtain ⟨v, hv, hv1, hv2⟩ := ccd2cue_INDEX_ok u t i j x hx2
  refine ⟨v, x, hv, hx1, fun e => ?_, fun e => ?_⟩
  · rw [hv1 e]
  · exact ⟨(frames2msf_initialized v x (hv2 e)).2, hv2 e⟩

/-- Witness of C15 for the sample CCD structure with an audio and a data track. -/
theorem ccd2cue_INDEX_slots_witness :
    sample_tracks_ccd.modes_known ∧ sample_tracks_ccd.convertible
    ∧ (∃ q, ccd2cue Uninit.zeroed sample_tracks_ccd "image.img".toList "image.cdt".toList
        = .ok q)
    ∧ ccd2cue Uninit.zeroed sample_tracks_ccd "image.img".toList "image.cdt".toList
        = .ok sample_tracks_cue
    ∧ ∃ f t y, sample_tracks_cue.FILE = [f] ∧ sample_tracks_ccd.TRACK.get? 2 = some t
        ∧ f.TRACK.get? 2 = some y ∧ y.IndexEntries = t.IndexEntries := by
  obtain ⟨f, hf, h⟩ :=
    (ccd2cue_INDEX_slots Uninit.zeroed sample_tracks_ccd "image.img".toList
      "image.cdt".toList).1 sample_tracks_cue sample_tracks_convert
  obtain ⟨t, y, ht, hy, he, -⟩ := h 2 (by decide) (by decide)
  have hr := (ccd2cue_INDEX_slots Uninit.zeroed sample_tracks_ccd "image.img".toList
      "image.cdt".toList).2 sample_tracks_modes_known sample_tracks_convertible
  exact ⟨sample_tracks_modes_known, sample_tracks_convertible, hr, sample_tracks_convert,
    f, t, y, hf, ht, hy, he⟩

/-- The function `ccd2cue`, for a CCD structure with arrays as announced and frame
counts that are -1 or not negative, ends the program with `exit (EX_UNAVAILABLE)` when
one of the tracks has a `MODE` that is not 0, 1 or 2. -/
theorem ccd2cue_exits (u : Uninit) (c : ccd) (img_name cdt_name : List Char)
    (hc : c.convertible)
    (hbad : ∃ (i : Nat) (t : ccd_TRACK), 1 ≤ i ∧ (i : Int) ≤ c.TrackEntries
      ∧ c.TRACK.get? i = some t ∧ t.MODE ≠ 0 ∧ t.MODE ≠ 1 ∧ t.MODE ≠ 2) :
    ccd2cue u c img_name cdt_name = .error (.exit EX_UNAVAILABLE) := by
  classical
  have hc := (ccd.convertible_iff c).mp hc
  have hex : ∃ i : Nat, 1 ≤ i ∧ (i : Int) ≤ c.TrackEntries
      ∧ ∃ t, c.TRACK.get? i = some t ∧ t.MODE ≠ 0 ∧ t.MODE ≠ 1 ∧ t.MODE ≠ 2 := by
    obtain ⟨i, t, h1, h2, h3⟩ := hbad
    exact ⟨i, h1, h2, t, h3⟩
  obtain ⟨h1, h2, t, ht, hm0, hm1, hm2⟩ := Nat.find_spec hex
  have hmin := fun j => @Nat.find_min _ _ hex j
  generalize Nat.find hex = k at h1 h2 ht hmin
  have hT : c.TrackEntries > 0 := by omega
  have hx : (List.range' 1 c.TrackEntries.toNat).mapM (ccd2cue_TRACK u c)
      = .error (.exit EX_UNAVAILABLE) := by
    apply mapM_range'_error _ 1 _ (k - 1)
    · omega
    · intro j hj
      have hj1 : 1 ≤ 1 + j := by omega
      have hj2 : ((1 + j : Nat) : Int) ≤ c.TrackEntries := by omega
      obtain ⟨t', ht', hlen, hv⟩ := hc (1 + j) hj1 hj2
      have hmode : t'.MODE = 0 ∨ t'.MODE = 1 ∨ t'.MODE = 2 := by
        by_contra hn
        simp only [not_or] at hn
        exact hmin (1 + j) (by omega) ⟨hj1, hj2, t', ht', hn.1, hn.2.1, hn.2.2⟩
      exact ccd2cue_TRACK_returns u c (1 + j) t' ht' hmode (by omega) (by omega)
        fun v hv' => hv v (List.mem_of_mem_take hv')
    · have e : 1 + (k - 1) = k := by omega
      rw [e]
      exact ccd2cue_TRACK_unknown_MODE u c k t ht hm0 hm1 hm2
  unfold ccd2cue
  simp only [hT, if_true, hx]
  rfl

/-- C16, as stated, fails: every track of `sample_negative_index_ccd` has `MODE` 0, and
`ccd2cue` returns no CUE structure for it; the frame count -5 makes the assertion of
`frames2msf` fail. -/
theorem ccd2cue_known_modes_not_returned :
    sample_negative_index_ccd.modes_known
    ∧ ccd2cue Uninit.zeroed sample_negative_index_ccd "image.img".toList "image.cdt".toList
        = .error Failure.assertion
    ∧ ¬ ∃ q, ccd2cue Uninit.zeroed sample_negative_index_ccd "image.img".toList
        "image.cdt".toList = .ok q := by
  have h : ccd2cue Uninit.zeroed sample_negative_index_ccd "image.img".toList
      "image.cdt".toList = .error Failure.assertion := rfl
  refine ⟨by decide, h, ?_⟩
  · rintro ⟨q, hq⟩
    rw [h] at hq
    cases hq

/-- C16, amended: for every CCD structure in which some track from 1 to `TrackEntries`
has a `MODE` other than 0, 1, 2, `ccd2cue` ends the program and returns no CUE
structure, whatever else the structure holds; when its arrays are as announced and its
frame counts are -1 or not negative, the program ends with `exit (EX_UNAVAILABLE)`.
And `ccd2cue` returns a CUE structure for every CCD structure with arrays as announced
whose tracks all have `MODE` 0, 1 or 2 and whose frame counts are -1 or not negative. -/
theorem ccd2cue_fatal_iff_unknown_MODE (u : Uninit) (c : ccd) (img_name cdt_name : List Char) :
    ((∃ (i : Nat) (t : ccd_TRACK), 1 ≤ i ∧ (i : Int) ≤ c.TrackEntries
        ∧ c.TRACK.get? i = some t ∧ t.MODE ≠ 0 ∧ t.MODE ≠ 1 ∧ t.MODE ≠ 2) →
      (∃ e, ccd2cue u c img_name cdt_name = .error e)
      ∧ (¬ ∃ q, ccd2cue u c img_name cdt_name = .ok q)
      ∧ (c.convertible → ccd2cue u c img_name cdt_name = .error (.exit EX_UNAVAILABLE)))
    ∧ (c.convertible → c.modes_known → ∃ q, ccd2cue u c img_name cdt_name = .ok q) := by
  refine ⟨fun hbad => ?_, ccd2cue_returns u c img_name cdt_name⟩
  have hno : ¬ ∃ q, ccd2cue u c img_name cdt_name = .ok q := by
    rintro ⟨q, hq⟩
    obtain ⟨i, t, h1, h2, ht, hm0, hm1, hm2⟩ := hbad
    obtain ⟨-, y, -, -, -, -, hy⟩ := ccd2cue_ok_TRACK u c img_name cdt_name q hq i h1 h2
    rw [ccd2cue_TRACK_unknown_MODE u c i t ht hm0 hm1 hm2] at hy
    cases hy
  refine ⟨?_, hno, fun hc => ccd2cue_exits u c img_name cdt_name hc hbad⟩
  cases hr : ccd2cue u c img_name cdt_name with
  | error e => exact ⟨e, rfl⟩
  | ok q => exact absurd ⟨q, hr⟩ hno

/-- Witness of C16 for the CCD structure with one track of `MODE` 5, and for the one
whose track of `MODE` 5 also holds a negative frame count. -/
theorem ccd2cue_fatal_iff_unknown_MODE_witness :
    sample_unknown_mode_ccd.convertible
    ∧ ccd2cue Uninit.zeroed sample_unknown_mode_ccd "image.img".toList "image.cdt".toList
        = .error (.exit EX_UNAVAILABLE)
    ∧ ¬ sample_unknown_mode_negative_ccd.convertible
    ∧ ¬ ∃ q, ccd2cue Uninit.zeroed sample_unknown_mode_negative_ccd "image.img".toList
        "image.cdt".toList = .ok q := by
  have hc : sample_unknown_mode_ccd.convertible := by decide
  exact ⟨hc, ((ccd2cue_fatal_iff_unknown_MODE Uninit.zeroed sample_unknown_mode_ccd
    "image.img".toList "image.cdt".toList).1
      ⟨1, _, by decide, by decide, rfl, by decide, by decide, by decide⟩).2.2 hc, by decide,
    ((ccd2cue_fatal_iff_unknown_MODE Uninit.zeroed sample_unknown_mode_negative_ccd
    "image.img".toList "image.cdt".toList).1
      ⟨2, _, by decide, by decide, rfl, by decide, by decide, by decide⟩).2.1⟩

set_option maxRecDepth 1000000 in
/-- C17, evaluated where the code departs from it.  The sheet with the line `MODE=5` in
its track section is parsed into a structure whose track 1 has `MODE` 5, and the
conversion ends the program with `exit (EX_UNAVAILABLE)`; the sheet with the line
`INDEX 1=-5` is parsed into a structure whose track 1 has the frame count -5 in
`INDEX[1]`, and the conversion stops at the failed assertion of `frames2msf`.  No CUE
sheet is written for either. -/
theorem convert_fatal_on_malformed_sheet :
    (stream2ccd Uninit.zeroed sample_unknown_mode_sheet).ccd.TRACK.map (fun t => t.MODE) = [0, 5]
    ∧ (stream2ccd Uninit.zeroed sample_unknown_mode_sheet).oob = []
    ∧ convert Uninit.zeroed sample_unknown_mode_sheet "image.img".toList "image.cdt".toList
        = .error (.exit EX_UNAVAILABLE)
    ∧ (stream2ccd Uninit.zeroed sample_negative_index_sheet).ccd.TRACK.map (fun t => t.INDEX)
        = [[], [-1, -5]]
    ∧ (stream2ccd Uninit.zeroed sample_negative_index_sheet).oob = []
    ∧ convert Uninit.zeroed sample_negative_index_sheet "image.img".toList "image.cdt".toList
        = .error Failure.assertion := by
  refine ⟨by decide, by decide, rfl, by decide, by decide, rfl⟩

/-! ## Theorems: the lines of the CUE sheet -/

/-- The list that a loop over `n` slots of an array builds, one element for each slot,
is the image of the first `n` slots with their numbers. -/
theorem eq_map_enumFrom {α β : Type} (G : Nat → α → β) :
    ∀ (n : Nat) (l : List α) (ys : List β) (s : Nat), ys.length = n →
      (∀ k, k < n → ∃ x, l.get? k = some x ∧ ys.get? k = some (G (s + k) x)) →
      ys = ((l.take n).enumFrom s).map fun p => G p.1 p.2 := by
  intro n
  induction n with
  | zero =>
    intro l ys s hl _
    rw [List.length_eq_zero.mp hl]
    rfl
  | succ n ih =>
    intro l ys s hl hk
    cases ys with
    | nil => cases hl
    | cons y ys' =>
      obtain ⟨x, hx, hy⟩ := hk 0 (by omega)
      cases l with
      | nil => cases hx
      | cons a l' =>
        cases hx
        cases hy
        have h2 := ih l' ys' (s + 1) (by simpa using hl) (fun k hk' => by
          obtain ⟨z, hz, hz'⟩ := hk (k + 1) (by omega)
          refine ⟨z, hz, ?_⟩
          have e : s + (k + 1) = s + 1 + k := by omega
          rw [e] at hz'
          exact hz')
        rw [h2]
        rfl

theorem flatten_map_ite {α β : Type} (p : α → Bool) (g : α → β) (l : List α) :
    (l.map fun a => if p a then [g a] else []).flatten = (l.filter p).map g := by
  induction l with
  | nil => rfl
  | cons a t ih =>
    rw [List.map_cons, List.flatten_cons, ih]
    cases h : p a <;> simp [List.filter_cons, h]

theorem print_opt_eq (v : Option (List Char)) (c : List Char → cue_line) :
    print_opt v (fun x => (c x).text) = ((v.map c).toList).map cue_line.text := by
  cases v <;> rfl

/-- What the body of the loop over the tracks of `cue2stream` prints, when it returns:
the lines of the track in the order of the specification. -/
theorem cue2stream_TRACK_ok (f : cue_FILE) (track : Int) (ls : List (List Char))
    (h : cue2stream_TRACK f track = .ok ls) :
    ∃ t, fetch_int f.TRACK track = .ok t ∧ t.IndexEntries.toNat ≤ t.INDEX.length
      ∧ ls = (cue_TRACK.lines track t).map cue_line.text := by
  unfold cue2stream_TRACK at h
  cases ht : fetch_int f.TRACK track with
  | error e =>
    rw [ht] at h
    cases h
  | ok t =>
    rw [ht] at h
    simp only [bind, Except.bind] at h
    split at h
    · cases h
    · rename_i indexes hx
      obtain ⟨hl, hk⟩ := (mapM_range_ok_iff _ _ _).mp hx
      have hsize : t.IndexEntries.toNat ≤ t.INDEX.length := by
        by_contra hc
        obtain ⟨y, -, hf⟩ := hk t.INDEX.length (by omega)
        have hn : fetch t.INDEX t.INDEX.length = .error .memory := by
          unfold fetch
          rw [List.get?_eq_none.mpr (Nat.le_refl _)]
        rw [hn] at hf
        cases hf
      have hidx := eq_map_enumFrom
        (fun k (x : cue_time) => if x.initialized ≠ 0 then [(cue_line.INDEX k x).text] else [])
        t.IndexEntries.toNat t.INDEX indexes 0 hl (fun k hk' => by
          obtain ⟨y, hy, hf⟩ := hk k hk'
          cases hv : fetch t.INDEX k with
          | error e =>
            rw [hv] at hf
            cases hf
          | ok v =>
            rw [hv] at hf
            cases hf
            exact ⟨v, (fetch_ok_iff _ _ _).mp hv, by rw [hy, Nat.zero_add]; rfl⟩)
      have e1 : indexes.flatten
          = ((((t.INDEX.take t.IndexEntries.toNat).enum.filter
              fun p => p.2.initialized ≠ 0).map fun p => cue_line.INDEX p.1 p.2).map
                cue_line.text) := by
        rw [hidx, List.map_map]
        have := flatten_map_ite (fun p : Nat × cue_time => decide (p.2.initialized ≠ 0))
          (fun p => (cue_line.INDEX p.1 p.2).text)
          ((t.INDEX.take t.IndexEntries.toNat).enumFrom 0)
        simp only [decide_eq_true_eq] at this
        exact this
      refine ⟨t, rfl, hsize, ?_⟩
      cases h
      unfold cue_TRACK.lines
      simp only [List.map_append]
      rw [← e1, ← print_opt_eq, ← print_opt_eq, ← print_opt_eq, ← print_opt_eq]
      by_cases h1 : t.ISRC = [] <;> by_cases h2 : t.PREGAP.initialized = 0 <;>
        by_cases h3 : t.POSTGAP.initialized = 0 <;>
        simp [h1, h2, h3, cue_line.text]

theorem fetch_int_ok_iff {α : Type} (p : List α) (i : Int) (x : α) :
    fetch_int p i = .ok x ↔ peek p i = some x := by
  unfold fetch_int peek
  split
  · exact fetch_ok_iff _ _ _
  · simp

theorem mapM_map {α β γ : Type} (g : α → β) (f : β → Except Failure γ) (l : List α) :
    (l.map g).mapM f = l.mapM fun x => f (g x) := by
  induction l with
  | nil => rfl
  | cons a t ih => rw [List.map_cons, List.mapM_cons, List.mapM_cons, ih]

theorem cue_FILE.sized_iff_slots (f : cue_FILE) :
    f.sized ↔ ∀ k : Nat, k < (f.TrackEntries + 1 - f.FirstTrack).toNat →
      ∃ t, peek f.TRACK (f.FirstTrack + k) = some t ∧ t.IndexEntries.toNat ≤ t.INDEX.length := by
  unfold cue_FILE.sized
  constructor
  · intro h k hk
    obtain ⟨t, ht, hr⟩ := h k (List.mem_range.mpr hk)
    exact ⟨t, ht, hr⟩
  · intro h k hk
    obtain ⟨t, ht, hr⟩ := h k (List.mem_range.mp hk)
    exact ⟨t, ht, hr⟩

theorem cue.sized_iff_files (q : cue) :
    q.sized ↔ ∀ k : Nat, k < q.FileEntries.toNat → ∃ f, q.FILE.get? k = some f ∧ f.sized := by
  unfold cue.sized
  constructor
  · intro h k hk
    obtain ⟨f, hf, hr⟩ := h k (List.mem_range.mpr hk)
    exact ⟨f, hf, hr⟩
  · intro h k hk
    obtain ⟨f, hf, hr⟩ := h k (List.mem_range.mp hk)
    exact ⟨f, hf, hr⟩

/-- What the body of the loop over the files of `cue2stream` prints, when it returns:
the lines of the file in the order of the specification. -/
theorem cue2stream_FILE_ok (q : cue) (file : Nat) (ls : List (List Char))
    (h : cue2stream_FILE q file = .ok ls) :
    ∃ f, q.FILE.get? file = some f ∧ f.sized ∧ ls = f.lines.map cue_line.text := by
  unfold cue2stream_FILE at h
  cases hf : fetch q.FILE file with
  | error e =>
    rw [hf] at h
    cases h
  | ok f =>
    rw [hf] at h
    simp only [bind, Except.bind] at h
    split at h
    · cases h
    · rename_i tracks hx
      rw [mapM_map] at hx
      obtain ⟨hl, hk⟩ := (mapM_range_ok_iff _ _ _).mp hx
      have hall : ∀ k, k < (f.TrackEntries + 1 - f.FirstTrack).toNat →
          0 ≤ f.FirstTrack ∧ ∃ t, peek f.TRACK (f.FirstTrack + k) = some t
            ∧ t.IndexEntries.toNat ≤ t.INDEX.length
            ∧ tracks.get? k = some ((cue_TRACK.lines (f.FirstTrack + k) t).map cue_line.text) := by
        intro k hk'
        have h0 : 0 ≤ f.FirstTrack := by
          obtain ⟨y, -, hy⟩ := hk 0 (by omega)
          obtain ⟨t, ht, -, -⟩ := cue2stream_TRACK_ok f _ y hy
          unfold fetch_int at ht
          split at ht
          · omega
          · cases ht
        obtain ⟨y, hy1, hy⟩ := hk k hk'
        obtain ⟨t, ht, hs, hy2⟩ := cue2stream_TRACK_ok f _ y hy
        exact ⟨h0, t, (fetch_int_ok_iff _ _ _).mp ht, hs, by rw [hy1, hy2]⟩
      have htr := eq_map_enumFrom
        (fun (n : Nat) (t : cue_TRACK) => (cue_TRACK.lines (n : Int) t).map cue_line.text)
        (f.TrackEntries + 1 - f.FirstTrack).toNat (f.TRACK.drop f.FirstTrack.toNat) tracks
        f.FirstTrack.toNat hl (fun k hk' => by
          obtain ⟨h0, t, ht, -, hy⟩ := hall k hk'
          refine ⟨t, ?_, ?_⟩
          · unfold peek at ht
            rw [if_pos (by omega)] at ht
            rw [List.get?_eq_getElem?, List.getElem?_drop, ← List.get?_eq_getElem?, ← ht]
            congr 1
            omega
          · rw [hy]
            congr 3
            omega)
      refine ⟨f, (fetch_ok_iff _ _ _).mp hf, (cue_FILE.sized_iff_slots f).mpr fun k hk' => ?_, ?_⟩
      · obtain ⟨-, t, ht, hs, -⟩ := hall k hk'
        exact ⟨t, ht, hs⟩
      · cases h
        unfold cue_FILE.lines
        rw [List.map_append, List.map_flatten, List.map_map, htr]
        congr 1
        cases f.filename <;> rfl

/-- What `cue2stream` prints, when it returns: the lines of the CUE sheet in the order
of the specification. -/
theorem cue2lines_ok (q : cue) (ls : List (List Char)) (h : cue2lines q = .ok ls) :
    q.sized ∧ ls = q.lines.map cue_line.text := by
  unfold cue2lines at h
  simp only [bind, Except.bind] at h
  split at h
  · cases h
  · rename_i files hx
    obtain ⟨hl, hk⟩ := (mapM_range_ok_iff _ _ _).mp hx
    have hall : ∀ k, k < q.FileEntries.toNat →
        ∃ f, q.FILE.get? k = some f ∧ f.sized
          ∧ files.get? k = some (f.lines.map cue_line.text) := by
      intro k hk'
      obtain ⟨y, hy1, hy⟩ := hk k hk'
      obtain ⟨f, hf, hs, hy2⟩ := cue2stream_FILE_ok q k y hy
      exact ⟨f, hf, hs, by rw [hy1, hy2]⟩
    have hfl := eq_map_enumFrom
      (fun (_ : Nat) (f : cue_FILE) => f.lines.map cue_line.text)
      q.FileEntries.toNat q.FILE files 0 hl (fun k hk' => by
        obtain ⟨f, hf, -, hy⟩ := hall k hk'
        exact ⟨f, hf, hy⟩)
    refine ⟨(cue.sized_iff_files q).mpr fun k hk' => ?_, ?_⟩
    · obtain ⟨f, hf, hs, -⟩ := hall k hk'
      exact ⟨f, hf, hs⟩
    · cases h
      unfold cue.lines
      have e : ((q.FILE.take q.FileEntries.toNat).enumFrom 0).map
          (fun p => p.2.lines.map cue_line.text)
          = (q.FILE.take q.FileEntries.toNat).map fun f => f.lines.map cue_line.text := by
        generalize q.FILE.take q.FileEntries.toNat = l
        generalize 0 = s
        induction l generalizing s with
        | nil => rfl
        | cons a t ih => simp [List.enumFrom_cons, ih]
      rw [hfl, e]
      simp only [List.map_append, List.map_flatten, List.map_map]
      rw [← print_opt_eq, ← print_opt_eq, ← print_opt_eq, ← print_opt_eq]
      by_cases h1 : q.CATALOG = [] <;> simp [h1, cue_line.text, Function.comp_def]

/-- A pass with `mapM` that fails has an element that fails. -/
theorem mapM_error_exists {α β : Type} (f : α → Except Failure β) (l : List α) (e : Failure)
    (h : l.mapM f = .error e) : ∃ x, x ∈ l ∧ ∃ e', f x = .error e' := by
  by_contra hc
  have hall : ∀ x ∈ l, ∃ y, f x = .ok y := by
    intro x hx
    cases hf : f x with
    | ok y => exact ⟨y, rfl⟩
    | error e' => exact absurd ⟨x, hx, e', hf⟩ hc
  obtain ⟨ys, hys⟩ := mapM_ok_of_forall f l hall
  rw [hys] at h
  cases h

theorem cue2stream_TRACK_returns (f : cue_FILE) (track : Int) (t : cue_TRACK)
    (ht : peek f.TRACK track = some t) (hs : t.IndexEntries.toNat ≤ t.INDEX.length) :
    ∃ ls, cue2stream_TRACK f track = .ok ls := by
  cases hr : cue2stream_TRACK f track with
  | ok ls => exact ⟨ls, rfl⟩
  | error e =>
    exfalso
    unfold cue2stream_TRACK at hr
    rw [(fetch_int_ok_iff _ _ _).mpr ht] at hr
    simp only [bind, Except.bind] at hr
    split at hr
    · rename_i e' hx
      obtain ⟨j, hj, e'', hj'⟩ := mapM_error_exists _ _ _ hx
      rw [List.mem_range] at hj
      have hj2 : j < t.INDEX.length := by omega
      simp only [(fetch_ok_iff _ _ _).mpr (List.get?_eq_get hj2)] at hj'
      cases hj'
    · cases hr

theorem cue2stream_FILE_returns (q : cue) (file : Nat) (f : cue_FILE)
    (hf : q.FILE.get? file = some f) (hs : f.sized) :
    ∃ ls, cue2stream_FILE q file = .ok ls := by
  have hs := (cue_FILE.sized_iff_slots f).mp hs
  cases hr : cue2stream_FILE q file with
  | ok ls => exact ⟨ls, rfl⟩
  | error e =>
    exfalso
    unfold cue2stream_FILE at hr
    rw [(fetch_ok_iff _ _ _).mpr hf] at hr
    simp only [bind, Except.bind] at hr
    split at hr
    · rename_i e' hx
      obtain ⟨n, hn, e'', hn'⟩ := mapM_error_exists _ _ _ hx
      obtain ⟨k, hk, rfl⟩ := List.mem_map.mp hn
      rw [List.mem_range] at hk
      obtain ⟨t, ht, hsz⟩ := hs k hk
      obtain ⟨ls, hls⟩ := cue2stream_TRACK_returns f _ t ht hsz
      rw [hls] at hn'
      cases hn'
    · cases hr

/-- The function `cue2stream` returns for a CUE structure with arrays as announced. -/
theorem cue2lines_returns (q : cue) (hs : q.sized) : ∃ ls, cue2lines q = .ok ls := by
  have hs := (cue.sized_iff_files q).mp hs
  cases hr : cue2lines q with
  | ok ls => exact ⟨ls, rfl⟩
  | error e =>
    exfalso
    unfold cue2lines at hr
    simp only [bind, Except.bind] at hr
    split at hr
    · rename_i e' hx
      obtain ⟨k, hk, e'', hk'⟩ := mapM_error_exists _ _ _ hx
      rw [List.mem_range] at hk
      obtain ⟨f, hf, hsz⟩ := hs k hk
      obtain ⟨ls, hls⟩ := cue2stream_FILE_returns q k f hf hsz
      rw [hls] at hk'
      cases hk'
    · cases hr

/-- Every line of a CUE sheet starts with its indentation, its keyword and a space, and
ends in a newline: no line is blank. -/
theorem cue_line.text_shape (l : cue_line) :
    (List.replicate l.indent ' ' ++ l.keyword.toList ++ [' ']) <+: l.text
    ∧ l.text.getLast? = some '\n' := by
  refine ⟨?_, ?_⟩
  · cases l <;>
      simp [cue_line.text, cue_line.indent, cue_line.keyword, List.replicate]
  · rw [List.getLast?_eq_some_iff]
    cases l <;> simp only [cue_line.text] <;>
      first
      | exact ⟨_, rfl⟩
      | exact ⟨_, (List.append_assoc _ ['"'] ['\n']).symm⟩

/-- A line for an optional field of a track is among the lines of the track exactly
when the field is present, and then holds its value. -/
theorem cue_TRACK.optional_line_iff (number : Int) (t : cue_TRACK) :
    (∀ x, cue_line.FLAGS x ∈ cue_TRACK.lines number t ↔ t.FLAGS = some x)
    ∧ (∀ x, cue_line.ISRC x ∈ cue_TRACK.lines number t ↔ t.ISRC ≠ [] ∧ x = t.ISRC)
    ∧ (∀ x, cue_line.TRACK_PERFORMER x ∈ cue_TRACK.lines number t ↔ t.PERFORMER = some x)
    ∧ (∀ x, cue_line.TRACK_SONGWRITER x ∈ cue_TRACK.lines number t ↔ t.SONGWRITER = some x)
    ∧ (∀ x, cue_line.TRACK_TITLE x ∈ cue_TRACK.lines number t ↔ t.TITLE = some x)
    ∧ (∀ x, cue_line.PREGAP x ∈ cue_TRACK.lines number t
        ↔ t.PREGAP.initialized ≠ 0 ∧ x = t.PREGAP)
    ∧ (∀ j x, cue_line.INDEX j x ∈ cue_TRACK.lines number t
        ↔ (t.INDEX.take t.IndexEntries.toNat).get? j = some x ∧ x.initialized ≠ 0)
    ∧ (∀ x, cue_line.POSTGAP x ∈ cue_TRACK.lines number t
        ↔ t.POSTGAP.initialized ≠ 0 ∧ x = t.POSTGAP) := by
  refine ⟨fun x => ?_, fun x => ?_, fun x => ?_, fun x => ?_, fun x => ?_, fun x => ?_,
    fun j x => ?_, fun x => ?_⟩
  all_goals unfold cue_TRACK.lines
  all_goals by_cases h1 : t.ISRC = [] <;> by_cases h2 : t.PREGAP.initialized = 0 <;>
      by_cases h3 : t.POSTGAP.initialized = 0 <;>
      simp [h1, h2, h3, List.mk_mem_enum_iff_getElem?]

theorem cue_TRACK.indent_ge (number : Int) (t : cue_TRACK) (l : cue_line)
    (h : l ∈ cue_TRACK.lines number t) : 2 ≤ l.indent := by
  unfold cue_TRACK.lines at h
  simp only [List.mem_append, List.mem_singleton, List.mem_map, Option.mem_toList,
    Option.mem_def, Option.map_eq_some'] at h
  rcases h with (((((((h | h) | h) | h) | h) | h) | h) | h) | h
  · subst h
    simp [cue_line.indent]
  · obtain ⟨x, -, rfl⟩ := h
    simp [cue_line.indent]
  · split at h
    · rw [List.mem_singleton] at h
      subst h
      simp [cue_line.indent]
    · cases h
  · obtain ⟨x, -, rfl⟩ := h
    simp [cue_line.indent]
  · obtain ⟨x, -, rfl⟩ := h
    simp [cue_line.indent]
  · obtain ⟨x, -, rfl⟩ := h
    simp [cue_line.indent]
  · split at h
    · rw [List.mem_singleton] at h
      subst h
      simp [cue_line.indent]
    · cases h
  · obtain ⟨p, -, rfl⟩ := h
    simp [cue_line.indent]
  · split at h
    · rw [List.mem_singleton] at h
      subst h
      simp [cue_line.indent]
    · cases h

theorem cue_FILE.indent_or_FILE (f : cue_FILE) (l : cue_line) (h : l ∈ f.lines) :
    (∃ x type, l = cue_line.FILE x type) ∨ 2 ≤ l.indent := by
  unfold cue_FILE.lines at h
  rcases List.mem_append.mp h with h | h
  · simp only [Option.mem_toList, Option.mem_def, Option.map_eq_some'] at h
    obtain ⟨x, -, rfl⟩ := h
    exact Or.inl ⟨_, _, rfl⟩
  · obtain ⟨ls, hls, hl⟩ := List.mem_flatten.mp h
    obtain ⟨p, -, rfl⟩ := List.mem_map.mp hls
    exact Or.inr (cue_TRACK.indent_ge _ _ l hl)

/-- A line for an optional field of the disc is among the lines of the CUE sheet exactly
when the field is present, and then holds its value. -/
theorem cue.disc_line_iff (q : cue) :
    (∀ x, cue_line.CATALOG x ∈ q.lines ↔ q.CATALOG ≠ [] ∧ x = q.CATALOG)
    ∧ (∀ x, cue_line.CDTEXTFILE x ∈ q.lines ↔ q.CDTEXTFILE = some x)
    ∧ (∀ x, cue_line.PERFORMER x ∈ q.lines ↔ q.PERFORMER = some x)
    ∧ (∀ x, cue_line.SONGWRITER x ∈ q.lines ↔ q.SONGWRITER = some x)
    ∧ (∀ x, cue_line.TITLE x ∈ q.lines ↔ q.TITLE = some x) := by
  have hfile : ∀ l : cue_line, l.indent = 0 → (∀ x type, l ≠ cue_line.FILE x type) →
      l ∉ ((q.FILE.take q.FileEntries.toNat).map cue_FILE.lines).flatten := by
    intro l h0 hF hmem
    obtain ⟨ls, hls, hl⟩ := List.mem_flatten.mp hmem
    obtain ⟨f, -, rfl⟩ := List.mem_map.mp hls
    rcases cue_FILE.indent_or_FILE f l hl with ⟨x, type, rfl⟩ | h2
    · exact hF x type rfl
    · omega
  refine ⟨fun x => ?_, fun x => ?_, fun x => ?_, fun x => ?_, fun x => ?_⟩
  · have hn := hfile (cue_line.CATALOG x) rfl (fun _ _ h => by cases h)
    unfold cue.lines
    simp only [List.mem_append, hn, or_false]
    by_cases h1 : q.CATALOG = [] <;> simp [h1]
  · have hn := hfile (cue_line.CDTEXTFILE x) rfl (fun _ _ h => by cases h)
    unfold cue.lines
    simp only [List.mem_append, hn, or_false]
    by_cases h1 : q.CATALOG = [] <;> simp [h1]
  · have hn := hfile (cue_line.PERFORMER x) rfl (fun _ _ h => by cases h)
    unfold cue.lines
    simp only [List.mem_append, hn, or_false]
    by_cases h1 : q.CATALOG = [] <;> simp [h1]
  · have hn := hfile (cue_line.SONGWRITER x) rfl (fun _ _ h => by cases h)
    unfold cue.lines
    simp only [List.mem_append, hn, or_false]
    by_cases h1 : q.CATALOG = [] <;> simp [h1]
  · have hn := hfile (cue_line.TITLE x) rfl (fun _ _ h => by cases h)
    unfold cue.lines
    simp only [List.mem_append, hn, or_false]
    by_cases h1 : q.CATALOG = [] <;> simp [h1]

/-- The lines of a track of a file of a CUE structure are among the lines of the
CUE sheet. -/
theorem cue.lines_of_TRACK (q : cue) (k n : Nat) (f : cue_FILE) (t : cue_TRACK)
    (hf : q.FILE.get? k = some f) (hk : (k : Int) < q.FileEntries)
    (h1 : f.FirstTrack ≤ (n : Int)) (h2 : (n : Int) ≤ f.TrackEntries)
    (ht : f.TRACK.get? n = some t) (l : cue_line) (hl : l ∈ cue_TRACK.lines n t) :
    l ∈ q.lines := by
  have hfl : l ∈ f.lines := by
    unfold cue_FILE.lines
    refine List.mem_append_right _ (List.mem_flatten.mpr ⟨cue_TRACK.lines n t, ?_, hl⟩)
    refine List.mem_map.mpr ⟨(n, t), ?_, rfl⟩
    rw [List.mk_mem_enumFrom_iff_le_and_getElem?_sub]
    refine ⟨by omega, ?_⟩
    rw [List.getElem?_take_of_lt (by omega), List.getElem?_drop, ← List.get?_eq_getElem?, ← ht]
    congr 1
    omega
  unfold cue.lines
  refine List.mem_append_right _ (List.mem_flatten.mpr ⟨f.lines, ?_, hfl⟩)
  refine List.mem_map.mpr ⟨f, ?_, rfl⟩
  rw [List.mem_iff_get?]
  refine ⟨k, ?_⟩
  rw [List.get?_eq_getElem?, List.getElem?_take_of_lt (by omega), ← List.get?_eq_getElem?, hf]

/-- C19: whatever `cue2stream` prints is the lines of the CUE structure in the fixed
order `CATALOG`, `CDTEXTFILE`, `PERFORMER`, `SONGWRITER`, `TITLE`, then for each file
its `FILE` line and for each track in ascending number `TRACK`, `FLAGS`, `ISRC`,
`PERFORMER`, `SONGWRITER`, `TITLE`, `PREGAP`, the set `INDEX` slots in ascending slot
order, `POSTGAP`; it does print them for every CUE structure with arrays as announced;
no line is blank (each starts with its keyword and ends in a newline); and the line for
an optional field is among them exactly when the field is present (a string that is not
empty, a pointer that is not null, a time that is set). -/
theorem cue2stream_lines_in_order (q : cue) :
    (∀ ls, cue2lines q = .ok ls → ls = q.lines.map cue_line.text)
    ∧ (q.sized → cue2lines q = .ok (q.lines.map cue_line.text)
        ∧ cue2stream q = .ok (q.lines.map cue_line.text).flatten)
    ∧ (∀ l ∈ q.lines,
        (List.replicate l.indent ' ' ++ l.keyword.toList ++ [' ']) <+: l.text
        ∧ l.text.getLast? = some '\n')
    ∧ ((∀ x, cue_line.CATALOG x ∈ q.lines ↔ q.CATALOG ≠ [] ∧ x = q.CATALOG)
      ∧ (∀ x, cue_line.CDTEXTFILE x ∈ q.lines ↔ q.CDTEXTFILE = some x)
      ∧ (∀ x, cue_line.PERFORMER x ∈ q.lines ↔ q.PERFORMER = some x)
      ∧ (∀ x, cue_line.SONGWRITER x ∈ q.lines ↔ q.SONGWRITER = some x)
      ∧ (∀ x, cue_line.TITLE x ∈ q.lines ↔ q.TITLE = some x))
    ∧ (∀ (number : Int) (t : cue_TRACK),
        (∀ x, cue_line.FLAGS x ∈ cue_TRACK.lines number t ↔ t.FLAGS = some x)
        ∧ (∀ x, cue_line.ISRC x ∈ cue_TRACK.lines number t ↔ t.ISRC ≠ [] ∧ x = t.ISRC)
        ∧ (∀ x, cue_line.TRACK_PERFORMER x ∈ cue_TRACK.lines number t ↔ t.PERFORMER = some x)
        ∧ (∀ x, cue_line.TRACK_SONGWRITER x ∈ cue_TRACK.lines number t
            ↔ t.SONGWRITER = some x)
        ∧ (∀ x, cue_line.TRACK_TITLE x ∈ cue_TRACK.lines number t ↔ t.TITLE = some x)
        ∧ (∀ x, cue_line.PREGAP x ∈ cue_TRACK.lines number t
            ↔ t.PREGAP.initialized ≠ 0 ∧ x = t.PREGAP)
        ∧ (∀ j x, cue_line.INDEX j x ∈ cue_TRACK.lines number t
            ↔ (t.INDEX.take t.IndexEntries.toNat).get? j = some x ∧ x.initialized ≠ 0)
        ∧ (∀ x, cue_line.POSTGAP x ∈ cue_TRACK.lines number t
            ↔ t.POSTGAP.initialized ≠ 0 ∧ x = t.POSTGAP)) := by
  refine ⟨fun ls h => (cue2lines_ok q ls h).2, fun hs => ?_,
    fun l _ => cue_line.text_shape l, cue.disc_line_iff q, cue_TRACK.optional_line_iff⟩
  obtain ⟨ls, hls⟩ := cue2lines_returns q hs
  have e := (cue2lines_ok q ls hls).2
  rw [e] at hls
  refine ⟨hls, ?_⟩
  unfold cue2stream
  rw [hls]
  rfl

theorem sample_tracks_cue_sized : sample_tracks_cue.sized := by
  decide

set_option maxRecDepth 100000 in
/-- Witness of C19 for the sample CUE structure with two tracks. -/
theorem cue2stream_lines_in_order_witness :
    sample_tracks_cue.sized
    ∧ cue2lines sample_tracks_cue = .ok (sample_tracks_cue.lines.map cue_line.text)
    ∧ sample_tracks_cue.lines.map cue_line.text
        = ["CATALOG 0123456789012\n".toList, "CDTEXTFILE \"image.cdt\"\n".toList,
           "FILE \"image.img\" BINARY\n".toList, "  TRACK 1 AUDIO\n".toList,
           "    FLAGS DCP\n".toList, "    ISRC ABCDE1234567\n".toList,
           "    INDEX 01 00:00:00\n".toList, "  TRACK 2 MODE1/2352\n".toList,
           "    INDEX 00 00:02:00\n".toList, "    INDEX 01 00:04:00\n".toList,
           "    INDEX 02 01:01:74\n".toList] :=
  ⟨sample_tracks_cue_sized,
    ((cue2stream_lines_in_order sample_tracks_cue).2.1 sample_tracks_cue_sized).1,
    by decide⟩

set_option maxRecDepth 100000 in
/-- C20, as stated, fails: the `PERFORMER` string of `sample_long_performer_cue` has 81
characters, and the line that `cue2stream` prints holds only the first 80 of them; the
string is nowhere in the text in full. -/
theorem cue2stream_cuts_long_performer :
    sample_long_performer_cue.PERFORMER = some (List.replicate 81 'a')
    ∧ cue2stream sample_long_performer_cue
        = .ok ("PERFORMER \"".toList ++ List.replicate 80 'a' ++ "\"\n".toList)
    ∧ ¬ (List.replicate 81 'a'
          <:+: "PERFORMER \"".toList ++ List.replicate 80 'a' ++ "\"\n".toList) := by
  refine ⟨rfl, rfl, by decide⟩

/-- C20, amended: `cue2stream` cuts the strings bound to the limit of 80 characters.
For every CUE structure, the `PERFORMER`, `SONGWRITER` or `TITLE` line that it prints,
for the disc or for a track, holds the first 80 characters of the string (the string
in full when it has at most 80 characters). -/
theorem cue2stream_strings_cut (q : cue) (ls : List (List Char)) (h : cue2lines q = .ok ls) :
    (∀ s, q.PERFORMER = some s →
      ("PERFORMER \"".toList ++ s.take 80 ++ "\"\n".toList) ∈ ls)
    ∧ (∀ s, q.SONGWRITER = some s →
      ("SONGWRITER \"".toList ++ s.take 80 ++ "\"\n".toList) ∈ ls)
    ∧ (∀ s, q.TITLE = some s →
      ("TITLE \"".toList ++ s.take 80 ++ "\"\n".toList) ∈ ls)
    ∧ (∀ (k n : Nat) (f : cue_FILE) (t : cue_TRACK),
        q.FILE.get? k = some f → (k : Int) < q.FileEntries →
        f.FirstTrack ≤ (n : Int) → (n : Int) ≤ f.TrackEntries → f.TRACK.get? n = some t →
        (∀ s, t.PERFORMER = some s →
          ("    PERFORMER \"".toList ++ s.take 80 ++ "\"\n".toList) ∈ ls)
        ∧ (∀ s, t.SONGWRITER = some s →
          ("    SONGWRITER \"".toList ++ s.take 80 ++ "\"\n".toList) ∈ ls)
        ∧ (∀ s, t.TITLE = some s →
          ("    TITLE \"".toList ++ s.take 80 ++ "\"\n".toList) ∈ ls)) := by
  have e := (cue2lines_ok q ls h).2
  have hd := cue.disc_line_iff q
  subst e
  refine ⟨fun s hs => ?_, fun s hs => ?_, fun s hs => ?_, fun k n f t hf hk h1 h2 ht => ?_⟩
  · exact List.mem_map.mpr ⟨_, (hd.2.2.1 s).mpr hs, rfl⟩
  · exact List.mem_map.mpr ⟨_, (hd.2.2.2.1 s).mpr hs, rfl⟩
  · exact List.mem_map.mpr ⟨_, (hd.2.2.2.2 s).mpr hs, rfl⟩
  · have ht' := cue_TRACK.optional_line_iff n t
    have hm := cue.lines_of_TRACK q k n f t hf hk h1 h2 ht
    refine ⟨fun s hs => ?_, fun s hs => ?_, fun s hs => ?_⟩
    · exact List.mem_map.mpr ⟨_, hm _ ((ht'.2.2.1 s).mpr hs), rfl⟩
    · exact List.mem_map.mpr ⟨_, hm _ ((ht'.2.2.2.1 s).mpr hs), rfl⟩
    · exact List.mem_map.mpr ⟨_, hm _ ((ht'.2.2.2.2.1 s).mpr hs), rfl⟩

set_option maxRecDepth 100000 in
/-- Witness of C20 for the CUE structure with a performer name of 81 characters. -/
theorem cue2stream_strings_cut_witness :
    cue2lines sample_long_performer_cue
      = .ok ["PERFORMER \"".toList ++ List.replicate 80 'a' ++ "\"\n".toList]
    ∧ ("PERFORMER \"".toList ++ (List.replicate 81 'a').take 80 ++ "\"\n".toList)
        ∈ ["PERFORMER \"".toList ++ List.replicate 80 'a' ++ "\"\n".toList] :=
  ⟨rfl, (cue2stream_strings_cut sample_long_performer_cue _ rfl).1 _ rfl⟩

/-! ## Theorems: the tracks of the parser -/

section track_frames

variable (u : Uninit) (m : LineScan) (st : Scan)

theorem scan_simple_tracks : (scan_simple m st).tracks = st.tracks := rfl

theorem store_Session_tracks (val : Option Int) (set : Int → ccd_Session → ccd_Session) :
    (store_Session st val set).tracks = st.tracks := by
  unfold store_Session
  split
  · rfl
  · split <;> rfl

theorem store_Entry_tracks {α : Type} (val : Option α) (set : α → ccd_Entry → ccd_Entry) :
    (store_Entry st val set).tracks = st.tracks := by
  unfold store_Entry
  split
  · rfl
  · split <;> rfl

theorem scan_Session_tracks : (scan_Session u m st).tracks = st.tracks := by
  have h1 : (scan_Sessions u m st).tracks = st.tracks := by
    unfold scan_Sessions
    split
    · split <;> rfl
    · rfl
  have h2 : ∀ s : Scan, (count_Session m s).tracks = s.tracks := by
    intro s
    unfold count_Session
    split <;> rfl
  have h3 : ∀ s : Scan, (fill_Session m s).tracks = s.tracks := by
    intro s
    unfold fill_Session
    split
    · rw [store_Session_tracks, store_Session_tracks]
    · rfl
  unfold scan_Session
  simp only
  split
  · rw [h3, h2, h1]
  · exact h1

theorem scan_Entry_tracks : (scan_Entry u m st).tracks = st.tracks := by
  have h1 : (scan_TocEntries u m st).tracks = st.tracks := by
    unfold scan_TocEntries
    split
    · split <;> rfl
    · rfl
  have h2 : ∀ s : Scan, (count_Entry m s).tracks = s.tracks := by
    intro s
    unfold count_Entry
    split <;> rfl
  have h3 : ∀ s : Scan, (fill_Entry m s).tracks = s.tracks := by
    intro s
    unfold fill_Entry
    split
    · simp only [store_Entry_tracks]
    · rfl
  unfold scan_Entry
  simp only
  split
  · rw [h3, h2, h1]
  · exact h1

theorem scan_CDText_tracks : (scan_CDText u m st).tracks = st.tracks := by
  have h1 : (scan_CDTextEntries u m st).tracks = st.tracks := by
    unfold scan_CDTextEntries
    split
    · split <;> rfl
    · rfl
  have h2 : ∀ s : Scan, (count_CDText m s).tracks = s.tracks := by
    intro s
    unfold count_CDText
    split <;> rfl
  have h3 : ∀ s : Scan, (fill_CDText m s).tracks = s.tracks := by
    intro s
    unfold fill_CDText
    split
    · split
      · rfl
      · split <;> rfl
    · rfl
  unfold scan_CDText
  simp only
  split
  · rw [h3, h2, h1]
  · exact h1

theorem get?_modify_const {α : Type} (l : List α) (n i : Nat) (a : α) :
    (l.modify (fun _ => a) n).get? i = if i = n ∧ n < l.length then some a else l.get? i := by
  induction l generalizing n i with
  | nil => cases n <;> simp [List.modify]
  | cons x t ih =>
    cases n with
    | zero => cases i <;> simp [List.modify]
    | succ n =>
      cases i with
      | zero => simp [List.modify_succ_cons]
      | succ i =>
        rw [List.modify_succ_cons]
        simp only [List.get?_cons_succ, ih, List.length_cons, Nat.add_lt_add_iff_right,
          Nat.add_right_cancel_iff]

theorem peek_eq_get? {α : Type} (l : List α) (n : Nat) : peek l (n : Int) = l.get? n := by
  unfold peek
  simp

theorem Scan.keeps_refl (P : ccd_TRACK → Prop) : Scan.keeps P st st :=
  ⟨rfl, rfl, rfl, fun _ _ => rfl, fun t ht hP => ⟨t, ht, hP⟩⟩

theorem Scan.keeps_trans (P : ccd_TRACK → Prop) (st1 st2 st3 : Scan)
    (h12 : Scan.keeps P st1 st2) (h23 : Scan.keeps P st2 st3) : Scan.keeps P st1 st3 := by
  obtain ⟨a1, a2, a3, a4, a5⟩ := h12
  obtain ⟨b1, b2, b3, b4, b5⟩ := h23
  refine ⟨by rw [b1, a1], by rw [b2, a2], by rw [b3, a3], fun i hi => ?_, fun t ht hP => ?_⟩
  · rw [b4 i (by rw [a1]; exact hi), a4 i hi]
  · obtain ⟨t', ht', hP'⟩ := a5 t ht hP
    rw [← a1] at ht'
    obtain ⟨t'', ht'', hP''⟩ := b5 t' ht' hP'
    rw [a1] at ht''
    exact ⟨t'', ht'', hP''⟩

/-- A statement that changes `ccd->TRACK[TRACK]` by a function that keeps `P`. -/
theorem store_TRACK_keeps (P : ccd_TRACK → Prop) (inner : Region)
    (f : ccd_TRACK → Option ccd_TRACK) (hf : ∀ t t', P t → f t = some t' → P t') :
    Scan.keeps P st (store_TRACK st inner f) := by
  unfold store_TRACK
  split
  · rename_i hp
    refine ⟨rfl, rfl, rfl, fun _ _ => rfl, fun t ht _ => ?_⟩
    rw [hp] at ht
    cases ht
  · rename_i t hp
    split
    · exact ⟨rfl, rfl, rfl, fun _ _ => rfl, fun t1 ht hP => ⟨t1, ht, hP⟩⟩
    · rename_i t' hft
      have h0 : 0 ≤ st.TRACK := by
        unfold peek at hp
        by_contra hc
        rw [if_neg hc] at hp
        cases hp
      have hlt : st.TRACK.toNat < st.ccd.TRACK.length := by
        unfold peek at hp
        rw [if_pos h0] at hp
        by_contra hc
        rw [List.get?_eq_none.mpr (by omega)] at hp
        cases hp
      refine ⟨rfl, rfl, ?_, fun i hi => ?_, fun t1 ht hP => ?_⟩
      · simp
      · rw [get?_modify_const, if_neg (by omega)]
      · rw [hp] at ht
        cases ht
        refine ⟨t', ?_, hf _ _ hP hft⟩
        unfold peek
        rw [if_pos h0]
        rw [get?_modify_const, if_pos ⟨rfl, hlt⟩]

theorem poke_eq_some {α : Type} (p q : List α) (i : Int) (f : α → α)
    (h : poke p i f = some q) : q = p.modify f i.toNat := by
  unfold poke at h
  split at h
  · cases h
    rfl
  · cases h

/-- An `INDEX n = v` line with `n` other than 1 leaves the mark in `INDEX[1]`. -/
theorem scan_INDEX_unset (i : Int) (t t' : ccd_TRACK) (hm : m.INDEX_tmp ≠ some 1)
    (hP : t.INDEX_1_unset) (h : scan_INDEX u m i t = some t') : t'.INDEX_1_unset := by
  obtain ⟨h1, h2⟩ := hP
  have hlen : 2 ≤ t.INDEX.length := by
    by_contra hc
    rw [List.get?_eq_none.mpr (by omega)] at h1
    cases h1
  unfold scan_INDEX at h
  split at h
  · cases h
    exact ⟨h1, h2⟩
  · rename_i INDEX_tmp hI
    split at h
    · rename_i h01
      have h0 : INDEX_tmp = 0 := by
        rcases h01 with h0 | h0
        · exact h0
        · exact absurd (by rw [hI, h0]) hm
      subst h0
      split at h
      · cases h
        exact ⟨h1, h2⟩
      · rename_i v hv
        obtain ⟨p, hp, rfl⟩ := Option.map_eq_some'.mp h
        rw [poke_eq_some _ _ _ _ hp]
        refine ⟨?_, h2⟩
        show (t.INDEX.modify (fun _ => v) (0 : Int).toNat).get? 1 = some (-1)
        rw [get?_modify_const, if_neg (by simp), h1]
    · have key : (realloc_block (u.INDEX i.toNat) t.INDEX (t.IndexEntries + 1)).get? 1 = some (-1) := by
        unfold realloc_block
        rw [List.get?_eq_getElem?, List.getElem?_append_left (by
          rw [List.length_take]
          omega), List.getElem?_take_of_lt (by omega), ← List.get?_eq_getElem?, h1]
      split at h
      · cases h
        exact ⟨key, by show 2 ≤ t.IndexEntries + 1; omega⟩
      · rename_i v hv
        obtain ⟨p, hp, rfl⟩ := Option.map_eq_some'.mp h
        rw [poke_eq_some _ _ _ _ hp]
        refine ⟨?_, by show 2 ≤ t.IndexEntries + 1; omega⟩
        show ((realloc_block (u.INDEX i.toNat) t.INDEX (t.IndexEntries + 1)).modify (fun _ => v)
          (t.IndexEntries + 1 - 1).toNat).get? 1 = some (-1)
        rw [get?_modify_const, if_neg (by omega), key]

/-- The statements for the lines of a track keep a property that each of the four
kinds of line keeps. -/
theorem fill_TRACK_keeps (P : ccd_TRACK → Prop)
    (hMODE : ∀ (t : ccd_TRACK) (v : Int), P t → P { t with MODE := v })
    (hFLAGS : ∀ (t : ccd_TRACK) (r : Option (List Char)), P t → P { t with FLAGS := r })
    (hISRC : ∀ (t : ccd_TRACK) (v : List Char), P t → P { t with ISRC := v })
    (hINDEX : ∀ (i : Int) (t t' : ccd_TRACK), P t → scan_INDEX u m i t = some t' → P t') :
    Scan.keeps P st (fill_TRACK u m st) := by
  unfold fill_TRACK
  split
  · simp only
    refine Scan.keeps_trans _ _ _ _ (Scan.keeps_trans _ _ _ _ (Scan.keeps_trans _ _ _ _
      (store_TRACK_keeps _ _ _ _ ?_) (store_TRACK_keeps _ _ _ _ ?_))
      (store_TRACK_keeps _ _ _ _ ?_)) (store_TRACK_keeps _ _ _ _ ?_)
    · intro t t' hP h
      cases h
      exact hMODE _ _ hP
    · intro t t' hP h
      split at h
      · cases h
        exact hP
      · cases hr : array_remove_trailing_whitespace _ with
        | none =>
          rw [hr] at h
          cases h
        | some r =>
          rw [hr] at h
          cases h
          exact hFLAGS _ _ hP
    · intro t t' hP h
      cases h
      exact hISRC _ _ hP
    · intro t t' hP h
      exact hINDEX _ t t' hP h
  · exact Scan.keeps_refl _ _

/-- The statements for the lines of a track, whatever the line: only the current slot
changes. -/
theorem fill_TRACK_keeps_others : Scan.keeps (fun _ => True) st (fill_TRACK u m st) :=
  fill_TRACK_keeps u m st _ (fun _ _ _ => trivial) (fun _ _ _ => trivial) (fun _ _ _ => trivial)
    (fun _ _ _ _ _ => trivial)

/-- The statements for the lines of a track, for a line that is no `INDEX 1` line: the
mark in `INDEX[1]` of the current slot stays. -/
theorem fill_TRACK_keeps_unset (hm : m.INDEX_tmp ≠ some 1) :
    Scan.keeps ccd_TRACK.INDEX_1_unset st (fill_TRACK u m st) :=
  fill_TRACK_keeps u m st _ (fun _ _ h => h) (fun _ _ h => h) (fun _ _ h => h)
    (fun i t t' hP h => scan_INDEX_unset u m i t t' hm hP h)

theorem scan_body_eq :
    ∃ X : Scan, X.tracks = st.tracks ∧ scan_body u m st = fill_TRACK u m (count_TRACK u m X) := by
  refine ⟨scan_CDText u m (scan_Entry u m (scan_Session u m (scan_simple m st))), ?_, rfl⟩
  rw [scan_CDText_tracks, scan_Entry_tracks, scan_Session_tracks, scan_simple_tracks]

theorem Scan.counted_of_tracks (k : Nat) (X : Scan) (h : X.tracks = st.tracks)
    (hc : st.counted k) : X.counted k := by
  have h1 : X.TRACK = st.TRACK := congrArg Prod.fst h
  have h2 : X.ccd.TrackEntries = st.ccd.TrackEntries := congrArg (fun p => p.2.1) h
  have h3 : X.ccd.TRACK = st.ccd.TRACK := congrArg (fun p => p.2.2) h
  unfold Scan.counted
  rw [h1, h2, h3]
  exact hc

/-- A line that is no track header: the number of tracks stays, and only the slot of the
current track can change. -/
theorem scan_body_no_header (k : Nat) (hc : st.counted k) (hh : m.TRACK_tmp = none) :
    (scan_body u m st).counted k
    ∧ (∀ i : Nat, i ≠ k → (scan_body u m st).ccd.TRACK.get? i = st.ccd.TRACK.get? i)
    ∧ (m.INDEX_tmp ≠ some 1 → ∀ t, st.ccd.TRACK.get? k = some t → t.INDEX_1_unset →
        ∃ t', (scan_body u m st).ccd.TRACK.get? k = some t' ∧ t'.INDEX_1_unset) := by
  obtain ⟨X, hX, hb⟩ := scan_body_eq u m st
  have hXc := Scan.counted_of_tracks st k X hX hc
  have h3 : X.ccd.TRACK = st.ccd.TRACK := congrArg (fun p => p.2.2) hX
  have hcount : count_TRACK u m X = X := by
    unfold count_TRACK
    rw [hh]
    rfl
  rw [hb, hcount, ← h3]
  obtain ⟨c1, c2, c3⟩ := hXc
  obtain ⟨a1, a2, a3, a4, -⟩ := fill_TRACK_keeps_others u m X
  refine ⟨⟨by rw [a1, c1], by rw [a2, c2], by rw [a3, c3]⟩, fun i hi => ?_, fun hm t ht hP => ?_⟩
  · exact a4 i (by rw [c1]; omega)
  · obtain ⟨-, -, -, -, b5⟩ := fill_TRACK_keeps_unset u m X hm
    rw [← peek_eq_get?, ← c1] at ht
    obtain ⟨t', ht', hP'⟩ := b5 t ht hP
    rw [c1, peek_eq_get?] at ht'
    exact ⟨t', ht', hP'⟩

theorem ccd_TRACK_init_unset : ccd_TRACK_init.INDEX_1_unset := by
  unfold ccd_TRACK.INDEX_1_unset ccd_TRACK_init
  exact ⟨rfl, by decide⟩

/-- The statement for a track header: one more track, in a new last slot that
`ccd_TRACK_init` filled; the slots of the tracks before stay. -/
theorem count_TRACK_header (k : Nat) (hc : st.counted k) (hh : m.TRACK_tmp.isSome = true) :
    (count_TRACK u m st).counted (k + 1)
    ∧ (∀ i : Nat, 1 ≤ i → i ≤ k →
        (count_TRACK u m st).ccd.TRACK.get? i = st.ccd.TRACK.get? i)
    ∧ (count_TRACK u m st).ccd.TRACK.get? (k + 1) = some ccd_TRACK_init := by
  obtain ⟨c1, c2, c3⟩ := hc
  have hlen : (realloc_block u.TRACK st.ccd.TRACK (st.TRACK + 1 + 1)).length = k + 2 := by
    rw [realloc_block_length, c1]
    omega
  have hpeek : ∃ t0, peek (realloc_block u.TRACK st.ccd.TRACK (st.TRACK + 1 + 1)) (st.TRACK + 1)
      = some t0 := by
    have e : st.TRACK + 1 = ((k + 1 : Nat) : Int) := by rw [c1]; rfl
    generalize realloc_block u.TRACK st.ccd.TRACK (st.TRACK + 1 + 1) = A at hlen
    rw [e, peek_eq_get?]
    exact ⟨_, List.get?_eq_get (by omega)⟩
  obtain ⟨t0, hpeek⟩ := hpeek
  have hval : count_TRACK u m st
      = { st with
          TRACK := st.TRACK + 1
          ccd := { st.ccd with
                   TrackEntries := st.TRACK + 1
                   TRACK := (realloc_block u.TRACK st.ccd.TRACK (st.TRACK + 1 + 1)).modify
                     (fun _ => ccd_TRACK_init) (st.TRACK + 1).toNat } } := by
    unfold count_TRACK store_TRACK
    rw [if_pos hh]
    simp only [hpeek]
  have e2 : (st.TRACK + 1).toNat = k + 1 := by rw [c1]; omega
  rw [hval]
  refine ⟨⟨?_, ?_, ?_⟩, fun i h1 h2 => ?_, ?_⟩
  · show st.TRACK + 1 = ((k + 1 : Nat) : Int)
    rw [c1]
    rfl
  · show st.TRACK + 1 = ((k + 1 : Nat) : Int)
    rw [c1]
    rfl
  · show ((realloc_block u.TRACK st.ccd.TRACK (st.TRACK + 1 + 1)).modify
      (fun _ => ccd_TRACK_init) (st.TRACK + 1).toNat).length = _
    rw [List.length_modify, hlen, if_neg (by omega)]
  · show ((realloc_block u.TRACK st.ccd.TRACK (st.TRACK + 1 + 1)).modify
      (fun _ => ccd_TRACK_init) (st.TRACK + 1).toNat).get? i = _
    rw [get?_modify_const, if_neg (by omega)]
    have hk0 : k ≠ 0 := by omega
    rw [if_neg hk0] at c3
    unfold realloc_block
    rw [List.get?_eq_getElem?, List.getElem?_append_left (by
      rw [List.length_take]
      omega), List.getElem?_take_of_lt (by omega), ← List.get?_eq_getElem?]
  · show ((realloc_block u.TRACK st.ccd.TRACK (st.TRACK + 1 + 1)).modify
      (fun _ => ccd_TRACK_init) (st.TRACK + 1).toNat).get? (k + 1) = _
    rw [get?_modify_const, e2, if_pos ⟨rfl, by omega⟩]

/-- A line that is a track header: one more track; the slots of the tracks before stay,
and the new track has the mark in `INDEX[1]`. -/
theorem scan_body_header (k : Nat) (hc : st.counted k) (hh : m.TRACK_tmp.isSome = true) :
    (scan_body u m st).counted (k + 1)
    ∧ (∀ i : Nat, 1 ≤ i → i ≤ k → (scan_body u m st).ccd.TRACK.get? i = st.ccd.TRACK.get? i)
    ∧ (m.INDEX_tmp ≠ some 1 →
        ∃ t', (scan_body u m st).ccd.TRACK.get? (k + 1) = some t' ∧ t'.INDEX_1_unset) := by
  obtain ⟨X, hX, hb⟩ := scan_body_eq u m st
  have hXc := Scan.counted_of_tracks st k X hX hc
  have h3 : X.ccd.TRACK = st.ccd.TRACK := congrArg (fun p => p.2.2) hX
  obtain ⟨⟨c1, c2, c3⟩, d2, d3⟩ := count_TRACK_header u m X k hXc hh
  rw [hb, ← h3]
  obtain ⟨a1, a2, a3, a4, -⟩ := fill_TRACK_keeps_others u m (count_TRACK u m X)
  refine ⟨⟨by rw [a1, c1], by rw [a2, c2], by rw [a3, c3]⟩, fun i h1 h2 => ?_, fun hm => ?_⟩
  · rw [a4 i (by rw [c1]; omega), d2 i h1 h2]
  · obtain ⟨-, -, -, -, b5⟩ := fill_TRACK_keeps_unset u m (count_TRACK u m X) hm
    rw [← peek_eq_get?, ← c1] at d3
    obtain ⟨t', ht', hP'⟩ := b5 _ d3 ccd_TRACK_init_unset
    rw [c1, peek_eq_get?] at ht'
    exact ⟨t', ht', hP'⟩

end track_frames

/-- A line that is a track header is no `INDEX` line. -/
theorem header_no_INDEX (s : List Char) (h : (scan_fields s).TRACK_tmp.isSome = true) :
    (scan_fields s).INDEX_tmp = none := by
  obtain ⟨v, hv⟩ := Option.isSome_iff_exists.mp h
  exact sscanf_d_exclusive s " [ TRACK %d ] " " INDEX %d = " ['['] ['I']
    _ _ rfl rfl (by intro a b h; cases h) v hv

/-- After the lines, the number of tracks has grown by the number of track headers among
them. -/
theorem foldl_counted (u : Uninit) (lines : List (List Char)) (st : Scan) (k : Nat)
    (hc : st.counted k) :
    (lines.foldl (scan_line u) st).counted
      (k + lines.countP fun l => (scan_fields (cstring l)).TRACK_tmp.isSome) := by
  induction lines generalizing st k with
  | nil => exact hc
  | cons l ls ih =>
    rw [List.foldl_cons, List.countP_cons]
    by_cases hh : (scan_fields (cstring l)).TRACK_tmp.isSome = true
    · have h1 := (scan_body_header u _ st k hc hh).1
      have h2 := ih _ (k + 1) h1
      rw [if_pos hh]
      have e : k + ((ls.countP fun l => (scan_fields (cstring l)).TRACK_tmp.isSome) + 1)
          = k + 1 + ls.countP fun l => (scan_fields (cstring l)).TRACK_tmp.isSome := by omega
      rw [e]
      exact h2
    · have hn : (scan_fields (cstring l)).TRACK_tmp = none := by
        cases hx : (scan_fields (cstring l)).TRACK_tmp with
        | none => rfl
        | some v => rw [hx] at hh; exact absurd rfl hh
      have h1 := (scan_body_no_header u _ st k hc hn).1
      have h2 := ih _ k h1
      rw [if_neg hh]
      exact h2

/-- The lines after a track section leave the slot of the track as it is. -/
theorem foldl_keeps_slot (u : Uninit) (lines : List (List Char)) (st : Scan) (k j : Nat)
    (hc : st.counted k) (h1 : 1 ≤ j) (h2 : j < k) :
    (lines.foldl (scan_line u) st).ccd.TRACK.get? j = st.ccd.TRACK.get? j := by
  induction lines generalizing st k with
  | nil => rfl
  | cons l ls ih =>
    rw [List.foldl_cons]
    by_cases hh : (scan_fields (cstring l)).TRACK_tmp.isSome = true
    · obtain ⟨a1, a2, -⟩ := scan_body_header u _ st k hc hh
      rw [ih (scan_line u st l) (k + 1) a1 (by omega)]
      exact a2 j h1 (by omega)
    · have hn : (scan_fields (cstring l)).TRACK_tmp = none := by
        cases hx : (scan_fields (cstring l)).TRACK_tmp with
        | none => rfl
        | some v => rw [hx] at hh; exact absurd rfl hh
      obtain ⟨a1, a2, -⟩ := scan_body_no_header u _ st k hc hn
      rw [ih (scan_line u st l) k a1 h2]
      exact a2 j (by omega)

/-- The lines of a track section without an `INDEX 1` line leave the mark in `INDEX[1]`
of the track. -/
theorem foldl_section (u : Uninit) (body : List (List Char)) (st : Scan) (k : Nat)
    (hc : st.counted k)
    (hbody : ∀ l ∈ body, (scan_fields (cstring l)).TRACK_tmp = none
      ∧ (scan_fields (cstring l)).INDEX_tmp ≠ some 1)
    (t : ccd_TRACK) (ht : st.ccd.TRACK.get? k = some t) (hP : t.INDEX_1_unset) :
    (body.foldl (scan_line u) st).counted k
    ∧ ∃ t', (body.foldl (scan_line u) st).ccd.TRACK.get? k = some t' ∧ t'.INDEX_1_unset := by
  induction body generalizing st t with
  | nil => exact ⟨hc, t, ht, hP⟩
  | cons l ls ih =>
    rw [List.foldl_cons]
    obtain ⟨hn, hm⟩ := hbody l (List.mem_cons_self _ _)
    obtain ⟨a1, -, a3⟩ := scan_body_no_header u _ st k hc hn
    obtain ⟨t', ht', hP'⟩ := a3 hm t ht hP
    exact ih _ a1 (fun x hx => hbody x (List.mem_cons_of_mem _ hx)) t' ht' hP'

theorem Scan.init_counted : Scan.init.counted 0 := ⟨rfl, rfl, rfl⟩

/-- The parser, for a track section without an `INDEX 1` line: the track that
`stream2ccd` leaves for it has the mark -1 in `INDEX[1]`.  The section is the header
`hdr` and the lines `body` up to the next track header or the end. -/
theorem stream2ccd_INDEX_1_unset (u : Uninit) (stream : List Char)
    (pre body rest : List (List Char)) (hdr : List Char)
    (hlines : my_getlines u.line [] stream = pre ++ hdr :: body ++ rest)
    (hhdr : (scan_fields (cstring hdr)).TRACK_tmp.isSome = true)
    (hbody : ∀ l ∈ body, (scan_fields (cstring l)).TRACK_tmp = none
      ∧ (scan_fields (cstring l)).INDEX_tmp ≠ some 1)
    (hrest : rest = [] ∨ ∃ h r, rest = h :: r ∧ (scan_fields (cstring h)).TRACK_tmp.isSome = true) :
    (((pre.countP fun l => (scan_fields (cstring l)).TRACK_tmp.isSome) + 1 : Nat) : Int)
        ≤ (stream2ccd u stream).ccd.TrackEntries
    ∧ ∃ t, (stream2ccd u stream).ccd.TRACK.get?
          ((pre.countP fun l => (scan_fields (cstring l)).TRACK_tmp.isSome) + 1) = some t
        ∧ t.INDEX.get? 1 = some (-1) ∧ 2 ≤ t.IndexEntries := by
  generalize hk : (pre.countP fun l => (scan_fields (cstring l)).TRACK_tmp.isSome) = k
  have hfold : scan_stream u stream
      = rest.foldl (scan_line u)
          (body.foldl (scan_line u) (scan_line u (pre.foldl (scan_line u) Scan.init) hdr)) := by
    unfold scan_stream
    rw [hlines]
    simp only [List.foldl_append, List.foldl_cons]
  have h0 := foldl_counted u pre Scan.init 0 Scan.init_counted
  rw [hk, Nat.zero_add] at h0
  generalize pre.foldl (scan_line u) Scan.init = s0 at h0 hfold
  -- the header
  obtain ⟨a1, -, a3⟩ := scan_body_header u (scan_fields (cstring hdr)) s0 k h0 hhdr
  obtain ⟨t1, ht1, hP1⟩ := a3 (by rw [header_no_INDEX _ hhdr]; exact fun h => Option.noConfusion h)
  -- the lines of the section
  obtain ⟨b1, t2, ht2, hP2⟩ := foldl_section u body (scan_line u s0 hdr) (k + 1) a1 hbody t1 ht1 hP1
  generalize body.foldl (scan_line u) (scan_line u s0 hdr) = s2 at b1 ht2 hfold
  -- the lines after the section
  have hend : (scan_stream u stream).ccd.TRACK.get? (k + 1) = some t2
      ∧ ((k + 1 : Nat) : Int) ≤ (scan_stream u stream).ccd.TrackEntries := by
    rw [hfold]
    rcases hrest with rfl | ⟨h, r, rfl, hh⟩
    · exact ⟨ht2, le_of_eq b1.2.1.symm⟩
    · rw [List.foldl_cons]
      obtain ⟨c1, c2, -⟩ := scan_body_header u (scan_fields (cstring h)) s2 (k + 1) b1 hh
      have c3 := foldl_counted u r (scan_line u s2 h) (k + 1 + 1) c1
      refine ⟨?_, ?_⟩
      · rw [foldl_keeps_slot u r (scan_line u s2 h) (k + 1 + 1) (k + 1) c1 (by omega) (by omega)]
        rw [← ht2]
        exact c2 (k + 1) (by omega) (by omega)
      · rw [c3.2.1]
        omega
  obtain ⟨r1, r2⟩ := stream2ccd_tracks u stream
  rw [r1, r2]
  exact ⟨hend.2, t2, hend.1, hP2.1, hP2.2⟩

/-! ## Theorems: the text of a slot number -/

/-- The digits of a positive number do not start with `0`. -/
theorem toDigitsCore_head (fuel n : Nat) (ds : List Char) (h0 : 0 < n) (hf : n < fuel) :
    ∃ c rest, Nat.toDigitsCore 10 fuel n ds = c :: rest ∧ c ≠ '0' := by
  induction fuel generalizing n ds with
  | zero => omega
  | succ fuel ih =>
    unfold Nat.toDigitsCore
    simp only
    split
    · rename_i hq
      have hn : n < 10 := by omega
      refine ⟨_, _, rfl, ?_⟩
      rw [Nat.mod_eq_of_lt hn]
      interval_cases n <;> decide
    · rename_i hq
      exact ih (n / 10) _ (by omega) (by omega)

theorem toDigitsCore_length_ge (fuel m : Nat) (ds : List Char) :
    ds.length ≤ (Nat.toDigitsCore 10 fuel m ds).length := by
  induction fuel generalizing m ds with
  | zero => exact Nat.le_refl _
  | succ fuel ih =>
    unfold Nat.toDigitsCore
    simp only
    split
    · simp
    · have := ih (m / 10) (Nat.digitChar (m % 10) :: ds)
      simp only [List.length_cons] at this
      omega

/-- The digits of a number of two or more digits: no padding by `%02u`. -/
theorem toDigits_length (n : Nat) (h : 10 ≤ n) : 2 ≤ (Nat.toDigits 10 n).length := by
  have hq : ¬ (n / 10 = 0) := by omega
  have hn : n = (n - 1) + 1 := by omega
  unfold Nat.toDigits
  unfold Nat.toDigitsCore
  simp only
  rw [if_neg hq]
  rw [hn]
  unfold Nat.toDigitsCore
  simp only
  split
  · simp
  · have := toDigitsCore_length_ge (n - 1) ((n - 1 + 1) / 10 / 10)
      [Nat.digitChar ((n - 1 + 1) / 10 % 10), Nat.digitChar ((n - 1 + 1) % 10)]
    simp only [List.length_cons, List.length_nil] at this
    omega

/-- The text of `%02u` for a slot number other than 1 is not `01`. -/
theorem printf_02u_ne_01 (j : Nat) (hj : j ≠ 1) (rest : List Char) :
    ¬ ("01 ".toList <+: printf_02u j ++ rest) := by
  by_cases h10 : j < 10
  · interval_cases j <;>
      first
      | exact absurd rfl hj
      | (intro h
         simp [printf_02u, Nat.toDigits, Nat.toDigitsCore] at h
         exact absurd h.1 (by decide))
  · have hl := toDigits_length j (by omega)
    obtain ⟨c, r, hc, hne⟩ := toDigitsCore_head (j + 1) j [] (by omega) (by omega)
    have e : printf_02u j = c :: r := by
      unfold printf_02u
      simp only
      have : 2 - (Nat.toDigits 10 j).length = 0 := by omega
      rw [this]
      exact hc
    rw [e]
    intro h
    have := List.cons_prefix_cons.mp h
    exact hne this.1.symm

/-! ## Theorems: a track without an `INDEX 1` line -/

/-- A line of the CUE sheet whose text starts with `INDEX 01` is the line of slot 1. -/
theorem cue_line.INDEX_01 (l : cue_line) (h : "    INDEX 01 ".toList <+: l.text) :
    ∃ x, l = cue_line.INDEX 1 x := by
  cases l with
  | INDEX slot x =>
    by_cases hs : slot = 1
    · exact ⟨x, by rw [hs]⟩
    · exfalso
      simp only [cue_line.text] at h
      have h2 : "01 ".toList <+: printf_02u slot ++ (" ".toList ++ printf_msf x ++ "\n".toList) := by
        have e : "    INDEX ".toList ++ printf_02u slot ++ " ".toList ++ printf_msf x ++ "\n".toList
            = "    INDEX ".toList ++ (printf_02u slot ++ (" ".toList ++ printf_msf x ++ "\n".toList)) := by
          simp only [List.append_assoc]
        rw [e] at h
        exact (List.prefix_append_right_inj "    INDEX ".toList).mp h
      exact printf_02u_ne_01 slot hs _ h2
  | _ => simp [cue_line.text] at h

/-- C18: for every input in which a track section (the header `hdr` and the lines `body`
up to the next track header or the end) contains no `INDEX 1` line, the CCD structure
that `stream2ccd` leaves has -1 in `INDEX[1]` of that track; whenever `ccd2cue` returns a
CUE structure for it, slot 1 of the `INDEX` array of that track is not initialized; and
`cue2stream` prints the lines of that track with no `INDEX 01` line among them. -/
theorem INDEX_1_unset_round_trip (u : Uninit) (stream img_name cdt_name : List Char)
    (pre body rest : List (List Char)) (hdr : List Char)
    (hlines : my_getlines u.line [] stream = pre ++ hdr :: body ++ rest)
    (hhdr : (scan_fields (cstring hdr)).TRACK_tmp.isSome = true)
    (hbody : ∀ l ∈ body, (scan_fields (cstring l)).TRACK_tmp = none
      ∧ (scan_fields (cstring l)).INDEX_tmp ≠ some 1)
    (hrest : rest = [] ∨ ∃ h r, rest = h :: r ∧ (scan_fields (cstring h)).TRACK_tmp.isSome = true) :
    ∃ t, (stream2ccd u stream).ccd.TRACK.get?
          ((pre.countP fun l => (scan_fields (cstring l)).TRACK_tmp.isSome) + 1) = some t
      ∧ t.INDEX.get? 1 = some (-1)
      ∧ ∀ q, ccd2cue u (stream2ccd u stream).ccd img_name cdt_name = .ok q →
          ∃ f y x, q.FILE = [f]
            ∧ f.TRACK.get? ((pre.countP fun l => (scan_fields (cstring l)).TRACK_tmp.isSome) + 1)
                = some y
            ∧ y.INDEX.get? 1 = some x ∧ x.initialized = 0
            ∧ ∃ ls, cue2stream_TRACK f
                  (((pre.countP fun l => (scan_fields (cstring l)).TRACK_tmp.isSome) + 1 : Nat) : Int)
                  = .ok ls
                ∧ ∀ l ∈ ls, ¬ ("    INDEX 01 ".toList <+: l) := by
  obtain ⟨hle, t, ht, h1, h2⟩ :=
    stream2ccd_INDEX_1_unset u stream pre body rest hdr hlines hhdr hbody hrest
  generalize hk : (pre.countP fun l => (scan_fields (cstring l)).TRACK_tmp.isSome) + 1 = k
    at hle ht ⊢
  have hk1 : 1 ≤ k := by omega
  refine ⟨t, ht, h1, fun q hq => ?_⟩
  obtain ⟨f, y, hf, -, -, hy, hr⟩ := ccd2cue_ok_TRACK u _ img_name cdt_name q hq k hk1 hle
  obtain ⟨t', ht', -, hi, hx, hyt⟩ := ccd2cue_TRACK_ok u _ k y hr
  rw [ht] at ht'
  cases ht'
  obtain ⟨hl, hslots⟩ := (mapM_range_ok_iff _ _ _).mp hx
  obtain ⟨x, hx1, hx2⟩ := hslots 1 (by omega)
  obtain ⟨v, hv, hv1, -⟩ := ccd2cue_INDEX_ok u t k 1 x hx2
  rw [h1] at hv
  cases hv
  have hx0 : x.initialized = 0 := by rw [hv1 rfl]
  have hIE : y.IndexEntries = t.IndexEntries := by rw [hyt]
  have hsz : y.IndexEntries.toNat ≤ y.INDEX.length := by
    rw [hl, hIE]
  obtain ⟨ls, hls⟩ := cue2stream_TRACK_returns f (k : Int) y
    (by rw [peek_eq_get?]; exact hy) hsz
  refine ⟨f, y, x, hf, hy, hx1, hx0, ls, hls, fun l hl' hp => ?_⟩
  obtain ⟨y', hy', -, hlines'⟩ := cue2stream_TRACK_ok f (k : Int) ls hls
  rw [(fetch_int_ok_iff _ _ _).mpr (by rw [peek_eq_get?]; exact hy)] at hy'
  cases hy'
  rw [hlines'] at hl'
  obtain ⟨item, hitem, rfl⟩ := List.mem_map.mp hl'
  obtain ⟨x', rfl⟩ := cue_line.INDEX_01 item hp
  have hm := ((cue_TRACK.optional_line_iff (k : Int) y).2.2.2.2.2.2.1 1 x').mp hitem
  have hg : (y.INDEX.take y.IndexEntries.toNat).get? 1 = y.INDEX.get? 1 := by
    rw [List.get?_eq_getElem?, List.getElem?_take_of_lt (by rw [hIE]; omega),
      ← List.get?_eq_getElem?]
  rw [hg, hx1] at hm
  obtain ⟨e, hne⟩ := hm
  cases e
  exact hne hx0

set_option maxRecDepth 1000000 in
/-- Witness of C18 for the sheet with two track sections, the first without an `INDEX 1`
line: track 1 has -1 in `INDEX[1]`, and the CUE sheet has no `INDEX 01` line under
`TRACK 1`. -/
theorem INDEX_1_unset_round_trip_witness :
    my_getlines Uninit.zeroed.line [] sample_no_index_1_sheet
      = [] ++ "[TRACK 1]\n".toList :: ["MODE=0\n".toList, "INDEX 0=10\n".toList]
          ++ ["[TRACK 2]\n".toList, "MODE=1\n".toList, "INDEX 1=0\n".toList, []]
    ∧ (∃ t, (stream2ccd Uninit.zeroed sample_no_index_1_sheet).ccd.TRACK.get? 1 = some t
        ∧ t.INDEX.get? 1 = some (-1))
    ∧ convert Uninit.zeroed sample_no_index_1_sheet "image.img".toList "image.cdt".toList
        = .ok ("FILE \"image.img\" BINARY\n  TRACK 1 AUDIO\n    INDEX 00 00:00:10\n"
            ++ "  TRACK 2 MODE1/2352\n    INDEX 01 00:00:00\n").toList := by
  have hl : my_getlines Uninit.zeroed.line [] sample_no_index_1_sheet
      = [] ++ "[TRACK 1]\n".toList :: ["MODE=0\n".toList, "INDEX 0=10\n".toList]
          ++ ["[TRACK 2]\n".toList, "MODE=1\n".toList, "INDEX 1=0\n".toList, []] := by decide
  obtain ⟨t, ht, h1, -⟩ := INDEX_1_unset_round_trip Uninit.zeroed sample_no_index_1_sheet
    "image.img".toList "image.cdt".toList [] ["MODE=0\n".toList, "INDEX 0=10\n".toList]
    ["[TRACK 2]\n".toList, "MODE=1\n".toList, "INDEX 1=0\n".toList, []] "[TRACK 1]\n".toList hl
    (by decide)
    (by
      intro l hl'
      simp only [List.mem_cons, List.mem_singleton, List.not_mem_nil, or_false] at hl'
      rcases hl' with rfl | rfl
      · exact ⟨by decide, by decide⟩
      · exact ⟨by decide, by decide⟩)
    (Or.inr ⟨_, _, rfl, by decide⟩)
  exact ⟨hl, ⟨t, ht, h1⟩, rfl⟩

/-! ## Theorems: the `FILE` and `TRACK` lines of the CUE sheet -/

theorem cue_line.TRACK_word (l : cue_line) :
    starts_with_word "TRACK" l.text = decide (l.indent = 2) := by
  cases l <;> simp [starts_with_word, cue_line.text, cue_line.indent, List.isPrefixOf]

theorem cue_line.FILE_word (l : cue_line) :
    starts_with_word "FILE" l.text = decide (l.keyword = "FILE") := by
  cases l <;> simp [starts_with_word, cue_line.text, cue_line.keyword, List.isPrefixOf]

theorem cue_TRACK.lines_cons (number : Int) (t : cue_TRACK) :
    ∃ rest, cue_TRACK.lines number t = cue_line.TRACK number t.datatype :: rest
      ∧ ∀ l ∈ rest, l.indent = 4 := by
  refine ⟨(t.FLAGS.map cue_line.FLAGS).toList
      ++ ((if t.ISRC ≠ [] then [cue_line.ISRC t.ISRC] else [])
      ++ ((t.PERFORMER.map cue_line.TRACK_PERFORMER).toList
      ++ ((t.SONGWRITER.map cue_line.TRACK_SONGWRITER).toList
      ++ ((t.TITLE.map cue_line.TRACK_TITLE).toList
      ++ ((if t.PREGAP.initialized ≠ 0 then [cue_line.PREGAP t.PREGAP] else [])
      ++ ((((t.INDEX.take t.IndexEntries.toNat).enum.filter fun p => p.2.initialized ≠ 0).map
            fun p => cue_line.INDEX p.1 p.2)
      ++ (if t.POSTGAP.initialized ≠ 0 then [cue_line.POSTGAP t.POSTGAP] else []))))))), ?_, ?_⟩
  · unfold cue_TRACK.lines
    simp only [List.append_assoc, List.singleton_append]
    rfl
  intro l h
  simp only [List.mem_append, List.mem_map, Option.mem_toList,
    Option.mem_def, Option.map_eq_some'] at h
  rcases h with h | h | h | h | h | h | h | h
  · obtain ⟨x, -, rfl⟩ := h
    rfl
  · split at h
    · rw [List.mem_singleton] at h
      subst h
      rfl
    · cases h
  · obtain ⟨x, -, rfl⟩ := h
    rfl
  · obtain ⟨x, -, rfl⟩ := h
    rfl
  · obtain ⟨x, -, rfl⟩ := h
    rfl
  · split at h
    · rw [List.mem_singleton] at h
      subst h
      rfl
    · cases h
  · obtain ⟨p, -, rfl⟩ := h
    rfl
  · split at h
    · rw [List.mem_singleton] at h
      subst h
      rfl
    · cases h

theorem filter_cons_only {α : Type} (p : α → Bool) (x : α) (rest : List α) (hx : p x = true)
    (hrest : ∀ l ∈ rest, p l = false) : (x :: rest).filter p = [x] := by
  rw [List.filter_cons_of_pos hx, List.filter_eq_nil_iff.mpr]
  intro l hl
  rw [hrest l hl]
  exact Bool.false_ne_true

theorem cue_TRACK.lines_filter_TRACK (number : Int) (t : cue_TRACK) :
    (cue_TRACK.lines number t).filter (fun l => decide (l.indent = 2))
      = [cue_line.TRACK number t.datatype] := by
  obtain ⟨rest, e, hrest⟩ := cue_TRACK.lines_cons number t
  rw [e]
  refine filter_cons_only _ _ _ (by simp [cue_line.indent]) (fun l hl => ?_)
  rw [hrest l hl]
  rfl

theorem cue_TRACK.lines_filter_FILE (number : Int) (t : cue_TRACK) :
    (cue_TRACK.lines number t).filter (fun l => decide (l.keyword = "FILE")) = [] := by
  rw [List.filter_eq_nil_iff]
  intro l hl
  obtain ⟨rest, e, hrest⟩ := cue_TRACK.lines_cons number t
  rw [e, List.mem_cons] at hl
  rcases hl with rfl | hl
  · simp [cue_line.keyword]
  · have h4 := hrest l hl
    cases l <;> first | (simp [cue_line.keyword]; done) | simp [cue_line.indent] at h4

/-- The CUE structure that `ccd2cue` returns has arrays as large as announced. -/
theorem ccd2cue_sized (u : Uninit) (c : ccd) (img_name cdt_name : List Char) (q : cue)
    (h : ccd2cue u c img_name cdt_name = .ok q) : q.sized := by
  obtain ⟨TRACK, hT, hq⟩ := ccd2cue_ok u c img_name cdt_name q h
  rw [cue.sized_iff_files]
  intro k hk
  have hFE : q.FileEntries = 1 := by rw [hq]
  have hk0 : k = 0 := by
    rw [hFE] at hk
    simpa using hk
  subst hk0
  refine ⟨_, by rw [hq]; rfl, ?_⟩
  rw [cue_FILE.sized_iff_slots]
  intro j hj
  simp only at hj
  by_cases hpos : 0 < c.TrackEntries
  · rw [if_pos hpos] at hj
    obtain ⟨f, y, hf, -, -, hy, hr⟩ :=
      ccd2cue_ok_TRACK u c img_name cdt_name q h (j + 1) (by omega) (by omega)
    obtain ⟨t', -, -, -, hx, hyt⟩ := ccd2cue_TRACK_ok u c (j + 1) y hr
    have hl := ((mapM_range_ok_iff _ _ _).mp hx).1
    have hIE : y.IndexEntries = t'.IndexEntries := by rw [hyt]
    have hfq : f.TRACK = TRACK := by
      rw [hq] at hf
      have := List.cons.inj hf
      rw [← this.1]
    refine ⟨y, ?_, by rw [hl, hIE]⟩
    have e : (1 : Int) + (j : Int) = ((j + 1 : Nat) : Int) := by omega
    simp only
    rw [← hfq, e, peek_eq_get?]
    exact hy
  · rw [if_neg hpos] at hj
    simp at hj

/-- The lines of the CUE structure that `ccd2cue` returns: lines of the disc, the `FILE`
line, and the lines of as many tracks as the CCD structure has, numbered from 1. -/
theorem ccd2cue_lines (u : Uninit) (c : ccd) (img_name cdt_name : List Char) (q : cue)
    (h : ccd2cue u c img_name cdt_name = .ok q) :
    ∃ (disc : List cue_line) (tracks : List cue_TRACK),
      tracks.length = c.TrackEntries.toNat
      ∧ (∀ l ∈ disc, l.indent = 0 ∧ l.keyword ≠ "FILE")
      ∧ q.lines = disc ++ cue_line.FILE img_name cue_filetype.BINARY ::
          ((tracks.enumFrom 1).map fun p => cue_TRACK.lines (p.1 : Int) p.2).flatten := by
  obtain ⟨TRACK, hT, hq⟩ := ccd2cue_ok u c img_name cdt_name q h
  have hdisc : ∀ l ∈ (if q.CATALOG ≠ [] then [cue_line.CATALOG q.CATALOG] else [])
      ++ (q.CDTEXTFILE.map cue_line.CDTEXTFILE).toList, l.indent = 0 ∧ l.keyword ≠ "FILE" := by
    intro l hl
    simp only [List.mem_append, Option.mem_toList, Option.mem_def, Option.map_eq_some'] at hl
    rcases hl with hl | ⟨x, -, rfl⟩
    · split at hl
      · rw [List.mem_singleton] at hl
        subst hl
        exact ⟨rfl, by simp [cue_line.keyword]⟩
      · cases hl
    · exact ⟨rfl, by simp [cue_line.keyword]⟩
  rcases hT with ⟨hpos, tracks, hx, hTR⟩ | ⟨hneg, hTR⟩
  · have hlen := ((mapM_range'_ok_iff _ _ _ _).mp hx).1
    refine ⟨_, tracks, hlen, hdisc, ?_⟩
    have e1 : (c.TrackEntries + 1 - 1).toNat = tracks.length := by
      rw [hlen]
      congr 1
      omega
    subst hq
    simp only [cue.lines, cue_FILE.lines, hTR, if_pos hpos, Option.map_none', Option.toList_none,
      List.append_nil, Int.toNat_one, List.take_succ_cons, List.take_zero, List.map_cons,
      List.map_nil, List.flatten_cons, List.flatten_nil, Option.map_some', Option.toList_some,
      List.drop_succ_cons, List.drop_zero, e1, List.take_length, List.singleton_append]
  · refine ⟨_, [], by simp; omega, hdisc, ?_⟩
    have hpos : ¬ 0 < c.TrackEntries := by omega
    subst hq
    simp only [cue.lines, cue_FILE.lines, hTR, if_neg hpos, Option.map_none', Option.toList_none,
      List.append_nil, Int.toNat_one, List.take_succ_cons, List.take_zero, List.map_cons,
      List.map_nil, List.flatten_cons, List.flatten_nil, Option.map_some', Option.toList_some,
      List.drop_nil, List.take_nil, List.enumFrom_nil, List.singleton_append]

theorem filter_flatten_map {α β : Type} (p : β → Bool) (g : α → List β) (L : List α) :
    (L.map g).flatten.filter p = (L.map fun a => (g a).filter p).flatten := by
  induction L with
  | nil => rfl
  | cons a L ih => simp only [List.map_cons, List.flatten_cons, List.filter_append, ih]

theorem flatten_map_nil {α β : Type} (L : List α) :
    (L.map fun _ => ([] : List β)).flatten = [] := by
  induction L with
  | nil => rfl
  | cons a L ih => simp

theorem flatten_map_singleton {α β : Type} (g : α → β) (L : List α) :
    (L.map fun a => [g a]).flatten = L.map g := by
  induction L with
  | nil => rfl
  | cons a L ih => simp only [List.map_cons, List.flatten_cons, ih, List.singleton_append]

theorem printf_i_natCast (n : Nat) : printf_i (n : Int) = Nat.toDigits 10 n := by
  unfold printf_i
  rw [if_neg (by omega), Int.toNat_ofNat]

/-- C21: whenever `ccd2cue` returns a CUE structure for a CCD structure, `cue2stream`
prints it, and among the lines printed exactly one has `FILE` as its first word, the
line of the image file, and the lines with `TRACK` as their first word are as many as
`TrackEntries` says (none when it is 0), each of the form two spaces, `TRACK`, the
number, the data type, with the numbers 1, 2, ... in this order; and `ccd2cue` does
return a CUE structure for every CCD structure with arrays as announced whose tracks all
have `MODE` 0, 1 or 2. -/
theorem convert_TRACK_lines (u : Uninit) (c : ccd) (img_name cdt_name : List Char) :
    (∀ q, ccd2cue u c img_name cdt_name = .ok q →
      ∃ ls, cue2lines q = .ok ls ∧ cue2stream q = .ok ls.flatten
        ∧ ls.filter (starts_with_word "FILE")
            = ["FILE \"".toList ++ img_name ++ "\" BINARY\n".toList]
        ∧ ∃ types : List cue_datatype, types.length = c.TrackEntries.toNat
          ∧ ls.filter (starts_with_word "TRACK")
              = (types.enumFrom 1).map fun p =>
                  "  TRACK ".toList ++ Nat.toDigits 10 p.1 ++ " ".toList
                    ++ (datatype p.2).toList ++ "\n".toList)
    ∧ (c.convertible → c.modes_known → ∃ q, ccd2cue u c img_name cdt_name = .ok q) := by
  refine ⟨fun q h => ?_, ccd2cue_returns u c img_name cdt_name⟩
  obtain ⟨ls, hls⟩ := cue2lines_returns q (ccd2cue_sized u c img_name cdt_name q h)
  have e := (cue2lines_ok q ls hls).2
  obtain ⟨disc, tracks, hlen, hdisc, hlines⟩ := ccd2cue_lines u c img_name cdt_name q h
  have hF : (starts_with_word "FILE" ∘ cue_line.text) = fun l => decide (l.keyword = "FILE") :=
    funext cue_line.FILE_word
  have hT : (starts_with_word "TRACK" ∘ cue_line.text) = fun l => decide (l.indent = 2) :=
    funext cue_line.TRACK_word
  have hdF : disc.filter (fun l => decide (l.keyword = "FILE")) = [] := by
    rw [List.filter_eq_nil_iff]
    intro l hl
    simpa using (hdisc l hl).2
  have hdT : disc.filter (fun l => decide (l.indent = 2)) = [] := by
    rw [List.filter_eq_nil_iff]
    intro l hl
    rw [(hdisc l hl).1]
    decide
  refine ⟨ls, hls, by unfold cue2stream; rw [hls]; rfl, ?_, tracks.map (·.datatype),
    by rw [List.length_map, hlen], ?_⟩
  · rw [e, List.filter_map, hF, hlines, List.filter_append, hdF, List.nil_append,
      List.filter_cons_of_pos (by simp [cue_line.keyword]), filter_flatten_map]
    simp only [cue_TRACK.lines_filter_FILE, flatten_map_nil, List.map_cons, List.map_nil]
    simp [cue_line.text, filetype]
  · rw [e, List.filter_map, hT, hlines, List.filter_append, hdT, List.nil_append,
      List.filter_cons_of_neg (by simp [cue_line.indent]), filter_flatten_map]
    simp only [cue_TRACK.lines_filter_TRACK]
    rw [flatten_map_singleton, List.map_map, List.enumFrom_map, List.map_map]
    refine List.map_congr_left (fun p _ => ?_)
    simp only [Function.comp, cue_line.text, printf_i_natCast, Prod.map, id]

set_option maxRecDepth 100000 in
/-- Witness of C21 for the sample CCD structure with two tracks. -/
theorem convert_TRACK_lines_witness :
    sample_tracks_ccd.convertible ∧ sample_tracks_ccd.modes_known
    ∧ (∃ q, ccd2cue Uninit.zeroed sample_tracks_ccd "image.img".toList "image.cdt".toList = .ok q)
    ∧ ccd2cue Uninit.zeroed sample_tracks_ccd "image.img".toList "image.cdt".toList
        = .ok sample_tracks_cue
    ∧ ∃ ls, cue2lines sample_tracks_cue = .ok ls ∧ cue2stream sample_tracks_cue = .ok ls.flatten
        ∧ ls.filter (starts_with_word "FILE")
            = ["FILE \"".toList ++ "image.img".toList ++ "\" BINARY\n".toList]
        ∧ ∃ types : List cue_datatype, types.length = sample_tracks_ccd.TrackEntries.toNat
          ∧ ls.filter (starts_with_word "TRACK")
              = (types.enumFrom 1).map fun p =>
                  "  TRACK ".toList ++ Nat.toDigits 10 p.1 ++ " ".toList
                    ++ (datatype p.2).toList ++ "\n".toList :=
  ⟨sample_tracks_convertible, sample_tracks_modes_known,
    (convert_TRACK_lines Uninit.zeroed sample_tracks_ccd "image.img".toList
      "image.cdt".toList).2 sample_tracks_convertible sample_tracks_modes_known,
    sample_tracks_convert,
    (convert_TRACK_lines Uninit.zeroed sample_tracks_ccd "image.img".toList
      "image.cdt".toList).1 sample_tracks_cue sample_tracks_convert⟩

/-! ## Theorems: the lines that the read loop sees -/

/-- The lines up to a newline do not depend on what follows it. -/
theorem my_getlines_newline (eof : List Char) (pre : List Char) :
    ∀ cur : List Char, ∃ L : List (List Char), ∀ s : List Char,
      my_getlines eof cur (pre ++ '\n' :: s) = L ++ my_getlines eof [] s := by
  induction pre with
  | nil =>
    intro cur
    refine ⟨[cur ++ ['\n']], fun s => ?_⟩
    simp [my_getlines]
  | cons c pre ih =>
    intro cur
    by_cases hc : c = '\n' ∨ cur.length + 1 = 1023
    · obtain ⟨L, hL⟩ := ih []
      refine ⟨(cur ++ [c]) :: L, fun s => ?_⟩
      rw [List.cons_append, my_getlines, if_pos hc, hL s]
      rfl
    · obtain ⟨L, hL⟩ := ih (cur ++ [c])
      refine ⟨L, fun s => ?_⟩
      rw [List.cons_append, my_getlines, if_neg hc, hL s]

/-- A line without a newline in it that fits the buffer is read as one line. -/
theorem my_getlines_line (eof : List Char) (line : List Char) (hn : '\n' ∉ line) :
    ∀ (cur s : List Char), cur.length + line.length ≤ 1022 →
      my_getlines eof cur (line ++ '\n' :: s) = (cur ++ line ++ ['\n']) :: my_getlines eof [] s := by
  induction line with
  | nil =>
    intro cur s _
    simp [my_getlines]
  | cons c line ih =>
    intro cur s hlen
    have hc : ¬ (c = '\n' ∨ cur.length + 1 = 1023) := by
      rw [List.length_cons] at hlen
      intro h
      rcases h with h | h
      · exact hn (by rw [h]; exact List.mem_cons_self _ _)
      · omega
    rw [List.cons_append, my_getlines, if_neg hc,
      ih (fun h => hn (List.mem_cons_of_mem _ h)) (cur ++ [c]) s (by
        rw [List.length_cons] at hlen
        rw [List.length_append, List.length_singleton]
        omega)]
    simp

/-! ## Theorems: a line that no template matches -/

theorem modify_const_self {α : Type} (l : List α) (n : Nat) (a : α) (h : l.get? n = some a) :
    l.modify (fun _ => a) n = l := by
  apply List.ext_get?
  intro i
  rw [get?_modify_const]
  split
  · rename_i hi
    rw [hi.1, h]
  · rfl

/-- A statement that would store into the current track what is already there. -/
theorem store_TRACK_same (st : Scan) (inner : Region) (f : ccd_TRACK → Option ccd_TRACK)
    (t : ccd_TRACK) (hp : peek st.ccd.TRACK st.TRACK = some t) (hf : f t = some t) :
    store_TRACK st inner f = st := by
  have hg : st.ccd.TRACK.get? st.TRACK.toNat = some t := by
    unfold peek at hp
    split at hp
    · exact hp
    · cases hp
  unfold store_TRACK
  rw [hp]
  simp only [hf, modify_const_self _ _ _ hg]

/-- The body of the loop leaves the state of the parser as it is for a line on which no
`sscanf` call assigns anything. -/
theorem scan_body_empty (u : Uninit) (st : Scan) (k : Nat) (hc : st.counted k) :
    scan_body u LineScan.empty st = st := by
  have h1 : scan_simple LineScan.empty st = st := rfl
  have h2 : scan_Session u LineScan.empty st = st := by
    simp [scan_Session, scan_Sessions, count_Session, fill_Session, store_Session,
      LineScan.empty]
  have h3 : scan_Entry u LineScan.empty st = st := by
    simp [scan_Entry, scan_TocEntries, count_Entry, fill_Entry, store_Entry, LineScan.empty]
  have h4 : scan_CDText u LineScan.empty st = st := by
    simp [scan_CDText, scan_CDTextEntries, count_CDText, fill_CDText, LineScan.empty]
  have h5 : scan_TRACK u LineScan.empty st = st := by
    have hcount : count_TRACK u LineScan.empty st = st := by
      simp [count_TRACK, LineScan.empty]
    unfold scan_TRACK
    rw [hcount]
    unfold fill_TRACK
    split
    · rename_i hpos
      obtain ⟨c1, c2, c3⟩ := hc
      have hk : 0 < k := by
        rw [c2] at hpos
        omega
      have hlen : k < st.ccd.TRACK.length := by
        rw [c3, if_neg (by omega)]
        omega
      obtain ⟨t, ht⟩ : ∃ t, peek st.ccd.TRACK st.TRACK = some t := by
        rw [c1, peek_eq_get?]
        exact ⟨_, List.get?_eq_get hlen⟩
      have key : ∀ (inner : Region) (f : ccd_TRACK → Option ccd_TRACK),
          (∀ t, f t = some t) → store_TRACK st inner f = st :=
        fun inner f hf => store_TRACK_same st inner f t ht (hf t)
      dsimp only
      rw [key, key, key, key]
      all_goals intro t; rfl
    · rfl
  unfold scan_body
  rw [h1, h2, h3, h4, h5]

/-- Lines on which no `sscanf` call assigns anything leave the state of the parser as
it is. -/
theorem foldl_empty (u : Uninit) (lines : List (List Char)) (st : Scan) (k : Nat)
    (hc : st.counted k) (h : ∀ l ∈ lines, scan_fields (cstring l) = LineScan.empty) :
    lines.foldl (scan_line u) st = st := by
  induction lines with
  | nil => rfl
  | cons l ls ih =>
    rw [List.foldl_cons]
    have e : scan_line u st l = st := by
      unfold scan_line
      rw [h l (List.mem_cons_self _ _)]
      exact scan_body_empty u st k hc
    rw [e]
    exact ih (fun x hx => h x (List.mem_cons_of_mem _ hx))

/-! ## Theorems: lines that the parser does not know -/

/-- C22, amended: a line of at most 1022 characters (so that it fits the line buffer
with its newline) on which no `sscanf` call of the loop assigns anything, put in at the
start of the input or after any newline, leaves what `stream2ccd` returns as it is. -/
theorem stream2ccd_ignores_unknown_line (u : Uninit) (pre junk rest : List Char)
    (hpre : pre = [] ∨ pre.getLast? = some '\n')
    (hjunk : '\n' ∉ junk) (hlen : junk.length ≤ 1022)
    (hnone : scan_fields (cstring (junk ++ ['\n'])) = LineScan.empty) :
    stream2ccd u (pre ++ (junk ++ '\n' :: rest)) = stream2ccd u (pre ++ rest) := by
  have hsplit : ∃ L : List (List Char), ∀ s : List Char,
      my_getlines u.line [] (pre ++ s) = L ++ my_getlines u.line [] s := by
    rcases hpre with rfl | hlast
    · exact ⟨[], fun s => rfl⟩
    · obtain ⟨p, rfl⟩ : ∃ p, pre = p ++ ['\n'] := by
        rw [List.getLast?_eq_some_iff] at hlast
        exact hlast
      obtain ⟨L, hL⟩ := my_getlines_newline u.line p []
      refine ⟨L, fun s => ?_⟩
      rw [List.append_assoc]
      exact hL s
  obtain ⟨L, hL⟩ := hsplit
  have hline := my_getlines_line u.line junk hjunk [] rest (by simpa using hlen)
  have hscan : scan_stream u (pre ++ (junk ++ '\n' :: rest)) = scan_stream u (pre ++ rest) := by
    unfold scan_stream
    rw [hL, hL, hline, List.foldl_append, List.foldl_append, List.foldl_cons]
    have hc := foldl_counted u L Scan.init 0 Scan.init_counted
    have e : scan_line u (L.foldl (scan_line u) Scan.init) ([] ++ junk ++ ['\n'])
        = L.foldl (scan_line u) Scan.init := by
      unfold scan_line
      rw [List.nil_append, hnone]
      exact scan_body_empty u _ _ hc
    rw [e]
  unfold stream2ccd
  rw [hscan]

set_option maxRecDepth 1000000 in
/-- Witness of C22 for the lines `mode=1` and `Index 1=0` put into the sample sheet
after its third line. -/
theorem stream2ccd_ignores_unknown_line_witness :
    scan_fields (cstring "mode=1\n".toList) = LineScan.empty
    ∧ scan_fields (cstring "Index 1=0\n".toList) = LineScan.empty
    ∧ stream2ccd Uninit.zeroed
        ("[Disc]\nTocEntries=1\n[Entry 0]\n".toList
          ++ ("mode=1".toList ++ '\n' :: "Point=1\n[TRACK 1]\nMODE=0\nINDEX 1=0\n".toList))
      = stream2ccd Uninit.zeroed
        ("[Disc]\nTocEntries=1\n[Entry 0]\n".toList
          ++ "Point=1\n[TRACK 1]\nMODE=0\nINDEX 1=0\n".toList)
    ∧ stream2ccd Uninit.zeroed
        ("[Disc]\nTocEntries=1\n[Entry 0]\n".toList
          ++ ("Index 1=0".toList ++ '\n' :: "Point=1\n[TRACK 1]\nMODE=0\nINDEX 1=0\n".toList))
      = stream2ccd Uninit.zeroed
        ("[Disc]\nTocEntries=1\n[Entry 0]\n".toList
          ++ "Point=1\n[TRACK 1]\nMODE=0\nINDEX 1=0\n".toList) :=
  ⟨by decide, by decide,
    stream2ccd_ignores_unknown_line Uninit.zeroed "[Disc]\nTocEntries=1\n[Entry 0]\n".toList
      "mode=1".toList "Point=1\n[TRACK 1]\nMODE=0\nINDEX 1=0\n".toList
      (Or.inr (by decide)) (by decide) (by decide) (by decide),
    stream2ccd_ignores_unknown_line Uninit.zeroed "[Disc]\nTocEntries=1\n[Entry 0]\n".toList
      "Index 1=0".toList "Point=1\n[TRACK 1]\nMODE=0\nINDEX 1=0\n".toList
      (Or.inr (by decide)) (by decide) (by decide) (by decide)⟩

set_option maxRecDepth 1000000 in
set_option maxHeartbeats 4000000 in
/-- C22, as stated, fails for a line longer than the line buffer.  On the line of 1023
letters `x` followed by `Version=7`, taken as a whole, no `sscanf` call assigns anything;
put into the empty input, it is read in two parts, and the second part sets the version:
`CloneCD.Version` is 7, where the empty input gives 3. -/
theorem stream2ccd_long_line_not_ignored :
    scan_fields (cstring (sample_long_line ++ ['\n'])) = LineScan.empty
    ∧ (stream2ccd Uninit.zeroed ([] ++ (sample_long_line ++ '\n' :: []))).ccd.CloneCD.Version = 7
    ∧ (stream2ccd Uninit.zeroed ([] ++ [])).ccd.CloneCD.Version = 3 := by
  refine ⟨by decide, by decide, by decide⟩

/-! ## Theorems: the simple data of the parser -/

section simple_frames

variable (u : Uninit) (m : LineScan) (st : Scan)

theorem store_Session_simple (val : Option Int) (set : Int → ccd_Session → ccd_Session) :
    (store_Session st val set).simple = st.simple := by
  unfold store_Session
  split
  · rfl
  · split <;> rfl

theorem store_Entry_simple {α : Type} (val : Option α) (set : α → ccd_Entry → ccd_Entry) :
    (store_Entry st val set).simple = st.simple := by
  unfold store_Entry
  split
  · rfl
  · split <;> rfl

theorem store_TRACK_simple (inner : Region) (f : ccd_TRACK → Option ccd_TRACK) :
    (store_TRACK st inner f).simple = st.simple := by
  unfold store_TRACK
  split
  · rfl
  · split <;> rfl

theorem scan_Session_simple : (scan_Session u m st).simple = st.simple := by
  have h1 : (scan_Sessions u m st).simple = st.simple := by
    unfold scan_Sessions
    split
    · split <;> rfl
    · rfl
  have h2 : ∀ s : Scan, (count_Session m s).simple = s.simple := by
    intro s
    unfold count_Session
    split <;> rfl
  have h3 : ∀ s : Scan, (fill_Session m s).simple = s.simple := by
    intro s
    unfold fill_Session
    split
    · rw [store_Session_simple, store_Session_simple]
    · rfl
  unfold scan_Session
  simp only
  split
  · rw [h3, h2, h1]
  · exact h1

theorem scan_Entry_simple : (scan_Entry u m st).simple = st.simple := by
  have h1 : (scan_TocEntries u m st).simple = st.simple := by
    unfold scan_TocEntries
    split
    · split <;> rfl
    · rfl
  have h2 : ∀ s : Scan, (count_Entry m s).simple = s.simple := by
    intro s
    unfold count_Entry
    split <;> rfl
  have h3 : ∀ s : Scan, (fill_Entry m s).simple = s.simple := by
    intro s
    unfold fill_Entry
    split
    · simp only [store_Entry_simple]
    · rfl
  unfold scan_Entry
  simp only
  split
  · rw [h3, h2, h1]
  · exact h1

theorem scan_CDText_simple : (scan_CDText u m st).simple = st.simple := by
  have h1 : (scan_CDTextEntries u m st).simple = st.simple := by
    unfold scan_CDTextEntries
    split
    · split <;> rfl
    · rfl
  have h2 : ∀ s : Scan, (count_CDText m s).simple = s.simple := by
    intro s
    unfold count_CDText
    split <;> rfl
  have h3 : ∀ s : Scan, (fill_CDText m s).simple = s.simple := by
    intro s
    unfold fill_CDText
    split
    · split
      · rfl
      · split <;> rfl
    · rfl
  unfold scan_CDText
  simp only
  split
  · rw [h3, h2, h1]
  · exact h1

theorem scan_TRACK_simple : (scan_TRACK u m st).simple = st.simple := by
  have h1 : (count_TRACK u m st).simple = st.simple := by
    unfold count_TRACK
    split
    · rw [store_TRACK_simple]
      rfl
    · rfl
  unfold scan_TRACK fill_TRACK
  split
  · simp only [store_TRACK_simple, h1]
  · exact h1

/-- What one line does to the simple data: each of the four fields takes the value that
its template assigns, and stays when the template assigns nothing. -/
theorem scan_body_simple :
    (scan_body u m st).simple
      = (m.Version.getD st.ccd.CloneCD.Version,
         m.DataTracksScrambled.getD st.ccd.Disc.DataTracksScrambled,
         m.CDTextLength.getD st.ccd.Disc.CDTextLength,
         m.CATALOG.getD st.ccd.Disc.CATALOG) := by
  unfold scan_body
  rw [scan_TRACK_simple, scan_CDText_simple, scan_Entry_simple, scan_Session_simple]
  rfl

end simple_frames

/-- A property of one of the simple data that the initial value has and that every
value assigned by a line has holds after all lines. -/
theorem foldl_simple (u : Uninit) (lines : List (List Char)) (st : Scan)
    (P : Int × Int × Int × List Char → Prop) (h0 : P st.simple)
    (hstep : ∀ l ∈ lines, ∀ s : Scan, P s.simple →
      P (((scan_fields (cstring l)).Version.getD s.ccd.CloneCD.Version,
          (scan_fields (cstring l)).DataTracksScrambled.getD s.ccd.Disc.DataTracksScrambled,
          (scan_fields (cstring l)).CDTextLength.getD s.ccd.Disc.CDTextLength,
          (scan_fields (cstring l)).CATALOG.getD s.ccd.Disc.CATALOG))) :
    P (lines.foldl (scan_line u) st).simple := by
  induction lines generalizing st with
  | nil => exact h0
  | cons l ls ih =>
    rw [List.foldl_cons]
    apply ih
    · unfold scan_line
      rw [scan_body_simple]
      exact hstep l (List.mem_cons_self _ _) st h0
    · intro x hx s hs
      exact hstep x (List.mem_cons_of_mem _ hx) s hs

/-! ## Theorems: the defaults of the parser -/

theorem countP_eq_zero_of_none (lines : List (List Char))
    (h : ∀ l ∈ lines, (scan_fields (cstring l)).TRACK_tmp = none) :
    (lines.countP fun l => (scan_fields (cstring l)).TRACK_tmp.isSome) = 0 := by
  rw [List.countP_eq_zero]
  intro l hl
  rw [h l hl]
  simp

/-- C23: when no `sscanf` call assigns anything on any line that the read loop scans,
`stream2ccd` leaves the structure that `ccd_init` made: `Version` 3, `TocEntries`,
`Sessions` and `DataTracksScrambled` 0, an empty `CATALOG`, `CDText.Entries` 0 and no
track; so for the empty input, when the fresh line buffer, which the loop scans once,
holds nothing that a template matches.  And each of these fields has its default when
no line assigns through the template of its key: `Version`, `TocEntries`, `Sessions`,
`DataTracksScrambled`, `CATALOG`, `Entries`, and the tracks for `[TRACK n]`. -/
theorem stream2ccd_defaults (u : Uninit) (stream : List Char) :
    ((∀ l ∈ my_getlines u.line [] stream, scan_fields (cstring l) = LineScan.empty) →
      stream2ccd u stream = { ccd := ccd_init, oob := [] }
      ∧ (stream2ccd u stream).ccd.CloneCD.Version = 3
      ∧ (stream2ccd u stream).ccd.Disc.TocEntries = 0
      ∧ (stream2ccd u stream).ccd.Disc.Sessions = 0
      ∧ (stream2ccd u stream).ccd.Disc.DataTracksScrambled = 0
      ∧ (stream2ccd u stream).ccd.Disc.CATALOG = []
      ∧ (stream2ccd u stream).ccd.CDText.Entries = 0
      ∧ (stream2ccd u stream).ccd.TrackEntries = 0
      ∧ (stream2ccd u stream).ccd.TRACK = [])
    ∧ (scan_fields (cstring u.line) = LineScan.empty →
      stream2ccd u [] = { ccd := ccd_init, oob := [] })
    ∧ ((∀ l ∈ my_getlines u.line [] stream, (scan_fields (cstring l)).Version = none) →
      (stream2ccd u stream).ccd.CloneCD.Version = 3)
    ∧ ((∀ l ∈ my_getlines u.line [] stream, (scan_fields (cstring l)).TocEntries = none) →
      (stream2ccd u stream).ccd.Disc.TocEntries = 0)
    ∧ ((∀ l ∈ my_getlines u.line [] stream, (scan_fields (cstring l)).Sessions = none) →
      (stream2ccd u stream).ccd.Disc.Sessions = 0)
    ∧ ((∀ l ∈ my_getlines u.line [] stream,
          (scan_fields (cstring l)).DataTracksScrambled = none) →
      (stream2ccd u stream).ccd.Disc.DataTracksScrambled = 0)
    ∧ ((∀ l ∈ my_getlines u.line [] stream, (scan_fields (cstring l)).CATALOG = none) →
      (stream2ccd u stream).ccd.Disc.CATALOG = [])
    ∧ ((∀ l ∈ my_getlines u.line [] stream, (scan_fields (cstring l)).CDTextEntries = none) →
      (stream2ccd u stream).ccd.CDText.Entries = 0)
    ∧ ((∀ l ∈ my_getlines u.line [] stream, (scan_fields (cstring l)).TRACK_tmp = none) →
      (stream2ccd u stream).ccd.TrackEntries = 0 ∧ (stream2ccd u stream).ccd.TRACK = []) := by
  have hall : ∀ s : List Char,
      (∀ l ∈ my_getlines u.line [] s, scan_fields (cstring l) = LineScan.empty) →
      stream2ccd u s = { ccd := ccd_init, oob := [] } := by
    intro s h
    have e : scan_stream u s = Scan.init := foldl_empty u _ Scan.init 0 Scan.init_counted h
    have hr : reconcile u Scan.init = .ok ccd_init :=
      reconcile_returns u Scan.init (fun hs => by
        rcases hs.2 with h1 | h1 | h1
        · exact absurd h1.2 (by decide)
        · exact absurd h1.2 (by decide)
        · exact absurd h1.2 (by decide))
    unfold stream2ccd
    rw [e, hr]
    rfl
  obtain ⟨t1, t2, t3⟩ := scan_stream_tally u stream
  obtain ⟨r1, r3, r5⟩ := stream2ccd_unannounced u stream
  obtain ⟨q1, q2, -, q4⟩ := stream2ccd_simple u stream
  refine ⟨fun h => ?_, fun h => hall [] ?_, fun h => ?_, fun h => ?_, fun h => ?_, fun h => ?_,
    fun h => ?_, fun h => ?_, fun h => ?_⟩
  · have e := hall stream h
    rw [e]
    exact ⟨rfl, rfl, rfl, rfl, rfl, rfl, rfl, rfl, rfl⟩
  · intro l hl
    have : l = u.line := by simpa [my_getlines] using hl
    rw [this]
    exact h
  · show (stream2ccd u stream).ccd.CloneCD.Version = 3
    rw [q1]
    refine foldl_simple u _ Scan.init (fun p => p.1 = 3) rfl (fun l hl s hs => ?_)
    show (scan_fields (cstring l)).Version.getD s.ccd.CloneCD.Version = 3
    rw [h l hl]
    exact hs
  · refine r3 ?_
    rw [t2]
    refine Tally.run_unannounced 1 _ _ rfl ?_
    · intro p hp v hv
      obtain ⟨l, hl, rfl⟩ := List.mem_map.mp hp
      have : (scan_fields (cstring l)).TocEntries = some v := hv
      rw [h l hl] at this
      cases this
  · refine r1 ?_
    rw [t1]
    refine Tally.run_unannounced 1 _ _ rfl ?_
    · intro p hp v hv
      obtain ⟨l, hl, rfl⟩ := List.mem_map.mp hp
      have : (scan_fields (cstring l)).Sessions = some v := hv
      rw [h l hl] at this
      cases this
  · show (stream2ccd u stream).ccd.Disc.DataTracksScrambled = 0
    rw [q2]
    refine foldl_simple u _ Scan.init (fun p => p.2.1 = 0) rfl (fun l hl s hs => ?_)
    show (scan_fields (cstring l)).DataTracksScrambled.getD s.ccd.Disc.DataTracksScrambled = 0
    rw [h l hl]
    exact hs
  · show (stream2ccd u stream).ccd.Disc.CATALOG = []
    rw [q4]
    refine foldl_simple u _ Scan.init (fun p => p.2.2.2 = []) rfl (fun l hl s hs => ?_)
    show (scan_fields (cstring l)).CATALOG.getD s.ccd.Disc.CATALOG = []
    rw [h l hl]
    exact hs
  · refine r5 ?_
    rw [t3]
    refine Tally.run_unannounced 0 _ _ rfl ?_
    · intro p hp v hv
      obtain ⟨l, hl, rfl⟩ := List.mem_map.mp hp
      have : (scan_fields (cstring l)).CDTextEntries = some v := hv
      rw [h l hl] at this
      cases this
  · have hc := foldl_counted u (my_getlines u.line [] stream) Scan.init 0 Scan.init_counted
    rw [countP_eq_zero_of_none _ h] at hc
    obtain ⟨-, c2, c3⟩ := hc
    obtain ⟨e1, e2⟩ := stream2ccd_tracks u stream
    refine ⟨?_, ?_⟩
    · show (stream2ccd u stream).ccd.TrackEntries = 0
      rw [e2]
      exact c2
    · show (stream2ccd u stream).ccd.TRACK = []
      rw [e1]
      exact List.length_eq_zero.mp c3

set_option maxRecDepth 1000000 in
/-- Witness of C23 for the empty input and for a sheet of two lines that no template
matches, in zeroed fresh memory. -/
theorem stream2ccd_defaults_witness :
    scan_fields (cstring Uninit.zeroed.line) = LineScan.empty
    ∧ stream2ccd Uninit.zeroed [] = { ccd := ccd_init, oob := [] }
    ∧ (∀ l ∈ my_getlines Uninit.zeroed.line [] "[CloneCD]\nversion=2\n".toList,
        scan_fields (cstring l) = LineScan.empty)
    ∧ stream2ccd Uninit.zeroed "[CloneCD]\nversion=2\n".toList = { ccd := ccd_init, oob := [] }
    ∧ (stream2ccd Uninit.zeroed "[CloneCD]\nversion=2\n".toList).ccd.CloneCD.Version = 3 :=
  ⟨by decide, (stream2ccd_defaults Uninit.zeroed []).2.1 (by decide), by decide,
    ((stream2ccd_defaults Uninit.zeroed "[CloneCD]\nversion=2\n".toList).1 (by decide)).1,
    ((stream2ccd_defaults Uninit.zeroed "[CloneCD]\nversion=2\n".toList).1 (by decide)).2.1⟩

/-! ## Theorems: fields without a line -/

set_option maxRecDepth 1000000 in
/-- C24, evaluated where the code departs from it.  The sheet has a session with a
`PreGapMode` line only and a Toc entry with a `Session` line only; both are kept.  In
fresh memory that holds 9 and 7, the `PreGapSubC` of the session is 9 and the thirteen
other fields of the Toc entry are 7, not 0: the slots come from `xmalloc` and nothing
sets the fields that no line assigns.  They are 0 only in fresh memory that holds 0. -/
theorem stream2ccd_unset_fields_indeterminate :
    (stream2ccd Uninit.stale sample_unset_fields_sheet).ccd.Disc.Sessions = 1
    ∧ (stream2ccd Uninit.stale sample_unset_fields_sheet).ccd.Session.get? 1
        = some { PreGapMode := 1, PreGapSubC := 9 }
    ∧ (stream2ccd Uninit.stale sample_unset_fields_sheet).ccd.Disc.TocEntries = 1
    ∧ (stream2ccd Uninit.stale sample_unset_fields_sheet).ccd.Entry.get? 0
        = some { Session := 1, Point := 7, ADR := 7, Control := 7, TrackNo := 7, AMin := 7,
                 ASec := 7, AFrame := 7, ALBA := 7, Zero := 7, PMin := 7, PSec := 7, PFrame := 7,
                 PLBA := 7 }
    ∧ (stream2ccd Uninit.stale sample_unset_fields_sheet).oob = []
    ∧ (stream2ccd Uninit.zeroed sample_unset_fields_sheet).ccd.Session.get? 1
        = some { PreGapMode := 1, PreGapSubC := 0 }
    ∧ (stream2ccd Uninit.zeroed sample_unset_fields_sheet).ccd.Entry.get? 0
        = some { Session := 1, Point := 0, ADR := 0, Control := 0, TrackNo := 0, AMin := 0,
                 ASec := 0, AFrame := 0, ALBA := 0, Zero := 0, PMin := 0, PSec := 0, PFrame := 0,
                 PLBA := 0 } := by
  decide

/-! ## Theorems: the length of an ISRC -/

set_option maxRecDepth 1000000 in
/-- C25, evaluated where the code departs from it.  For a track section with the line
`ISRC=ABC`, `stream2ccd` leaves the `ISRC` of three characters in the track: neither
empty nor 12 characters long. -/
theorem stream2ccd_short_ISRC :
    (stream2ccd Uninit.zeroed sample_short_ISRC_sheet).ccd.TrackEntries = 1
    ∧ ((stream2ccd Uninit.zeroed sample_short_ISRC_sheet).ccd.TRACK.get? 1).map (fun t => t.ISRC)
        = some "ABC".toList
    ∧ "ABC".toList.length ≠ 0 ∧ "ABC".toList.length ≠ 12
    ∧ (stream2ccd Uninit.zeroed sample_short_ISRC_sheet).oob = [] := by
  decide

/-! ## Theorems: the strings that `sscanf` assigns -/

theorem inScanset_alnum (c : Char) : inScanset "a-zA-Z0-9".toList c = isalnum c := by
  have e : "a-zA-Z0-9".toList = ['a', '-', 'z', 'A', '-', 'Z', '0', '-', '9'] := rfl
  rw [e]
  simp only [inScanset, isalnum, isdigit, Bool.or_false]
  rw [Bool.or_assoc]

/-- A scan whose first assignment is that of a `%[` conversion with a width assigns a
string of the set that is not empty and no longer than the width. -/
theorem scanDirectives_set (pre : List Directive)
    (hpre : ∀ d ∈ pre, d = Directive.space ∨ ∃ c, d = Directive.char c)
    (w : Nat) (chars : List Char) (post : List Directive) :
    ∀ (s v : List Char) (rest : List Arg),
      scanDirectives (pre ++ Directive.conv false (some w) (ConvKind.set chars) :: post) s
        = Arg.str v :: rest →
      v ≠ [] ∧ v.length ≤ w ∧ ∀ c ∈ v, inScanset chars c = true := by
  induction pre with
  | nil =>
    intro s v rest h
    simp only [List.nil_append, scanDirectives, scanConv] at h
    split at h
    · cases h
    · rename_i a s' hs
      split at hs
      · cases hs
      · rename_i hne
        simp only [Option.some.injEq, Prod.mk.injEq] at hs
        obtain ⟨rfl, -⟩ := hs
        simp only [Bool.false_eq_true, if_false, List.cons.injEq, Arg.str.injEq] at h
        obtain ⟨rfl, -⟩ := h
        refine ⟨hne, ?_, fun c hc => ?_⟩
        · rw [List.length_take]
          exact Nat.min_le_left _ _
        · exact List.mem_takeWhile_imp (List.mem_of_mem_take hc)
  | cons d pre ih =>
    intro s v rest h
    have ih' := ih (fun d hd => hpre d (List.mem_cons_of_mem _ hd))
    rcases hpre d (List.mem_cons_self _ _) with rfl | ⟨c, rfl⟩
    · simp only [List.cons_append, scanDirectives] at h
      exact ih' _ v rest h
    · cases s with
      | nil => simp [scanDirectives] at h
      | cons c' s' =>
        simp only [List.cons_append, scanDirectives] at h
        split at h
        · exact ih' _ v rest h
        · cases h

theorem sscanf_s_some (s : List Char) (template : String) (v : List Char)
    (h : sscanf_s s template = some v) : sscanf s template = [Arg.str v] := by
  unfold sscanf_s at h
  split at h
  · rename_i x hx
    cases h
    exact hx
  · cases h

/-- What the template of the `CATALOG` line assigns: at most 13 letters and digits. -/
theorem scan_fields_CATALOG (line v : List Char) (h : (scan_fields line).CATALOG = some v) :
    v.length ≤ 13 ∧ ∀ c ∈ v, isalnum c = true := by
  have h1 := sscanf_s_some _ _ _ h
  have hp : parseTemplate .text " CATALOG = %13[a-zA-Z0-9] ".toList
      = [Directive.space, .char 'C', .char 'A', .char 'T', .char 'A', .char 'L', .char 'O',
          .char 'G', .space, .char '=', .space]
        ++ Directive.conv false (some 13) (ConvKind.set "a-zA-Z0-9".toList) :: [Directive.space] := by
    rfl
  unfold sscanf at h1
  rw [hp] at h1
  obtain ⟨-, h2, h3⟩ := scanDirectives_set _ (by
    intro d hd
    simp only [List.mem_cons, List.mem_singleton, List.not_mem_nil, or_false] at hd
    rcases hd with rfl | rfl | rfl | rfl | rfl | rfl | rfl | rfl | rfl | rfl | rfl <;>
      first | exact Or.inl rfl | exact Or.inr ⟨_, rfl⟩) 13 _ _ line v [] h1
  exact ⟨h2, fun c hc => by rw [← inScanset_alnum]; exact h3 c hc⟩

/-- What the template of the `ISRC` line assigns: at most 12 letters and digits. -/
theorem scan_fields_ISRC (line v : List Char) (h : (scan_fields line).ISRC = some v) :
    v.length ≤ 12 ∧ ∀ c ∈ v, isalnum c = true := by
  have h1 := sscanf_s_some _ _ _ h
  have hp : parseTemplate .text " ISRC = %12[a-zA-Z0-9] ".toList
      = [Directive.space, .char 'I', .char 'S', .char 'R', .char 'C', .space, .char '=', .space]
        ++ Directive.conv false (some 12) (ConvKind.set "a-zA-Z0-9".toList) :: [Directive.space] := by
    rfl
  unfold sscanf at h1
  rw [hp] at h1
  obtain ⟨-, h2, h3⟩ := scanDirectives_set _ (by
    intro d hd
    simp only [List.mem_cons, List.mem_singleton, List.not_mem_nil, or_false] at hd
    rcases hd with rfl | rfl | rfl | rfl | rfl | rfl | rfl | rfl <;>
      first | exact Or.inl rfl | exact Or.inr ⟨_, rfl⟩) 12 _ _ line v [] h1
  exact ⟨h2, fun c hc => by rw [← inScanset_alnum]; exact h3 c hc⟩

/-! ## Theorems: a property of every track -/

/-- An `INDEX` line changes only the `INDEX` array of the track and its size. -/
theorem scan_INDEX_fields (u : Uninit) (m : LineScan) (i : Int) (t t' : ccd_TRACK)
    (h : scan_INDEX u m i t = some t') :
    t'.MODE = t.MODE ∧ t'.ISRC = t.ISRC ∧ t'.FLAGS = t.FLAGS := by
  unfold scan_INDEX at h
  split at h
  · cases h
    exact ⟨rfl, rfl, rfl⟩
  · split at h
    · split at h
      · cases h
        exact ⟨rfl, rfl, rfl⟩
      · obtain ⟨p, -, rfl⟩ := Option.map_eq_some'.mp h
        exact ⟨rfl, rfl, rfl⟩
    · split at h
      · cases h
        exact ⟨rfl, rfl, rfl⟩
      · obtain ⟨p, -, rfl⟩ := Option.map_eq_some'.mp h
        exact ⟨rfl, rfl, rfl⟩

/-- The statements for the lines of a track keep a property that the values assigned
by the line keep. -/
theorem fill_TRACK_keeps_line (u : Uninit) (m : LineScan) (st : Scan) (P : ccd_TRACK → Prop)
    (hMODE : ∀ t : ccd_TRACK, P t → P { t with MODE := m.MODE.getD t.MODE })
    (hFLAGS : ∀ (t : ccd_TRACK) (r : List Char), P t → P { t with FLAGS := some r })
    (hISRC : ∀ t : ccd_TRACK, P t → P { t with ISRC := m.ISRC.getD t.ISRC })
    (hINDEX : ∀ (i : Int) (t t' : ccd_TRACK), P t → scan_INDEX u m i t = some t' → P t') :
    Scan.keeps P st (fill_TRACK u m st) := by
  unfold fill_TRACK
  split
  · simp only
    refine Scan.keeps_trans _ _ _ _ (Scan.keeps_trans _ _ _ _ (Scan.keeps_trans _ _ _ _
      (store_TRACK_keeps _ _ _ _ ?_) (store_TRACK_keeps _ _ _ _ ?_))
      (store_TRACK_keeps _ _ _ _ ?_)) (store_TRACK_keeps _ _ _ _ ?_)
    · intro t t' hP h
      cases h
      exact hMODE _ hP
    · intro t t' hP h
      split at h
      · cases h
        exact hP
      · cases hr : array_remove_trailing_whitespace _ with
        | none =>
          rw [hr] at h
          cases h
        | some r =>
          rw [hr] at h
          cases h
          exact hFLAGS _ _ hP
    · intro t t' hP h
      cases h
      exact hISRC _ hP
    · intro t t' hP h
      exact hINDEX _ t t' hP h
  · exact Scan.keeps_refl _ _

/-- One line keeps a property of all tracks that the initial track has and that the
statements for the lines of a track keep. -/
theorem scan_body_all (u : Uninit) (m : LineScan) (st : Scan) (P : ccd_TRACK → Prop)
    (hinit : P ccd_TRACK_init) (hkeep : ∀ s : Scan, Scan.keeps P s (fill_TRACK u m s))
    (k : Nat) (hc : st.counted k)
    (hall : ∀ i : Nat, 1 ≤ i → i ≤ k → ∃ t, st.ccd.TRACK.get? i = some t ∧ P t) :
    ∃ k', (scan_body u m st).counted k'
      ∧ ∀ i : Nat, 1 ≤ i → i ≤ k' → ∃ t, (scan_body u m st).ccd.TRACK.get? i = some t ∧ P t := by
  obtain ⟨X, hX, hb⟩ := scan_body_eq u m st
  have hXc := Scan.counted_of_tracks st k X hX hc
  have h3 : X.ccd.TRACK = st.ccd.TRACK := congrArg (fun p => p.2.2) hX
  rw [hb]
  by_cases hh : m.TRACK_tmp.isSome = true
  · obtain ⟨⟨c1, c2, c3⟩, d2, d3⟩ := count_TRACK_header u m X k hXc hh
    obtain ⟨a1, a2, a3, a4, a5⟩ := hkeep (count_TRACK u m X)
    refine ⟨k + 1, ⟨by rw [a1, c1], by rw [a2, c2], by rw [a3, c3]⟩, fun i h1 h2 => ?_⟩
    by_cases hi : i = k + 1
    · subst hi
      rw [← peek_eq_get?, ← c1] at d3
      obtain ⟨t', ht', hP'⟩ := a5 _ d3 hinit
      rw [c1, peek_eq_get?] at ht'
      exact ⟨t', ht', hP'⟩
    · rw [a4 i (by rw [c1]; omega), d2 i h1 (by omega), h3]
      exact hall i h1 (by omega)
  · have hn : m.TRACK_tmp = none := by
      cases hx : m.TRACK_tmp with
      | none => rfl
      | some v => rw [hx] at hh; exact absurd rfl hh
    have hcount : count_TRACK u m X = X := by
      unfold count_TRACK
      rw [hn]
      rfl
    rw [hcount]
    obtain ⟨c1, c2, c3⟩ := hXc
    obtain ⟨a1, a2, a3, a4, a5⟩ := hkeep X
    refine ⟨k, ⟨by rw [a1, c1], by rw [a2, c2], by rw [a3, c3]⟩, fun i h1 h2 => ?_⟩
    by_cases hi : i = k
    · subst hi
      obtain ⟨t, ht, hP⟩ := hall i h1 h2
      rw [← h3, ← peek_eq_get?, ← c1] at ht
      obtain ⟨t', ht', hP'⟩ := a5 t ht hP
      rw [c1, peek_eq_get?] at ht'
      exact ⟨t', ht', hP'⟩
    · rw [a4 i (by rw [c1]; omega), h3]
      exact hall i h1 h2

/-- The lines keep a property of all tracks that the initial track has and that the
statements for the lines of a track keep. -/
theorem foldl_all (u : Uninit) (lines : List (List Char)) (P : ccd_TRACK → Prop)
    (hinit : P ccd_TRACK_init)
    (hkeep : ∀ l ∈ lines, ∀ s : Scan, Scan.keeps P s (fill_TRACK u (scan_fields (cstring l)) s))
    (st : Scan) (k : Nat) (hc : st.counted k)
    (hall : ∀ i : Nat, 1 ≤ i → i ≤ k → ∃ t, st.ccd.TRACK.get? i = some t ∧ P t) :
    ∃ k', (lines.foldl (scan_line u) st).counted k'
      ∧ ∀ i : Nat, 1 ≤ i → i ≤ k' →
          ∃ t, (lines.foldl (scan_line u) st).ccd.TRACK.get? i = some t ∧ P t := by
  induction lines generalizing st k with
  | nil => exact ⟨k, hc, hall⟩
  | cons l ls ih =>
    rw [List.foldl_cons]
    obtain ⟨k', hc', hall'⟩ := scan_body_all u (scan_fields (cstring l)) st P hinit
      (hkeep l (List.mem_cons_self _ _)) k hc hall
    exact ih (fun x hx => hkeep x (List.mem_cons_of_mem _ hx)) _ k' hc' hall'

/-- Every track that `stream2ccd` leaves has a property that the initial track has and
that the statements for the lines of a track keep. -/
theorem stream2ccd_all (u : Uninit) (stream : List Char) (P : ccd_TRACK → Prop)
    (hinit : P ccd_TRACK_init)
    (hkeep : ∀ (l : List Char) (s : Scan),
      Scan.keeps P s (fill_TRACK u (scan_fields (cstring l)) s)) :
    ∀ i : Nat, 1 ≤ i → (i : Int) ≤ (stream2ccd u stream).ccd.TrackEntries →
      ∃ t, (stream2ccd u stream).ccd.TRACK.get? i = some t ∧ P t := by
  obtain ⟨k', ⟨-, c2, -⟩, hall⟩ := foldl_all u (my_getlines u.line [] stream) P hinit
    (fun l _ s => hkeep l s) Scan.init 0 Scan.init_counted (fun i h1 h2 => by omega)
  obtain ⟨e1, e2⟩ := stream2ccd_tracks u stream
  intro i h1 h2
  have h2' : (i : Int) ≤ (stream2ccd u stream).ccd.TrackEntries := h2
  rw [e2] at h2'
  have hk : (scan_stream u stream).ccd.TrackEntries = k' := c2
  rw [hk] at h2'
  show ∃ t, (stream2ccd u stream).ccd.TRACK.get? i = some t ∧ P t
  rw [e1]
  exact hall i h1 (by omega)

/-! ## Theorems: the `CATALOG` and `ISRC` lines -/

theorem isalnum_not_isspace (c : Char) (h : isalnum c = true) : isspace c = false := by
  cases hs : isspace c with
  | false => rfl
  | true =>
    exfalso
    simp only [isspace, Bool.or_eq_true, decide_eq_true_eq] at hs
    rcases hs with ((((rfl | rfl) | rfl) | rfl) | rfl) | rfl <;> exact absurd h (by decide)

theorem isalnum_ne_null (c : Char) (h : isalnum c = true) : c ≠ '\x00' := by
  intro hc
  subst hc
  exact absurd h (by decide)

theorem scanDirectives_word (word : List Char) (ds : List Directive) (s : List Char) :
    scanDirectives (word.map Directive.char ++ ds) (word ++ s) = scanDirectives ds s := by
  induction word with
  | nil => rfl
  | cons c word ih =>
    simp only [List.map_cons, List.cons_append, scanDirectives, if_true]
    exact ih

/-- The scan of `word=v` followed by a newline with the template of `word`, `=` and a
`%[` conversion of width `w`, for a string `v` of the set that is not empty: the
first `w` characters of `v` are assigned. -/
theorem scanDirectives_value (word : List Char) (w : Nat) (chars v : List Char)
    (hword : ∃ c r, word = c :: r ∧ isspace c = false) (hw : 0 < w) (hv : v ≠ [])
    (hset : ∀ c ∈ v, inScanset chars c = true) (hsp : ∀ c ∈ v, isspace c = false)
    (hnl : inScanset chars '\n' = false) :
    scanDirectives (Directive.space :: (word.map Directive.char
        ++ [Directive.space, Directive.char '=', Directive.space,
            Directive.conv false (some w) (ConvKind.set chars), Directive.space]))
      (word ++ '=' :: (v ++ ['\n'])) = [Arg.str (v.take w)] := by
  obtain ⟨c, r, rfl, hc⟩ := hword
  obtain ⟨a, v', rfl⟩ := List.exists_cons_of_ne_nil hv
  have ha : isspace a = false := hsp a (List.mem_cons_self _ _)
  have htw : List.takeWhile (inScanset chars) (a :: v' ++ ['\n']) = a :: v' := by
    rw [List.takeWhile_append_of_pos hset]
    simp [List.takeWhile, hnl]
  have hne : List.take w (a :: v') ≠ [] := by
    cases w with
    | zero => omega
    | succ n => simp
  rw [scanDirectives, List.cons_append, List.dropWhile_cons_of_neg (by simp [hc]),
    ← List.cons_append, scanDirectives_word]
  simp only [scanDirectives, List.dropWhile_cons_of_neg (show ¬ (isspace '=' = true) by decide),
    if_true, List.cons_append, List.dropWhile_cons_of_neg (show ¬ (isspace a = true) by simp [ha]),
    scanConv]
  rw [← List.cons_append, htw, if_neg hne]
  simp

theorem cstring_of_no_null (s : List Char) (h : ∀ c ∈ s, c ≠ '\x00') : cstring s = s := by
  unfold cstring
  rw [List.takeWhile_eq_self_iff]
  intro c hc
  simpa using h c hc

theorem cstring_value_line (word v : List Char) (hword : ∀ c ∈ word, c ≠ '\x00')
    (hv : ∀ c ∈ v, isalnum c = true) :
    cstring (word ++ '=' :: (v ++ ['\n'])) = word ++ '=' :: (v ++ ['\n']) := by
  apply cstring_of_no_null
  intro c hc
  simp only [List.mem_append, List.mem_cons, List.mem_singleton, List.not_mem_nil,
    or_false] at hc
  rcases hc with hc | rfl | hc | rfl
  · exact hword c hc
  · decide
  · exact isalnum_ne_null c (hv c hc)
  · decide

/-- The line `CATALOG=v` for a string `v` of letters and digits that is not empty: the
template assigns the first 13 characters of `v`. -/
theorem scan_fields_CATALOG_line (v : List Char) (hv : v ≠ [])
    (hset : ∀ c ∈ v, isalnum c = true) :
    (scan_fields (cstring ("CATALOG".toList ++ '=' :: (v ++ ['\n'])))).CATALOG
      = some (v.take 13) := by
  rw [cstring_value_line _ _ (by decide) hset]
  show sscanf_s _ " CATALOG = %13[a-zA-Z0-9] " = some (v.take 13)
  have hp : parseTemplate .text " CATALOG = %13[a-zA-Z0-9] ".toList
      = Directive.space :: ("CATALOG".toList.map Directive.char
        ++ [Directive.space, Directive.char '=', Directive.space,
            Directive.conv false (some 13) (ConvKind.set "a-zA-Z0-9".toList), Directive.space]) := by
    rfl
  unfold sscanf_s sscanf
  rw [hp, scanDirectives_value "CATALOG".toList 13 _ v ⟨_, _, rfl, by decide⟩ (by decide) hv
    (fun c hc => by rw [inScanset_alnum]; exact hset c hc)
    (fun c hc => isalnum_not_isspace c (hset c hc)) (by decide)]

/-- The line `ISRC=v` for a string `v` of letters and digits that is not empty: the
template assigns the first 12 characters of `v`, and the line is no track header. -/
theorem scan_fields_ISRC_line (v : List Char) (hv : v ≠ [])
    (hset : ∀ c ∈ v, isalnum c = true) :
    (scan_fields (cstring ("ISRC".toList ++ '=' :: (v ++ ['\n'])))).ISRC = some (v.take 12)
    ∧ (scan_fields (cstring ("ISRC".toList ++ '=' :: (v ++ ['\n'])))).TRACK_tmp = none := by
  rw [cstring_value_line _ _ (by decide) hset]
  refine ⟨?_, ?_⟩
  · show sscanf_s _ " ISRC = %12[a-zA-Z0-9] " = some (v.take 12)
    have hp : parseTemplate .text " ISRC = %12[a-zA-Z0-9] ".toList
        = Directive.space :: ("ISRC".toList.map Directive.char
          ++ [Directive.space, Directive.char '=', Directive.space,
              Directive.conv false (some 12) (ConvKind.set "a-zA-Z0-9".toList),
              Directive.space]) := by
      rfl
    unfold sscanf_s sscanf
    rw [hp, scanDirectives_value "ISRC".toList 12 _ v ⟨_, _, rfl, by decide⟩ (by decide) hv
      (fun c hc => by rw [inScanset_alnum]; exact hset c hc)
      (fun c hc => isalnum_not_isspace c (hset c hc)) (by decide)]
  · show sscanf_d ("ISRC".toList ++ '=' :: (v ++ ['\n'])) " [ TRACK %d ] " = none
    cases h : sscanf_d ("ISRC".toList ++ '=' :: (v ++ ['\n'])) " [ TRACK %d ] " with
    | none => rfl
    | some x =>
      exfalso
      have e := sscanf_d_some _ _ _ h
      have hp : parseTemplate .text " [ TRACK %d ] ".toList
          = Directive.space :: (['['].map Directive.char
            ++ parseTemplate .text " TRACK %d ] ".toList) := by
        rfl
      unfold sscanf at e
      rw [hp, scanDirectives] at e
      obtain ⟨tl, htl⟩ := scanDirectives_chars _ _ _ e
      have hd : List.dropWhile isspace ("ISRC".toList ++ '=' :: (v ++ ['\n']))
          = "ISRC".toList ++ '=' :: (v ++ ['\n']) := by
        show List.dropWhile isspace ('I' :: _) = _
        rw [List.dropWhile_cons_of_neg (by decide)]
        rfl
      rw [hd] at htl
      cases htl

/-- A statement that changes `ccd->TRACK[TRACK]`, for properties of the track before
and after. -/
theorem store_TRACK_post (st : Scan) (inner : Region) (f : ccd_TRACK → Option ccd_TRACK)
    (Q Q' : ccd_TRACK → Prop) (hf : ∀ t t', Q t → f t = some t' → Q' t')
    (hnone : ∀ t, Q t → f t = none → Q' t)
    (h : ∃ t, peek st.ccd.TRACK st.TRACK = some t ∧ Q t) :
    ∃ t', peek (store_TRACK st inner f).ccd.TRACK (store_TRACK st inner f).TRACK = some t'
      ∧ Q' t' := by
  obtain ⟨t, hp, hQ⟩ := h
  have hpos : 0 ≤ st.TRACK := by
    unfold peek at hp
    split at hp
    · assumption
    · cases hp
  have hg : st.ccd.TRACK.get? st.TRACK.toNat = some t := by
    unfold peek at hp
    rw [if_pos hpos] at hp
    exact hp
  have hlt : st.TRACK.toNat < st.ccd.TRACK.length := by
    by_contra hc
    rw [List.get?_eq_none.mpr (by omega)] at hg
    cases hg
  unfold store_TRACK
  rw [hp]
  simp only
  cases hft : f t with
  | none => exact ⟨t, hp, hnone t hQ hft⟩
  | some t' =>
    refine ⟨t', ?_, hf t t' hQ hft⟩
    simp only [peek, if_pos hpos]
    rw [get?_modify_const, if_pos ⟨rfl, hlt⟩]

/-- The statements for the lines of a track store what the `ISRC` template assigns in
the current track. -/
theorem fill_TRACK_ISRC (u : Uninit) (m : LineScan) (st : Scan) (t : ccd_TRACK)
    (hpos : st.ccd.TrackEntries > 0) (hp : peek st.ccd.TRACK st.TRACK = some t) :
    ∃ t', peek (fill_TRACK u m st).ccd.TRACK (fill_TRACK u m st).TRACK = some t'
      ∧ t'.ISRC = m.ISRC.getD t.ISRC := by
  unfold fill_TRACK
  rw [if_pos hpos]
  dsimp only
  refine store_TRACK_post _ _ _ (fun x => x.ISRC = m.ISRC.getD t.ISRC) _ ?_ (fun _ h _ => h)
    (store_TRACK_post _ _ _ (fun x => x.ISRC = t.ISRC) _ ?_ ?_
      (store_TRACK_post _ _ _ (fun x => x.ISRC = t.ISRC) _ ?_ (fun _ h _ => h)
        (store_TRACK_post _ _ _ (fun x => x.ISRC = t.ISRC) _ ?_ (fun _ h _ => h) ⟨t, hp, rfl⟩)))
  · intro x x' hx h
    rw [(scan_INDEX_fields u m _ x x' h).2.1]
    exact hx
  · intro x x' hx h
    cases h
    show m.ISRC.getD x.ISRC = m.ISRC.getD t.ISRC
    rw [hx]
  · intro x hx h
    cases h
  · intro x x' hx h
    split at h
    · cases h
      exact hx
    · obtain ⟨r, -, rfl⟩ := Option.map_eq_some'.mp h
      exact hx
  · intro x x' hx h
    cases h
    exact hx

/-- C26: in the structure that `stream2ccd` leaves, for every input, the `CATALOG` has at
most 13 characters and the `ISRC` of every track has at most 12, all of them letters or
digits.  A line `CATALOG=v` or `ISRC=v` with a value `v` of letters and digits stores the
first 13 characters of `v` in `Disc.CATALOG`, or the first 12 in the `ISRC` of the
current track (the track of the last `[TRACK n]` header, when there has been one). -/
theorem stream2ccd_CATALOG_ISRC_bounded (u : Uninit) (stream : List Char) :
    ((stream2ccd u stream).ccd.Disc.CATALOG.length ≤ 13
      ∧ ∀ c ∈ (stream2ccd u stream).ccd.Disc.CATALOG, isalnum c = true)
    ∧ (∀ i : Nat, 1 ≤ i → (i : Int) ≤ (stream2ccd u stream).ccd.TrackEntries →
        ∃ t, (stream2ccd u stream).ccd.TRACK.get? i = some t
          ∧ t.ISRC.length ≤ 12 ∧ ∀ c ∈ t.ISRC, isalnum c = true)
    ∧ (∀ (st : Scan) (v : List Char), v ≠ [] → (∀ c ∈ v, isalnum c = true) →
        (scan_line u st ("CATALOG=".toList ++ v ++ "\n".toList)).ccd.Disc.CATALOG = v.take 13)
    ∧ (∀ (st : Scan) (k : Nat) (v : List Char), st.counted k → 1 ≤ k → v ≠ [] →
        (∀ c ∈ v, isalnum c = true) →
        (scan_line u st ("ISRC=".toList ++ v ++ "\n".toList)).counted k
        ∧ ∃ t, (scan_line u st ("ISRC=".toList ++ v ++ "\n".toList)).ccd.TRACK.get? k = some t
            ∧ t.ISRC = v.take 12) := by
  refine ⟨?_, ?_, fun st v hv hset => ?_, fun st k v hc hk hv hset => ?_⟩
  · have q4 := (stream2ccd_simple u stream).2.2.2
    show (stream2ccd u stream).ccd.Disc.CATALOG.length ≤ 13
      ∧ ∀ c ∈ (stream2ccd u stream).ccd.Disc.CATALOG, isalnum c = true
    rw [q4]
    refine foldl_simple u _ Scan.init
      (fun p => p.2.2.2.length ≤ 13 ∧ ∀ c ∈ p.2.2.2, isalnum c = true)
      ⟨by decide, fun c hc => by cases hc⟩ (fun l _ s hs => ?_)
    show ((scan_fields (cstring l)).CATALOG.getD s.ccd.Disc.CATALOG).length ≤ 13
      ∧ ∀ c ∈ (scan_fields (cstring l)).CATALOG.getD s.ccd.Disc.CATALOG, isalnum c = true
    cases hm : (scan_fields (cstring l)).CATALOG with
    | none => exact hs
    | some v => exact scan_fields_CATALOG _ v hm
  · refine stream2ccd_all u stream (fun t => t.ISRC.length ≤ 12 ∧ ∀ c ∈ t.ISRC, isalnum c = true)
      ⟨by decide, fun c hc => by cases hc⟩ (fun l s => ?_)
    refine fill_TRACK_keeps_line u _ s _ (fun t h => h) (fun t r h => h) (fun t h => ?_)
      (fun i t t' h hi => ?_)
    · show ((scan_fields (cstring l)).ISRC.getD t.ISRC).length ≤ 12
        ∧ ∀ c ∈ (scan_fields (cstring l)).ISRC.getD t.ISRC, isalnum c = true
      cases hm : (scan_fields (cstring l)).ISRC with
      | none => exact h
      | some v => exact scan_fields_ISRC _ v hm
    · rw [(scan_INDEX_fields u _ i t t' hi).2.1]
      exact h
  · have e : "CATALOG=".toList ++ v ++ "\n".toList = "CATALOG".toList ++ '=' :: (v ++ ['\n']) := by
      simp
    rw [e]
    have h := congrArg (fun p => p.2.2.2)
      (scan_body_simple u (scan_fields (cstring ("CATALOG".toList ++ '=' :: (v ++ ['\n'])))) st)
    simp only [scan_fields_CATALOG_line v hv hset, Option.getD_some] at h
    exact h
  · have e : "ISRC=".toList ++ v ++ "\n".toList = "ISRC".toList ++ '=' :: (v ++ ['\n']) := by
      simp
    rw [e]
    obtain ⟨hI, hT⟩ := scan_fields_ISRC_line v hv hset
    unfold scan_line
    generalize scan_fields (cstring ("ISRC".toList ++ '=' :: (v ++ ['\n']))) = m at hI hT ⊢
    have hcn := (scan_body_no_header u m st k hc hT).1
    refine ⟨hcn, ?_⟩
    obtain ⟨X, hX, hb⟩ := scan_body_eq u m st
    obtain ⟨c1, c2, c3⟩ := Scan.counted_of_tracks st k X hX hc
    have hcount : count_TRACK u m X = X := by
      unfold count_TRACK
      rw [hT]
      rfl
    have hlen : k < X.ccd.TRACK.length := by
      rw [c3, if_neg (by omega)]
      omega
    obtain ⟨t, ht⟩ : ∃ t, peek X.ccd.TRACK X.TRACK = some t := by
      rw [c1, peek_eq_get?]
      exact ⟨_, List.get?_eq_get hlen⟩
    obtain ⟨t', ht', hISRC⟩ := fill_TRACK_ISRC u m X t (by rw [c2]; omega) ht
    rw [← hcount, ← hb] at ht'
    rw [hcn.1, peek_eq_get?] at ht'
    refine ⟨t', ht', ?_⟩
    rw [hISRC, hI]
    rfl

set_option maxRecDepth 1000000 in
/-- Witness of C26 for a sheet with a catalog number of 17 digits and an ISRC of 16
characters: the first 13 and the first 12 are stored. -/
theorem stream2ccd_CATALOG_ISRC_bounded_witness :
    (stream2ccd Uninit.zeroed sample_long_codes_sheet).ccd.Disc.CATALOG = "0123456789012".toList
    ∧ ((stream2ccd Uninit.zeroed sample_long_codes_sheet).ccd.TRACK.map fun t => t.ISRC)
        = [[], "ABCDE1234567".toList]
    ∧ (scan_line Uninit.zeroed Scan.init
          ("CATALOG=".toList ++ "01234567890123456".toList ++ "\n".toList)).ccd.Disc.CATALOG
        = "01234567890123456".toList.take 13
    ∧ (scan_stream Uninit.zeroed "[TRACK 1]".toList).counted 1
    ∧ ∃ t, (scan_line Uninit.zeroed (scan_stream Uninit.zeroed "[TRACK 1]".toList)
              ("ISRC=".toList ++ "ABCDE12345678XYZ".toList ++ "\n".toList)).ccd.TRACK.get? 1
            = some t
          ∧ t.ISRC = "ABCDE12345678XYZ".toList.take 12 :=
  ⟨by decide, by decide,
    (stream2ccd_CATALOG_ISRC_bounded Uninit.zeroed []).2.2.1 Scan.init
      "01234567890123456".toList (by decide) (by decide),
    by decide,
    ((stream2ccd_CATALOG_ISRC_bounded Uninit.zeroed []).2.2.2
      (scan_stream Uninit.zeroed "[TRACK 1]".toList) 1 "ABCDE12345678XYZ".toList
      (by decide) (by decide) (by decide) (by decide)).2⟩

/-! ## Theorems: the sections that `ccd2cue` does not read -/

theorem mapM_congr {α β : Type} (f g : α → Except Failure β) (l : List α)
    (h : ∀ x ∈ l, f x = g x) : l.mapM f = l.mapM g := by
  induction l with
  | nil => rfl
  | cons a l ih =>
    rw [List.mapM_cons, List.mapM_cons, h a (List.mem_cons_self _ _),
      ih (fun x hx => h x (List.mem_cons_of_mem _ hx))]

/-- C27: two CCD structures with the same `CATALOG`, with `CDText.Entries` zero in both
or in neither, with the same `TrackEntries` and the same slots 1 to `TrackEntries` of the
`TRACK` array give the same result of `ccd2cue` for the same file names (and the same
contents of fresh memory): the same CUE structure, or the same failure.  Nothing is
asked of `CloneCD.Version`, `Disc.TocEntries`, `Disc.Sessions`,
`Disc.DataTracksScrambled`, `Disc.CDTextLength`, the `Session`, `Entry` and CD-Text
arrays, or slot 0 of the `TRACK` array. -/
theorem ccd2cue_unused_sections (u : Uninit) (c c' : ccd) (img_name cdt_name : List Char)
    (hCATALOG : c.Disc.CATALOG = c'.Disc.CATALOG)
    (hCDText : c.CDText.Entries = 0 ↔ c'.CDText.Entries = 0)
    (hTrackEntries : c.TrackEntries = c'.TrackEntries)
    (hTRACK : ∀ i : Nat, 1 ≤ i → (i : Int) ≤ c.TrackEntries → c.TRACK.get? i = c'.TRACK.get? i) :
    ccd2cue u c img_name cdt_name = ccd2cue u c' img_name cdt_name := by
  have hT : (List.range' 1 c.TrackEntries.toNat).mapM (ccd2cue_TRACK u c)
      = (List.range' 1 c.TrackEntries.toNat).mapM (ccd2cue_TRACK u c') := by
    refine mapM_congr _ _ _ (fun i hi => ?_)
    rw [List.mem_range'_1] at hi
    have e := hTRACK i hi.1 (by omega)
    unfold ccd2cue_TRACK fetch
    rw [e]
  have hE : (c.CDText.Entries ≠ 0) = (c'.CDText.Entries ≠ 0) := by
    rw [ne_eq, ne_eq, hCDText]
  unfold ccd2cue
  simp only [hCATALOG, hT, ← hTrackEntries]
  by_cases h0 : c.CDText.Entries = 0
  · have h0' := hCDText.mp h0
    simp only [h0, h0']
  · have h0' : ¬ c'.CDText.Entries = 0 := fun h => h0 (hCDText.mpr h)
    simp only [ne_eq, h0, h0', not_false_eq_true, if_true]

set_option maxRecDepth 100000 in
/-- Witness of C27 for `sample_tracks_ccd` and `sample_tracks_other_ccd`. -/
theorem ccd2cue_unused_sections_witness :
    sample_tracks_ccd.CloneCD ≠ sample_tracks_other_ccd.CloneCD
    ∧ sample_tracks_ccd.Session ≠ sample_tracks_other_ccd.Session
    ∧ ccd2cue Uninit.zeroed sample_tracks_ccd "image.img".toList "image.cdt".toList
        = ccd2cue Uninit.zeroed sample_tracks_other_ccd "image.img".toList "image.cdt".toList :=
  ⟨by decide, by decide,
    ccd2cue_unused_sections Uninit.zeroed sample_tracks_ccd sample_tracks_other_ccd
      "image.img".toList "image.cdt".toList (by decide) (by decide) (by decide)
      (by
        intro i h1 h2
        have h3 : i ≤ 2 := by
          have : sample_tracks_ccd.TrackEntries = 2 := rfl
          omega
        interval_cases i <;> rfl)⟩

/-! ## Theorems: reference names -/

theorem strrchr_none (str : List Char) (c : Char) (h : c ∉ str) : strrchr str c = none := by
  unfold strrchr
  rw [if_neg h]

theorem strrchr_last (a b : List Char) (c : Char) (h : c ∉ b) :
    strrchr (a ++ c :: b) c = some a.length := by
  unfold strrchr
  rw [if_pos (by simp)]
  have hi : (a ++ c :: b).reverse.indexOf c = b.length := by
    rw [List.reverse_append, List.reverse_cons, List.append_assoc,
      List.indexOf_append_of_not_mem (by simpa using h)]
    simp
  rw [hi]
  simp only [List.length_append, List.length_cons]
  congr 1
  omega

/-- What `make_reference_name` returns, whatever the name: the string `str` (the file
name, or its base name without the flag) up to its last dot, and `str` itself when it
holds no dot.  The dot is looked for in all of `str`, directory names included. -/
theorem make_reference_name_last_dot (filename : List Char) (dirname_flag : Int) :
    (∀ a b, (if dirname_flag ≠ 0 then filename else basename filename) = a ++ '.' :: b →
      '.' ∉ b → make_reference_name filename dirname_flag = a)
    ∧ ('.' ∉ (if dirname_flag ≠ 0 then filename else basename filename) →
      make_reference_name filename dirname_flag
        = if dirname_flag ≠ 0 then filename else basename filename) := by
  refine ⟨fun a b hs hb => ?_, fun hn => ?_⟩
  · unfold make_reference_name
    simp only [hs, strrchr_last a b '.' hb]
    simp
  · unfold make_reference_name
    simp only [strrchr_none _ _ hn]

/-- C28, evaluated where the code departs from it.  For `qux/foo.bar` the function
returns `qux/foo` with the flag and `foo` without; for `a.b/c` with the flag, a path
whose last component has no dot, it returns `a`, not the path unchanged: the dot of the
directory name is taken for the start of an extension. -/
theorem make_reference_name_cuts_directory :
    make_reference_name "qux/foo.bar".toList 1 = "qux/foo".toList
    ∧ make_reference_name "qux/foo.bar".toList 0 = "foo".toList
    ∧ make_reference_name "a.b/c".toList 0 = "c".toList
    ∧ make_reference_name "a.b/c".toList 1 = "a".toList
    ∧ make_reference_name "a.b/c".toList 1 ≠ "a.b/c".toList := by
  decide

/-! ## Theorems: trailing white space -/

/-- What `array_remove_trailing_whitespace` returns for a string that holds a character
other than white space: the string without the white space at its end, which is the
longest prefix of the string that does not end in white space; and the function leaves
its own result as it is. -/
theorem array_remove_trailing_whitespace_nonblank (s : List Char)
    (h : ∃ c ∈ s, isspace c = false) :
    ∃ r w, array_remove_trailing_whitespace s = some r
      ∧ s = r ++ w ∧ (∀ c ∈ w, isspace c = true)
      ∧ (∃ c, r.getLast? = some c ∧ isspace c = false)
      ∧ (∀ r', r' <+: s → (∀ c, r'.getLast? = some c → isspace c = false) →
          r'.length ≤ r.length)
      ∧ array_remove_trailing_whitespace r = some r := by
  obtain ⟨c, hc, hcs⟩ := h
  have hne : s ≠ [] := List.ne_nil_of_mem hc
  have hall : ¬ (s.all isspace = true) := by
    rw [List.all_eq_true]
    intro hall
    rw [hall c hc] at hcs
    cases hcs
  have hsplit : s = (s.reverse.dropWhile isspace).reverse
      ++ (s.reverse.takeWhile isspace).reverse := by
    rw [← List.reverse_append, List.takeWhile_append_dropWhile, List.reverse_reverse]
  have hdne : s.reverse.dropWhile isspace ≠ [] := by
    intro hd
    apply hall
    rw [List.all_eq_true]
    intro x hx
    have hx' : x ∈ s.reverse.takeWhile isspace := by
      have e := List.takeWhile_append_dropWhile isspace s.reverse
      rw [hd, List.append_nil] at e
      rw [e]
      exact List.mem_reverse.mpr hx
    exact (List.mem_takeWhile_imp hx')
  obtain ⟨d, ds, hd⟩ := List.exists_cons_of_ne_nil hdne
  have hdsp : isspace d = false := by
    have := List.head_dropWhile_not isspace s.reverse hdne
    simp only [hd, List.head_cons] at this
    simpa using this
  have hlast : (s.reverse.dropWhile isspace).reverse.getLast? = some d := by
    rw [hd]
    simp
  have hself : array_remove_trailing_whitespace (s.reverse.dropWhile isspace).reverse
      = some (s.reverse.dropWhile isspace).reverse := by
    unfold array_remove_trailing_whitespace
    have h1 : (s.reverse.dropWhile isspace).reverse ≠ [] := by
      rw [hd]
      simp
    have h2 : ¬ ((s.reverse.dropWhile isspace).reverse.all isspace = true) := by
      rw [List.all_eq_true]
      intro hall'
      have := hall' d (by rw [hd]; simp)
      rw [hdsp] at this
      cases this
    rw [if_neg h1, if_neg h2, List.reverse_reverse]
    congr 2
    rw [hd, List.dropWhile_cons_of_neg (by simp [hdsp])]
  refine ⟨(s.reverse.dropWhile isspace).reverse, (s.reverse.takeWhile isspace).reverse,
    ?_, hsplit, ?_, ⟨d, hlast, hdsp⟩, ?_, hself⟩
  · unfold array_remove_trailing_whitespace
    rw [if_neg hne, if_neg hall]
  · intro x hx
    exact List.mem_takeWhile_imp (List.mem_reverse.mp hx)
  · intro r' hr' hlast'
    by_contra hlen
    rw [not_le] at hlen
    obtain ⟨t, ht⟩ := hr'
    -- the last character of `r'` lies in the white space at the end
    rcases List.eq_nil_or_concat r' with hnil | ⟨r0, x, hr0⟩
    · subst hnil
      simp at hlen
    · rw [List.concat_eq_append] at hr0
      subst hr0
      have hx := hlast' x (by simp)
      have hmem : x ∈ (s.reverse.takeWhile isspace).reverse := by
        have e : (r0 ++ [x]) ++ t
            = (s.reverse.dropWhile isspace).reverse ++ (s.reverse.takeWhile isspace).reverse := by
          rw [ht]
          exact hsplit
        have hle : (s.reverse.dropWhile isspace).reverse.length ≤ r0.length := by
          simp only [List.length_append, List.length_singleton] at hlen
          omega
        rw [List.append_assoc] at e
        obtain ⟨a', ha'⟩ : ∃ a', r0 = (s.reverse.dropWhile isspace).reverse ++ a' := by
          have hp1 : r0 <+: r0 ++ ([x] ++ t) := List.prefix_append _ _
          have hp2 : (s.reverse.dropWhile isspace).reverse <+: r0 ++ ([x] ++ t) := by
            rw [e]
            exact List.prefix_append _ _
          obtain ⟨a', ha'⟩ := List.prefix_of_prefix_length_le hp2 hp1 hle
          exact ⟨a', ha'.symm⟩
        rw [ha', List.append_assoc] at e
        have e' := List.append_cancel_left e
        rw [← e']
        simp
      have := List.mem_takeWhile_imp (List.mem_reverse.mp hmem)
      rw [hx] at this
      cases this

/-- C29, evaluated where the code departs from it.  For a string of one space the loop
`while (isspace (*j)) j--` steps below the first character and reads outside the
string: no result is defined, the empty string is not what the code is bound to
return.  For `DCP` followed by two spaces the result is `DCP`, and the empty string is
returned as it is. -/
theorem array_remove_trailing_whitespace_blank :
    array_remove_trailing_whitespace " ".toList = none
    ∧ array_remove_trailing_whitespace " ".toList ≠ some []
    ∧ array_remove_trailing_whitespace "DCP  ".toList = some "DCP".toList
    ∧ array_remove_trailing_whitespace [] = some [] := by
  decide

/-! ## Theorems: the counters beyond the announced numbers -/

/-- The statements that count a header, for a header that comes when as many headers
have been counted as announced: the counter still advances, to one more than the
announced number. -/
theorem count_surplus_header (m : LineScan) (st : Scan) :
    (m.Session_tmp.isSome = true → st.Session = st.ccd.Disc.Sessions →
      (count_Session m st).Session = st.ccd.Disc.Sessions + 1)
    ∧ (m.TocEntry_tmp.isSome = true → st.TocEntry + 1 = st.ccd.Disc.TocEntries →
      (count_Entry m st).TocEntry + 1 = st.ccd.Disc.TocEntries + 1)
    ∧ (m.CDTextEntry_tmp.isSome = true → st.CDTextEntry + 1 = st.ccd.CDText.Entries →
      (count_CDText m st).CDTextEntry + 1 = st.ccd.CDText.Entries + 1) := by
  refine ⟨fun h e => ?_, fun h e => ?_, fun h e => ?_⟩
  · unfold count_Session
    rw [if_pos ⟨h, by omega⟩]
    show st.Session + 1 = _
    rw [e]
  · unfold count_Entry
    rw [if_pos ⟨h, by omega⟩]
    show st.TocEntry + 1 + 1 = _
    rw [e]
  · unfold count_CDText
    rw [if_pos ⟨h, by omega⟩]
    show st.CDTextEntry + 1 + 1 = _
    rw [e]

set_option maxRecDepth 1000000 in
/-- C30, evaluated where the code departs from it.  With one session announced, the
counter `Session` stands at 1 after the first `[Session n]` header and at 2 after the
second; with one Toc entry announced, `TocEntry` (which counts from 0) stands at 0 after
the first `[Entry n]` header and at 1 after the second; with one CD-Text entry
announced, `CDTextEntry` stands at 0 after the first `Entry n = ...` line and at 1 after
the second.  In each case the header after the announced number has advanced the
counter. -/
theorem stream2ccd_counts_surplus_header :
    (scan_stream Uninit.zeroed sample_session_sheet).Session = 1
    ∧ (scan_stream Uninit.zeroed sample_session_overflow_sheet).Session = 2
    ∧ (scan_stream Uninit.zeroed sample_session_overflow_sheet).ccd.Disc.Sessions = 1
    ∧ (scan_stream Uninit.zeroed sample_toc_sheet).TocEntry = 0
    ∧ (scan_stream Uninit.zeroed sample_toc_overflow_sheet).TocEntry = 1
    ∧ (scan_stream Uninit.zeroed sample_toc_overflow_sheet).ccd.Disc.TocEntries = 1
    ∧ (scan_stream Uninit.zeroed sample_cdtext_overflow_sheet).CDTextEntry = 1
    ∧ (scan_stream Uninit.zeroed sample_cdtext_overflow_sheet).ccd.CDText.Entries = 1 := by
  decide

/-! ## Theorems: the flags that the parser passes on -/

/-- A scan whose first assignment is that of a `%[` conversion after white space in the
template assigns a string that starts with a character other than white space. -/
theorem scanDirectives_set_head (pre : List Directive)
    (hpre : ∀ d ∈ pre, d = Directive.space ∨ ∃ c, d = Directive.char c)
    (chars : List Char) (post : List Directive) :
    ∀ (s v : List Char) (rest : List Arg),
      scanDirectives (pre ++ Directive.space
          :: Directive.conv false none (ConvKind.set chars) :: post) s = Arg.str v :: rest →
      ∃ c r, v = c :: r ∧ isspace c = false := by
  induction pre with
  | nil =>
    intro s v rest h
    simp only [List.nil_append, scanDirectives, scanConv] at h
    split at h
    · cases h
    · rename_i a s' hs
      split at hs
      · cases hs
      · rename_i hne
        simp only [Option.some.injEq, Prod.mk.injEq] at hs
        obtain ⟨rfl, -⟩ := hs
        simp only [Bool.false_eq_true, if_false, List.cons.injEq, Arg.str.injEq] at h
        obtain ⟨rfl, -⟩ := h
        cases hd : List.dropWhile isspace s with
        | nil =>
          rw [hd] at hne
          exact absurd rfl hne
        | cons c r =>
          have hc : isspace c = false := by
            have := List.head_dropWhile_not isspace s (by rw [hd]; exact List.cons_ne_nil _ _)
            simp only [hd, List.head_cons] at this
            simpa using this
          rw [hd] at hne
          rw [List.takeWhile_cons] at hne ⊢
          split at hne
          · exact ⟨c, _, by rw [if_pos (by assumption)], hc⟩
          · exact absurd rfl hne
  | cons d pre ih =>
    intro s v rest h
    have ih' := ih (fun d hd => hpre d (List.mem_cons_of_mem _ hd))
    rcases hpre d (List.mem_cons_self _ _) with rfl | ⟨c, rfl⟩
    · simp only [List.cons_append, scanDirectives] at h
      exact ih' _ v rest h
    · cases s with
      | nil => simp [scanDirectives] at h
      | cons c' s' =>
        simp only [List.cons_append, scanDirectives] at h
        split at h
        · exact ih' _ v rest h
        · cases h

/-- The parser applies `array_remove_trailing_whitespace` to strings that start with a
character other than white space only: on every line, the value that the `FLAGS`
template assigns is such a string, and the function returns it without the white space
at its end. -/
theorem scan_fields_FLAGS_nonblank (line v : List Char)
    (h : (scan_fields line).FLAGS = some v) :
    (∃ c r, v = c :: r ∧ isspace c = false)
    ∧ ∃ r w, array_remove_trailing_whitespace v = some r ∧ v = r ++ w
        ∧ (∀ c ∈ w, isspace c = true) ∧ ∃ c, r.getLast? = some c ∧ isspace c = false := by
  have h1 := sscanf_s_some _ _ _ h
  have hp : parseTemplate .text " FLAGS = %a[a-zA-Z0-9 ] ".toList
      = [Directive.space, .char 'F', .char 'L', .char 'A', .char 'G', .char 'S', .space,
          .char '=']
        ++ Directive.space :: Directive.conv false none (ConvKind.set "a-zA-Z0-9 ".toList)
          :: [Directive.space] := by
    rfl
  unfold sscanf at h1
  rw [hp] at h1
  obtain ⟨c, r, hv, hc⟩ := scanDirectives_set_head _ (by
    intro d hd
    simp only [List.mem_cons, List.mem_singleton, List.not_mem_nil, or_false] at hd
    rcases hd with rfl | rfl | rfl | rfl | rfl | rfl | rfl | rfl <;>
      first | exact Or.inl rfl | exact Or.inr ⟨_, rfl⟩) _ _ line v [] h1
  refine ⟨⟨c, r, hv, hc⟩, ?_⟩
  obtain ⟨r', w, e1, e2, e3, e4, -, -⟩ := array_remove_trailing_whitespace_nonblank v
    ⟨c, by rw [hv]; exact List.mem_cons_self _ _, hc⟩
  exact ⟨r', w, e1, e2, e3, e4⟩

/-! ## Theorems: the first positive announcement -/

theorem sscanf_exclusive (s : List Char) (t1 t2 : String) (w1 w2 : List Char)
    (d1 d2 : List Directive)
    (h1 : parseTemplate .text t1.toList = .space :: (w1.map Directive.char ++ d1))
    (h2 : parseTemplate .text t2.toList = .space :: (w2.map Directive.char ++ d2))
    (hw : ∀ a b : List Char, w1 ++ a ≠ w2 ++ b)
    (h : sscanf s t1 ≠ []) : sscanf s t2 = [] := by
  by_contra h'
  simp only [sscanf, h1, h2, scanDirectives] at h h'
  obtain ⟨a, ha⟩ := scanDirectives_chars _ _ _ h
  obtain ⟨b, hb⟩ := scanDirectives_chars _ _ _ h'
  exact absurd (ha.symm.trans hb) (hw a b)

/-- A line that is a track header is no `MODE`, `FLAGS`, `ISRC` or `INDEX` line. -/
theorem header_no_fields (s : List Char) (h : (scan_fields s).TRACK_tmp.isSome = true) :
    (scan_fields s).MODE = none ∧ (scan_fields s).FLAGS = none
    ∧ (scan_fields s).ISRC = none ∧ (scan_fields s).INDEX_tmp = none := by
  obtain ⟨v, hv⟩ := Option.isSome_iff_exists.mp h
  have hne := sscanf_d_some _ _ _ hv
  refine ⟨?_, ?_, ?_, header_no_INDEX s h⟩
  · exact sscanf_d_exclusive s " [ TRACK %d ] " " MODE = %d " ['['] ['M']
      _ _ rfl rfl (by intro a b h; cases h) v hv
  · have e := sscanf_exclusive s " [ TRACK %d ] " " FLAGS = %a[a-zA-Z0-9 ] " ['['] ['F']
      _ _ rfl rfl (by intro a b h; cases h) hne
    show sscanf_s s " FLAGS = %a[a-zA-Z0-9 ] " = none
    unfold sscanf_s
    rw [e]
  · have e := sscanf_exclusive s " [ TRACK %d ] " " ISRC = %12[a-zA-Z0-9] " ['['] ['I']
      _ _ rfl rfl (by intro a b h; cases h) hne
    show sscanf_s s " ISRC = %12[a-zA-Z0-9] " = none
    unfold sscanf_s
    rw [e]

/-- The statements for the lines of a track keep every property of the current track
for a line that is no `MODE`, `FLAGS`, `ISRC` or `INDEX` line. -/
theorem fill_TRACK_no_fields (u : Uninit) (m : LineScan) (st : Scan) (P : ccd_TRACK → Prop)
    (hMODE : m.MODE = none) (hFLAGS : m.FLAGS = none) (hISRC : m.ISRC = none)
    (hINDEX : m.INDEX_tmp = none) : Scan.keeps P st (fill_TRACK u m st) := by
  unfold fill_TRACK
  split
  · simp only
    refine Scan.keeps_trans _ _ _ _ (Scan.keeps_trans _ _ _ _ (Scan.keeps_trans _ _ _ _
      (store_TRACK_keeps _ _ _ _ ?_) (store_TRACK_keeps _ _ _ _ ?_))
      (store_TRACK_keeps _ _ _ _ ?_)) (store_TRACK_keeps _ _ _ _ ?_)
    · intro t t' hP h
      rw [hMODE] at h
      cases h
      exact hP
    · intro t t' hP h
      rw [hFLAGS] at h
      cases h
      exact hP
    · intro t t' hP h
      rw [hISRC] at h
      cases h
      exact hP
    · intro t t' hP h
      unfold scan_INDEX at h
      rw [hINDEX] at h
      cases h
      exact hP
  · exact Scan.keeps_refl _ _

/-- A line that is a track header leaves the track that `ccd_TRACK_init` filled in the
new last slot. -/
theorem scan_line_header_init (u : Uninit) (st : Scan) (l : List Char) (k : Nat)
    (hc : st.counted k) (hh : (scan_fields (cstring l)).TRACK_tmp.isSome = true) :
    (scan_line u st l).ccd.TRACK.get? (k + 1) = some ccd_TRACK_init := by
  obtain ⟨X, hX, hb⟩ := scan_body_eq u (scan_fields (cstring l)) st
  have hXc := Scan.counted_of_tracks st k X hX hc
  obtain ⟨⟨c1, -, -⟩, -, d3⟩ := count_TRACK_header u (scan_fields (cstring l)) X k hXc hh
  obtain ⟨f1, f2, f3, f4⟩ := header_no_fields _ hh
  obtain ⟨-, -, -, -, a5⟩ := fill_TRACK_no_fields u (scan_fields (cstring l))
    (count_TRACK u (scan_fields (cstring l)) X) (fun t => t = ccd_TRACK_init) f1 f2 f3 f4
  unfold scan_line
  rw [hb]
  rw [← peek_eq_get?, ← c1] at d3
  obtain ⟨t', ht', rfl⟩ := a5 _ d3 rfl
  rw [c1, peek_eq_get?] at ht'
  exact ht'

/-- Before the first track header, a line that is no track header leaves the counter,
the number of tracks and the `TRACK` array as they are. -/
theorem scan_line_before_header (u : Uninit) (st : Scan) (l : List Char)
    (hc : st.counted 0) (hh : (scan_fields (cstring l)).TRACK_tmp = none) :
    (scan_line u st l).tracks = st.tracks := by
  obtain ⟨X, hX, hb⟩ := scan_body_eq u (scan_fields (cstring l)) st
  obtain ⟨-, c2, -⟩ := Scan.counted_of_tracks st 0 X hX hc
  have hcount : count_TRACK u (scan_fields (cstring l)) X = X := by
    unfold count_TRACK
    rw [hh]
    rfl
  have hfill : fill_TRACK u (scan_fields (cstring l)) X = X := by
    unfold fill_TRACK
    rw [if_neg (by rw [c2]; decide)]
  unfold scan_line
  rw [hb, hcount, hfill, hX]

theorem foldl_before_header (u : Uninit) (lines : List (List Char)) (st : Scan)
    (hc : st.counted 0) (hh : ∀ l ∈ lines, (scan_fields (cstring l)).TRACK_tmp = none) :
    (lines.foldl (scan_line u) st).tracks = st.tracks := by
  induction lines generalizing st with
  | nil => rfl
  | cons l ls ih =>
    have h1 := scan_line_before_header u st l hc (hh l (List.mem_cons_self _ _))
    rw [List.foldl_cons, ih _ (Scan.counted_of_tracks st 0 _ h1 hc)
      (fun x hx => hh x (List.mem_cons_of_mem _ hx)), h1]

/-- C32: the number of tracks that `stream2ccd` leaves is the number of lines, among
those that the loop scans, on which the template `[TRACK n]` assigns a number, whatever
the numbers; the tracks are in the slots 1, 2, ... in the order of their headers.  A
header after `k` headers leaves in slot `k + 1` the track with `MODE` 0, no `FLAGS`, an
empty `ISRC`, the `INDEX` array -1, -1 and `IndexEntries` 2, and leaves the slots 1 to
`k` as they are.  A line that is no header changes no slot but the slot `k` of the last
header, and changes nothing of the tracks while no header has been scanned. -/
theorem stream2ccd_track_headers (u : Uninit) (stream : List Char) :
    (stream2ccd u stream).ccd.TrackEntries
        = ((my_getlines u.line [] stream).countP
            fun l => (scan_fields (cstring l)).TRACK_tmp.isSome)
    ∧ (stream2ccd u stream).ccd.TRACK
        = ((my_getlines u.line [] stream).foldl (scan_line u) Scan.init).ccd.TRACK
    ∧ (∀ (pre : List (List Char)) (hdr : List Char),
        (scan_fields (cstring hdr)).TRACK_tmp.isSome = true →
        ((pre ++ [hdr]).foldl (scan_line u) Scan.init).ccd.TRACK.get?
            ((pre.countP fun l => (scan_fields (cstring l)).TRACK_tmp.isSome) + 1)
          = some { MODE := 0, FLAGS := none, ISRC := [], INDEX := [-1, -1], IndexEntries := 2 }
        ∧ ((pre ++ [hdr]).foldl (scan_line u) Scan.init).ccd.TrackEntries
          = (pre.foldl (scan_line u) Scan.init).ccd.TrackEntries + 1
        ∧ ∀ i : Nat, 1 ≤ i →
            i ≤ (pre.countP fun l => (scan_fields (cstring l)).TRACK_tmp.isSome) →
            ((pre ++ [hdr]).foldl (scan_line u) Scan.init).ccd.TRACK.get? i
              = (pre.foldl (scan_line u) Scan.init).ccd.TRACK.get? i)
    ∧ (∀ (pre : List (List Char)) (l : List Char),
        (scan_fields (cstring l)).TRACK_tmp = none →
        ((pre ++ [l]).foldl (scan_line u) Scan.init).ccd.TrackEntries
          = (pre.foldl (scan_line u) Scan.init).ccd.TrackEntries
        ∧ ((pre ++ [l]).foldl (scan_line u) Scan.init).ccd.TRACK.length
          = (pre.foldl (scan_line u) Scan.init).ccd.TRACK.length
        ∧ ∀ i : Nat, i ≠ (pre.countP fun l => (scan_fields (cstring l)).TRACK_tmp.isSome) →
            ((pre ++ [l]).foldl (scan_line u) Scan.init).ccd.TRACK.get? i
              = (pre.foldl (scan_line u) Scan.init).ccd.TRACK.get? i)
    ∧ (∀ pre : List (List Char),
        (∀ l ∈ pre, (scan_fields (cstring l)).TRACK_tmp = none) →
        (pre.foldl (scan_line u) Scan.init).ccd.TrackEntries = 0
        ∧ (pre.foldl (scan_line u) Scan.init).ccd.TRACK = []) := by
  obtain ⟨r1, r2⟩ := stream2ccd_tracks u stream
  have hpre : ∀ pre : List (List Char), (pre.foldl (scan_line u) Scan.init).counted
      (pre.countP fun l => (scan_fields (cstring l)).TRACK_tmp.isSome) := by
    intro pre
    have h0 := foldl_counted u pre Scan.init 0 Scan.init_counted
    rw [Nat.zero_add] at h0
    exact h0
  refine ⟨?_, r1, ?_, ?_, ?_⟩
  · show (stream2ccd u stream).ccd.TrackEntries = _
    rw [r2]
    exact (hpre _).2.1
  · intro pre hdr hh
    have hc := hpre pre
    rw [List.foldl_append, List.foldl_cons, List.foldl_nil]
    obtain ⟨a1, a2, -⟩ := scan_body_header u (scan_fields (cstring hdr)) _ _ hc hh
    refine ⟨scan_line_header_init u _ hdr _ hc hh, ?_, fun i h1 h2 => a2 i h1 h2⟩
    have e1 : (scan_line u (pre.foldl (scan_line u) Scan.init) hdr).ccd.TrackEntries = _ := a1.2.1
    rw [e1, hc.2.1]
    push_cast
    rfl
  · intro pre l hh
    have hc := hpre pre
    rw [List.foldl_append, List.foldl_cons, List.foldl_nil]
    obtain ⟨a1, a2, -⟩ := scan_body_no_header u (scan_fields (cstring l)) _ _ hc hh
    refine ⟨?_, ?_, fun i hi => a2 i hi⟩
    · have e1 : (scan_line u (pre.foldl (scan_line u) Scan.init) l).ccd.TrackEntries = _ := a1.2.1
      rw [e1, hc.2.1]
    · have e1 : (scan_line u (pre.foldl (scan_line u) Scan.init) l).ccd.TRACK.length = _ := a1.2.2
      rw [e1, hc.2.2]
  · intro pre hh
    have h := foldl_before_header u pre Scan.init Scan.init_counted hh
    exact ⟨congrArg (fun p => p.2.1) h, congrArg (fun p => p.2.2) h⟩

set_option maxRecDepth 1000000 in
/-- Witness of C32 for a sheet with a `MODE` line before the first header and two track
sections, both with the number 7 in the header: the `MODE` line leaves no track, the
first header leaves the initial track in slot 1, and there are two tracks. -/
theorem stream2ccd_track_headers_witness :
    (stream2ccd Uninit.zeroed sample_numbered_tracks_sheet).ccd.TrackEntries = 2
    ∧ ((stream2ccd Uninit.zeroed sample_numbered_tracks_sheet).ccd.TRACK.map fun t => t.MODE)
        = [0, 1, 2]
    ∧ (scan_fields (cstring "[TRACK 7]\n".toList)).TRACK_tmp.isSome = true
    ∧ ((["MODE=2\n".toList] ++ ["[TRACK 7]\n".toList]).foldl (scan_line Uninit.zeroed)
          Scan.init).ccd.TRACK.get? 1
        = some { MODE := 0, FLAGS := none, ISRC := [], INDEX := [-1, -1], IndexEntries := 2 }
    ∧ (["MODE=2\n".toList].foldl (scan_line Uninit.zeroed) Scan.init).ccd.TRACK = [] :=
  ⟨by decide, by decide, by decide,
    ((stream2ccd_track_headers Uninit.zeroed sample_numbered_tracks_sheet).2.2.1
      ["MODE=2\n".toList] "[TRACK 7]\n".toList (by decide)).1,
    ((stream2ccd_track_headers Uninit.zeroed sample_numbered_tracks_sheet).2.2.2.2
      ["MODE=2\n".toList] (by
        intro l hl
        simp only [List.mem_singleton] at hl
        subst hl
        decide)).2⟩

/-! ## Theorems: the `INDEX` array of a track -/

theorem realloc_block_succ {α : Type} (fresh : Nat → α) (p : List α) :
    realloc_block fresh p ((p.length : Int) + 1) = p ++ [fresh p.length] := by
  unfold realloc_block
  have e : ((p.length : Int) + 1).toNat = p.length + 1 := by omega
  rw [e, List.take_of_length_le (by omega)]
  have e2 : p.length + 1 - p.length = 1 := by omega
  rw [e2]
  rfl

theorem modify_append_last {α : Type} (p : List α) (x v : α) :
    (p ++ [x]).modify (fun _ => v) p.length = p ++ [v] := by
  induction p with
  | nil => rfl
  | cons a p ih =>
    simp only [List.cons_append, List.length_cons, List.modify_succ_cons, ih]

/-- The `INDEX` statements for a track whose `IndexEntries` is the number of slots of
its `INDEX` array, at least two: they write inside the array, and `IndexEntries` is
again the number of slots. -/
theorem scan_INDEX_sized (u : Uninit) (m : LineScan) (i : Int) (t : ccd_TRACK)
    (hlen : t.IndexEntries = (t.INDEX.length : Int)) (h2 : 2 ≤ t.INDEX.length) :
    ∃ t', scan_INDEX u m i t = some t'
      ∧ t'.IndexEntries = (t'.INDEX.length : Int) ∧ INDEX_step m t t' := by
  unfold scan_INDEX INDEX_step
  cases htmp : m.INDEX_tmp with
  | none =>
    exact ⟨t, rfl, hlen, fun _ => ⟨rfl, rfl⟩, fun n h => (by cases h), fun n h => (by cases h)⟩
  | some n =>
    simp only
    by_cases hn : n = 0 ∨ n = 1
    · rw [if_pos hn]
      cases hv : m.INDEX with
      | none =>
        refine ⟨t, rfl, hlen, fun h => (by cases h), fun n' h' _ => ⟨rfl, fun _ => rfl, ?_⟩,
          fun n' h' hn' => ?_⟩
        · intro v h
          cases h
        · cases h'
          exact absurd hn hn'
      | some v =>
        have hin : 0 ≤ n ∧ n.toNat < t.INDEX.length := by omega
        simp only [poke, if_pos hin, Option.map_some']
        refine ⟨_, rfl, ?_, fun h => (by cases h), fun n' h' _ => ⟨rfl, fun h => (by cases h), ?_⟩,
          fun n' h' hn' => ?_⟩
        · simp only [List.length_modify]
          exact hlen
        · intro v' h
          cases h
          cases h'
          exact (List.set_eq_modify _ _ _).symm
        · cases h'
          exact absurd hn hn'
    · rw [if_neg hn]
      simp only [hlen, realloc_block_succ]
      cases hv : m.INDEX with
      | none =>
        refine ⟨_, rfl, ?_, fun h => (by cases h), fun n' h' hn' => ?_, fun n' h' _ =>
          ⟨rfl, _, rfl, ?_⟩⟩
        · simp only [List.length_append, List.length_singleton]
          push_cast
          rfl
        · cases h'
          exact absurd hn' hn
        · intro v h
          cases h
      | some v =>
        have hin : 0 ≤ (t.INDEX.length : Int) + 1 - 1
            ∧ ((t.INDEX.length : Int) + 1 - 1).toNat
              < (t.INDEX ++ [u.INDEX i.toNat t.INDEX.length]).length := by
          simp only [List.length_append, List.length_singleton]
          omega
        have e : ((t.INDEX.length : Int) + 1 - 1).toNat = t.INDEX.length := by omega
        have hpoke : poke (t.INDEX ++ [u.INDEX i.toNat t.INDEX.length])
            ((t.INDEX.length : Int) + 1 - 1) (fun _ => v) = some (t.INDEX ++ [v]) := by
          unfold poke
          rw [if_pos hin, e, modify_append_last]
        simp only [hpoke, Option.map_some']
        refine ⟨_, rfl, ?_, fun h => (by cases h), fun n' h' hn' => ?_, fun n' h' _ =>
          ⟨rfl, v, rfl, ?_⟩⟩
        · simp only [List.length_append, List.length_singleton]
          push_cast
          rfl
        · cases h'
          exact absurd hn' hn
        · intro v' h
          cases h
          rfl

/-- The statements for the lines of a track, for a current track whose `IndexEntries`
is the number of slots of its `INDEX` array: what they do to the array. -/
theorem fill_TRACK_INDEX (u : Uninit) (m : LineScan) (st : Scan) (t : ccd_TRACK)
    (hpos : st.ccd.TrackEntries > 0) (hp : peek st.ccd.TRACK st.TRACK = some t)
    (hlen : t.IndexEntries = (t.INDEX.length : Int)) (h2 : 2 ≤ t.INDEX.length) :
    ∃ t', peek (fill_TRACK u m st).ccd.TRACK (fill_TRACK u m st).TRACK = some t'
      ∧ t'.IndexEntries = (t'.INDEX.length : Int) ∧ INDEX_step m t t' := by
  unfold fill_TRACK
  rw [if_pos hpos]
  dsimp only
  refine store_TRACK_post _ _ _ (fun x => x.INDEX = t.INDEX ∧ x.IndexEntries = t.IndexEntries)
    _ ?_ ?_
    (store_TRACK_post _ _ _ (fun x => x.INDEX = t.INDEX ∧ x.IndexEntries = t.IndexEntries) _
      ?_ (fun _ h _ => h)
      (store_TRACK_post _ _ _ (fun x => x.INDEX = t.INDEX ∧ x.IndexEntries = t.IndexEntries) _
        ?_ (fun _ h _ => h)
        (store_TRACK_post _ _ _ (fun x => x.INDEX = t.INDEX ∧ x.IndexEntries = t.IndexEntries)
          _ ?_ (fun _ h _ => h) ⟨t, hp, rfl, rfl⟩)))
  · intro x x' hx h
    obtain ⟨y, hy, hl, hs⟩ := scan_INDEX_sized u m _ x (by rw [hx.2, hx.1, hlen])
      (by rw [hx.1]; exact h2)
    rw [hy] at h
    cases h
    refine ⟨hl, ?_⟩
    unfold INDEX_step at hs ⊢
    rw [hx.1, hx.2] at hs
    exact hs
  · intro x hx h
    obtain ⟨y, hy, -⟩ := scan_INDEX_sized u m _ x (by rw [hx.2, hx.1, hlen])
      (by rw [hx.1]; exact h2)
    rw [hy] at h
    cases h
  · intro x x' hx h
    cases h
    exact hx
  · intro x x' hx h
    split at h
    · cases h
      exact hx
    · obtain ⟨r, -, rfl⟩ := Option.map_eq_some'.mp h
      exact hx
  · intro x x' hx h
    cases h
    exact hx

/-- A line that is no track header, scanned after `k >= 1` headers: what it does to
the `INDEX` array of the track of the last header. -/
theorem scan_line_INDEX (u : Uninit) (st : Scan) (l : List Char) (k : Nat) (hk : 1 ≤ k)
    (hc : st.counted k) (hh : (scan_fields (cstring l)).TRACK_tmp = none) (t : ccd_TRACK)
    (ht : st.ccd.TRACK.get? k = some t)
    (hlen : t.IndexEntries = (t.INDEX.length : Int)) (h2 : 2 ≤ t.INDEX.length) :
    ∃ t', (scan_line u st l).ccd.TRACK.get? k = some t'
      ∧ t'.IndexEntries = (t'.INDEX.length : Int)
      ∧ INDEX_step (scan_fields (cstring l)) t t' := by
  obtain ⟨X, hX, hb⟩ := scan_body_eq u (scan_fields (cstring l)) st
  obtain ⟨c1, c2, -⟩ := Scan.counted_of_tracks st k X hX hc
  have h3 : X.ccd.TRACK = st.ccd.TRACK := congrArg (fun p => p.2.2) hX
  have hcount : count_TRACK u (scan_fields (cstring l)) X = X := by
    unfold count_TRACK
    rw [hh]
    rfl
  have hp : peek X.ccd.TRACK X.TRACK = some t := by
    rw [c1, peek_eq_get?, h3]
    exact ht
  obtain ⟨t', ht', hl, hs⟩ := fill_TRACK_INDEX u (scan_fields (cstring l)) X t
    (by rw [c2]; omega) hp hlen h2
  obtain ⟨a1, -⟩ := fill_TRACK_keeps_others u (scan_fields (cstring l)) X
  rw [a1, c1, peek_eq_get?] at ht'
  unfold scan_line
  rw [hb, hcount]
  exact ⟨t', ht', hl, hs⟩

/-- The lines of a track section add one slot to the `INDEX` array of the track for
each line with an `INDEX` number other than 0 and 1. -/
theorem foldl_section_INDEX (u : Uninit) (body : List (List Char)) (st : Scan) (k : Nat)
    (hk : 1 ≤ k) (hc : st.counted k)
    (hbody : ∀ l ∈ body, (scan_fields (cstring l)).TRACK_tmp = none)
    (c : Nat) (t : ccd_TRACK) (ht : st.ccd.TRACK.get? k = some t)
    (hn : t.IndexEntries = ((2 + c : Nat) : Int)) (hl : t.INDEX.length = 2 + c) :
    (body.foldl (scan_line u) st).counted k
    ∧ ∃ t', (body.foldl (scan_line u) st).ccd.TRACK.get? k = some t'
        ∧ t'.IndexEntries = ((2 + (c + body.countP appends_INDEX) : Nat) : Int)
        ∧ t'.INDEX.length = 2 + (c + body.countP appends_INDEX) := by
  induction body generalizing st t c with
  | nil => exact ⟨hc, t, ht, hn, hl⟩
  | cons l ls ih =>
    rw [List.foldl_cons, List.countP_cons]
    have hno := hbody l (List.mem_cons_self _ _)
    obtain ⟨a1, -, -⟩ := scan_body_no_header u _ st k hc hno
    obtain ⟨t', ht', hl', h0, h1, h2⟩ := scan_line_INDEX u st l k hk hc hno t ht
      (by rw [hn, hl]) (by omega)
    have key : t'.IndexEntries = ((2 + (c + if appends_INDEX l = true then 1 else 0) : Nat) : Int) := by
      unfold appends_INDEX
      cases htmp : (scan_fields (cstring l)).INDEX_tmp with
      | none =>
        rw [(h0 htmp).1, hn]
        rfl
      | some n =>
        by_cases hq : n = 0 ∨ n = 1
        · rw [(h1 n htmp hq).1, hn]
          simp [hq]
        · rw [(h2 n htmp hq).1, hn]
          simp only [hq, not_false_eq_true, decide_True, if_true]
          push_cast
          ring
    have key2 : t'.INDEX.length = 2 + (c + if appends_INDEX l = true then 1 else 0) := by
      have := hl'.symm.trans key
      exact_mod_cast this
    obtain ⟨b1, t'', ht'', hn'', hl''⟩ := ih (scan_line u st l) a1
      (fun x hx => hbody x (List.mem_cons_of_mem _ hx)) _ t' ht' key key2
    refine ⟨b1, t'', ht'', ?_, ?_⟩
    · rw [hn'']
      congr 1
      omega
    · rw [hl'']
      omega

/-- The slot of a track section in the structure that `stream2ccd` leaves is the slot
as it is after the last line of the section. -/
theorem stream2ccd_section_slot (u : Uninit) (stream : List Char)
    (pre body rest : List (List Char)) (hdr : List Char)
    (hlines : my_getlines u.line [] stream = pre ++ hdr :: body ++ rest)
    (hhdr : (scan_fields (cstring hdr)).TRACK_tmp.isSome = true)
    (hbody : ∀ l ∈ body, (scan_fields (cstring l)).TRACK_tmp = none)
    (hrest : rest = [] ∨ ∃ h r, rest = h :: r ∧ (scan_fields (cstring h)).TRACK_tmp.isSome = true) :
    (stream2ccd u stream).ccd.TRACK.get?
        ((pre.countP fun l => (scan_fields (cstring l)).TRACK_tmp.isSome) + 1)
      = (body.foldl (scan_line u) ((pre ++ [hdr]).foldl (scan_line u) Scan.init)).ccd.TRACK.get?
          ((pre.countP fun l => (scan_fields (cstring l)).TRACK_tmp.isSome) + 1) := by
  generalize hk : (pre.countP fun l => (scan_fields (cstring l)).TRACK_tmp.isSome) = k
  have hfold : scan_stream u stream
      = rest.foldl (scan_line u)
          (body.foldl (scan_line u) ((pre ++ [hdr]).foldl (scan_line u) Scan.init)) := by
    unfold scan_stream
    rw [hlines]
    simp only [List.foldl_append, List.foldl_cons, List.foldl_nil]
  have h0 := foldl_counted u (pre ++ [hdr]) Scan.init 0 Scan.init_counted
  rw [List.countP_append, hk, Nat.zero_add, List.countP_singleton, if_pos hhdr] at h0
  generalize (pre ++ [hdr]).foldl (scan_line u) Scan.init = s1 at h0 hfold
  have h1 := foldl_counted u body s1 (k + 1) h0
  rw [List.countP_eq_zero.mpr (by
    intro l hl
    rw [hbody l hl]
    exact Bool.false_ne_true), Nat.add_zero] at h1
  generalize body.foldl (scan_line u) s1 = s2 at h1 hfold
  obtain ⟨r1, -⟩ := stream2ccd_tracks u stream
  show (stream2ccd u stream).ccd.TRACK.get? (k + 1) = _
  rw [r1, hfold]
  rcases hrest with rfl | ⟨h, r, rfl, hh⟩
  · rfl
  · rw [List.foldl_cons]
    obtain ⟨c1, c2, -⟩ := scan_body_header u (scan_fields (cstring h)) s2 (k + 1) h1 hh
    rw [foldl_keeps_slot u r (scan_line u s2 h) (k + 1 + 1) (k + 1) c1 (by omega) (by omega)]
    exact c2 (k + 1) (by omega) (by omega)

/-- The statements for the lines of a track keep `IndexEntries` equal to the number of
slots of the `INDEX` array, which stays at least two. -/
theorem fill_TRACK_keeps_sized (u : Uninit) (m : LineScan) (st : Scan) :
    Scan.keeps (fun t => t.IndexEntries = (t.INDEX.length : Int) ∧ 2 ≤ t.INDEX.length) st
      (fill_TRACK u m st) := by
  refine fill_TRACK_keeps_line u m st _ (fun _ h => h) (fun _ _ h => h) (fun _ h => h) ?_
  intro i t t' hP h
  obtain ⟨y, hy, hl, h0, h1, h2⟩ := scan_INDEX_sized u m i t hP.1 hP.2
  rw [hy] at h
  cases h
  refine ⟨hl, ?_⟩
  have hge : t.IndexEntries ≤ t'.IndexEntries := by
    cases htmp : m.INDEX_tmp with
    | none => rw [(h0 htmp).1]
    | some n =>
      by_cases hq : n = 0 ∨ n = 1
      · rw [(h1 n htmp hq).1]
      · rw [(h2 n htmp hq).1]
        omega
  have := hP.1
  have := hP.2
  omega

/-- C33: an `INDEX n = v` line of a track, for `n` 0 or 1, puts `v` into slot `n` of the
`INDEX` array of the track and leaves `IndexEntries` and the other slots; for any other
`n` it puts `v` into a new last slot and adds one to `IndexEntries`, leaving the slots
there were.  So for every track that `stream2ccd` leaves, `IndexEntries` is the number of
slots of its `INDEX` array, and it is 2 plus the number of lines of the section of the
track (the lines from its header to the next track header or the end) on which the
template `INDEX n =` assigns a number other than 0 and 1. -/
theorem stream2ccd_INDEX_entries (u : Uninit) (stream : List Char) :
    (∀ i : Nat, 1 ≤ i → (i : Int) ≤ (stream2ccd u stream).ccd.TrackEntries →
        ∃ t, (stream2ccd u stream).ccd.TRACK.get? i = some t
          ∧ t.IndexEntries = (t.INDEX.length : Int) ∧ 2 ≤ t.INDEX.length)
    ∧ (∀ (st : Scan) (k : Nat) (l : List Char) (t : ccd_TRACK) (n v : Int),
        1 ≤ k → st.counted k → st.ccd.TRACK.get? k = some t →
        t.IndexEntries = (t.INDEX.length : Int) → 2 ≤ t.INDEX.length →
        (scan_fields (cstring l)).INDEX_tmp = some n →
        (scan_fields (cstring l)).INDEX = some v →
        ∃ t', (scan_line u st l).ccd.TRACK.get? k = some t'
          ∧ (n = 0 ∨ n = 1 →
              t'.IndexEntries = t.IndexEntries ∧ t'.INDEX = t.INDEX.set n.toNat v)
          ∧ (¬ (n = 0 ∨ n = 1) →
              t'.IndexEntries = t.IndexEntries + 1 ∧ t'.INDEX = t.INDEX ++ [v]))
    ∧ (∀ (pre body rest : List (List Char)) (hdr : List Char),
        my_getlines u.line [] stream = pre ++ hdr :: body ++ rest →
        (scan_fields (cstring hdr)).TRACK_tmp.isSome = true →
        (∀ l ∈ body, (scan_fields (cstring l)).TRACK_tmp = none) →
        (rest = [] ∨ ∃ h r, rest = h :: r ∧ (scan_fields (cstring h)).TRACK_tmp.isSome = true) →
        ∃ t, (stream2ccd u stream).ccd.TRACK.get?
              ((pre.countP fun l => (scan_fields (cstring l)).TRACK_tmp.isSome) + 1) = some t
          ∧ t.IndexEntries = ((2 + body.countP appends_INDEX : Nat) : Int)
          ∧ t.INDEX.length = 2 + body.countP appends_INDEX) := by
  refine ⟨?_, ?_, ?_⟩
  · exact stream2ccd_all u stream _ ⟨rfl, by decide⟩
      (fun l s => fill_TRACK_keeps_sized u (scan_fields (cstring l)) s)
  · intro st k l t n v hk hc ht hlen h2 htmp hv
    have hno : (scan_fields (cstring l)).TRACK_tmp = none := by
      cases hx : (scan_fields (cstring l)).TRACK_tmp with
      | none => rfl
      | some w =>
        have := header_no_INDEX (cstring l) (by rw [hx]; rfl)
        rw [htmp] at this
        cases this
    obtain ⟨t', ht', -, -, h1, h2'⟩ := scan_line_INDEX u st l k hk hc hno t ht hlen h2
    refine ⟨t', ht', fun hq => ?_, fun hq => ?_⟩
    · exact ⟨(h1 n htmp hq).1, (h1 n htmp hq).2.2 v hv⟩
    · obtain ⟨e1, x, e2, e3⟩ := h2' n htmp hq
      rw [e3 v hv] at e2
      exact ⟨e1, e2⟩
  · intro pre body rest hdr hlines hhdr hbody hrest
    rw [stream2ccd_section_slot u stream pre body rest hdr hlines hhdr hbody hrest]
    have h0 := foldl_counted u pre Scan.init 0 Scan.init_counted
    rw [Nat.zero_add] at h0
    have hinit := scan_line_header_init u _ hdr _ h0 hhdr
    have h1 := (scan_body_header u (scan_fields (cstring hdr)) _ _ h0 hhdr).1
    have e : (pre ++ [hdr]).foldl (scan_line u) Scan.init
        = scan_line u (pre.foldl (scan_line u) Scan.init) hdr := by
      rw [List.foldl_append, List.foldl_cons, List.foldl_nil]
    rw [e]
    obtain ⟨-, t', ht', hn, hl⟩ := foldl_section_INDEX u body _ _ (by omega) h1 hbody 0
      ccd_TRACK_init hinit rfl rfl
    rw [Nat.zero_add] at hn hl
    exact ⟨t', ht', hn, hl⟩

set_option maxRecDepth 1000000 in
/-- Witness of C33 for a sheet with one track section with the lines `INDEX 0`,
`INDEX 1`, `INDEX 2` and `INDEX 7`: the `INDEX` array has the four values in this
order, and `IndexEntries` is 4. -/
theorem stream2ccd_INDEX_entries_witness :
    ((stream2ccd Uninit.zeroed sample_four_indexes_sheet).ccd.TRACK.get? 1).map
        (fun t => (t.INDEX, t.IndexEntries)) = some ([0, 150, 300, 450], 4)
    ∧ ∃ t, (stream2ccd Uninit.zeroed sample_four_indexes_sheet).ccd.TRACK.get?
          ((([] : List (List Char)).countP
            fun l => (scan_fields (cstring l)).TRACK_tmp.isSome) + 1) = some t
        ∧ t.IndexEntries
          = ((2 + ["MODE=0\n".toList, "INDEX 0=0\n".toList, "INDEX 1=150\n".toList,
              "INDEX 2=300\n".toList, "INDEX 7=450\n".toList, []].countP appends_INDEX : Nat)
            : Int)
        ∧ t.INDEX.length
          = 2 + ["MODE=0\n".toList, "INDEX 0=0\n".toList, "INDEX 1=150\n".toList,
              "INDEX 2=300\n".toList, "INDEX 7=450\n".toList, []].countP appends_INDEX :=
  ⟨by decide,
    (stream2ccd_INDEX_entries Uninit.zeroed sample_four_indexes_sheet).2.2 []
      ["MODE=0\n".toList, "INDEX 0=0\n".toList, "INDEX 1=150\n".toList,
        "INDEX 2=300\n".toList, "INDEX 7=450\n".toList, []] [] "[TRACK 1]\n".toList
      (by decide) (by decide)
      (by
        intro l hl
        simp only [List.mem_cons, List.mem_singleton, List.not_mem_nil, or_false] at hl
        rcases hl with rfl | rfl | rfl | rfl | rfl | rfl <;> decide)
      (Or.inl rfl)⟩

/-! ## Theorems: negative frame counts -/

set_option maxRecDepth 1000000 in
/-- C34, evaluated where the code departs from it.  The line `INDEX 0=-150` of a track
section puts -150 into `INDEX[0]` of the track: a slot that is neither -1 nor a frame
count.  `ccd2cue` passes it to `frames2msf`, and the assertion `frames >= 0` fails: no
CUE structure is returned. -/
theorem stream2ccd_negative_frame_count :
    (stream2ccd Uninit.zeroed sample_negative_pregap_sheet).ccd.TrackEntries = 1
    ∧ ((stream2ccd Uninit.zeroed sample_negative_pregap_sheet).ccd.TRACK.get? 1).map
        (fun t => t.INDEX) = some [-150, 0]
    ∧ (stream2ccd Uninit.zeroed sample_negative_pregap_sheet).oob = []
    ∧ (-150 : Int) ≠ -1 ∧ ¬ ((0 : Int) ≤ -150)
    ∧ frames2msf (-150) = .error Failure.assertion
    ∧ ccd2cue Uninit.zeroed (stream2ccd Uninit.zeroed sample_negative_pregap_sheet).ccd
        "image.img".toList "image.cdt".toList = .error Failure.assertion := by
  refine ⟨by decide, by decide, by decide, by decide, by decide, rfl, rfl⟩

/-! ## Theorems: the `INDEX` lines of the CUE sheet -/

/-- The conversion `%02u` prints a number below 100 as its two decimal digits. -/
theorem printf_02u_two_digits (v : Nat) (h : v < 100) : printf_02u v = two_digits v := by
  interval_cases v <;> rfl

theorem printf_msf_two_digits (x : cue_time) (hm : x.minutes < 100) (hs : x.seconds < 100)
    (hf : x.frames < 100) :
    printf_msf x = two_digits x.minutes ++ ":".toList ++ two_digits x.seconds ++ ":".toList
      ++ two_digits x.frames := by
  unfold printf_msf
  rw [printf_02u_two_digits _ hm, printf_02u_two_digits _ hs, printf_02u_two_digits _ hf]

theorem cue_line.INDEX_word (l : cue_line) (h : starts_with_word "INDEX" l.text = true) :
    ∃ slot x, l = cue_line.INDEX slot x := by
  cases l with
  | INDEX slot x => exact ⟨slot, x, rfl⟩
  | _ => simp [starts_with_word, cue_line.text, List.isPrefixOf] at h

set_option maxRecDepth 1000000 in
/-- C35, as stated, fails for a slot position of three digits.  The track of
`sample_long_index_cue`, which `ccd2cue` builds from `sample_long_index_ccd`, has slot
100 of its `INDEX` array set, with minutes 0, seconds 2 and frames 0.  `cue2stream`
prints for it the line `INDEX 100 00:02:00` after four spaces: the number takes three
digits, and no line printed is four spaces, `INDEX`, two characters, and the time. -/
theorem cue2stream_INDEX_slot_100 :
    ccd2cue Uninit.zeroed sample_long_index_ccd "image.img".toList "image.cdt".toList
      = .ok sample_long_index_cue
    ∧ ((sample_long_index_cue.FILE.get? 0).bind fun f => (f.TRACK.get? 1).bind fun t =>
        t.INDEX.get? 100) = some { initialized := 1, minutes := 0, seconds := 2, frames := 0 }
    ∧ cue2lines sample_long_index_cue
      = .ok ["FILE \"image.img\" BINARY\n".toList, "  TRACK 1 AUDIO\n".toList,
             "    INDEX 100 00:02:00\n".toList]
    ∧ ∀ d1 d2 : Char, "    INDEX ".toList ++ [d1, d2] ++ " 00:02:00\n".toList
        ∉ ["FILE \"image.img\" BINARY\n".toList, "  TRACK 1 AUDIO\n".toList,
           "    INDEX 100 00:02:00\n".toList] := by
  refine ⟨rfl, by decide, rfl, ?_⟩
  intro d1 d2 h
  simp only [List.mem_cons, List.mem_singleton, List.not_mem_nil, or_false] at h
  rcases h with h | h | h <;>
    · have hl := congrArg List.length h
      simp only [List.length_append, List.length_cons, List.length_nil] at hl
      exact absurd hl (by decide)

set_option maxRecDepth 1000000 in
/-- C35, amended: for every CUE structure that `cue2stream` prints, every track of it and
every set slot `k` of the `INDEX` array of the track with `k`, minutes, seconds and
frames each below 100, the output has the line of four spaces, `INDEX`, a space, `k` as
two decimal digits, a space, the minutes, seconds and frames as two decimal digits each
with colons between them, and a newline.  The number is the position `k` of the slot.
Every line printed with `INDEX` as its first word is the line of a slot, printed by the
template `INDEX %02u %02u:%02u:%02u` after four spaces.  So for the sheet whose track has
the lines `INDEX 0=0`, `INDEX 1=150`, `INDEX 2=300` and `INDEX 7=450`, the frame count of
the line with the number 7, which is in slot 3, is printed as `INDEX 03 00:06:00`. -/
theorem cue2stream_INDEX_line :
    (∀ (q : cue) (ls : List (List Char)), cue2lines q = .ok ls →
      cue2stream q = .ok ls.flatten
      ∧ (∀ (i n k : Nat) (f : cue_FILE) (t : cue_TRACK) (x : cue_time),
          (i : Int) < q.FileEntries → q.FILE.get? i = some f →
          f.FirstTrack ≤ (n : Int) → (n : Int) ≤ f.TrackEntries → f.TRACK.get? n = some t →
          (k : Int) < t.IndexEntries → t.INDEX.get? k = some x → x.initialized ≠ 0 →
          k < 100 → x.minutes < 100 → x.seconds < 100 → x.frames < 100 →
          "    INDEX ".toList ++ two_digits k ++ " ".toList ++ two_digits x.minutes
            ++ ":".toList ++ two_digits x.seconds ++ ":".toList ++ two_digits x.frames
            ++ "\n".toList ∈ ls)
      ∧ (∀ l ∈ ls, starts_with_word "INDEX" l = true →
          ∃ (k : Nat) (x : cue_time),
            l = "    INDEX ".toList ++ printf_02u k ++ " ".toList ++ printf_msf x
              ++ "\n".toList))
    ∧ convert Uninit.zeroed sample_four_indexes_sheet "image.img".toList "image.cdt".toList
      = .ok ("FILE \"image.img\" BINARY\n  TRACK 1 AUDIO\n    INDEX 00 00:00:00\n".toList
          ++ "    INDEX 01 00:02:00\n    INDEX 02 00:04:00\n    INDEX 03 00:06:00\n".toList) := by
  refine ⟨fun q ls h => ?_, rfl⟩
  obtain ⟨-, e⟩ := cue2lines_ok q ls h
  refine ⟨?_, ?_, ?_⟩
  · unfold cue2stream
    rw [h]
    rfl
  · intro i n k f t x hi hf h1 h2 ht hk hx hset hk100 hm hs hfr
    have hmem : cue_line.INDEX k x ∈ cue_TRACK.lines n t := by
      rw [(cue_TRACK.optional_line_iff n t).2.2.2.2.2.2.1 k x]
      refine ⟨?_, hset⟩
      rw [List.get?_eq_getElem?, List.getElem?_take_of_lt (by omega), ← List.get?_eq_getElem?]
      exact hx
    have hq := cue.lines_of_TRACK q i n f t hf hi h1 h2 ht _ hmem
    rw [e]
    refine List.mem_map.mpr ⟨_, hq, ?_⟩
    simp only [cue_line.text]
    rw [printf_02u_two_digits k hk100, printf_msf_two_digits x hm hs hfr]
    simp only [List.append_assoc]
  · intro l hl hw
    rw [e] at hl
    obtain ⟨c, -, rfl⟩ := List.mem_map.mp hl
    obtain ⟨k, x, rfl⟩ := cue_line.INDEX_word c hw
    exact ⟨k, x, rfl⟩

set_option maxRecDepth 1000000 in
/-- Witness of C35 for the third slot of the second track of `sample_tracks_cue`, with
minutes 1, seconds 1 and frames 74: the output has the line `INDEX 02 01:01:74`. -/
theorem cue2stream_INDEX_line_witness :
    (∃ ls, cue2lines sample_tracks_cue = .ok ls)
    ∧ ∀ ls, cue2lines sample_tracks_cue = .ok ls → "    INDEX 02 01:01:74\n".toList ∈ ls := by
  refine ⟨cue2lines_returns _ sample_tracks_cue_sized, fun ls h => ?_⟩
  exact (cue2stream_INDEX_line.1 sample_tracks_cue ls h).2.1 0 2 2 _ _
    { initialized := 1, minutes := 1, seconds := 1, frames := 74 }
    (by decide) rfl (by decide) (by decide) rfl (by decide) rfl (by decide)
    (by decide) (by decide) (by decide) (by decide)

/-! ## Theorems: the sessions that the reconciliation keeps -/

set_option maxRecDepth 1000000 in
/-- C36, evaluated where the code departs from it.  The sheet announces five sessions
and holds two.  After the loop the values of the second section are in slot 2 of the
`Session` array; the reconciliation cuts the array to `Session = 2` slots, the slots 0
and 1, so that slot 2 with the values of the second observed session is gone, while
`Disc.Sessions` says 2. -/
theorem stream2ccd_drops_last_session :
    (scan_stream Uninit.zeroed sample_two_sessions_sheet).Session = 2
    ∧ (scan_stream Uninit.zeroed sample_two_sessions_sheet).ccd.Session.get? 1
        = some { PreGapMode := 1, PreGapSubC := 0 }
    ∧ (scan_stream Uninit.zeroed sample_two_sessions_sheet).ccd.Session.get? 2
        = some { PreGapMode := 2, PreGapSubC := 1 }
    ∧ (stream2ccd Uninit.zeroed sample_two_sessions_sheet).ccd.Disc.Sessions = 2
    ∧ (stream2ccd Uninit.zeroed sample_two_sessions_sheet).ccd.Session.length = 2
    ∧ (stream2ccd Uninit.zeroed sample_two_sessions_sheet).ccd.Session.get? 1
        = some { PreGapMode := 1, PreGapSubC := 0 }
    ∧ (stream2ccd Uninit.zeroed sample_two_sessions_sheet).ccd.Session.get? 2 = none := by
  decide

/-! ## Theorems: the slots that field lines write to -/

set_option maxRecDepth 1000000 in
/-- C37, evaluated where the code departs from it.  With two sessions announced and
three `[Session n]` sections, the `PreGapMode` line of the third section is written
with the index 3 into an array of 3 slots; with two CD-Text entries announced and three
`Entry n = ...` lines, the third line is written with the index 2 into an array of 2
slots.  Neither index is below the number of slots.  With two Toc entries announced
and three `[Entry n]` sections, the `Point` line of the third section is written with
the index 2 into an array of 3 slots, the spare slot. -/
theorem stream2ccd_write_index_not_below_slots :
    (scan_stream Uninit.zeroed sample_three_sessions_sheet).ccd.Session.length = 3
    ∧ (scan_stream Uninit.zeroed sample_three_sessions_sheet).Session = 3
    ∧ (scan_stream Uninit.zeroed sample_three_sessions_sheet).oob = [(Region.Session, 3)]
    ∧ (scan_stream Uninit.zeroed sample_three_cdtext_sheet).ccd.CDText.Entry.length = 2
    ∧ (scan_stream Uninit.zeroed sample_three_cdtext_sheet).CDTextEntry = 2
    ∧ (scan_stream Uninit.zeroed sample_three_cdtext_sheet).oob = [(Region.CDText, 2)]
    ∧ (scan_stream Uninit.zeroed sample_three_toc_sheet).ccd.Entry.length = 3
    ∧ (scan_stream Uninit.zeroed sample_three_toc_sheet).TocEntry = 2
    ∧ (scan_stream Uninit.zeroed sample_three_toc_sheet).oob = []
    ∧ ((scan_stream Uninit.zeroed sample_three_toc_sheet).ccd.Entry.map fun e => e.Point)
        = [1, 2, 3] := by
  decide

/-! ## Theorems: headers before the announcement -/

theorem headers_eq_zero {α : Type} (f : α → Option Int × Bool) (post : List α)
    (h : ∀ l ∈ post, (f l).2 = false) : headers (post.map f) = 0 := by
  simp only [headers, List.countP_eq_zero, List.mem_map]
  rintro l ⟨a, ha, rfl⟩
  simp [h a ha]

/-- Headers that come before the announcement are not counted.  For a stream in which
no line after the first positive announcement of a kind is a header of the kind (its
headers, if any, all come before), the loop ends with the array announced and no
header counted, so that the statements after the loop call `xrealloc` with size 0.
On an implementation whose `realloc` returns a null pointer for size 0 the program
ends there with `exit (EX_OSERR)`; when `stream2ccd` returns, the number of entries of
the kind is 0. -/
theorem stream2ccd_headers_first (u : Uninit) (stream : List Char)
    (pre post : List (List Char)) (cl : List Char) (C : Int)
    (hlines : my_getlines u.line [] stream = pre ++ cl :: post) (hC : 0 < C) :
    ((∀ l ∈ pre, ∀ v, (scan_fields (cstring l)).Sessions = some v → v ≤ 0)
      → (scan_fields (cstring cl)).Sessions = some C
      → (∀ l ∈ post, (scan_fields (cstring l)).Session_tmp = none)
      → (scan_stream u stream).starved
        ∧ (u.null_on_zero = true → (stream2ccd u stream).exit = some (.exit EX_OSERR))
        ∧ ((stream2ccd u stream).exit = none → (stream2ccd u stream).ccd.Disc.Sessions = 0))
    ∧ ((∀ l ∈ pre, ∀ v, (scan_fields (cstring l)).TocEntries = some v → v ≤ 0)
      → (scan_fields (cstring cl)).TocEntries = some C
      → (∀ l ∈ post, (scan_fields (cstring l)).TocEntry_tmp = none)
      → (scan_stream u stream).starved
        ∧ (u.null_on_zero = true → (stream2ccd u stream).exit = some (.exit EX_OSERR))
        ∧ ((stream2ccd u stream).exit = none → (stream2ccd u stream).ccd.Disc.TocEntries = 0))
    ∧ ((∀ l ∈ pre, ∀ v, (scan_fields (cstring l)).CDTextEntries = some v → v ≤ 0)
      → (scan_fields (cstring cl)).CDTextEntries = some C
      → (∀ l ∈ post, (scan_fields (cstring l)).CDTextEntry_tmp = none)
      → (scan_stream u stream).starved
        ∧ (u.null_on_zero = true → (stream2ccd u stream).exit = some (.exit EX_OSERR))
        ∧ ((stream2ccd u stream).exit = none → (stream2ccd u stream).ccd.CDText.Entries = 0)) := by
  obtain ⟨t1, t2, t3⟩ := stream2ccd_tally u stream pre post cl C hlines hC
  obtain ⟨s1, s2, s3⟩ := scan_stream_first_positive u stream pre post cl C hlines hC
  obtain ⟨r1, -, r3, -, r5, -⟩ := reconciled_tally u (scan_stream u stream)
  have key : (scan_stream u stream).starved →
      (u.null_on_zero = true → (stream2ccd u stream).exit = some (.exit EX_OSERR))
      ∧ ((stream2ccd u stream).exit = none →
          (stream2ccd u stream).ccd = (scan_stream u stream).reconciled u) := by
    intro hs
    rcases stream2ccd_cases u stream with ⟨h1, h2, h3⟩ | ⟨h1, -, -, -⟩
    · exact ⟨fun hz => absurd ⟨hz, hs⟩ h3, fun _ => h2⟩
    · refine ⟨fun _ => h1, fun hx => ?_⟩
      rw [h1] at hx
      cases hx
  refine ⟨fun hpre hcl hpost => ?_, fun hpre hcl hpost => ?_, fun hpre hcl hpost => ?_⟩
  · have h0 : post.countP (fun l => (scan_fields (cstring l)).Session_tmp.isSome) = 0 := by
      rw [← headers_map_as_Session]
      exact headers_eq_zero as_Session post (fun l hl => by simp [as_Session, hpost l hl])
    obtain ⟨hc, hs⟩ := s1 hpre hcl
    have hst : (scan_stream u stream).starved := Or.inl ⟨by rw [hs, h0]; omega, by rw [hc]; exact hC⟩
    obtain ⟨k1, k2⟩ := key hst
    refine ⟨hst, k1, fun hx => ?_⟩
    rw [k2 hx, r1, t1 hpre hcl, headers_map_as_Session, h0]
    simp only [Nat.cast_zero]
    omega
  · have h0 : post.countP (fun l => (scan_fields (cstring l)).TocEntry_tmp.isSome) = 0 := by
      rw [← headers_map_as_Entry]
      exact headers_eq_zero as_Entry post (fun l hl => by simp [as_Entry, hpost l hl])
    obtain ⟨hc, hs⟩ := s2 hpre hcl
    have hst : (scan_stream u stream).starved :=
      Or.inr (Or.inl ⟨by rw [hs, h0]; omega, by rw [hc]; exact hC⟩)
    obtain ⟨k1, k2⟩ := key hst
    refine ⟨hst, k1, fun hx => ?_⟩
    rw [k2 hx, r3, t2 hpre hcl, headers_map_as_Entry, h0]
    simp only [Nat.cast_zero]
    omega
  · have h0 : post.countP (fun l => (scan_fields (cstring l)).CDTextEntry_tmp.isSome) = 0 := by
      rw [← headers_map_as_CDText]
      exact headers_eq_zero as_CDText post (fun l hl => by simp [as_CDText, hpost l hl])
    obtain ⟨hc, hs⟩ := s3 hpre hcl
    have hst : (scan_stream u stream).starved :=
      Or.inr (Or.inr ⟨by rw [hs, h0]; omega, by rw [hc]; exact hC⟩)
    obtain ⟨k1, k2⟩ := key hst
    refine ⟨hst, k1, fun hx => ?_⟩
    rw [k2 hx, r5, t3 hpre hcl, headers_map_as_CDText, h0]
    simp only [Nat.cast_zero]
    omega

set_option maxRecDepth 1000000 in
/-- C38, evaluated where the code departs from it.  For the sheet with the header
`[Session 1]` before the line `Sessions=1`, the header is not counted: the loop ends
with one session announced and the counter `Session` at 0.  The statements after the
loop then call `xrealloc` with size 0; with the `realloc` of the GNU C library, which
returns a null pointer for size 0, `xrealloc` ends the program with `exit (EX_OSERR)`:
`stream2ccd` does not return, and no CUE sheet is written.  `Disc.Sessions` becomes 0
only with a `realloc` that returns a block for size 0. -/
theorem stream2ccd_exits_on_header_first :
    (scan_stream Uninit.zeroed sample_header_first_sheet).Session = 0
    ∧ (scan_stream Uninit.zeroed sample_header_first_sheet).ccd.Disc.Sessions = 1
    ∧ Uninit.zeroed.null_on_zero = true
    ∧ reconcile Uninit.zeroed (scan_stream Uninit.zeroed sample_header_first_sheet)
        = .error (.exit EX_OSERR)
    ∧ (stream2ccd Uninit.zeroed sample_header_first_sheet).exit = some (.exit EX_OSERR)
    ∧ convert Uninit.zeroed sample_header_first_sheet "image.img".toList "image.cdt".toList
        = .error (.exit EX_OSERR)
    ∧ (stream2ccd { Uninit.zeroed with null_on_zero := false } sample_header_first_sheet).exit
        = none
    ∧ (stream2ccd { Uninit.zeroed with null_on_zero := false }
        sample_header_first_sheet).ccd.Disc.Sessions = 0 :=
  ⟨by decide, by decide, rfl, rfl, by decide, rfl, by decide, by decide⟩

/-! ## Theorems: frames to MSF, back and in order -/

/-- C39: for every frame count `n >= 0`, `frames2msf` returns a time `(m, s, f)` with
`m * 4500 + s * 75 + f = n`, `s < 60` and `f < 75`; so two frame counts with the same
time are equal, and of two frame counts the smaller one has the time that comes first
in the order by minutes, then seconds, then frames. -/
theorem frames2msf_lossless :
    (∀ n : Nat, ∃ t, frames2msf (n : Int) = .ok t
      ∧ t.minutes * 4500 + t.seconds * 75 + t.frames = n ∧ t.seconds < 60 ∧ t.frames < 75)
    ∧ (∀ n1 n2 : Nat, frames2msf (n1 : Int) = frames2msf (n2 : Int) → n1 = n2)
    ∧ (∀ (n1 n2 : Nat) (t1 t2 : cue_time), n1 < n2 →
        frames2msf (n1 : Int) = .ok t1 → frames2msf (n2 : Int) = .ok t2 →
        t1.minutes < t2.minutes
        ∨ (t1.minutes = t2.minutes
          ∧ (t1.seconds < t2.seconds ∨ (t1.seconds = t2.seconds ∧ t1.frames < t2.frames)))) := by
  have key : ∀ n : Nat, frames2msf (n : Int)
      = .ok { initialized := 1, minutes := n / 4500, seconds := (n % 4500) / 75,
              frames := (n % 4500) % 75 } := by
    intro n
    have h : ¬ ((n : Int) < 0) := by omega
    simp [frames2msf, h, FRAMES_PER_MINUTE, FRAMES_PER_SECOND, SECONDS_PER_MINUTE]
  refine ⟨fun n => ⟨_, key n, ?_, ?_, ?_⟩, fun n1 n2 h => ?_, fun n1 n2 t1 t2 hlt h1 h2 => ?_⟩
  · show n / 4500 * 4500 + n % 4500 / 75 * 75 + n % 4500 % 75 = n
    omega
  · show n % 4500 / 75 < 60
    omega
  · show n % 4500 % 75 < 75
    omega
  · rw [key n1, key n2] at h
    have h' := Except.ok.inj h
    have e1 : n1 / 4500 = n2 / 4500 := congrArg cue_time.minutes h'
    have e2 : n1 % 4500 / 75 = n2 % 4500 / 75 := congrArg cue_time.seconds h'
    have e3 : n1 % 4500 % 75 = n2 % 4500 % 75 := congrArg cue_time.frames h'
    omega
  · rw [key n1] at h1
    rw [key n2] at h2
    have h1' := Except.ok.inj h1
    have h2' := Except.ok.inj h2
    subst h1'
    subst h2'
    show n1 / 4500 < n2 / 4500
      ∨ (n1 / 4500 = n2 / 4500
        ∧ (n1 % 4500 / 75 < n2 % 4500 / 75
          ∨ (n1 % 4500 / 75 = n2 % 4500 / 75 ∧ n1 % 4500 % 75 < n2 % 4500 % 75)))
    omega

/-- Witness of C39 for the frame counts 4649 and 4650: the times are 1:01:74 and
1:02:00. -/
theorem frames2msf_lossless_witness :
    (4649 : Nat) < 4650
    ∧ frames2msf ((4649 : Nat) : Int)
        = .ok { initialized := 1, minutes := 1, seconds := 1, frames := 74 }
    ∧ frames2msf ((4650 : Nat) : Int)
        = .ok { initialized := 1, minutes := 1, seconds := 2, frames := 0 }
    ∧ ((1 : Nat) < 1 ∨ ((1 : Nat) = 1 ∧ ((1 : Nat) < 2 ∨ ((1 : Nat) = 2 ∧ (74 : Nat) < 0)))) :=
  ⟨by decide, rfl, rfl,
    frames2msf_lossless.2.2 4649 4650
      { initialized := 1, minutes := 1, seconds := 1, frames := 74 }
      { initialized := 1, minutes := 1, seconds := 2, frames := 0 }
      (by decide) rfl rfl⟩

/-! ## Theorems: the checksum of a record with its checksum -/

theorem gf2_mul_two (q g : Nat) : gf2_mul (2 * q) g = 2 * gf2_mul q g := by
  have h := gf2_mul_bit q g 0 (by decide)
  simpa using h

theorem gf2_mul_shift (q g k : Nat) : gf2_mul (q * 2 ^ k) g = gf2_mul q g * 2 ^ k := by
  induction k with
  | zero => simp
  | succ k ih =>
    have e : q * 2 ^ (k + 1) = 2 * (q * 2 ^ k) := by ring
    rw [e, gf2_mul_two, ih]
    ring

theorem xor_mul_two_pow (a b k : Nat) : (a ^^^ b) * 2 ^ k = a * 2 ^ k ^^^ b * 2 ^ k := by
  induction k with
  | zero => simp
  | succ k ih =>
    have e : ∀ x : Nat, x * 2 ^ (k + 1) = 2 * (x * 2 ^ k) := fun x => by ring
    rw [e, e a, e b, ih, two_mul_xor]

theorem message_poly_append_two (p : List Nat) (x y : Nat) (hx : x < 2 ^ 8) (hy : y < 2 ^ 8) :
    message_poly (p ++ [x, y]) = message_poly p * 2 ^ 16 + (x * 2 ^ 8 + y) := by
  unfold message_poly
  rw [List.foldl_append]
  simp only [List.foldl_cons, List.foldl_nil, Nat.mod_eq_of_lt hx, Nat.mod_eq_of_lt hy]
  ring

/-- The checksum of a message followed by the two bytes of its checksum, high byte
first, is the same for every message. -/
theorem crc16_append_crc (p : List Nat) :
    crc16 (p ++ [crc16 p >>> 8, crc16 p &&& 0xFF]) = 0xE2F0 := by
  obtain ⟨ha, q, hq⟩ := crc16_acc_remainder p
  obtain ⟨-, q0, hq0⟩ := crc16_acc_remainder [255, 255]
  have hc : crc16 p < 2 ^ 16 := crc16_lt p
  have hcx : crc16 p = crc16_acc p ^^^ 0xFFFF := complement16 _ ha
  have hhi : crc16 p >>> 8 < 2 ^ 8 := by
    rw [Nat.shiftRight_eq_div_pow]
    omega
  have hlo : crc16 p &&& 0xFF < 2 ^ 8 := by
    have e : (0xFF : Nat) = 2 ^ 8 - 1 := by decide
    rw [e, Nat.and_pow_two_sub_one_eq_mod]
    exact Nat.mod_lt _ (by decide)
  have hsplit : (crc16 p >>> 8) * 2 ^ 8 + (crc16 p &&& 0xFF) = crc16 p := by
    have e : (0xFF : Nat) = 2 ^ 8 - 1 := by decide
    rw [e, Nat.and_pow_two_sub_one_eq_mod, Nat.shiftRight_eq_div_pow]
    omega
  have hM : message_poly (p ++ [crc16 p >>> 8, crc16 p &&& 0xFF])
      = gf2_mul q ccitt_poly ^^^ 0xFFFF := by
    rw [message_poly_append_two p _ _ hhi hlo, hsplit, shiftLeft_add_eq_xor _ _ 16 hc, hq, hcx,
      Nat.xor_assoc, ← Nat.xor_assoc (crc16_acc p), Nat.xor_self, Nat.zero_xor]
  have h255 : message_poly [255, 255] = 0xFFFF := by decide
  rw [h255] at hq0
  have hrem : ccitt_remainder (message_poly (p ++ [crc16 p >>> 8, crc16 p &&& 0xFF]) * 2 ^ 16)
      (crc16_acc [255, 255]) := by
    refine ⟨by decide, q * 2 ^ 16 ^^^ q0, ?_⟩
    rw [hM, xor_mul_two_pow, hq0, gf2_mul_xor, gf2_mul_shift, Nat.xor_assoc]
  have hacc := ccitt_remainder_unique _ _ _
    (crc16_acc_remainder (p ++ [crc16 p >>> 8, crc16 p &&& 0xFF])) hrem
  unfold crc16 at hacc ⊢
  rw [hacc]
  decide

/-- C40: `crc16` over the 18 bytes of a record that `ccd2cdt` builds, the 16 bytes of
the payload followed by the high and the low byte of their checksum, is `0xE2F0`,
whatever the payload: for every record of every CDT structure that `ccd2cdt` returns,
and for every payload as such. -/
theorem cdt_record_self_checking :
    (∀ (c : ccd) (n : Int) (t : cdt), ccd2cdt c = .ok (n, t) →
      ∀ e ∈ t.entry, crc16 e.bytes = 0xE2F0)
    ∧ (∀ d : cdt_data,
        crc16 (({ data := d, crc0 := (crc16 d.bytes >>> 8) &&& 0xff,
                  crc1 := crc16 d.bytes &&& 0xff } : cdt_entry).bytes) = 0xE2F0) := by
  have hd : ∀ d : cdt_data,
      crc16 (({ data := d, crc0 := (crc16 d.bytes >>> 8) &&& 0xff,
                crc1 := crc16 d.bytes &&& 0xff } : cdt_entry).bytes) = 0xE2F0 := by
    intro d
    show crc16 (d.bytes ++ [(crc16 d.bytes >>> 8) &&& 0xff, crc16 d.bytes &&& 0xff]) = 0xE2F0
    rw [crc16_high_byte]
    exact crc16_append_crc d.bytes
  refine ⟨fun c n t h e he => ?_, hd⟩
  unfold ccd2cdt at h
  split at h
  · cases h
  · cases hm : (List.range c.CDText.Entries.toNat).mapM (fun i =>
        fetch c.CDText.Entry i >>= fun data =>
          (pure ({ data := data, crc0 := (crc16 data.bytes >>> 8) &&& 0xff,
                   crc1 := crc16 data.bytes &&& 0xff } : cdt_entry) : Except Failure cdt_entry)) with
    | error x =>
      exfalso
      simp only [bind, Except.bind, pure, Except.pure] at h hm
      rw [hm] at h
      cases h
    | ok ys =>
      have hmem := mapM_fetch_mem _ _ _ _ hm
      simp only [bind, Except.bind, pure, Except.pure] at h hm
      rw [hm] at h
      cases h
      obtain ⟨d, rfl⟩ := hmem e he
      exact hd d

set_option maxRecDepth 100000 in
/-- Witness of C40 for the CCD structure with one CD-Text entry. -/
theorem cdt_record_self_checking_witness :
    ccd2cdt sample_ccd = .ok (1, sample_ccd_cdt)
    ∧ ∀ e ∈ sample_ccd_cdt.entry, crc16 e.bytes = 0xE2F0 :=
  ⟨rfl, cdt_record_self_checking.1 sample_ccd 1 sample_ccd_cdt rfl⟩

end Ccd2cue
